import Mathlib

/-!
# Mailslot driver: a shallow embedding of `mailslot.c`

The driver keeps, for every minor number, one bounded FIFO of byte messages
(`struct mailslot`), protected by a mutex and two wait queues.  This file
embeds the per-instance engine: `mailslot_read`, `mailslot_write`,
`mailslot_ioctl`, `__mailslot_lock`, `__mailslot_unlock`,
`__get_blocking_policy`, the part of `init_module` that sets up one slot and
the loop of `__deallocate_instances` that frees the queued messages.

Modelling conventions.

* Kernel pointers are natural numbers, `0` is `NULL`.  The kernel heap that
  holds the `struct message` objects is an association list from addresses
  to records; the `content` buffer of a message is kept inline as its bytes.
* `size_t`, `unsigned long` and `unsigned int` values are naturals, `int`
  and `ssize_t` values are integers; the one narrowing conversion of the
  code (`size_t` to `ssize_t` in the `return` of read and write) is explicit.
* Everything the driver cannot decide by itself is read from an `Env`
  record: the calling thread, whether a signal is pending when the caller
  has to sleep, what the allocator answers and where a user copy faults.
* A call that goes to sleep does not return: its outcome is `Outcome.sleep`
  together with the place where it sleeps, and the functions
  `read_acquire`/`read_wake`, `write_acquire`/`write_wake` and
  `ioctl_set_max` are the continuations that run when it is scheduled
  again.  Every function below is therefore one atomic piece of a call: it
  runs from its entry to a `return` or to the next sleep.  The pieces are
  atomic with respect to each other because each one works on the slot only
  between taking and releasing the mutex.
* Several threads are put together in `System`, `Event` and `step`: an
  execution is a list of events, each of which is a call, the continuation
  of a sleeping call, or a thread taking or giving back the mutex.
* Several threads are put together statement by statement in `Fine`, `Tick`
  and `fine_step`: a thread that got the mutex from `__mailslot_lock`
  executes the statements up to `__mailslot_unlock` one at a time (`micro`),
  and any other thread may run between two of them.  Nothing in these
  definitions makes a piece of a call atomic or keeps two threads from
  standing between lock and unlock; that is proved, from what
  `__mailslot_lock` does to the mutex.
* The functions whose name ends in `_traced` are the same pieces of code
  run on a slot that carries a record of the calls of `__mailslot_lock` and
  `__mailslot_unlock`; they return what the plain functions return.
* `abstract_write`, `abstract_read` and `abstract_step` are not taken from
  the code: they are the bounded list queue the specification describes,
  against which the slot is compared.

The file has three parts: the definitions, general lemmas about them, and
the statements of the specification, one theorem for each.
-/

namespace Mailslots

/-! ## Parameters of `mailslot.c` -/

/-- Number of device instances, `#define INSTANCES 256`. -/
def INSTANCES : Nat := 256

/-- Capacity of one slot in messages, `#define MAILSLOT_STORAGE 64`. -/
def MAILSLOT_STORAGE : Int := 64

/-- Initial per-slot message size limit, `#define DEFAULT_MESSAGE_SIZE 128`. -/
def DEFAULT_MESSAGE_SIZE : Nat := 128

/-- Largest settable message size limit, `#define MAXIMUM_MESSAGE_SIZE 512`. -/
def MAXIMUM_MESSAGE_SIZE : Nat := 512

/-- Policy code `#define BLOCKING 0`. -/
def BLOCKING : Nat := 0

/-- Policy code `#define NONBLOCKING 1`. -/
def NONBLOCKING : Nat := 1

/-- Return code `#define SUCCESS 0`. -/
def SUCCESS : Int := 0

/-! ## Constants of the Linux headers used by the driver -/

/-- Linux errno `EPERM` (operation not permitted). -/
def EPERM : Int := 1

/-- Linux errno `EINTR` (interrupted system call). -/
def EINTR : Int := 4

/-- Linux errno `EAGAIN` (try again). -/
def EAGAIN : Int := 11

/-- Linux errno `ENOMEM` (out of memory). -/
def ENOMEM : Int := 12

/-- Linux errno `EFAULT` (bad address). -/
def EFAULT : Int := 14

/-- Linux errno `EINVAL` (invalid argument). -/
def EINVAL : Int := 22

/-- Linux errno `ENOTTY` (inappropriate ioctl). -/
def ENOTTY : Int := 25

/-- Linux errno `EMSGSIZE` (message too long). -/
def EMSGSIZE : Int := 90

/-- Kernel-internal code `ERESTARTSYS`, the non-zero result of an interrupted wait. -/
def ERESTARTSYS : Int := 512

/-- File status flag `O_NONBLOCK` (octal 04000). -/
def O_NONBLOCK : Nat := 2048

/-- Direction field `_IOC_NONE` of an ioctl number. -/
def _IOC_NONE : Nat := 0

/-- Direction field `_IOC_WRITE` of an ioctl number. -/
def _IOC_WRITE : Nat := 1

/-- The Linux ioctl number encoding `_IOC(dir,type,nr,size)`: the four fields occupy disjoint bit ranges
(`dir << 30 | size << 16 | type << 8 | nr`). -/
def _IOC (dir type nr size : Nat) : Nat :=
  dir * 2 ^ 30 + size * 2 ^ 16 + type * 2 ^ 8 + nr

/-! ## `ioctl_cmd.h` -/

/-- Driver number, `#define IOCTL_DRIVER_NUM 75`. -/
def IOCTL_DRIVER_NUM : Nat := 75

/-- Command `SET_BLOCKING`, that is `_IO(IOCTL_DRIVER_NUM, 2)`. -/
def SET_BLOCKING : Nat := _IOC _IOC_NONE IOCTL_DRIVER_NUM 2 0

/-- Command `SET_NONBLOCKING`, that is `_IO(IOCTL_DRIVER_NUM, 5)`. -/
def SET_NONBLOCKING : Nat := _IOC _IOC_NONE IOCTL_DRIVER_NUM 5 0

/-- Command `SET_MAXIMUM_MSG_SIZE`, that is `_IOW(IOCTL_DRIVER_NUM, 7, int)` with `sizeof(int) = 4`. -/
def SET_MAXIMUM_MSG_SIZE : Nat := _IOC _IOC_WRITE IOCTL_DRIVER_NUM 7 4

/-! ## Data model -/

/-- The C `struct message`: `content` holds the bytes of the buffer the C field points to,
`length` is the stored length and `next` the address of the following message (`0` for `NULL`). -/
structure message where
  content : List Nat
  length : Nat
  next : Nat
deriving DecidableEq, Repr

/-- The C `struct mailslot`.  `mutex` records the thread that owns the mutex, if any.  The two
wait queues carry no data of their own: a sleeper is represented by its `Outcome.sleep`. -/
structure mailslot where
  mutex : Option Nat
  head : Nat
  tail : Nat
  max_msg_size : Nat
  msg_count : Int
deriving DecidableEq, Repr

/-- One device instance together with the kernel memory holding its message records. -/
structure State where
  heap : List (Nat × message)
  slot : mailslot
deriving DecidableEq, Repr

/-- The part of `struct file` the driver looks at: the status flags of the open session. -/
structure file where
  f_flags : Nat
deriving DecidableEq, Repr

/-- What the rest of the kernel decides for one atomic piece of a call. -/
structure Env where
  /-- The calling thread. -/
  current : Nat
  /-- A signal is pending at the moment the caller would have to sleep. -/
  signal : Bool
  /-- Address the allocator offers for the new `struct message`; `0` means out of memory. -/
  kzalloc_msg : Nat
  /-- Whether the allocation of the content buffer succeeds. -/
  kzalloc_content : Bool
  /-- First byte offset at which the user copy faults, if it faults at all. -/
  fault_at : Option Nat
deriving DecidableEq, Repr

/-- Where a blocking call sleeps. -/
inductive Pc where
  /-- Inside `mutex_lock_interruptible`, the mutex being owned by somebody. -/
  | lock
  /-- Inside `wait_event_interruptible_exclusive`, the mutex released. -/
  | wait
deriving DecidableEq, Repr

/-- How one atomic piece of a call ends. -/
inductive Outcome where
  /-- The call returned this value to its caller. -/
  | ret (v : Int)
  /-- The caller went to sleep at the given place. -/
  | sleep (pc : Pc)
  /-- The code dereferenced an address that holds no live message. -/
  | oops
deriving DecidableEq, Repr

/-! ## Kernel services -/

/-- Read the record stored at address `p`, if that address is live. -/
def deref : List (Nat × message) → Nat → Option message
  | [], _ => none
  | (q, v) :: r, p => if q = p then some v else deref r p

/-- Overwrite the record stored at address `p`. -/
def store : List (Nat × message) → Nat → message → List (Nat × message)
  | [], _, _ => []
  | (q, v) :: r, p, w => if q = p then (q, w) :: store r p w else (q, v) :: store r p w

/-- The kernel `kfree`: the address stops being live. -/
def kfree (h : List (Nat × message)) (p : Nat) : List (Nat × message) :=
  h.filter (fun x => decide (x.1 ≠ p))

/-- The kernel `kzalloc` for a `struct message`: `a` is the address the allocator offers.  The result
is `NULL` when it offers none; an offer that is `NULL` or already live counts as a failure.  On
success the new record is zero-filled. -/
def kzalloc (a : Nat) (h : List (Nat × message)) : Nat × List (Nat × message) :=
  if a = 0 ∨ (deref h a).isSome then (0, h) else (a, (a, ⟨[], 0, 0⟩) :: h)

/-- Number of bytes a user copy of `n` bytes transfers before it stops, `avail` being the number
of bytes of user memory that are accessible. -/
def copied (e : Env) (avail n : Nat) : Nat :=
  match e.fault_at with
  | none => min n avail
  | some k => min (min n avail) k

/-- The kernel `copy_to_user`: returns the number of bytes left uncopied and the bytes delivered to
the caller's buffer. -/
def copy_to_user (e : Env) (src : List Nat) (n : Nat) : Nat × List Nat :=
  (n - copied e n n, src.take (copied e n n))

/-- The kernel `copy_from_user` into a zero-filled buffer of `n` bytes: returns the number of bytes
left uncopied and the resulting buffer. -/
def copy_from_user (e : Env) (src : List Nat) (n : Nat) : Nat × List Nat :=
  (n - copied e src.length n,
    src.take (copied e src.length n) ++ List.replicate (n - copied e src.length n) 0)

/-- Record `o` as the owner of the mutex of the slot. -/
def mutex_set (s : State) (o : Option Nat) : State :=
  { heap := s.heap, slot := { s.slot with mutex := o } }

/-- The kernel `mutex_trylock`: `1` when the mutex was free and is now owned by the caller, `0` on
contention. -/
def mutex_trylock (e : Env) (s : State) : Int × State :=
  match s.slot.mutex with
  | none => (1, mutex_set s (some e.current))
  | some _ => (0, s)

/-- The kernel `mutex_lock_interruptible`: `some 0` when the mutex is acquired, `some (-EINTR)` when
the mutex is owned and a signal is pending, `none` when the caller sleeps on the mutex. -/
def mutex_lock_interruptible (e : Env) (s : State) : Option Int × State :=
  match s.slot.mutex with
  | none => (some 0, mutex_set s (some e.current))
  | some _ => if e.signal then (some (-EINTR), s) else (none, s)

/-- The kernel `mutex_unlock`. -/
def mutex_unlock (s : State) : State :=
  mutex_set s none

/-- The kernel `wait_event_interruptible_exclusive`, evaluated when the sleeper is scheduled: `some 0`
when the condition holds, a non-zero code when a signal is pending, `none` when it sleeps on. -/
def wait_event_interruptible_exclusive (e : Env) (condition : Bool) : Option Int :=
  if condition then some 0 else if e.signal then some (-ERESTARTSYS) else none

/-- Conversion of a `size_t` to the `ssize_t` a file operation returns (64-bit two's complement). -/
def ssize_t (n : Nat) : Int :=
  if n % 2 ^ 64 < 2 ^ 63 then ((n % 2 ^ 64 : Nat) : Int) else ((n % 2 ^ 64 : Nat) : Int) - 2 ^ 64

/-! ## The driver -/

/-- Source `__get_blocking_policy`: `filp->f_flags & O_NONBLOCK ? NONBLOCKING : BLOCKING`. -/
def __get_blocking_policy (filp : file) : Nat :=
  if filp.f_flags &&& O_NONBLOCK ≠ 0 then NONBLOCKING else BLOCKING

/-- Source `__mailslot_lock`: `some` of the returned code, or `none` when the caller sleeps on the
mutex. -/
def __mailslot_lock (e : Env) (non_blocking : Nat) (s : State) : Option Int × State :=
  if non_blocking ≠ 0 then
    match mutex_trylock e s with
    | (r, s1) => if r = 0 then (some (-EAGAIN), s1) else (some SUCCESS, s1)
  else
    match mutex_lock_interruptible e s with
    | (none, s1) => (none, s1)
    | (some r, s1) => if r = -EINTR then (some (-EINTR), s1) else (some SUCCESS, s1)

/-- Source `__mailslot_unlock`. -/
def __mailslot_unlock (s : State) : State :=
  mutex_unlock s

/-- Lines 233-273 of `mailslot_read`, entered with the mutex held and `msg_count != 0`: size check,
copy to the caller, unlinking and freeing of the head message.  The second component is the list
of bytes delivered to the caller's buffer. -/
def read_deliver (e : Env) (non_blocking len : Nat) (s : State) : Outcome × List Nat × State :=
  match deref s.heap s.slot.head with
  | none => (Outcome.oops, [], s)
  | some hd =>
    let msg_body := hd.content
    let msg_len := hd.length
    if msg_len > len then
      (Outcome.ret (-EMSGSIZE), [], __mailslot_unlock s)
    else
      let (bytes_left, out) :=
        if non_blocking ≠ 0 then copy_to_user e msg_body msg_len
        else copy_to_user e msg_body msg_len
      if bytes_left > 0 then
        (Outcome.ret (-EFAULT), out, __mailslot_unlock s)
      else
        let tmp := s.slot.head
        let s1 := if s.slot.msg_count > 1 then { s with slot.head := hd.next } else s
        let s2 := { s1 with heap := kfree s1.heap tmp }
        let s3 := { s2 with slot.msg_count := s2.slot.msg_count - 1 }
        (Outcome.ret (ssize_t msg_len), out, __mailslot_unlock s3)

/-- Lines 215-273 of `mailslot_read`, entered with the mutex held: the emptiness test of the chosen
policy followed by the delivery.  A blocking reader that finds the slot empty releases the mutex and
enters `wait_event_interruptible_exclusive` (lines 226-228): with a signal pending the wait returns
non-zero at once and the call returns `-EINTR`, otherwise the caller sleeps on the condition.  The
condition having been found false under the mutex, the wait does not return zero here; were it to,
the caller would stand before the lock call of line 229, which is where `Pc.lock` resumes. -/
def read_locked (e : Env) (non_blocking len : Nat) (s : State) : Outcome × List Nat × State :=
  if s.slot.msg_count = 0 then
    if non_blocking ≠ 0 then (Outcome.ret (-EAGAIN), [], __mailslot_unlock s)
    else
      let s1 := __mailslot_unlock s
      match wait_event_interruptible_exclusive e (decide (s1.slot.msg_count > 0)) with
      | none => (Outcome.sleep Pc.wait, [], s1)
      | some interrupted =>
        if interrupted ≠ 0 then (Outcome.ret (-EINTR), [], s1)
        else (Outcome.sleep Pc.lock, [], s1)
  else read_deliver e non_blocking len s

/-- The blocking branch of `mailslot_read` from a call of `__mailslot_lock( slot, BLOCKING )`
(line 223 or line 229) onwards. -/
def read_acquire (e : Env) (len : Nat) (s : State) : Outcome × List Nat × State :=
  match __mailslot_lock e BLOCKING s with
  | (none, s1) => (Outcome.sleep Pc.lock, [], s1)
  | (some r, s1) =>
    if r = -EINTR then (Outcome.ret (-EINTR), [], s1)
    else read_locked e BLOCKING len s1

/-- A blocking reader asleep at line 227 is scheduled: the wait ends with the condition
`msg_count > 0` true, or interrupted, or goes on. -/
def read_wake (e : Env) (len : Nat) (s : State) : Outcome × List Nat × State :=
  match wait_event_interruptible_exclusive e (decide (s.slot.msg_count > 0)) with
  | none => (Outcome.sleep Pc.wait, [], s)
  | some interrupted =>
    if interrupted ≠ 0 then (Outcome.ret (-EINTR), [], s)
    else read_acquire e len s

/-- Source `mailslot_read`, from its entry to its return or first sleep.  `buff` is the address of
the caller's buffer. -/
def mailslot_read (e : Env) (filp : file) (buff len : Nat) (s : State) :
    Outcome × List Nat × State :=
  let non_blocking := __get_blocking_policy filp
  if len = 0 then (Outcome.ret (-EINVAL), [], s)
  else if buff = 0 then (Outcome.ret (-EINVAL), [], s)
  else if non_blocking ≠ 0 then
    match __mailslot_lock e NONBLOCKING s with
    | (r, s1) =>
      if r = some (-EAGAIN) then (Outcome.ret (-EAGAIN), [], s1)
      else read_locked e non_blocking len s1
  else read_acquire e len s

/-- Lines 322-378 of `mailslot_write`, entered with the mutex held and `msg_count != MAILSLOT_STORAGE`:
size check, allocation, copy from the caller and linking of the new message. -/
def write_store (e : Env) (non_blocking : Nat) (buff : List Nat) (len : Nat) (s : State) :
    Outcome × State :=
  if len > s.slot.max_msg_size then
    (Outcome.ret (-EPERM), __mailslot_unlock s)
  else
    match kzalloc e.kzalloc_msg s.heap with
    | (new_msg, h1) =>
      if new_msg = 0 then
        (Outcome.ret (if non_blocking ≠ 0 then -EAGAIN else -ENOMEM), __mailslot_unlock s)
      else
        let h2 := store h1 new_msg ⟨[], len, 0⟩
        if !e.kzalloc_content then
          (Outcome.ret (if non_blocking ≠ 0 then -EAGAIN else -ENOMEM),
            __mailslot_unlock { s with heap := kfree h2 new_msg })
        else
          let (bytes_left, content) :=
            if non_blocking ≠ 0 then copy_from_user e buff len
            else copy_from_user e buff len
          let h3 := store h2 new_msg ⟨content, len, 0⟩
          if bytes_left > 0 then
            (Outcome.ret (-EFAULT), __mailslot_unlock { s with heap := kfree h3 new_msg })
          else if s.slot.msg_count = 0 then
            let s1 := { s with heap := h3, slot.head := new_msg }
            let s2 := { s1 with slot.tail := new_msg }
            let s3 := { s2 with slot.msg_count := s2.slot.msg_count + 1 }
            (Outcome.ret (ssize_t len), __mailslot_unlock s3)
          else
            match deref h3 s.slot.tail with
            | none => (Outcome.oops, s)
            | some tl =>
              let s1 := { s with heap := store h3 s.slot.tail { tl with next := new_msg } }
              let s2 := { s1 with slot.tail := new_msg }
              let s3 := { s2 with slot.msg_count := s2.slot.msg_count + 1 }
              (Outcome.ret (ssize_t len), __mailslot_unlock s3)

/-- Lines 304-378 of `mailslot_write`, entered with the mutex held: the fullness test of the chosen
policy followed by the storing.  A blocking writer that finds the slot full releases the mutex and
enters `wait_event_interruptible_exclusive` (lines 315-317): with a signal pending the wait returns
non-zero at once and the call returns `-EINTR`, otherwise the caller sleeps on the condition.  The
condition having been found false under the mutex, the wait does not return zero here; were it to,
the caller would stand before the lock call of line 318, which is where `Pc.lock` resumes. -/
def write_locked (e : Env) (non_blocking : Nat) (buff : List Nat) (len : Nat) (s : State) :
    Outcome × State :=
  if s.slot.msg_count = MAILSLOT_STORAGE then
    if non_blocking ≠ 0 then (Outcome.ret (-EAGAIN), __mailslot_unlock s)
    else
      let s1 := __mailslot_unlock s
      match wait_event_interruptible_exclusive e
          (decide (s1.slot.msg_count < MAILSLOT_STORAGE)) with
      | none => (Outcome.sleep Pc.wait, s1)
      | some interrupted =>
        if interrupted ≠ 0 then (Outcome.ret (-EINTR), s1)
        else (Outcome.sleep Pc.lock, s1)
  else write_store e non_blocking buff len s

/-- The blocking branch of `mailslot_write` from a call of `__mailslot_lock( slot, BLOCKING )`
(line 312 or line 318) onwards. -/
def write_acquire (e : Env) (buff : List Nat) (len : Nat) (s : State) : Outcome × State :=
  match __mailslot_lock e BLOCKING s with
  | (none, s1) => (Outcome.sleep Pc.lock, s1)
  | (some r, s1) =>
    if r = -EINTR then (Outcome.ret (-EINTR), s1)
    else write_locked e BLOCKING buff len s1

/-- A blocking writer asleep at line 316 is scheduled: the wait ends with the condition
`msg_count < MAILSLOT_STORAGE` true, or interrupted, or goes on. -/
def write_wake (e : Env) (buff : List Nat) (len : Nat) (s : State) : Outcome × State :=
  match wait_event_interruptible_exclusive e (decide (s.slot.msg_count < MAILSLOT_STORAGE)) with
  | none => (Outcome.sleep Pc.wait, s)
  | some interrupted =>
    if interrupted ≠ 0 then (Outcome.ret (-EINTR), s)
    else write_acquire e buff len s

/-- Source `mailslot_write`, from its entry to its return or first sleep.  `buff` is `none` for a
`NULL` pointer and otherwise the accessible user memory found at the pointer. -/
def mailslot_write (e : Env) (filp : file) (buff : Option (List Nat)) (len : Nat) (s : State) :
    Outcome × State :=
  let non_blocking := __get_blocking_policy filp
  if len = 0 then (Outcome.ret (-EINVAL), s)
  else
    match buff with
    | none => (Outcome.ret (-EINVAL), s)
    | some bytes =>
      if non_blocking ≠ 0 then
        match __mailslot_lock e NONBLOCKING s with
        | (r, s1) =>
          if r = some (-EAGAIN) then (Outcome.ret (-EAGAIN), s1)
          else write_locked e non_blocking bytes len s1
      else write_acquire e bytes len s

/-- Lines 409-417 of `mailslot_ioctl`: the `SET_MAXIMUM_MSG_SIZE` case from the call of
`__mailslot_lock` onwards (also the continuation of a blocking caller asleep on the mutex). -/
def ioctl_set_max (e : Env) (non_blocking arg : Nat) (s : State) : Outcome × State :=
  match __mailslot_lock e non_blocking s with
  | (none, s1) => (Outcome.sleep Pc.lock, s1)
  | (some error, s1) =>
    if non_blocking ≠ 0 ∧ error = -EAGAIN then (Outcome.ret (-EAGAIN), s1)
    else if ¬ non_blocking ≠ 0 ∧ error = -EINTR then (Outcome.ret (-EINTR), s1)
    else
      let s2 := { s1 with slot.max_msg_size := arg }
      (Outcome.ret SUCCESS, __mailslot_unlock s2)

/-- Source `mailslot_ioctl`, from its entry to its return or sleep; the session flags are returned
along with the slot.  `f_flags` is a 32-bit word. -/
def mailslot_ioctl (e : Env) (filp : file) (cmd arg : Nat) (s : State) :
    Outcome × file × State :=
  let non_blocking := __get_blocking_policy filp
  if cmd = SET_BLOCKING then
    (Outcome.ret SUCCESS, { filp with f_flags := filp.f_flags &&& (2 ^ 32 - 1 - O_NONBLOCK) }, s)
  else if cmd = SET_NONBLOCKING then
    (Outcome.ret SUCCESS, { filp with f_flags := filp.f_flags ||| O_NONBLOCK }, s)
  else if cmd = SET_MAXIMUM_MSG_SIZE then
    if arg = 0 ∨ arg > MAXIMUM_MESSAGE_SIZE then (Outcome.ret (-EINVAL), filp, s)
    else
      match ioctl_set_max e non_blocking arg s with
      | (o, s1) => (o, filp, s1)
  else (Outcome.ret (-ENOTTY), filp, s)

/-- Source `init_module`, for one instance: a zero-filled `struct mailslot` with a free mutex,
`msg_count = 0` and `max_msg_size = DEFAULT_MESSAGE_SIZE`; no message has been allocated. -/
def init_module : State :=
  { heap := [], slot := { mutex := none, head := 0, tail := 0,
                          max_msg_size := DEFAULT_MESSAGE_SIZE, msg_count := 0 } }

/-! ## The queue a slot represents -/

/-- Follow `next` links from address `p` for `n` steps: the addresses visited, or `none` when one
of them is not live. -/
def walk (h : List (Nat × message)) : Nat → Nat → Option (List Nat)
  | 0, _ => some []
  | n + 1, p =>
    match deref h p with
    | none => none
    | some m =>
      match walk h n m.next with
      | none => none
      | some r => some (p :: r)

/-- The addresses of the queued messages: the first `msg_count` records reachable from `head`. -/
def chain (s : State) : Option (List Nat) :=
  walk s.heap s.slot.msg_count.toNat s.slot.head

/-- The queued messages in delivery order, each as the bytes a read of it copies out
(`length` bytes of `content`). -/
def queue (s : State) : List (List Nat) :=
  match chain s with
  | none => []
  | some as => as.filterMap (fun a => (deref s.heap a).map (fun m => m.content.take m.length))

/-- The addresses `as` are the queued records of `s`: they are what `chain` visits, pairwise
distinct, the only live records, each carrying exactly `length` bytes with `length` between 1 and
the ceiling, and the last of them is `tail` and has no successor. -/
structure Linked (s : State) (as : List Nat) : Prop where
  walk_eq : chain s = some as
  nodup : as.Nodup
  only : ∀ a m, deref s.heap a = some m → a ∈ as
  sized : ∀ a ∈ as, ∃ m, deref s.heap a = some m ∧ m.content.length = m.length ∧
    1 ≤ m.length ∧ m.length ≤ MAXIMUM_MESSAGE_SIZE
  last : as = [] ∨ (as.getLast? = some s.slot.tail ∧
    ∃ m, deref s.heap s.slot.tail = some m ∧ m.next = 0)

/-- Well-formed slot: the counters are in range, `NULL` is not live, `head` is `NULL` exactly when
`tail` is, and the first `msg_count` records reachable from `head` are the queued records. -/
structure WF (s : State) : Prop where
  count_nonneg : 0 ≤ s.slot.msg_count
  count_le : s.slot.msg_count ≤ MAILSLOT_STORAGE
  max_pos : 1 ≤ s.slot.max_msg_size
  max_le : s.slot.max_msg_size ≤ MAXIMUM_MESSAGE_SIZE
  null_dead : deref s.heap 0 = none
  ends : s.slot.head = 0 ↔ s.slot.tail = 0
  linked : ∃ as, Linked s as

/-! ## Sequences of calls by one caller -/

/-- A write request: environment, session, payload (written in full). -/
structure WriteReq where
  env : Env
  filp : file
  payload : List Nat
deriving DecidableEq, Repr

/-- A read request: environment, session, buffer address and buffer length. -/
structure ReadReq where
  env : Env
  filp : file
  buff : Nat
  len : Nat
deriving DecidableEq, Repr

/-- Issue the write requests one after the other; the outcomes and the final state. -/
def write_seq : List WriteReq → State → List Outcome × State
  | [], s => ([], s)
  | w :: ws, s =>
    match mailslot_write w.env w.filp (some w.payload) w.payload.length s with
    | (o, s1) =>
      match write_seq ws s1 with
      | (os, s2) => (o :: os, s2)

/-- Issue the read requests one after the other; the outcomes with the bytes delivered, and the
final state. -/
def read_seq : List ReadReq → State → List (Outcome × List Nat) × State
  | [], s => ([], s)
  | r :: rs, s =>
    match mailslot_read r.env r.filp r.buff r.len s with
    | (o, out, s1) =>
      match read_seq rs s1 with
      | (os, s2) => ((o, out) :: os, s2)

/-! ## Interleaved executions -/

/-- A call that is asleep, with the arguments it needs when it runs again. -/
inductive Sleeper where
  /-- A blocking `mailslot_read` of `len` bytes. -/
  | read (len : Nat) (pc : Pc)
  /-- A blocking `mailslot_write` of `len` bytes from the user memory `buff`. -/
  | write (buff : List Nat) (len : Nat) (pc : Pc)
  /-- A blocking `SET_MAXIMUM_MSG_SIZE` asleep on the mutex. -/
  | ioctl (arg : Nat)
deriving DecidableEq, Repr

/-- One slot and the threads asleep in a call on it. -/
structure System where
  st : State
  asleep : List (Nat × Sleeper)
deriving DecidableEq, Repr

/-- What can happen to a slot. -/
inductive Event where
  /-- Thread `e.current` calls `mailslot_read`. -/
  | read (e : Env) (filp : file) (buff len : Nat)
  /-- Thread `e.current` calls `mailslot_write`. -/
  | write (e : Env) (filp : file) (buff : Option (List Nat)) (len : Nat)
  /-- Thread `e.current` calls `mailslot_ioctl`. -/
  | ioctl (e : Env) (filp : file) (cmd arg : Nat)
  /-- The sleeping thread `e.current` is scheduled. -/
  | resume (e : Env)
  /-- Thread `t` takes the free mutex and is descheduled before it does anything to the slot. -/
  | hold (t : Nat)
  /-- Thread `t`, owner of the mutex, gives it back. -/
  | drop (t : Nat)
deriving DecidableEq, Repr

/-- The sleeping call of thread `t`, if it has one. -/
def sleeper_of : List (Nat × Sleeper) → Nat → Option Sleeper
  | [], _ => none
  | (q, v) :: r, t => if q = t then some v else sleeper_of r t

/-- Update the table of sleepers after thread `t` ran a piece of a call with outcome `o`. -/
def park (tbl : List (Nat × Sleeper)) (t : Nat) (o : Outcome) (mk : Pc → Sleeper) :
    List (Nat × Sleeper) :=
  match o with
  | Outcome.sleep pc => (t, mk pc) :: tbl.filter (fun x => decide (x.1 ≠ t))
  | _ => tbl.filter (fun x => decide (x.1 ≠ t))

/-- The continuation of a sleeping call. -/
def resume (e : Env) (sl : Sleeper) (s : State) : Outcome × State :=
  match sl with
  | Sleeper.read len Pc.lock => ((read_acquire e len s).1, (read_acquire e len s).2.2)
  | Sleeper.read len Pc.wait => ((read_wake e len s).1, (read_wake e len s).2.2)
  | Sleeper.write buff len Pc.lock => write_acquire e buff len s
  | Sleeper.write buff len Pc.wait => write_wake e buff len s
  | Sleeper.ioctl arg => ioctl_set_max e BLOCKING arg s

/-- The sleeper a continuation leaves behind when it sleeps again at `pc`. -/
def again (sl : Sleeper) (pc : Pc) : Sleeper :=
  match sl with
  | Sleeper.read len _ => Sleeper.read len pc
  | Sleeper.write buff len _ => Sleeper.write buff len pc
  | Sleeper.ioctl arg => Sleeper.ioctl arg

/-- One event.  A thread that is asleep cannot issue a call, a thread that is not asleep cannot be
resumed.  Between `hold t` and `drop t` every other caller finds the mutex owned: the two events
stand for the time a thread spends inside `__mailslot_lock` ... `__mailslot_unlock` while others
run; what that thread does to the slot is the call event itself, which is atomic.  Executions
with `hold` and `drop` at arbitrary places include all those of the driver. -/
def step (ev : Event) (sys : System) : System :=
  match ev with
  | Event.read e filp buff len =>
    match sleeper_of sys.asleep e.current with
    | some _ => sys
    | none =>
      match mailslot_read e filp buff len sys.st with
      | (o, _, s1) => { st := s1, asleep := park sys.asleep e.current o (Sleeper.read len) }
  | Event.write e filp buff len =>
    match sleeper_of sys.asleep e.current with
    | some _ => sys
    | none =>
      match mailslot_write e filp buff len sys.st with
      | (o, s1) =>
        { st := s1, asleep := park sys.asleep e.current o (Sleeper.write (buff.getD []) len) }
  | Event.ioctl e filp cmd arg =>
    match sleeper_of sys.asleep e.current with
    | some _ => sys
    | none =>
      match mailslot_ioctl e filp cmd arg sys.st with
      | (o, _, s1) => { st := s1, asleep := park sys.asleep e.current o (fun _ => Sleeper.ioctl arg) }
  | Event.resume e =>
    match sleeper_of sys.asleep e.current with
    | none => sys
    | some sl =>
      match resume e sl sys.st with
      | (o, s1) => { st := s1, asleep := park sys.asleep e.current o (again sl) }
  | Event.hold t =>
    match sys.st.slot.mutex with
    | none => { sys with st := mutex_set sys.st (some t) }
    | some _ => sys
  | Event.drop t =>
    if sys.st.slot.mutex = some t then { sys with st := mutex_unlock sys.st } else sys

/-- Run a list of events from left to right. -/
def run : List Event → System → System
  | [], sys => sys
  | ev :: evs, sys => run evs (step ev sys)

/-- The system after `init_module`: the fresh slot, nobody asleep. -/
def boot : System :=
  { st := init_module, asleep := [] }

/-- The states some execution leads to. -/
def Reachable (sys : System) : Prop :=
  ∃ evs, run evs boot = sys

/-! ## Concrete data used to exercise the theorems -/

/-- An environment in which nothing goes wrong: thread 7, no signal, the allocator offers address
`a`, no fault. -/
def demo_env (a : Nat) : Env :=
  { current := 7, signal := false, kzalloc_msg := a, kzalloc_content := true, fault_at := none }

/-- A session opened without `O_NONBLOCK` (flags `O_RDWR`). -/
def demo_blocking : file := { f_flags := 2 }

/-- A session with `O_NONBLOCK` set (flags `O_RDWR | O_NONBLOCK`). -/
def demo_nonblocking : file := { f_flags := 2050 }

/-- A slot holding the single five-byte message `"this\0"` at address 1. -/
def demo_one : State :=
  { heap := [(1, ⟨[116, 104, 105, 115, 0], 5, 0⟩)],
    slot := { mutex := none, head := 1, tail := 1, max_msg_size := 128, msg_count := 1 } }

/-! ## Invariants of interleaved executions -/

/-- A piece of a call ended in a successful return: it returned a non-negative value. -/
def Outcome.success : Outcome → Bool
  | Outcome.ret v => decide (0 ≤ v)
  | _ => false

/-- The arguments of a sleeping call passed the checks made before the first lock attempt:
a write has a non-zero length, a size command an argument between 1 and the ceiling. -/
def Sleeper.sane : Sleeper → Prop
  | Sleeper.read _ _ => True
  | Sleeper.write _ len _ => len ≠ 0
  | Sleeper.ioctl arg => 1 ≤ arg ∧ arg ≤ MAXIMUM_MESSAGE_SIZE

/-- The invariant of executions: the slot is well-formed and every sleeper is sane. -/
def Inv (sys : System) : Prop :=
  WF sys.st ∧ ∀ t sl, sleeper_of sys.asleep t = some sl → sl.sane

/-- What a piece of a call may do to a slot: the result is well-formed, no dead address was
touched, the mutex is owned by whoever owned it before, and `msg_count` moves by `delta` when the
piece ends in a successful return and not at all otherwise. -/
def Effect (delta : Int) (s : State) (o : Outcome) (s2 : State) : Prop :=
  WF s2 ∧ o ≠ Outcome.oops ∧ s2.slot.mutex = s.slot.mutex ∧
  (o.success = true → s2.slot.msg_count = s.slot.msg_count + delta) ∧
  (o.success = false → s2.slot.msg_count = s.slot.msg_count)

/-- The change of `msg_count` a sleeping call makes when it eventually succeeds. -/
def Sleeper.delta : Sleeper → Int
  | Sleeper.read _ _ => -1
  | Sleeper.write _ _ _ => 1
  | Sleeper.ioctl _ => 0

/-- A short execution: thread 7 writes the five bytes `"this\0"` to the fresh slot and reads them
back, both in blocking mode. -/
def demo_events : List Event :=
  [Event.write (demo_env 1) demo_blocking (some [116, 104, 105, 115, 0]) 5,
   Event.read (demo_env 1) demo_blocking 1 5]

/-- The read request `r` fits the payload `p`: the buffer is not `NULL` and long enough, and the
copy of `p` to the caller leaves no byte behind. -/
def ReadReq.fits (r : ReadReq) (p : List Nat) : Prop :=
  r.buff ≠ 0 ∧ p.length ≤ r.len ∧ (copy_to_user r.env p p.length).1 = 0

/-- Two write requests, `[1, 2, 3]` then `[4, 5]`, the allocator offering the addresses 1 and 2. -/
def demo_writes : List WriteReq :=
  [⟨demo_env 1, demo_blocking, [1, 2, 3]⟩, ⟨demo_env 2, demo_nonblocking, [4, 5]⟩]

/-- Two read requests with buffers of 3 and 8 bytes. -/
def demo_reads : List ReadReq :=
  [⟨demo_env 1, demo_nonblocking, 1, 3⟩, ⟨demo_env 1, demo_blocking, 1, 8⟩]

/-- The write request `w` is a non-blocking one that nothing but a full slot can stop in state
`s`: its length is between 1 and `max_msg_size`, the allocator offers a fresh address and a content
buffer, and the copy from the caller leaves no byte behind. -/
def WriteReq.accepted (w : WriteReq) (s : State) : Prop :=
  __get_blocking_policy w.filp = NONBLOCKING ∧
  1 ≤ w.payload.length ∧ w.payload.length ≤ s.slot.max_msg_size ∧
  w.env.kzalloc_msg ≠ 0 ∧ deref s.heap w.env.kzalloc_msg = none ∧
  w.env.kzalloc_content = true ∧
  (copy_from_user w.env w.payload w.payload.length).1 = 0

/-- Each request of the run is `accepted` in the state the requests before it lead to. -/
def writes_accepted : List WriteReq → State → Prop
  | [], _ => True
  | w :: ws, s =>
    w.accepted s ∧
    writes_accepted ws (mailslot_write w.env w.filp (some w.payload) w.payload.length s).2

/-- Deciding `WriteReq.accepted`. -/
instance WriteReq.accepted_dec (w : WriteReq) (s : State) : Decidable (w.accepted s) := by
  unfold WriteReq.accepted
  infer_instance

/-- Deciding `writes_accepted`. -/
instance writes_accepted_dec : (ws : List WriteReq) → (s : State) →
    Decidable (writes_accepted ws s)
  | [], _ => isTrue trivial
  | w :: ws, s =>
    @instDecidableAnd _ _ (WriteReq.accepted_dec w s)
      (writes_accepted_dec ws
        (mailslot_write w.env w.filp (some w.payload) w.payload.length s).2)

/-- Sixty-four non-blocking write requests of the five bytes `"this\0"`, the allocator offering
the addresses 1 to 64 in turn. -/
def demo_fill : List WriteReq :=
  (List.range 64).map (fun i => ⟨demo_env (i + 1), demo_nonblocking, [116, 104, 105, 115, 0]⟩)

/-! ## Allocation failure, runs of control calls -/

/-- The allocation of the message record or of its content buffer fails: the allocator offers no
address for the record (or one that cannot be used), or it has no memory for the content. -/
def alloc_fails (e : Env) (s : State) : Prop :=
  e.kzalloc_msg = 0 ∨ (deref s.heap e.kzalloc_msg).isSome ∨ e.kzalloc_content = false

/-- Deciding `alloc_fails`. -/
instance alloc_fails_dec (e : Env) (s : State) : Decidable (alloc_fails e s) := by
  unfold alloc_fails
  infer_instance

/-- A control request: environment, command code and argument. -/
structure IoctlReq where
  env : Env
  cmd : Nat
  arg : Nat
deriving DecidableEq, Repr

/-- Issue the control requests one after the other on one session; the outcomes, the session and
the final state. -/
def ioctl_seq : List IoctlReq → file → State → List Outcome × file × State
  | [], filp, s => ([], filp, s)
  | c :: cs, filp, s =>
    match mailslot_ioctl c.env filp c.cmd c.arg s with
    | (o, filp1, s1) =>
      match ioctl_seq cs filp1 s1 with
      | (os, filp2, s2) => (o :: os, filp2, s2)

/-- The mode a flag command selects: `NONBLOCKING` for `SET_NONBLOCKING`, `BLOCKING` otherwise. -/
def mode_of (cmd : Nat) : Nat :=
  if cmd = SET_NONBLOCKING then NONBLOCKING else BLOCKING

/-- Three flag commands on one session: non-blocking, blocking, non-blocking. -/
def demo_modes : List IoctlReq :=
  [⟨demo_env 1, SET_NONBLOCKING, 0⟩, ⟨demo_env 1, SET_BLOCKING, 0⟩, ⟨demo_env 1, SET_NONBLOCKING, 0⟩]

/-! ## What an execution stores and delivers -/

/-- The payload the event `ev` stores in the slot of `sys`: the first `len` bytes of the
writer's buffer when `ev` is a write, or the scheduling of a sleeping write, that returns with
success; nothing otherwise. -/
def wrote (ev : Event) (sys : System) : List (List Nat) :=
  match ev with
  | Event.write e filp buff len =>
    match sleeper_of sys.asleep e.current with
    | some _ => []
    | none =>
      if (mailslot_write e filp buff len sys.st).1.success then [(buff.getD []).take len] else []
  | Event.resume e =>
    match sleeper_of sys.asleep e.current with
    | some (Sleeper.write buff len pc) =>
      if (resume e (Sleeper.write buff len pc) sys.st).1.success then [buff.take len] else []
    | _ => []
  | _ => []

/-- The bytes the event `ev` delivers to a reader's buffer: those copied out when `ev` is a
read, or the scheduling of a sleeping read, that returns with success; nothing otherwise. -/
def got (ev : Event) (sys : System) : List (List Nat) :=
  match ev with
  | Event.read e filp buff len =>
    match sleeper_of sys.asleep e.current with
    | some _ => []
    | none =>
      if (mailslot_read e filp buff len sys.st).1.success then
        [(mailslot_read e filp buff len sys.st).2.1]
      else []
  | Event.resume e =>
    match sleeper_of sys.asleep e.current with
    | some (Sleeper.read len Pc.lock) =>
      if (read_acquire e len sys.st).1.success then [(read_acquire e len sys.st).2.1] else []
    | some (Sleeper.read len Pc.wait) =>
      if (read_wake e len sys.st).1.success then [(read_wake e len sys.st).2.1] else []
    | _ => []
  | _ => []

/-- The payloads of the successful writes of an execution, in the order in which they
returned. -/
def written : List Event → System → List (List Nat)
  | [], _ => []
  | ev :: evs, sys => wrote ev sys ++ written evs (step ev sys)

/-- The byte strings handed to the successful reads of an execution, in the order in which they
returned. -/
def delivered : List Event → System → List (List Nat)
  | [], _ => []
  | ev :: evs, sys => got ev sys ++ delivered evs (step ev sys)

/-- Two writers (threads 1 and 2) and two readers (threads 3 and 4) on the fresh slot, all
blocking: reader 3 finds the slot empty and sleeps; writer 1 stores `[1, 2, 3]`; thread 9 owns
the mutex while writer 2 arrives, so writer 2 sleeps on the mutex; the mutex is given back;
reader 3 is scheduled and gets its message; writer 2 is scheduled and stores `[4, 5]`;
reader 4 gets it. -/
def demo_concurrent : List Event :=
  [Event.read { demo_env 1 with current := 3 } demo_blocking 1 8,
   Event.write { demo_env 1 with current := 1 } demo_blocking (some [1, 2, 3]) 3,
   Event.hold 9,
   Event.write { demo_env 2 with current := 2 } demo_blocking (some [4, 5]) 2,
   Event.drop 9,
   Event.resume { demo_env 1 with current := 3 },
   Event.resume { demo_env 2 with current := 2 },
   Event.read { demo_env 1 with current := 4 } demo_blocking 1 8]

/-! ## Module teardown -/

/-- The inner loop of `__deallocate_instances` run for `n` iterations:
`tmp = head->next; kfree( head->content ); kfree( head ); head = tmp;`.  The result is `none`
when an iteration dereferences an address that is not live. -/
def deallocate_messages : Nat → State → Option State
  | 0, s => some s
  | n + 1, s =>
    match deref s.heap s.slot.head with
    | none => none
    | some hd =>
      let tmp := hd.next
      deallocate_messages n { heap := kfree s.heap s.slot.head, slot := { s.slot with head := tmp } }

/-- Source `__deallocate_instances`, for one instance: the loop `for ( j = 0; j < msg_count; j++ )`
over the queued messages. -/
def __deallocate_instances (s : State) : Option State :=
  deallocate_messages s.slot.msg_count.toNat s

/-! ## The abstract queue of the specification -/

/-- The write of the abstract queue of the specification, a list of at most `MAILSLOT_STORAGE`
byte strings: the payload is appended at the end, provided there is room. -/
def abstract_write (q : List (List Nat)) (p : List Nat) : Option (List (List Nat)) :=
  if (q.length : Int) < MAILSLOT_STORAGE then some (q ++ [p]) else none

/-- The read of the abstract queue of the specification: the first element is removed and
returned, provided there is one. -/
def abstract_read (q : List (List Nat)) : Option (List Nat × List (List Nat)) :=
  match q with
  | [] => none
  | p :: r => some (p, r)

/-- What the caller of an event gets to see of the queue. -/
inductive Observation where
  /-- A write returned with success, this being its payload. -/
  | stored (p : List Nat)
  /-- A read returned with success, these being the bytes it received. -/
  | received (p : List Nat)
  /-- Anything else: a failing call, a call that goes to sleep, a control call. -/
  | nothing
deriving DecidableEq, Repr

/-- The observation the event `ev` gives rise to in `sys`. -/
def observe (ev : Event) (sys : System) : Observation :=
  match wrote ev sys, got ev sys with
  | p :: _, _ => Observation.stored p
  | [], p :: _ => Observation.received p
  | [], [] => Observation.nothing

/-- One step of the abstract queue of the specification: a successful write appends its payload,
a successful read removes the first element, which has to be what the reader received, and
anything else leaves the list as it is. -/
def abstract_step (o : Observation) (q : List (List Nat)) : Option (List (List Nat)) :=
  match o with
  | Observation.stored p => abstract_write q p
  | Observation.received p =>
    match abstract_read q with
    | none => none
    | some (x, r) => if x = p then some r else none
  | Observation.nothing => some q

/-- The abstract queue run alongside an execution: `none` as soon as a step of the execution is
not a step of the abstract queue. -/
def abstract_run : List Event → System → List (List Nat) → Option (List (List Nat))
  | [], _, q => some q
  | ev :: evs, sys, q =>
    match abstract_step (observe ev sys) q with
    | none => none
    | some q2 => abstract_run evs (step ev sys) q2

/-! ## The driver with its locking calls recorded -/

/-- A call of one of the two locking functions of the driver, as it is recorded when a call on
the device is followed step by step. -/
inductive LockOp where
  /-- `__mailslot_lock` was called and returned `result`; `none` when the caller went to sleep
  inside it. -/
  | lock (result : Option Int)
  /-- `__mailslot_unlock` was called, the mutex having the given owner at that moment. -/
  | unlock (owner : Option Nat)
deriving DecidableEq, Repr

/-- A slot together with the record of the locking calls made on it so far. -/
structure Traced where
  st : State
  ops : List LockOp
deriving DecidableEq, Repr

/-- Source `__mailslot_lock`, the call being recorded. -/
def __mailslot_lock_traced (e : Env) (non_blocking : Nat) (ts : Traced) : Option Int × Traced :=
  match __mailslot_lock e non_blocking ts.st with
  | (r, s1) => (r, { st := s1, ops := ts.ops ++ [LockOp.lock r] })

/-- Source `__mailslot_unlock`, the call being recorded. -/
def __mailslot_unlock_traced (ts : Traced) : Traced :=
  { st := __mailslot_unlock ts.st, ops := ts.ops ++ [LockOp.unlock ts.st.slot.mutex] }

/-- Lines 233-273 of `mailslot_read` as in `read_deliver`, with the locking calls recorded. -/
def read_deliver_traced (e : Env) (non_blocking len : Nat) (ts : Traced) :
    Outcome × List Nat × Traced :=
  match deref ts.st.heap ts.st.slot.head with
  | none => (Outcome.oops, [], ts)
  | some hd =>
    let msg_body := hd.content
    let msg_len := hd.length
    if msg_len > len then
      (Outcome.ret (-EMSGSIZE), [], __mailslot_unlock_traced ts)
    else
      let (bytes_left, out) :=
        if non_blocking ≠ 0 then copy_to_user e msg_body msg_len
        else copy_to_user e msg_body msg_len
      if bytes_left > 0 then
        (Outcome.ret (-EFAULT), out, __mailslot_unlock_traced ts)
      else
        let s := ts.st
        let tmp := s.slot.head
        let s1 := if s.slot.msg_count > 1 then { s with slot.head := hd.next } else s
        let s2 := { s1 with heap := kfree s1.heap tmp }
        let s3 := { s2 with slot.msg_count := s2.slot.msg_count - 1 }
        (Outcome.ret (ssize_t msg_len), out, __mailslot_unlock_traced { ts with st := s3 })

/-- Lines 215-273 of `mailslot_read` as in `read_locked`, with the locking calls recorded. -/
def read_locked_traced (e : Env) (non_blocking len : Nat) (ts : Traced) :
    Outcome × List Nat × Traced :=
  if ts.st.slot.msg_count = 0 then
    if non_blocking ≠ 0 then (Outcome.ret (-EAGAIN), [], __mailslot_unlock_traced ts)
    else
      let ts1 := __mailslot_unlock_traced ts
      match wait_event_interruptible_exclusive e (decide (ts1.st.slot.msg_count > 0)) with
      | none => (Outcome.sleep Pc.wait, [], ts1)
      | some interrupted =>
        if interrupted ≠ 0 then (Outcome.ret (-EINTR), [], ts1)
        else (Outcome.sleep Pc.lock, [], ts1)
  else read_deliver_traced e non_blocking len ts

/-- The blocking branch of `mailslot_read` as in `read_acquire`, with the locking calls
recorded. -/
def read_acquire_traced (e : Env) (len : Nat) (ts : Traced) : Outcome × List Nat × Traced :=
  match __mailslot_lock_traced e BLOCKING ts with
  | (none, ts1) => (Outcome.sleep Pc.lock, [], ts1)
  | (some r, ts1) =>
    if r = -EINTR then (Outcome.ret (-EINTR), [], ts1)
    else read_locked_traced e BLOCKING len ts1

/-- A blocking reader asleep at line 227 is scheduled, as in `read_wake`, with the locking calls
recorded. -/
def read_wake_traced (e : Env) (len : Nat) (ts : Traced) : Outcome × List Nat × Traced :=
  match wait_event_interruptible_exclusive e (decide (ts.st.slot.msg_count > 0)) with
  | none => (Outcome.sleep Pc.wait, [], ts)
  | some interrupted =>
    if interrupted ≠ 0 then (Outcome.ret (-EINTR), [], ts)
    else read_acquire_traced e len ts

/-- Source `mailslot_read` as in `mailslot_read`, with the locking calls recorded. -/
def mailslot_read_traced (e : Env) (filp : file) (buff len : Nat) (ts : Traced) :
    Outcome × List Nat × Traced :=
  let non_blocking := __get_blocking_policy filp
  if len = 0 then (Outcome.ret (-EINVAL), [], ts)
  else if buff = 0 then (Outcome.ret (-EINVAL), [], ts)
  else if non_blocking ≠ 0 then
    match __mailslot_lock_traced e NONBLOCKING ts with
    | (r, ts1) =>
      if r = some (-EAGAIN) then (Outcome.ret (-EAGAIN), [], ts1)
      else read_locked_traced e non_blocking len ts1
  else read_acquire_traced e len ts

/-- Lines 322-378 of `mailslot_write` as in `write_store`, with the locking calls recorded. -/
def write_store_traced (e : Env) (non_blocking : Nat) (buff : List Nat) (len : Nat)
    (ts : Traced) : Outcome × Traced :=
  let s := ts.st
  if len > s.slot.max_msg_size then
    (Outcome.ret (-EPERM), __mailslot_unlock_traced ts)
  else
    match kzalloc e.kzalloc_msg s.heap with
    | (new_msg, h1) =>
      if new_msg = 0 then
        (Outcome.ret (if non_blocking ≠ 0 then -EAGAIN else -ENOMEM), __mailslot_unlock_traced ts)
      else
        let h2 := store h1 new_msg ⟨[], len, 0⟩
        if !e.kzalloc_content then
          (Outcome.ret (if non_blocking ≠ 0 then -EAGAIN else -ENOMEM),
            __mailslot_unlock_traced { ts with st := { s with heap := kfree h2 new_msg } })
        else
          let (bytes_left, content) :=
            if non_blocking ≠ 0 then copy_from_user e buff len
            else copy_from_user e buff len
          let h3 := store h2 new_msg ⟨content, len, 0⟩
          if bytes_left > 0 then
            (Outcome.ret (-EFAULT),
              __mailslot_unlock_traced { ts with st := { s with heap := kfree h3 new_msg } })
          else if s.slot.msg_count = 0 then
            let s1 := { s with heap := h3, slot.head := new_msg }
            let s2 := { s1 with slot.tail := new_msg }
            let s3 := { s2 with slot.msg_count := s2.slot.msg_count + 1 }
            (Outcome.ret (ssize_t len), __mailslot_unlock_traced { ts with st := s3 })
          else
            match deref h3 s.slot.tail with
            | none => (Outcome.oops, ts)
            | some tl =>
              let s1 := { s with heap := store h3 s.slot.tail { tl with next := new_msg } }
              let s2 := { s1 with slot.tail := new_msg }
              let s3 := { s2 with slot.msg_count := s2.slot.msg_count + 1 }
              (Outcome.ret (ssize_t len), __mailslot_unlock_traced { ts with st := s3 })

/-- Lines 304-378 of `mailslot_write` as in `write_locked`, with the locking calls recorded. -/
def write_locked_traced (e : Env) (non_blocking : Nat) (buff : List Nat) (len : Nat)
    (ts : Traced) : Outcome × Traced :=
  if ts.st.slot.msg_count = MAILSLOT_STORAGE then
    if non_blocking ≠ 0 then (Outcome.ret (-EAGAIN), __mailslot_unlock_traced ts)
    else
      let ts1 := __mailslot_unlock_traced ts
      match wait_event_interruptible_exclusive e
          (decide (ts1.st.slot.msg_count < MAILSLOT_STORAGE)) with
      | none => (Outcome.sleep Pc.wait, ts1)
      | some interrupted =>
        if interrupted ≠ 0 then (Outcome.ret (-EINTR), ts1)
        else (Outcome.sleep Pc.lock, ts1)
  else write_store_traced e non_blocking buff len ts

/-- The blocking branch of `mailslot_write` as in `write_acquire`, with the locking calls
recorded. -/
def write_acquire_traced (e : Env) (buff : List Nat) (len : Nat) (ts : Traced) :
    Outcome × Traced :=
  match __mailslot_lock_traced e BLOCKING ts with
  | (none, ts1) => (Outcome.sleep Pc.lock, ts1)
  | (some r, ts1) =>
    if r = -EINTR then (Outcome.ret (-EINTR), ts1)
    else write_locked_traced e BLOCKING buff len ts1

/-- A blocking writer asleep at line 316 is scheduled, as in `write_wake`, with the locking calls
recorded. -/
def write_wake_traced (e : Env) (buff : List Nat) (len : Nat) (ts : Traced) :
    Outcome × Traced :=
  match wait_event_interruptible_exclusive e
      (decide (ts.st.slot.msg_count < MAILSLOT_STORAGE)) with
  | none => (Outcome.sleep Pc.wait, ts)
  | some interrupted =>
    if interrupted ≠ 0 then (Outcome.ret (-EINTR), ts)
    else write_acquire_traced e buff len ts

/-- Source `mailslot_write` as in `mailslot_write`, with the locking calls recorded. -/
def mailslot_write_traced (e : Env) (filp : file) (buff : Option (List Nat)) (len : Nat)
    (ts : Traced) : Outcome × Traced :=
  let non_blocking := __get_blocking_policy filp
  if len = 0 then (Outcome.ret (-EINVAL), ts)
  else
    match buff with
    | none => (Outcome.ret (-EINVAL), ts)
    | some bytes =>
      if non_blocking ≠ 0 then
        match __mailslot_lock_traced e NONBLOCKING ts with
        | (r, ts1) =>
          if r = some (-EAGAIN) then (Outcome.ret (-EAGAIN), ts1)
          else write_locked_traced e non_blocking bytes len ts1
      else write_acquire_traced e bytes len ts

/-- Lines 409-417 of `mailslot_ioctl` as in `ioctl_set_max`, with the locking calls recorded. -/
def ioctl_set_max_traced (e : Env) (non_blocking arg : Nat) (ts : Traced) : Outcome × Traced :=
  match __mailslot_lock_traced e non_blocking ts with
  | (none, ts1) => (Outcome.sleep Pc.lock, ts1)
  | (some error, ts1) =>
    if non_blocking ≠ 0 ∧ error = -EAGAIN then (Outcome.ret (-EAGAIN), ts1)
    else if ¬ non_blocking ≠ 0 ∧ error = -EINTR then (Outcome.ret (-EINTR), ts1)
    else
      let s2 := { ts1.st with slot.max_msg_size := arg }
      (Outcome.ret SUCCESS, __mailslot_unlock_traced { ts1 with st := s2 })

/-- Source `mailslot_ioctl` as in `mailslot_ioctl`, with the locking calls recorded. -/
def mailslot_ioctl_traced (e : Env) (filp : file) (cmd arg : Nat) (ts : Traced) :
    Outcome × file × Traced :=
  let non_blocking := __get_blocking_policy filp
  if cmd = SET_BLOCKING then
    (Outcome.ret SUCCESS, { filp with f_flags := filp.f_flags &&& (2 ^ 32 - 1 - O_NONBLOCK) }, ts)
  else if cmd = SET_NONBLOCKING then
    (Outcome.ret SUCCESS, { filp with f_flags := filp.f_flags ||| O_NONBLOCK }, ts)
  else if cmd = SET_MAXIMUM_MSG_SIZE then
    if arg = 0 ∨ arg > MAXIMUM_MESSAGE_SIZE then (Outcome.ret (-EINVAL), filp, ts)
    else
      match ioctl_set_max_traced e non_blocking arg ts with
      | (o, ts1) => (o, filp, ts1)
  else (Outcome.ret (-ENOTTY), filp, ts)

/-- The continuation of a sleeping call as in `resume`, with the locking calls recorded. -/
def resume_traced (e : Env) (sl : Sleeper) (ts : Traced) : Outcome × Traced :=
  match sl with
  | Sleeper.read len Pc.lock =>
    ((read_acquire_traced e len ts).1, (read_acquire_traced e len ts).2.2)
  | Sleeper.read len Pc.wait => ((read_wake_traced e len ts).1, (read_wake_traced e len ts).2.2)
  | Sleeper.write buff len Pc.lock => write_acquire_traced e buff len ts
  | Sleeper.write buff len Pc.wait => write_wake_traced e buff len ts
  | Sleeper.ioctl arg => ioctl_set_max_traced e BLOCKING arg ts

/-- The held/free flag of one caller followed along a record of locking calls: `held` tells
whether the caller holds the mutex.  A successful `__mailslot_lock` sets the flag and a
`__mailslot_unlock` clears it; the result is `none` when a call breaks the discipline, that is a
successful lock while the flag is set or an unlock while it is clear. -/
def lock_flag : Bool → List LockOp → Option Bool
  | held, [] => some held
  | held, LockOp.lock r :: ops =>
    if r = some SUCCESS then (if held then none else lock_flag true ops) else lock_flag held ops
  | held, LockOp.unlock _ :: ops => if held then lock_flag false ops else none

/-- The locking calls of a piece of a call by thread `t` that started in state `s` with an
empty record and ended in `ts` are balanced: the mutex has the owner it had, the record is
empty, or one failed `__mailslot_lock`, or one successful `__mailslot_lock` followed by one
`__mailslot_unlock` of the mutex the thread then owned, and accordingly the flag of the caller,
clear at the start, is clear at the end and the discipline was never broken. -/
def Balanced (t : Nat) (s : State) (ts : Traced) : Prop :=
  ts.st.slot.mutex = s.slot.mutex ∧
  (ts.ops = [] ∨
   (∃ r, r ≠ some SUCCESS ∧ s.slot.mutex ≠ none ∧ ts.ops = [LockOp.lock r]) ∨
   (s.slot.mutex = none ∧
     ts.ops = [LockOp.lock (some SUCCESS), LockOp.unlock (some t)])) ∧
  lock_flag false ts.ops = some false

/-- The run of a piece of a call with its locking calls recorded, ending with outcome `o2` in
`ts`, agrees with the plain run, ending with outcome `o` in state `s2`, and unless the plain run
dereferences a dead address its locking calls are balanced. -/
def Tracks (t : Nat) (s : State) (o : Outcome) (s2 : State) (o2 : Outcome) (ts : Traced) :
    Prop :=
  o2 = o ∧ ts.st = s2 ∧ (o ≠ Outcome.oops → Balanced t s ts)

/-! ## Executions interleaved statement by statement -/

/-- A call on the device that got past its argument checks, with the arguments it works on:
the length of the reader's buffer, the writer's memory and length, the argument of
`SET_MAXIMUM_MSG_SIZE`. -/
inductive Call where
  /-- The call is `mailslot_read` with a buffer of `len` bytes. -/
  | read (len : Nat)
  /-- The call is `mailslot_write` of `len` bytes from the user memory `buff`. -/
  | write (buff : List Nat) (len : Nat)
  /-- The call is `mailslot_ioctl` with `SET_MAXIMUM_MSG_SIZE` and argument `arg`. -/
  | ioctl (arg : Nat)
deriving DecidableEq, Repr

/-- The parameter `len` of a read or a write. -/
def Call.len : Call → Nat
  | Call.read len => len
  | Call.write _ len => len
  | Call.ioctl _ => 0

/-- The parameter `buff` of a write, as the user memory found there. -/
def Call.buff : Call → List Nat
  | Call.write buff _ => buff
  | _ => []

/-- The parameter `arg` of a control call. -/
def Call.arg : Call → Nat
  | Call.ioctl arg => arg
  | _ => 0

/-- The call as a sleeper, when it goes to sleep at `pc`. -/
def Call.sleeper : Call → Pc → Sleeper
  | Call.read len, pc => Sleeper.read len pc
  | Call.write buff len, pc => Sleeper.write buff len pc
  | Call.ioctl arg, _ => Sleeper.ioctl arg

/-- The statement a thread executes next, between a successful `__mailslot_lock` and the
`__mailslot_unlock` that follows it.  Each label stands for one statement of `mailslot.c` that
reads or writes the slot or a message record. -/
inductive Label where
  /-- Lines 215 and 225 of `mailslot_read`: the test `msg_count == 0`. -/
  | read_test
  /-- Line 233: `msg_body = head->content`. -/
  | read_body
  /-- Line 234: `msg_len = head->length`. -/
  | read_length
  /-- Line 236: the test `msg_len > len`. -/
  | read_check
  /-- Lines 242-249: `copy_to_user` and the test `bytes_left > 0`. -/
  | read_copy
  /-- Line 258: `tmp = head`. -/
  | read_save
  /-- Lines 260-261: `if ( msg_count > 1 ) head = head->next`. -/
  | read_advance
  /-- Lines 263-264: `kfree( tmp->content ); kfree( tmp )`. -/
  | read_free
  /-- Line 266: `--msg_count`. -/
  | read_count
  /-- Lines 304 and 314 of `mailslot_write`: the test `msg_count == MAILSLOT_STORAGE`. -/
  | write_test
  /-- Line 322: the test `len > max_msg_size`. -/
  | write_size
  /-- Lines 328-329: `new_msg = kzalloc( ... )` and the test `!new_msg`. -/
  | write_alloc
  /-- Line 335: `new_msg->length = len`. -/
  | write_length
  /-- Lines 336-337: `new_msg->content = kzalloc( ... )` and the test `!new_msg->content`. -/
  | write_content
  /-- Lines 344-351: `copy_from_user` and the test `bytes_left > 0`. -/
  | write_copy
  /-- Lines 339 and 353-354: the new record is freed; the call then unlocks and returns `o`. -/
  | write_discard (o : Outcome)
  /-- Lines 362-365: `head = new_msg` when `msg_count == 0`, `tail->next = new_msg` otherwise. -/
  | write_link
  /-- Line 367: `tail = new_msg`. -/
  | write_tail
  /-- Line 369: `msg_count++`. -/
  | write_count
  /-- Line 414 of `mailslot_ioctl`: `max_msg_size = arg`. -/
  | ioctl_set
  /-- The call of `__mailslot_unlock` after which the call returns `o`, or, `o` being
  `Outcome.sleep Pc.wait`, enters `wait_event_interruptible_exclusive` (lines 226-227 and
  315-316); the wait is evaluated, condition first and pending signal next, when the thread is
  scheduled again (`wake`), which may be at the very next tick. -/
  | unlock (o : Outcome)
deriving DecidableEq, Repr

/-- The local variables of a call that owns the mutex; `out` is what has been copied to the
reader's buffer. -/
structure Frame where
  call : Call
  non_blocking : Nat
  msg_body : Nat
  msg_len : Nat
  tmp : Nat
  new_msg : Nat
  out : List Nat
deriving DecidableEq, Repr

/-- The frame of a call that has just obtained the mutex. -/
def Frame.enter (c : Call) (non_blocking : Nat) : Frame :=
  { call := c, non_blocking := non_blocking, msg_body := 0, msg_len := 0, tmp := 0, new_msg := 0,
    out := [] }

/-- What follows a statement. -/
inductive Next where
  /-- The thread, still owning the mutex, stands before the statement `l`. -/
  | goto (l : Label)
  /-- The thread has left the code between lock and unlock with outcome `o`. -/
  | leave (o : Outcome)
deriving DecidableEq, Repr

/-- One statement of `mailslot_read`, `mailslot_write` or `mailslot_ioctl`, executed by a thread
that got the mutex from `__mailslot_lock`, on the slot as it is at that moment.  `msg_body` is
the address of the record whose content the reader copies.  A dereference of an address that is
not live ends the call with `Outcome.oops`, the mutex still owned. -/
def micro (e : Env) (f : Frame) (l : Label) (s : State) : Next × Frame × State :=
  match l with
  | Label.read_test =>
    if s.slot.msg_count = 0 then
      (Next.goto (Label.unlock
        (if f.non_blocking ≠ 0 then Outcome.ret (-EAGAIN) else Outcome.sleep Pc.wait)), f, s)
    else (Next.goto Label.read_body, f, s)
  | Label.read_body =>
    match deref s.heap s.slot.head with
    | none => (Next.leave Outcome.oops, f, s)
    | some _ => (Next.goto Label.read_length, { f with msg_body := s.slot.head }, s)
  | Label.read_length =>
    match deref s.heap s.slot.head with
    | none => (Next.leave Outcome.oops, f, s)
    | some hd => (Next.goto Label.read_check, { f with msg_len := hd.length }, s)
  | Label.read_check =>
    if f.msg_len > f.call.len then (Next.goto (Label.unlock (Outcome.ret (-EMSGSIZE))), f, s)
    else (Next.goto Label.read_copy, f, s)
  | Label.read_copy =>
    match deref s.heap f.msg_body with
    | none => (Next.leave Outcome.oops, f, s)
    | some m =>
      let (bytes_left, out) :=
        if f.non_blocking ≠ 0 then copy_to_user e m.content f.msg_len
        else copy_to_user e m.content f.msg_len
      if bytes_left > 0 then
        (Next.goto (Label.unlock (Outcome.ret (-EFAULT))), { f with out := out }, s)
      else (Next.goto Label.read_save, { f with out := out }, s)
  | Label.read_save => (Next.goto Label.read_advance, { f with tmp := s.slot.head }, s)
  | Label.read_advance =>
    if s.slot.msg_count > 1 then
      match deref s.heap s.slot.head with
      | none => (Next.leave Outcome.oops, f, s)
      | some hd => (Next.goto Label.read_free, f, { s with slot.head := hd.next })
    else (Next.goto Label.read_free, f, s)
  | Label.read_free => (Next.goto Label.read_count, f, { s with heap := kfree s.heap f.tmp })
  | Label.read_count =>
    (Next.goto (Label.unlock (Outcome.ret (ssize_t f.msg_len))), f,
      { s with slot.msg_count := s.slot.msg_count - 1 })
  | Label.write_test =>
    if s.slot.msg_count = MAILSLOT_STORAGE then
      (Next.goto (Label.unlock
        (if f.non_blocking ≠ 0 then Outcome.ret (-EAGAIN) else Outcome.sleep Pc.wait)), f, s)
    else (Next.goto Label.write_size, f, s)
  | Label.write_size =>
    if f.call.len > s.slot.max_msg_size then
      (Next.goto (Label.unlock (Outcome.ret (-EPERM))), f, s)
    else (Next.goto Label.write_alloc, f, s)
  | Label.write_alloc =>
    match kzalloc e.kzalloc_msg s.heap with
    | (new_msg, h1) =>
      if new_msg = 0 then
        (Next.goto (Label.unlock
          (Outcome.ret (if f.non_blocking ≠ 0 then -EAGAIN else -ENOMEM))), f,
          { s with heap := h1 })
      else (Next.goto Label.write_length, { f with new_msg := new_msg }, { s with heap := h1 })
  | Label.write_length =>
    (Next.goto Label.write_content, f,
      { s with heap := store s.heap f.new_msg ⟨[], f.call.len, 0⟩ })
  | Label.write_content =>
    if !e.kzalloc_content then
      (Next.goto (Label.write_discard
        (Outcome.ret (if f.non_blocking ≠ 0 then -EAGAIN else -ENOMEM))), f, s)
    else (Next.goto Label.write_copy, f, s)
  | Label.write_copy =>
    let (bytes_left, content) :=
      if f.non_blocking ≠ 0 then copy_from_user e f.call.buff f.call.len
      else copy_from_user e f.call.buff f.call.len
    let s1 := { s with heap := store s.heap f.new_msg ⟨content, f.call.len, 0⟩ }
    if bytes_left > 0 then (Next.goto (Label.write_discard (Outcome.ret (-EFAULT))), f, s1)
    else (Next.goto Label.write_link, f, s1)
  | Label.write_discard o =>
    (Next.goto (Label.unlock o), f, { s with heap := kfree s.heap f.new_msg })
  | Label.write_link =>
    if s.slot.msg_count = 0 then (Next.goto Label.write_tail, f, { s with slot.head := f.new_msg })
    else
      match deref s.heap s.slot.tail with
      | none => (Next.leave Outcome.oops, f, s)
      | some tl =>
        (Next.goto Label.write_tail, f,
          { s with heap := store s.heap s.slot.tail { tl with next := f.new_msg } })
  | Label.write_tail => (Next.goto Label.write_count, f, { s with slot.tail := f.new_msg })
  | Label.write_count =>
    (Next.goto (Label.unlock (Outcome.ret (ssize_t f.call.len))), f,
      { s with slot.msg_count := s.slot.msg_count + 1 })
  | Label.ioctl_set =>
    (Next.goto (Label.unlock (Outcome.ret SUCCESS)), f, { s with slot.max_msg_size := f.call.arg })
  | Label.unlock o => (Next.leave o, f, __mailslot_unlock s)

/-- The statements of a call from the label `l` on, executed one after the other with nothing in
between, the environment of each statement being taken from the list: the outcome, the bytes
copied to the caller and the slot when the call leaves the code between lock and unlock, `none`
when the list ends before that. -/
def finish : List Env → Frame → Label → State → Option (Outcome × List Nat × State)
  | [], _, _, _ => none
  | e :: es, f, l, s =>
    match micro e f l s with
    | (Next.goto l1, f1, s1) => finish es f1 l1 s1
    | (Next.leave o, f1, s1) => some (o, f1.out, s1)

/-- Where a thread that is in a call stands: asleep, outside the code between lock and unlock,
or inside it, before the statement `l`. -/
inductive Place where
  /-- At `Pc.lock`: asleep in `mutex_lock_interruptible`, or standing before that call.  At
  `Pc.wait`: in `wait_event_interruptible_exclusive`, having just entered it or asleep in it. -/
  | asleep (sl : Sleeper)
  /-- Between `__mailslot_lock` and `__mailslot_unlock`, with the local variables `f`. -/
  | inside (f : Frame) (l : Label)
deriving DecidableEq, Repr

/-- One slot and the threads that are in a call on it.  Nothing in this record keeps two threads
from being inside at the same time. -/
structure Fine where
  st : State
  threads : List (Nat × Place)
deriving DecidableEq, Repr

/-- What can happen next: a thread enters a call, a sleeping thread is scheduled, or a thread
that is inside executes its next statement. -/
inductive Tick where
  /-- Thread `e.current` calls `mailslot_read`: the argument checks and the first call of
  `__mailslot_lock`. -/
  | read (e : Env) (filp : file) (buff len : Nat)
  /-- Thread `e.current` calls `mailslot_write`: the argument checks and the first call of
  `__mailslot_lock`. -/
  | write (e : Env) (filp : file) (buff : Option (List Nat)) (len : Nat)
  /-- Thread `e.current` calls `mailslot_ioctl`: the `switch`, the argument check and the call
  of `__mailslot_lock`. -/
  | ioctl (e : Env) (filp : file) (cmd arg : Nat)
  /-- The sleeping thread `e.current` is scheduled: its wait is evaluated, or it calls
  `__mailslot_lock` again. -/
  | wake (e : Env)
  /-- Thread `e.current`, inside, executes one statement. -/
  | go (e : Env)
deriving DecidableEq, Repr

/-- The place of thread `t`, if it is in a call. -/
def place_of : List (Nat × Place) → Nat → Option Place
  | [], _ => none
  | (q, v) :: r, t => if q = t then some v else place_of r t

/-- Record the new place of thread `t`; `none` when its call has returned. -/
def settle (tbl : List (Nat × Place)) (t : Nat) (p : Option Place) : List (Nat × Place) :=
  match p with
  | some v => (t, v) :: tbl.filter (fun x => decide (x.1 ≠ t))
  | none => tbl.filter (fun x => decide (x.1 ≠ t))

/-- The calls of `__mailslot_lock` of `mailslot_read` (lines 213, 223 and 229) and what follows
from the result: the caller returns (`none`), sleeps on the mutex, or is inside, before the test
of `msg_count`. -/
def lock_read (e : Env) (non_blocking len : Nat) (s : State) : Option Place × State :=
  if non_blocking ≠ 0 then
    match __mailslot_lock e NONBLOCKING s with
    | (r, s1) =>
      if r = some (-EAGAIN) then (none, s1)
      else (some (Place.inside (Frame.enter (Call.read len) non_blocking) Label.read_test), s1)
  else
    match __mailslot_lock e BLOCKING s with
    | (none, s1) => (some (Place.asleep (Sleeper.read len Pc.lock)), s1)
    | (some r, s1) =>
      if r = -EINTR then (none, s1)
      else (some (Place.inside (Frame.enter (Call.read len) non_blocking) Label.read_test), s1)

/-- The calls of `__mailslot_lock` of `mailslot_write` (lines 302, 312 and 318) and what follows
from the result. -/
def lock_write (e : Env) (non_blocking : Nat) (buff : List Nat) (len : Nat) (s : State) :
    Option Place × State :=
  if non_blocking ≠ 0 then
    match __mailslot_lock e NONBLOCKING s with
    | (r, s1) =>
      if r = some (-EAGAIN) then (none, s1)
      else
        (some (Place.inside (Frame.enter (Call.write buff len) non_blocking) Label.write_test),
          s1)
  else
    match __mailslot_lock e BLOCKING s with
    | (none, s1) => (some (Place.asleep (Sleeper.write buff len Pc.lock)), s1)
    | (some r, s1) =>
      if r = -EINTR then (none, s1)
      else
        (some (Place.inside (Frame.enter (Call.write buff len) non_blocking) Label.write_test),
          s1)

/-- The call of `__mailslot_lock` of `mailslot_ioctl` (lines 409-412) and what follows from the
result. -/
def lock_ioctl (e : Env) (non_blocking arg : Nat) (s : State) : Option Place × State :=
  match __mailslot_lock e non_blocking s with
  | (none, s1) => (some (Place.asleep (Sleeper.ioctl arg)), s1)
  | (some error, s1) =>
    if non_blocking ≠ 0 ∧ error = -EAGAIN then (none, s1)
    else if ¬ non_blocking ≠ 0 ∧ error = -EINTR then (none, s1)
    else (some (Place.inside (Frame.enter (Call.ioctl arg) non_blocking) Label.ioctl_set), s1)

/-- A sleeping call is scheduled.  Asleep in the wait (lines 227 and 316), the wait is evaluated
on the slot as it is: it goes on, or the call returns `-EINTR`, or the thread stands before the
lock call that follows.  Asleep before a lock call, that call is made. -/
def wake (e : Env) (sl : Sleeper) (s : State) : Option Place × State :=
  match sl with
  | Sleeper.read len Pc.wait =>
    match wait_event_interruptible_exclusive e (decide (s.slot.msg_count > 0)) with
    | none => (some (Place.asleep sl), s)
    | some interrupted =>
      if interrupted ≠ 0 then (none, s)
      else (some (Place.asleep (Sleeper.read len Pc.lock)), s)
  | Sleeper.read len Pc.lock => lock_read e BLOCKING len s
  | Sleeper.write buff len Pc.wait =>
    match wait_event_interruptible_exclusive e
        (decide (s.slot.msg_count < MAILSLOT_STORAGE)) with
    | none => (some (Place.asleep sl), s)
    | some interrupted =>
      if interrupted ≠ 0 then (none, s)
      else (some (Place.asleep (Sleeper.write buff len Pc.lock)), s)
  | Sleeper.write buff len Pc.lock => lock_write e BLOCKING buff len s
  | Sleeper.ioctl arg => lock_ioctl e BLOCKING arg s

/-- The place of a thread after the statement it executed inside. -/
def after (c : Call) (n : Next) (f : Frame) : Option Place :=
  match n with
  | Next.goto l => some (Place.inside f l)
  | Next.leave (Outcome.sleep pc) => some (Place.asleep (c.sleeper pc))
  | Next.leave _ => none

/-- One tick.  A thread that is in a call cannot start another one; the flag commands of
`mailslot_ioctl` and the calls refused for their arguments do not touch the slot. -/
def fine_step (ev : Tick) (sys : Fine) : Fine :=
  match ev with
  | Tick.read e filp buff len =>
    match place_of sys.threads e.current with
    | some _ => sys
    | none =>
      if len = 0 then sys
      else if buff = 0 then sys
      else
        match lock_read e (__get_blocking_policy filp) len sys.st with
        | (p, s1) => { st := s1, threads := settle sys.threads e.current p }
  | Tick.write e filp buff len =>
    match place_of sys.threads e.current with
    | some _ => sys
    | none =>
      if len = 0 then sys
      else
        match buff with
        | none => sys
        | some bytes =>
          match lock_write e (__get_blocking_policy filp) bytes len sys.st with
          | (p, s1) => { st := s1, threads := settle sys.threads e.current p }
  | Tick.ioctl e filp cmd arg =>
    match place_of sys.threads e.current with
    | some _ => sys
    | none =>
      if cmd = SET_BLOCKING then sys
      else if cmd = SET_NONBLOCKING then sys
      else if cmd = SET_MAXIMUM_MSG_SIZE then
        if arg = 0 ∨ arg > MAXIMUM_MESSAGE_SIZE then sys
        else
          match lock_ioctl e (__get_blocking_policy filp) arg sys.st with
          | (p, s1) => { st := s1, threads := settle sys.threads e.current p }
      else sys
  | Tick.wake e =>
    match place_of sys.threads e.current with
    | some (Place.asleep sl) =>
      match wake e sl sys.st with
      | (p, s1) => { st := s1, threads := settle sys.threads e.current p }
    | _ => sys
  | Tick.go e =>
    match place_of sys.threads e.current with
    | some (Place.inside f l) =>
      match micro e f l sys.st with
      | (n, f1, s1) => { st := s1, threads := settle sys.threads e.current (after f.call n f1) }
    | _ => sys

/-- Run a list of ticks from left to right. -/
def fine_run : List Tick → Fine → Fine
  | [], sys => sys
  | ev :: evs, sys => fine_run evs (fine_step ev sys)

/-- The system after `init_module`: the fresh slot, no thread in a call. -/
def fine_boot : Fine :=
  { st := init_module, threads := [] }

/-- The payload a call stores when it ends with outcome `o`: the first `len` bytes of the
writer's memory when it is a write that returns with success. -/
def Call.stored (c : Call) (o : Outcome) : List (List Nat) :=
  match c with
  | Call.write buff len => if o.success then [buff.take len] else []
  | _ => []

/-- The bytes a call hands to its caller when it ends with outcome `o`, `out` having been copied
to the caller's buffer: `out` when it is a read that returns with success. -/
def Call.received (c : Call) (o : Outcome) (out : List Nat) : List (List Nat) :=
  match c with
  | Call.read _ => if o.success then [out] else []
  | _ => []

/-- The payload stored by the call that returns at the tick `ev`, if one does. -/
def fine_wrote (ev : Tick) (sys : Fine) : List (List Nat) :=
  match ev with
  | Tick.go e =>
    match place_of sys.threads e.current with
    | some (Place.inside f l) =>
      match micro e f l sys.st with
      | (Next.leave o, _, _) => f.call.stored o
      | _ => []
    | _ => []
  | _ => []

/-- The bytes handed to the caller of the call that returns at the tick `ev`, if one does. -/
def fine_got (ev : Tick) (sys : Fine) : List (List Nat) :=
  match ev with
  | Tick.go e =>
    match place_of sys.threads e.current with
    | some (Place.inside f l) =>
      match micro e f l sys.st with
      | (Next.leave o, f1, _) => f.call.received o f1.out
      | _ => []
    | _ => []
  | _ => []

/-- The payloads of the successful writes of an execution, in the order in which they
returned. -/
def fine_written : List Tick → Fine → List (List Nat)
  | [], _ => []
  | ev :: evs, sys => fine_wrote ev sys ++ fine_written evs (fine_step ev sys)

/-- The byte strings handed to the successful reads of an execution, in the order in which they
returned. -/
def fine_delivered : List Tick → Fine → List (List Nat)
  | [], _ => []
  | ev :: evs, sys => fine_got ev sys ++ fine_delivered evs (fine_step ev sys)

/-- The tick `ev` is a statement at which a dead address is dereferenced. -/
def fine_oopsed (ev : Tick) (sys : Fine) : Bool :=
  match ev with
  | Tick.go e =>
    match place_of sys.threads e.current with
    | some (Place.inside f l) => decide ((micro e f l sys.st).1 = Next.leave Outcome.oops)
    | _ => false
  | _ => false

/-- The number of ticks of an execution at which a dead address is dereferenced. -/
def fine_oops : List Tick → Fine → Nat
  | [], _ => 0
  | ev :: evs, sys => (if fine_oopsed ev sys then 1 else 0) + fine_oops evs (fine_step ev sys)

/-- The smallest value `msg_count` has while a thread stands before the statement `l`: a reader
past its test has found a message. -/
def Label.low : Label → Int
  | Label.read_body => 1
  | Label.read_length => 1
  | Label.read_check => 1
  | Label.read_copy => 1
  | Label.read_save => 1
  | Label.read_advance => 1
  | Label.read_free => 1
  | Label.read_count => 1
  | _ => 0

/-- The largest value `msg_count` has while a thread stands before the statement `l`: a writer
past its test has found room. -/
def Label.high : Label → Int
  | Label.write_size => 63
  | Label.write_alloc => 63
  | Label.write_length => 63
  | Label.write_content => 63
  | Label.write_copy => 63
  | Label.write_discard _ => 63
  | Label.write_link => 63
  | Label.write_tail => 63
  | Label.write_count => 63
  | _ => 64

/-- A call that ended with the result `r` (outcome, bytes copied out, slot), having obtained the
mutex on the slot `s0`, did what one call does to a queue: no dead address was touched, the slot
is well-formed and its mutex free, and the queue of `s0` followed by what the call stored is what
the call received followed by the queue it leaves. -/
def Good (c : Call) (s0 : State) (r : Outcome × List Nat × State) : Prop :=
  r.1 ≠ Outcome.oops ∧ WF r.2.2 ∧ r.2.2.slot.mutex = none ∧
  queue s0 ++ c.stored r.1 = c.received r.1 r.2.1 ++ queue r.2.2

/-- No thread is between lock and unlock. -/
def Quiet (sys : Fine) : Prop :=
  ∀ t f l, place_of sys.threads t ≠ some (Place.inside f l)

/-- The invariant of the executions interleaved statement by statement, `q` being the messages
stored and not yet delivered.  Every sleeper is sane, and either no thread is inside, the mutex
is free, the slot is well-formed and `q` is its queue; or exactly one thread is inside, it owns
the mutex, `msg_count` is in the range of the statement it stands before, and whatever the
environment answers, the rest of its call, run from the slot as it is now, ends as one call on
the well-formed slot `s0` whose queue is `q`. -/
def FInv (sys : Fine) (q : List (List Nat)) : Prop :=
  (∀ t sl, place_of sys.threads t = some (Place.asleep sl) → sl.sane) ∧
  ((Quiet sys ∧ WF sys.st ∧ sys.st.slot.mutex = none ∧ q = queue sys.st) ∨
   (∃ t f l s0, place_of sys.threads t = some (Place.inside f l) ∧
      (∀ t2 f2 l2, place_of sys.threads t2 = some (Place.inside f2 l2) → t2 = t) ∧
      sys.st.slot.mutex = some t ∧
      l.low ≤ sys.st.slot.msg_count ∧ sys.st.slot.msg_count ≤ l.high ∧
      (∀ pc, (f.call.sleeper pc).sane) ∧
      WF s0 ∧ q = queue s0 ∧
      ∀ es r, finish es f l sys.st = some r → Good f.call s0 r))

/-- A writer (thread 1) and a reader (thread 2), both non-blocking, on the fresh slot.  The
writer obtains the mutex and executes its statements up to the linking of the new record; the
reader calls, finds the mutex owned and returns; the writer executes its remaining statements;
the reader calls again and executes its statements. -/
def demo_fine : List Tick :=
  [Tick.write { demo_env 1 with current := 1 } demo_nonblocking (some [1, 2, 3]) 3] ++
  List.replicate 6 (Tick.go { demo_env 1 with current := 1 }) ++
  [Tick.read { demo_env 1 with current := 2 } demo_nonblocking 1 8] ++
  List.replicate 4 (Tick.go { demo_env 1 with current := 1 }) ++
  [Tick.read { demo_env 1 with current := 2 } demo_nonblocking 1 8] ++
  List.replicate 10 (Tick.go { demo_env 1 with current := 2 })

/-- The thread a tick belongs to. -/
def Tick.thread : Tick → Nat
  | Tick.read e _ _ _ => e.current
  | Tick.write e _ _ _ => e.current
  | Tick.ioctl e _ _ _ => e.current
  | Tick.wake e => e.current
  | Tick.go e => e.current

/-- A state that no execution leads to: two non-blocking readers, threads 1 and 2, both standing
between lock and unlock, before the test of `msg_count`, on a slot that holds one message. -/
def demo_race : Fine :=
  { st := mutex_set demo_one (some 1),
    threads := [(1, Place.inside (Frame.enter (Call.read 8) 1) Label.read_test),
                (2, Place.inside (Frame.enter (Call.read 8) 1) Label.read_test)] }

/-- The two readers of `demo_race` execute their ten statements in turn. -/
def demo_race_ticks : List Tick :=
  (List.range 20).map (fun i => Tick.go { demo_env 1 with current := i % 2 + 1 })

/-! ## Kernel memory -/

theorem deref_store (h : List (Nat × message)) (p q : Nat) (w : message) :
    deref (store h p w) q = if q = p then (deref h p).map (fun _ => w) else deref h q := by
  induction h with
  | nil => simp [store, deref]
  | cons x r ih =>
    obtain ⟨k, v⟩ := x
    by_cases hk : k = p
    · subst hk
      by_cases hq : q = k
      · subst hq; simp [store, deref]
      · have hq2 : ¬ k = q := fun hh => hq hh.symm
        simp [store, deref, hq, hq2, ih]
    · by_cases hq : q = p
      · subst hq; simp [store, deref, hk, ih]
      · by_cases hkq : k = q
        · subst hkq; simp [store, deref, hk]
        · simp [store, deref, hk, hkq, ih, hq]

theorem deref_kfree (h : List (Nat × message)) (p q : Nat) :
    deref (kfree h p) q = if q = p then none else deref h q := by
  induction h with
  | nil => simp [kfree, deref]
  | cons x r ih =>
    obtain ⟨k, v⟩ := x
    unfold kfree at ih ⊢
    by_cases hk : k = p
    · subst hk
      by_cases hq : q = k
      · subst hq; simpa [List.filter, deref] using ih
      · have hq2 : ¬ k = q := fun hh => hq hh.symm
        simpa [List.filter, deref, hq, hq2] using ih
    · by_cases hq : q = p
      · subst hq; simpa [List.filter, deref, hk] using ih
      · by_cases hkq : k = q
        · subst hkq; simp [List.filter, deref, hk]
        · simpa [List.filter, deref, hk, hkq, hq] using ih

theorem store_fresh (h : List (Nat × message)) (p : Nat) (w : message)
    (hp : deref h p = none) : store h p w = h := by
  induction h with
  | nil => simp [store]
  | cons x r ih =>
    obtain ⟨k, v⟩ := x
    by_cases hk : k = p
    · simp [deref, hk] at hp
    · simp [deref, hk] at hp
      simp [store, hk, ih hp]

theorem kfree_fresh (h : List (Nat × message)) (p : Nat)
    (hp : deref h p = none) : kfree h p = h := by
  induction h with
  | nil => simp [kfree]
  | cons x r ih =>
    obtain ⟨k, v⟩ := x
    by_cases hk : k = p
    · simp [deref, hk] at hp
    · simp [deref, hk] at hp
      have := ih hp
      unfold kfree at this ⊢
      rw [List.filter_cons_of_pos (by simpa using hk), this]

theorem kfree_alloc (h : List (Nat × message)) (p : Nat) (v w : message)
    (hp : deref h p = none) : kfree (store ((p, v) :: h) p w) p = h := by
  have h1 : store ((p, v) :: h) p w = (p, w) :: h := by
    simp [store, store_fresh h p w hp]
  rw [h1]
  have h2 := kfree_fresh h p hp
  unfold kfree at h2 ⊢
  rw [List.filter_cons_of_neg (by simp), h2]

theorem ssize_t_small (n : Nat) (hn : n < 2 ^ 63) : ssize_t n = (n : Int) := by
  have h1 : n % 2 ^ 64 = n := Nat.mod_eq_of_lt (by omega)
  unfold ssize_t
  rw [h1, if_pos hn]

/-! ## The pieces of a call, case by case -/

@[simp] theorem mutex_set_heap (s : State) (o : Option Nat) : (mutex_set s o).heap = s.heap := rfl

@[simp] theorem mutex_set_mutex (s : State) (o : Option Nat) :
    (mutex_set s o).slot.mutex = o := rfl

@[simp] theorem mutex_set_head (s : State) (o : Option Nat) :
    (mutex_set s o).slot.head = s.slot.head := rfl

@[simp] theorem mutex_set_tail (s : State) (o : Option Nat) :
    (mutex_set s o).slot.tail = s.slot.tail := rfl

@[simp] theorem mutex_set_max (s : State) (o : Option Nat) :
    (mutex_set s o).slot.max_msg_size = s.slot.max_msg_size := rfl

@[simp] theorem mutex_set_count (s : State) (o : Option Nat) :
    (mutex_set s o).slot.msg_count = s.slot.msg_count := rfl

@[simp] theorem mutex_set_set (s : State) (o o2 : Option Nat) :
    mutex_set (mutex_set s o) o2 = mutex_set s o2 := rfl

theorem mutex_set_self (s : State) (o : Option Nat) (h : s.slot.mutex = o) :
    mutex_set s o = s := by
  obtain ⟨hp, sl⟩ := s
  obtain ⟨mx, hd, tl, mm, mc⟩ := sl
  simp at h
  subst h
  rfl

theorem policy_cases (filp : file) :
    __get_blocking_policy filp = 0 ∨ __get_blocking_policy filp = 1 := by
  unfold __get_blocking_policy BLOCKING NONBLOCKING
  split <;> simp

theorem lock_free (e : Env) (nb : Nat) (s : State) (h : s.slot.mutex = none) :
    __mailslot_lock e nb s = (some 0, mutex_set s (some e.current)) := by
  unfold __mailslot_lock mutex_trylock mutex_lock_interruptible
  by_cases hnb : nb = 0
  · simp [hnb, h, SUCCESS, EINTR]
  · simp [hnb, h, SUCCESS]

theorem lock_held_nb (e : Env) (nb t : Nat) (s : State) (hnb : nb ≠ 0)
    (h : s.slot.mutex = some t) :
    __mailslot_lock e nb s = (some (-EAGAIN), s) := by
  unfold __mailslot_lock mutex_trylock
  simp [hnb, h]

theorem lock_held_b (e : Env) (t : Nat) (s : State) (h : s.slot.mutex = some t) :
    __mailslot_lock e 0 s = if e.signal then (some (-EINTR), s) else (none, s) := by
  unfold __mailslot_lock mutex_lock_interruptible
  by_cases hs : e.signal <;> simp [h, hs]

theorem unlock_lock (s : State) (t : Nat) (h : s.slot.mutex = none) :
    __mailslot_unlock (mutex_set s (some t)) = s := by
  unfold __mailslot_unlock mutex_unlock
  rw [mutex_set_set, mutex_set_self s none h]

theorem copied_le (e : Env) (avail n : Nat) : copied e avail n ≤ n := by
  unfold copied
  split <;> omega

theorem copied_le_avail (e : Env) (avail n : Nat) : copied e avail n ≤ avail := by
  unfold copied
  split <;> omega

theorem copy_to_user_ok (e : Env) (src : List Nat) (n : Nat)
    (h : (copy_to_user e src n).1 = 0) : copy_to_user e src n = (0, src.take n) := by
  have h1 := copied_le e n n
  unfold copy_to_user at h ⊢
  simp only at h
  have h2 : copied e n n = n := by omega
  rw [h2]; simp

theorem copy_from_user_ok (e : Env) (src : List Nat) (n : Nat)
    (h : (copy_from_user e src n).1 = 0) :
    copy_from_user e src n = (0, src.take n) ∧ n ≤ src.length := by
  have h1 := copied_le e src.length n
  have h3 := copied_le_avail e src.length n
  unfold copy_from_user at h ⊢
  simp only at h
  have h2 : copied e src.length n = n := by omega
  rw [h2]
  constructor
  · simp
  · omega

theorem kzalloc_fresh (a : Nat) (h : List (Nat × message)) (ha : a ≠ 0)
    (hf : deref h a = none) : kzalloc a h = (a, (a, ⟨[], 0, 0⟩) :: h) := by
  unfold kzalloc
  simp [ha, hf]

theorem kzalloc_fail (a : Nat) (h : List (Nat × message))
    (hf : a = 0 ∨ (deref h a).isSome) : kzalloc a h = (0, h) := by
  unfold kzalloc
  simp [hf]

theorem kfree_head (h : List (Nat × message)) (a : Nat) (v : message)
    (hf : deref h a = none) : kfree ((a, v) :: h) a = h := by
  have h2 := kfree_fresh h a hf
  unfold kfree at h2 ⊢
  rw [List.filter_cons_of_neg (by simp), h2]

theorem store_head (h : List (Nat × message)) (a : Nat) (v w : message)
    (hf : deref h a = none) : store ((a, v) :: h) a w = (a, w) :: h := by
  simp [store, store_fresh h a w hf]

/-! ### `mailslot_read` -/

theorem read_deliver_short (e : Env) (nb len : Nat) (s : State) (hd : message)
    (hhead : deref s.heap s.slot.head = some hd) (hshort : len < hd.length) :
    read_deliver e nb len s = (Outcome.ret (-EMSGSIZE), [], __mailslot_unlock s) := by
  unfold read_deliver
  simp [hhead, hshort]

theorem read_deliver_dead (e : Env) (nb len : Nat) (s : State)
    (hhead : deref s.heap s.slot.head = none) :
    read_deliver e nb len s = (Outcome.oops, [], s) := by
  unfold read_deliver
  simp [hhead]

theorem read_deliver_fault (e : Env) (nb len : Nat) (s : State) (hd : message)
    (hhead : deref s.heap s.slot.head = some hd) (hlen : hd.length ≤ len)
    (hcopy : (copy_to_user e hd.content hd.length).1 ≠ 0) :
    read_deliver e nb len s =
      (Outcome.ret (-EFAULT), (copy_to_user e hd.content hd.length).2, __mailslot_unlock s) := by
  unfold read_deliver
  have h1 : ¬ hd.length > len := by omega
  have h2 : (copy_to_user e hd.content hd.length).1 > 0 := by omega
  simp only [hhead, h1, if_false, ite_self]
  simp [h2]

theorem read_deliver_ok (e : Env) (nb len : Nat) (s : State) (hd : message)
    (hhead : deref s.heap s.slot.head = some hd) (hlen : hd.length ≤ len)
    (hcopy : (copy_to_user e hd.content hd.length).1 = 0) :
    read_deliver e nb len s =
      (Outcome.ret (ssize_t hd.length), hd.content.take hd.length,
        __mailslot_unlock
          { heap := kfree s.heap s.slot.head,
            slot := { s.slot with
              head := if s.slot.msg_count > 1 then hd.next else s.slot.head,
              msg_count := s.slot.msg_count - 1 } }) := by
  unfold read_deliver
  have h1 : ¬ hd.length > len := by omega
  simp only [hhead, h1, if_false, ite_self, copy_to_user_ok e _ _ hcopy]
  by_cases h2 : s.slot.msg_count > 1 <;> simp [h2]

/-- With the mutex held and the slot empty a non-blocking reader returns `-EAGAIN`; a blocking
one returns `-EINTR` when a signal is pending and sleeps on the condition otherwise. -/
theorem read_locked_empty (e : Env) (nb len : Nat) (s : State) (hc : s.slot.msg_count = 0) :
    read_locked e nb len s =
      (if nb ≠ 0 then Outcome.ret (-EAGAIN)
        else if e.signal then Outcome.ret (-EINTR) else Outcome.sleep Pc.wait, [],
        __mailslot_unlock s) := by
  have hc2 : (__mailslot_unlock s).slot.msg_count = 0 := hc
  unfold read_locked wait_event_interruptible_exclusive
  by_cases hnb : nb ≠ 0
  · simp [hc, hnb]
  · by_cases hs : e.signal <;> simp [hc, hc2, hnb, hs, ERESTARTSYS]

/-- With the mutex held and the slot full a non-blocking writer returns `-EAGAIN`; a blocking
one returns `-EINTR` when a signal is pending and sleeps on the condition otherwise. -/
theorem write_locked_full (e : Env) (nb : Nat) (bytes : List Nat) (len : Nat) (s : State)
    (hc : s.slot.msg_count = MAILSLOT_STORAGE) :
    write_locked e nb bytes len s =
      (if nb ≠ 0 then Outcome.ret (-EAGAIN)
        else if e.signal then Outcome.ret (-EINTR) else Outcome.sleep Pc.wait,
        __mailslot_unlock s) := by
  have hc2 : (__mailslot_unlock s).slot.msg_count = MAILSLOT_STORAGE := hc
  unfold write_locked wait_event_interruptible_exclusive
  by_cases hnb : nb ≠ 0
  · simp [hc, hnb]
  · by_cases hs : e.signal <;> simp [hc, hc2, hnb, hs, ERESTARTSYS]

/-- A reader that gets the free mutex of a non-empty slot goes on to the delivery. -/
theorem mailslot_read_live (e : Env) (filp : file) (buff len : Nat) (s : State)
    (hfree : s.slot.mutex = none) (hcount : s.slot.msg_count ≠ 0)
    (hbuff : buff ≠ 0) (hlen : len ≠ 0) :
    mailslot_read e filp buff len s =
      read_deliver e (__get_blocking_policy filp) len (mutex_set s (some e.current)) := by
  unfold mailslot_read read_acquire
  rcases policy_cases filp with hp | hp
  · simp [hp, hlen, hbuff, BLOCKING, lock_free e 0 s hfree, read_locked, hcount, EINTR]
  · simp [hp, hlen, hbuff, NONBLOCKING, lock_free e 1 s hfree, read_locked, hcount, EAGAIN]

theorem mailslot_read_held (e : Env) (filp : file) (buff len t : Nat) (s : State)
    (hheld : s.slot.mutex = some t) (hbuff : buff ≠ 0) (hlen : len ≠ 0) :
    mailslot_read e filp buff len s =
      (if __get_blocking_policy filp ≠ 0 then Outcome.ret (-EAGAIN)
        else if e.signal then Outcome.ret (-EINTR) else Outcome.sleep Pc.lock, [], s) := by
  unfold mailslot_read read_acquire
  rcases policy_cases filp with hp | hp
  · by_cases hs : e.signal <;>
      simp [hp, hlen, hbuff, BLOCKING, lock_held_b e t s hheld, hs]
  · simp [hp, hlen, hbuff, NONBLOCKING, lock_held_nb e 1 t s (by decide) hheld]

theorem mailslot_read_empty (e : Env) (filp : file) (buff len : Nat) (s : State)
    (hfree : s.slot.mutex = none) (hcount : s.slot.msg_count = 0)
    (hbuff : buff ≠ 0) (hlen : len ≠ 0) :
    mailslot_read e filp buff len s =
      (if __get_blocking_policy filp ≠ 0 then Outcome.ret (-EAGAIN)
        else if e.signal then Outcome.ret (-EINTR) else Outcome.sleep Pc.wait, [], s) := by
  have hc2 : (mutex_set s (some e.current)).slot.msg_count = 0 := hcount
  unfold mailslot_read read_acquire
  rcases policy_cases filp with hp | hp
  · simp [hp, hlen, hbuff, BLOCKING, lock_free e 0 s hfree, read_locked_empty e _ len _ hc2,
      EINTR, unlock_lock s _ hfree]
  · simp [hp, hlen, hbuff, NONBLOCKING, lock_free e 1 s hfree, read_locked_empty e _ len _ hc2,
      EAGAIN, unlock_lock s _ hfree]

/-! ### `mailslot_write` -/

theorem write_store_big (e : Env) (nb : Nat) (bytes : List Nat) (len : Nat) (s : State)
    (hbig : s.slot.max_msg_size < len) :
    write_store e nb bytes len s = (Outcome.ret (-EPERM), __mailslot_unlock s) := by
  unfold write_store
  simp [hbig]

theorem write_store_first (e : Env) (nb : Nat) (bytes : List Nat) (len : Nat) (s : State)
    (hfit : len ≤ s.slot.max_msg_size)
    (ha : e.kzalloc_msg ≠ 0) (hf : deref s.heap e.kzalloc_msg = none)
    (hc : e.kzalloc_content = true) (hcopy : (copy_from_user e bytes len).1 = 0)
    (hcount : s.slot.msg_count = 0) :
    write_store e nb bytes len s =
      (Outcome.ret (ssize_t len),
        __mailslot_unlock
          { heap := (e.kzalloc_msg, ⟨bytes.take len, len, 0⟩) :: s.heap,
            slot := { s.slot with head := e.kzalloc_msg, tail := e.kzalloc_msg,
                                  msg_count := s.slot.msg_count + 1 } }) := by
  unfold write_store
  have h1 : ¬ len > s.slot.max_msg_size := by omega
  simp only [h1, if_false, kzalloc_fresh _ _ ha hf, ha, hc, ite_self,
    (copy_from_user_ok e bytes len hcopy).1, store_head _ _ _ _ hf]
  simp [hcount, store]

theorem write_store_next (e : Env) (nb : Nat) (bytes : List Nat) (len : Nat) (s : State)
    (tl : message)
    (hfit : len ≤ s.slot.max_msg_size)
    (ha : e.kzalloc_msg ≠ 0) (hf : deref s.heap e.kzalloc_msg = none)
    (hc : e.kzalloc_content = true) (hcopy : (copy_from_user e bytes len).1 = 0)
    (hcount : s.slot.msg_count ≠ 0) (htail : deref s.heap s.slot.tail = some tl) :
    write_store e nb bytes len s =
      (Outcome.ret (ssize_t len),
        __mailslot_unlock
          { heap := (e.kzalloc_msg, ⟨bytes.take len, len, 0⟩) ::
                      store s.heap s.slot.tail { tl with next := e.kzalloc_msg },
            slot := { s.slot with tail := e.kzalloc_msg,
                                  msg_count := s.slot.msg_count + 1 } }) := by
  unfold write_store
  have h1 : ¬ len > s.slot.max_msg_size := by omega
  have h2 : e.kzalloc_msg ≠ s.slot.tail := by
    intro hh; rw [hh] at hf; rw [hf] at htail; cases htail
  simp only [h1, if_false, kzalloc_fresh _ _ ha hf, ha, hc, ite_self,
    (copy_from_user_ok e bytes len hcopy).1, store_head _ _ _ _ hf]
  simp [hcount, store, deref, h2, htail]

theorem write_store_nomem (e : Env) (nb : Nat) (bytes : List Nat) (len : Nat) (s : State)
    (hfit : len ≤ s.slot.max_msg_size)
    (hno : e.kzalloc_msg = 0 ∨ (deref s.heap e.kzalloc_msg).isSome ∨ e.kzalloc_content = false) :
    write_store e nb bytes len s =
      (Outcome.ret (if nb ≠ 0 then -EAGAIN else -ENOMEM), __mailslot_unlock s) := by
  unfold write_store
  have h1 : ¬ len > s.slot.max_msg_size := by omega
  by_cases hk : e.kzalloc_msg = 0 ∨ (deref s.heap e.kzalloc_msg).isSome
  · simp only [h1, if_false, kzalloc_fail _ _ hk]
    simp
  · have ha : e.kzalloc_msg ≠ 0 := fun hh => hk (Or.inl hh)
    have hf : deref s.heap e.kzalloc_msg = none := by
      cases hd : deref s.heap e.kzalloc_msg with
      | none => rfl
      | some v => exact absurd (Or.inr (by simp [hd])) hk
    have hc : e.kzalloc_content = false := by
      rcases hno with h | h | h
      · exact absurd h ha
      · simp [hf] at h
      · exact h
    simp only [h1, if_false, kzalloc_fresh _ _ ha hf, ha, hc, kfree_alloc _ _ _ _ hf]
    simp

theorem write_store_fault (e : Env) (nb : Nat) (bytes : List Nat) (len : Nat) (s : State)
    (hfit : len ≤ s.slot.max_msg_size)
    (ha : e.kzalloc_msg ≠ 0) (hf : deref s.heap e.kzalloc_msg = none)
    (hc : e.kzalloc_content = true) (hcopy : (copy_from_user e bytes len).1 ≠ 0) :
    write_store e nb bytes len s = (Outcome.ret (-EFAULT), __mailslot_unlock s) := by
  unfold write_store
  have h1 : ¬ len > s.slot.max_msg_size := by omega
  have h2 : (copy_from_user e bytes len).1 > 0 := by omega
  simp only [h1, if_false, kzalloc_fresh _ _ ha hf, ha, hc, ite_self, store_head _ _ _ _ hf]
  simp [h2, kfree_head _ _ _ hf, store_head _ _ _ _ hf]

/-- A writer that gets the free mutex of a slot that is not full goes on to the storing. -/
theorem mailslot_write_room (e : Env) (filp : file) (bytes : List Nat) (len : Nat) (s : State)
    (hfree : s.slot.mutex = none) (hcount : s.slot.msg_count ≠ MAILSLOT_STORAGE)
    (hlen : len ≠ 0) :
    mailslot_write e filp (some bytes) len s =
      write_store e (__get_blocking_policy filp) bytes len (mutex_set s (some e.current)) := by
  unfold mailslot_write write_acquire
  rcases policy_cases filp with hp | hp
  · simp [hp, hlen, BLOCKING, lock_free e 0 s hfree, write_locked, hcount, EINTR]
  · simp [hp, hlen, NONBLOCKING, lock_free e 1 s hfree, write_locked, hcount, EAGAIN]

theorem mailslot_write_held (e : Env) (filp : file) (bytes : List Nat) (len t : Nat) (s : State)
    (hheld : s.slot.mutex = some t) (hlen : len ≠ 0) :
    mailslot_write e filp (some bytes) len s =
      (if __get_blocking_policy filp ≠ 0 then Outcome.ret (-EAGAIN)
        else if e.signal then Outcome.ret (-EINTR) else Outcome.sleep Pc.lock, s) := by
  unfold mailslot_write write_acquire
  rcases policy_cases filp with hp | hp
  · by_cases hs : e.signal <;>
      simp [hp, hlen, BLOCKING, lock_held_b e t s hheld, hs]
  · simp [hp, hlen, NONBLOCKING, lock_held_nb e 1 t s (by decide) hheld]

theorem mailslot_write_full (e : Env) (filp : file) (bytes : List Nat) (len : Nat) (s : State)
    (hfree : s.slot.mutex = none) (hcount : s.slot.msg_count = MAILSLOT_STORAGE)
    (hlen : len ≠ 0) :
    mailslot_write e filp (some bytes) len s =
      (if __get_blocking_policy filp ≠ 0 then Outcome.ret (-EAGAIN)
        else if e.signal then Outcome.ret (-EINTR) else Outcome.sleep Pc.wait, s) := by
  have hc2 : (mutex_set s (some e.current)).slot.msg_count = MAILSLOT_STORAGE := hcount
  unfold mailslot_write write_acquire
  rcases policy_cases filp with hp | hp
  · simp [hp, hlen, BLOCKING, lock_free e 0 s hfree, write_locked_full e _ bytes len _ hc2,
      EINTR, unlock_lock s _ hfree]
  · simp [hp, hlen, NONBLOCKING, lock_free e 1 s hfree, write_locked_full e _ bytes len _ hc2,
      EAGAIN, unlock_lock s _ hfree]

/-! ### `mailslot_ioctl` -/

theorem ioctl_set_max_free (e : Env) (nb arg : Nat) (s : State) (hfree : s.slot.mutex = none) :
    ioctl_set_max e nb arg s =
      (Outcome.ret SUCCESS, { heap := s.heap, slot := { s.slot with max_msg_size := arg } }) := by
  unfold ioctl_set_max
  simp [lock_free e nb s hfree, EAGAIN, EINTR, __mailslot_unlock, mutex_unlock, mutex_set, hfree]

theorem ioctl_set_max_held (e : Env) (nb arg t : Nat) (s : State)
    (hheld : s.slot.mutex = some t) :
    ioctl_set_max e nb arg s =
      (if nb ≠ 0 then Outcome.ret (-EAGAIN)
        else if e.signal then Outcome.ret (-EINTR) else Outcome.sleep Pc.lock, s) := by
  unfold ioctl_set_max
  by_cases hnb : nb = 0
  · subst hnb
    by_cases hs : e.signal <;> simp [lock_held_b e t s hheld, hs]
  · simp [lock_held_nb e nb t s hnb hheld, hnb]

theorem write_store_stored (e : Env) (nb : Nat) (bytes : List Nat) (len : Nat) (s : State)
    (hfit : len ≤ s.slot.max_msg_size)
    (ha : e.kzalloc_msg ≠ 0) (hf : deref s.heap e.kzalloc_msg = none)
    (hc : e.kzalloc_content = true) (hcopy : (copy_from_user e bytes len).1 = 0) :
    (write_store e nb bytes len s).1 = Outcome.oops ∨
    (write_store e nb bytes len s).1 = Outcome.ret (ssize_t len) := by
  unfold write_store
  have h1 : ¬ len > s.slot.max_msg_size := by omega
  simp only [h1, if_false, kzalloc_fresh _ _ ha hf, ha, hc, ite_self,
    (copy_from_user_ok e bytes len hcopy).1, store_head _ _ _ _ hf, Bool.not_true,
    Bool.false_eq_true, gt_iff_lt, lt_self_iff_false]
  by_cases h0 : s.slot.msg_count = 0
  · simp [h0]
  · simp only [h0, if_false]
    split <;> simp

/-- Every way `write_store` can end, by the answers of the environment. -/
theorem write_store_cases (e : Env) (nb : Nat) (bytes : List Nat) (len : Nat) (s : State) :
    write_store e nb bytes len s = (Outcome.ret (-EPERM), __mailslot_unlock s) ∨
    write_store e nb bytes len s
      = (Outcome.ret (if nb ≠ 0 then -EAGAIN else -ENOMEM), __mailslot_unlock s) ∨
    write_store e nb bytes len s = (Outcome.ret (-EFAULT), __mailslot_unlock s) ∨
    (len ≤ s.slot.max_msg_size ∧
      ((write_store e nb bytes len s).1 = Outcome.oops ∨
       (write_store e nb bytes len s).1 = Outcome.ret (ssize_t len))) := by
  by_cases hbig : s.slot.max_msg_size < len
  · exact Or.inl (write_store_big e nb bytes len s hbig)
  · have hfit : len ≤ s.slot.max_msg_size := by omega
    by_cases hno : e.kzalloc_msg = 0 ∨ (deref s.heap e.kzalloc_msg).isSome ∨
        e.kzalloc_content = false
    · exact Or.inr (Or.inl (write_store_nomem e nb bytes len s hfit hno))
    · have ha : e.kzalloc_msg ≠ 0 := fun hh => hno (Or.inl hh)
      have hf : deref s.heap e.kzalloc_msg = none := by
        cases hd : deref s.heap e.kzalloc_msg with
        | none => rfl
        | some v => exact absurd (Or.inr (Or.inl (by simp [hd]))) hno
      have hc : e.kzalloc_content = true := by
        cases hcc : e.kzalloc_content with
        | true => rfl
        | false => exact absurd (Or.inr (Or.inr hcc)) hno
      by_cases hcopy : (copy_from_user e bytes len).1 = 0
      · exact Or.inr (Or.inr (Or.inr ⟨hfit, write_store_stored e nb bytes len s hfit ha hf hc hcopy⟩))
      · exact Or.inr (Or.inr (Or.inl (write_store_fault e nb bytes len s hfit ha hf hc hcopy)))

/-- Every way `read_deliver` can end. -/
theorem read_deliver_cases (e : Env) (nb len : Nat) (s : State) :
    read_deliver e nb len s = (Outcome.oops, [], s) ∨
    read_deliver e nb len s = (Outcome.ret (-EMSGSIZE), [], __mailslot_unlock s) ∨
    (∃ out, read_deliver e nb len s = (Outcome.ret (-EFAULT), out, __mailslot_unlock s)) ∨
    (∃ hd, deref s.heap s.slot.head = some hd ∧
      (read_deliver e nb len s).1 = Outcome.ret (ssize_t hd.length)) := by
  cases hh : deref s.heap s.slot.head with
  | none => exact Or.inl (read_deliver_dead e nb len s hh)
  | some hd =>
    by_cases hshort : len < hd.length
    · exact Or.inr (Or.inl (read_deliver_short e nb len s hd hh hshort))
    · by_cases hcopy : (copy_to_user e hd.content hd.length).1 = 0
      · refine Or.inr (Or.inr (Or.inr ⟨hd, rfl, ?_⟩))
        rw [read_deliver_ok e nb len s hd hh (by omega) hcopy]
      · exact Or.inr (Or.inr (Or.inl ⟨_, read_deliver_fault e nb len s hd hh (by omega) hcopy⟩))

theorem ssize_t_nonneg (n : Nat) (hn : n < 2 ^ 63) : 0 ≤ ssize_t n := by
  rw [ssize_t_small n hn]
  omega

theorem ioctl_codes :
    SET_BLOCKING = 19202 ∧ SET_NONBLOCKING = 19205 ∧ SET_MAXIMUM_MSG_SIZE = 1074023175 := by
  decide

/-- Every way `mailslot_ioctl` can end: a flag command, a rejected argument, an unknown command,
or the size command with an argument in range. -/
theorem mailslot_ioctl_cases (e : Env) (filp : file) (cmd arg : Nat) (s : State) :
    (∃ f2, mailslot_ioctl e filp cmd arg s = (Outcome.ret SUCCESS, f2, s)) ∨
    mailslot_ioctl e filp cmd arg s = (Outcome.ret (-EINVAL), filp, s) ∨
    mailslot_ioctl e filp cmd arg s = (Outcome.ret (-ENOTTY), filp, s) ∨
    (cmd = SET_MAXIMUM_MSG_SIZE ∧ 1 ≤ arg ∧ arg ≤ MAXIMUM_MESSAGE_SIZE ∧
      mailslot_ioctl e filp cmd arg s =
        ((ioctl_set_max e (__get_blocking_policy filp) arg s).1, filp,
          (ioctl_set_max e (__get_blocking_policy filp) arg s).2)) := by
  obtain ⟨c1, c2, c3⟩ := ioctl_codes
  unfold mailslot_ioctl
  rw [c1, c2, c3]
  by_cases h1 : cmd = 19202
  · left
    exact ⟨{ f_flags := filp.f_flags &&& (2 ^ 32 - 1 - O_NONBLOCK) }, by simp [h1]⟩
  by_cases h2 : cmd = 19205
  · left
    exact ⟨{ f_flags := filp.f_flags ||| O_NONBLOCK }, by simp [h2]⟩
  by_cases h3 : cmd = 1074023175
  · by_cases h4 : arg = 0 ∨ arg > MAXIMUM_MESSAGE_SIZE
    · right; left; simp [h3, h4]
    · right; right; right
      refine ⟨h3, by omega, by omega, ?_⟩
      simp [h3, h4]
  · right; right; left; simp [h1, h2, h3]

theorem mailslot_ioctl_set_max (e : Env) (filp : file) (arg : Nat) (s : State)
    (h1 : 1 ≤ arg) (h2 : arg ≤ MAXIMUM_MESSAGE_SIZE) :
    mailslot_ioctl e filp SET_MAXIMUM_MSG_SIZE arg s =
      ((ioctl_set_max e (__get_blocking_policy filp) arg s).1, filp,
        (ioctl_set_max e (__get_blocking_policy filp) arg s).2) := by
  obtain ⟨c1, c2, c3⟩ := ioctl_codes
  unfold mailslot_ioctl
  rw [c1, c2, c3]
  have h4 : ¬ (arg = 0 ∨ arg > MAXIMUM_MESSAGE_SIZE) := by omega
  simp [h4]

/-! ## The chain of queued records -/

theorem walk_zero (h : List (Nat × message)) (p : Nat) : walk h 0 p = some [] := rfl

theorem walk_step (h : List (Nat × message)) (n p : Nat) :
    walk h (n + 1) p =
      match deref h p with
      | none => none
      | some m =>
        match walk h n m.next with
        | none => none
        | some r => some (p :: r) := rfl

theorem walk_succ (h : List (Nat × message)) (n p : Nat) (as : List Nat) :
    walk h (n + 1) p = some as ↔
      ∃ m r, deref h p = some m ∧ walk h n m.next = some r ∧ as = p :: r := by
  rw [walk_step]
  cases hd : deref h p with
  | none => simp
  | some m =>
    cases hw : walk h n m.next with
    | none => simp [hw]
    | some r =>
      simp only [hw]
      constructor
      · intro hh
        simp only [Option.some.injEq] at hh
        exact ⟨m, r, rfl, hw, hh.symm⟩
      · rintro ⟨m2, r2, h1, h2, h3⟩
        cases h1
        rw [hw] at h2
        cases h2
        simp [h3]

theorem walk_length (h : List (Nat × message)) :
    ∀ (n p : Nat) (as : List Nat), walk h n p = some as → as.length = n := by
  intro n
  induction n with
  | zero => intro p as hw; simp [walk] at hw; simp [← hw]
  | succ n ih =>
    intro p as hw
    obtain ⟨m, r, _, hr, has⟩ := (walk_succ h n p as).mp hw
    subst has
    simp [ih _ _ hr]

theorem walk_congr (h h2 : List (Nat × message)) :
    ∀ (n p : Nat) (as : List Nat), walk h n p = some as →
      (∀ a ∈ as, deref h2 a = deref h a) → walk h2 n p = some as := by
  intro n
  induction n with
  | zero => intro p as hw _; simpa [walk] using hw
  | succ n ih =>
    intro p as hw hsame
    obtain ⟨m, r, hm, hr, has⟩ := (walk_succ h n p as).mp hw
    subst has
    refine (walk_succ h2 n p _).mpr ⟨m, r, ?_, ?_, rfl⟩
    · rw [hsame p (by simp)]; exact hm
    · exact ih _ _ hr (fun a ha => hsame a (by simp [ha]))

theorem walk_live (h : List (Nat × message)) :
    ∀ (n p : Nat) (as : List Nat), walk h n p = some as →
      ∀ a ∈ as, (deref h a).isSome := by
  intro n
  induction n with
  | zero => intro p as hw a ha; simp [walk] at hw; subst hw; simp at ha
  | succ n ih =>
    intro p as hw a ha
    obtain ⟨m, r, hm, hr, has⟩ := (walk_succ h n p as).mp hw
    subst has
    rcases List.mem_cons.mp ha with h1 | h1
    · subst h1; simp [hm]
    · exact ih _ _ hr a h1

theorem walk_snoc (h h2 : List (Nat × message)) (t a : Nat) (tl v : message)
    (ht : deref h t = some tl)
    (ht2 : deref h2 t = some { tl with next := a }) (ha2 : deref h2 a = some v)
    (hsame : ∀ x, x ≠ t → x ≠ a → deref h2 x = deref h x) (hfresh : deref h a = none) :
    ∀ (n p : Nat) (as : List Nat), walk h n p = some as → as.Nodup →
      as.getLast? = some t → walk h2 (n + 1) p = some (as ++ [a]) := by
  intro n
  induction n with
  | zero =>
    intro p as hw _ hl
    simp [walk] at hw; subst hw; simp at hl
  | succ n ih =>
    intro p as hw hnd hl
    obtain ⟨m, r, hm, hr, has⟩ := (walk_succ h n p as).mp hw
    subst has
    cases r with
    | nil =>
      have hn : n = 0 := by simpa using (walk_length h _ _ _ hr).symm
      subst hn
      simp at hl
      subst hl
      refine (walk_succ h2 1 p _).mpr ⟨_, [a], ht2, ?_, rfl⟩
      exact (walk_succ h2 0 a _).mpr ⟨v, [], ha2, rfl, rfl⟩
    | cons q r2 =>
      have hl2 : (q :: r2).getLast? = some t := by
        simpa [List.getLast?_cons_cons] using hl
      have hnd2 : (q :: r2).Nodup := (List.nodup_cons.mp hnd).2
      have htmem : t ∈ q :: r2 := List.mem_of_getLast?_eq_some hl2
      have hpt : p ≠ t := by
        intro hh; subst hh
        exact (List.nodup_cons.mp hnd).1 htmem
      have hpa : p ≠ a := by
        intro hh; subst hh
        rw [hfresh] at hm; cases hm
      refine (walk_succ h2 (n + 1) p _).mpr ⟨m, (q :: r2) ++ [a], ?_, ?_, rfl⟩
      · rw [hsame p hpt hpa]; exact hm
      · exact ih _ _ hr hnd2 hl2


/-! ## Well-formed slots -/

theorem Linked.count_eq {s : State} {as : List Nat} (hl : Linked s as) :
    (as.length : Int) = s.slot.msg_count ∨ (s.slot.msg_count < 0 ∧ as = []) := by
  have h := walk_length _ _ _ _ hl.walk_eq
  by_cases hc : 0 ≤ s.slot.msg_count
  · left; rw [h]; exact Int.toNat_of_nonneg hc
  · right
    have h0 : s.slot.msg_count.toNat = 0 := by omega
    rw [h0] at h
    exact ⟨by omega, List.length_eq_zero.mp h⟩

theorem WF.chain_length {s : State} {as : List Nat} (hwf : WF s) (hl : Linked s as) :
    (as.length : Int) = s.slot.msg_count := by
  rcases hl.count_eq with h | ⟨h, _⟩
  · exact h
  · exact absurd hwf.count_nonneg (by omega)

/-- A well-formed slot that is not empty starts with a live head, followed by the rest of the
chain. -/
theorem WF.head_live {s : State} {as : List Nat} (hwf : WF s) (hl : Linked s as)
    (hc : s.slot.msg_count ≠ 0) :
    ∃ hd r, as = s.slot.head :: r ∧ deref s.heap s.slot.head = some hd ∧
      walk s.heap r.length hd.next = some r ∧ ((r.length : Int) + 1 = s.slot.msg_count) := by
  have hlen := hwf.chain_length hl
  have hpos := hwf.count_nonneg
  have hw := hl.walk_eq
  unfold chain at hw
  obtain ⟨n, hn⟩ : ∃ n, s.slot.msg_count.toNat = n + 1 := ⟨s.slot.msg_count.toNat - 1, by omega⟩
  rw [hn] at hw
  obtain ⟨m, r, hm, hr, has⟩ := (walk_succ _ _ _ _).mp hw
  have hrl := walk_length _ _ _ _ hr
  refine ⟨m, r, has, hm, ?_, ?_⟩
  · rw [hrl]; exact hr
  · subst has; simp at hlen; omega

theorem WF.tail_live {s : State} (hwf : WF s) (hc : s.slot.msg_count ≠ 0) :
    ∃ tl, deref s.heap s.slot.tail = some tl ∧ tl.next = 0 := by
  obtain ⟨as, hl⟩ := hwf.linked
  obtain ⟨hd, r, has, _, _, _⟩ := hwf.head_live hl hc
  rcases hl.last with h | ⟨_, h⟩
  · rw [h] at has; cases has
  · exact h

theorem WF.congr {s s2 : State} (hwf : WF s) (h0 : s2.heap = s.heap)
    (h1 : s2.slot.head = s.slot.head) (h2 : s2.slot.tail = s.slot.tail)
    (h3 : s2.slot.max_msg_size = s.slot.max_msg_size)
    (h4 : s2.slot.msg_count = s.slot.msg_count) : WF s2 := by
  obtain ⟨as, hl⟩ := hwf.linked
  refine ⟨by rw [h4]; exact hwf.count_nonneg, by rw [h4]; exact hwf.count_le,
    by rw [h3]; exact hwf.max_pos, by rw [h3]; exact hwf.max_le,
    by rw [h0]; exact hwf.null_dead, by rw [h1, h2]; exact hwf.ends, as, ?_⟩
  refine ⟨?_, hl.nodup, by rw [h0]; exact hl.only, by rw [h0]; exact hl.sized,
    by rw [h0, h2]; exact hl.last⟩
  have := hl.walk_eq
  unfold chain at this ⊢
  rw [h0, h1, h4]; exact this

theorem WF.mutex_set {s : State} (hwf : WF s) (o : Option Nat) : WF (mutex_set s o) :=
  hwf.congr rfl rfl rfl rfl rfl

theorem WF.unlock {s : State} (hwf : WF s) : WF (__mailslot_unlock s) :=
  hwf.congr rfl rfl rfl rfl rfl

theorem WF.init : WF init_module := by
  refine ⟨by decide, by decide, by decide, by decide, rfl, by decide, [], ?_⟩
  refine ⟨rfl, List.nodup_nil, ?_, by simp, Or.inl rfl⟩
  intro a m h
  simp [init_module, deref] at h

theorem WF.set_max {s : State} (hwf : WF s) (arg : Nat) (h1 : 1 ≤ arg)
    (h2 : arg ≤ MAXIMUM_MESSAGE_SIZE) :
    WF { heap := s.heap, slot := { s.slot with max_msg_size := arg } } := by
  obtain ⟨as, hl⟩ := hwf.linked
  exact ⟨hwf.count_nonneg, hwf.count_le, h1, h2, hwf.null_dead, hwf.ends, as,
    ⟨hl.walk_eq, hl.nodup, hl.only, hl.sized, hl.last⟩⟩

/-- Unlinking and freeing the head message (lines 258-266) keeps the slot well-formed. -/
theorem WF.pop {s : State} (hwf : WF s) (hd : message) (hc : s.slot.msg_count ≠ 0)
    (hhd : deref s.heap s.slot.head = some hd) :
    WF { heap := kfree s.heap s.slot.head,
         slot := { s.slot with
           head := if s.slot.msg_count > 1 then hd.next else s.slot.head,
           msg_count := s.slot.msg_count - 1 } } := by
  obtain ⟨as, hl⟩ := hwf.linked
  obtain ⟨hd2, r, has, hm, hr, hlen⟩ := hwf.head_live hl hc
  rw [hhd] at hm; cases hm
  subst has
  have hnd := List.nodup_cons.mp hl.nodup
  have hpos := hwf.count_nonneg
  have hle := hwf.count_le
  have hsame : ∀ a ∈ r, deref (kfree s.heap s.slot.head) a = deref s.heap a := by
    intro a ha
    rw [deref_kfree]
    have : a ≠ s.slot.head := fun hh => hnd.1 (hh ▸ ha)
    simp [this]
  have hhead0 : s.slot.head ≠ 0 := by
    intro hh; rw [hh] at hhd; rw [hwf.null_dead] at hhd; cases hhd
  have htail0 : s.slot.tail ≠ 0 := fun hh => hhead0 (hwf.ends.mpr hh)
  refine ⟨by simp only; omega, by simp only; omega, hwf.max_pos, hwf.max_le, ?_, ?_, r, ?_⟩
  · simp only [deref_kfree]; split
    · rfl
    · exact hwf.null_dead
  · simp only
    constructor
    · intro hh
      exfalso
      by_cases h1 : s.slot.msg_count > 1
      · simp only [h1, if_true] at hh
        cases r with
        | nil => simp at hlen; omega
        | cons q r2 =>
          obtain ⟨m3, _, hm3, _, hq⟩ := (walk_succ _ _ _ _).mp hr
          simp only [List.cons.injEq] at hq
          rw [hh] at hm3; rw [hwf.null_dead] at hm3; cases hm3
      · simp only [h1, if_false] at hh
        exact hhead0 hh
    · intro hh; exact absurd hh htail0
  · refine ⟨?_, hnd.2, ?_, ?_, ?_⟩
    · unfold chain
      simp only
      have hcnt : (s.slot.msg_count - 1).toNat = r.length := by omega
      rw [hcnt]
      by_cases h1 : s.slot.msg_count > 1
      · simp only [h1, if_true]
        exact walk_congr _ _ _ _ _ hr hsame
      · have : r.length = 0 := by omega
        rw [this, List.length_eq_zero.mp this]
        rfl
    · intro a m ha
      simp only [deref_kfree] at ha
      split at ha
      · cases ha
      · rename_i hne
        rcases List.mem_cons.mp (hl.only a m ha) with h | h
        · exact absurd h hne
        · exact h
    · intro a ha
      simp only
      rw [hsame a ha]
      exact hl.sized a (by simp [ha])
    · cases r with
      | nil => exact Or.inl rfl
      | cons q r2 =>
        right
        rcases hl.last with h | ⟨h1, h2⟩
        · cases h
        · have h3 : (q :: r2).getLast? = some s.slot.tail := by
            simpa [List.getLast?_cons_cons] using h1
          refine ⟨h3, ?_⟩
          simp only
          rw [hsame _ (List.mem_of_getLast?_eq_some h3)]
          exact h2


/-- Linking the first message of an empty slot (lines 362-369) keeps the slot well-formed. -/
theorem WF.push_first {s : State} (hwf : WF s) (a : Nat) (content : List Nat) (len : Nat)
    (hc : s.slot.msg_count = 0) (ha : a ≠ 0) (hf : deref s.heap a = none)
    (hcl : content.length = len) (h1 : 1 ≤ len) (h2 : len ≤ MAXIMUM_MESSAGE_SIZE) :
    WF { heap := (a, ⟨content, len, 0⟩) :: s.heap,
         slot := { s.slot with head := a, tail := a, msg_count := s.slot.msg_count + 1 } } := by
  obtain ⟨as, hl⟩ := hwf.linked
  have hlen := hwf.chain_length hl
  have has : as = [] := by
    rw [hc] at hlen
    exact List.length_eq_zero.mp (by exact_mod_cast hlen)
  subst has
  have hdead : ∀ x, deref s.heap x = none := by
    intro x
    cases hx : deref s.heap x with
    | none => rfl
    | some m => exact absurd (hl.only x m hx) (by simp)
  refine ⟨by simp only; omega, by simp only [hc]; decide, hwf.max_pos, hwf.max_le, ?_, ?_,
    [a], ?_⟩
  · simp only [deref]
    rw [if_neg ha]; exact hwf.null_dead
  · simp only
  · refine ⟨?_, List.nodup_singleton a, ?_, ?_, ?_⟩
    · unfold chain
      simp only [hc]
      exact (walk_succ _ 0 a _).mpr ⟨⟨content, len, 0⟩, [], by simp [deref], rfl, rfl⟩
    · intro x m hx
      simp only [deref] at hx
      split at hx
      · rename_i h; simp [h]
      · rw [hdead x] at hx; cases hx
    · intro x hx
      simp only [List.mem_singleton] at hx
      subst hx
      exact ⟨⟨content, len, 0⟩, by simp [deref], hcl, h1, h2⟩
    · right
      exact ⟨rfl, ⟨content, len, 0⟩, by simp [deref], rfl⟩

/-- Linking a further message behind the tail (lines 362-369) keeps the slot well-formed. -/
theorem WF.push_next {s : State} (hwf : WF s) (a : Nat) (content : List Nat) (len : Nat)
    (tl : message) (hc : s.slot.msg_count ≠ 0) (hroom : s.slot.msg_count ≠ MAILSLOT_STORAGE)
    (ha : a ≠ 0) (hf : deref s.heap a = none) (htl : deref s.heap s.slot.tail = some tl)
    (hcl : content.length = len) (h1 : 1 ≤ len) (h2 : len ≤ MAXIMUM_MESSAGE_SIZE) :
    WF { heap := (a, ⟨content, len, 0⟩) :: store s.heap s.slot.tail { tl with next := a },
         slot := { s.slot with tail := a, msg_count := s.slot.msg_count + 1 } } := by
  obtain ⟨as, hl⟩ := hwf.linked
  obtain ⟨hd, r, has, hm, hr, hlen⟩ := hwf.head_live hl hc
  have hpos := hwf.count_nonneg
  have hle := hwf.count_le
  have hlast : as.getLast? = some s.slot.tail := by
    rcases hl.last with h | ⟨h, _⟩
    · rw [h] at has; cases has
    · exact h
  have hta : s.slot.tail ≠ a := by
    intro hh; rw [hh] at htl; rw [hf] at htl; cases htl
  have hhead0 : s.slot.head ≠ 0 := by
    intro hh; rw [hh] at hm; rw [hwf.null_dead] at hm; cases hm
  have hnew : ∀ x, deref ((a, (⟨content, len, 0⟩ : message)) ::
      store s.heap s.slot.tail { tl with next := a }) x =
      if x = a then some ⟨content, len, 0⟩
      else if x = s.slot.tail then some { tl with next := a } else deref s.heap x := by
    intro x
    simp only [deref, deref_store, htl, Option.map_some']
    by_cases hxa : x = a
    · simp [hxa]
    · have : ¬ a = x := fun hh => hxa hh.symm
      simp [hxa, this]
  have hanot : a ∉ as := by
    intro hmem
    have := walk_live _ _ _ _ hl.walk_eq a hmem
    rw [hf] at this; cases this
  refine ⟨by simp only; omega, ?_, hwf.max_pos, hwf.max_le, ?_, ?_, as ++ [a], ?_⟩
  · simp only
    have : s.slot.msg_count ≤ MAILSLOT_STORAGE := hle
    unfold MAILSLOT_STORAGE at this hroom ⊢
    omega
  · rw [hnew]
    have h0a : ¬ (0 = a) := fun hh => ha hh.symm
    have h0t : ¬ (0 = s.slot.tail) := by
      intro hh; rw [← hh] at htl; rw [hwf.null_dead] at htl; cases htl
    simp only [h0a, h0t, if_false]
    exact hwf.null_dead
  · simp only
    constructor
    · intro hh; exact absurd hh hhead0
    · intro hh; exact absurd hh ha
  · refine ⟨?_, ?_, ?_, ?_, ?_⟩
    · unfold chain
      simp only
      have hcnt : (s.slot.msg_count + 1).toNat = s.slot.msg_count.toNat + 1 := by omega
      rw [hcnt]
      have hw := hl.walk_eq
      unfold chain at hw
      refine walk_snoc s.heap _ s.slot.tail a tl ⟨content, len, 0⟩ htl ?_ ?_ ?_ hf _ _ _ hw
        hl.nodup hlast
      · rw [hnew]; simp [hta]
      · rw [hnew]; simp
      · intro x hxt hxa
        rw [hnew]; simp [hxt, hxa]
    · exact List.nodup_append.mpr ⟨hl.nodup, List.nodup_singleton a, by
        intro x hx hx2
        simp only [List.mem_singleton] at hx2
        subst hx2
        exact hanot hx⟩
    · intro x m hx
      rw [hnew] at hx
      by_cases hxa : x = a
      · simp [hxa]
      · simp only [hxa, if_false] at hx
        by_cases hxt : x = s.slot.tail
        · subst hxt
          simp [List.mem_of_getLast?_eq_some hlast]
        · simp only [hxt, if_false] at hx
          simp [hl.only x m hx]
    · intro x hx
      rw [hnew]
      by_cases hxa : x = a
      · simp only [hxa, if_true]
        exact ⟨_, rfl, hcl, h1, h2⟩
      · simp only [hxa, if_false]
        have hxas : x ∈ as := by
          rcases List.mem_append.mp hx with h | h
          · exact h
          · simp only [List.mem_singleton] at h; exact absurd h hxa
        by_cases hxt : x = s.slot.tail
        · simp only [hxt, if_true]
          obtain ⟨m, hm1, hm2, hm3, hm4⟩ := hl.sized _ (hxt ▸ hxas)
          rw [htl] at hm1; cases hm1
          exact ⟨_, rfl, hm2, hm3, hm4⟩
        · simp only [hxt, if_false]
          exact hl.sized x hxas
    · right
      refine ⟨by simp, ⟨content, len, 0⟩, ?_, rfl⟩
      simp only
      rw [hnew]; simp

/-! ## What one piece of a call does to a well-formed slot -/

theorem success_ret (v : Int) : (Outcome.ret v).success = decide (0 ≤ v) := rfl

theorem success_sleep (pc : Pc) : (Outcome.sleep pc).success = false := rfl

/-- The delivery on a well-formed, non-empty slot whose mutex the caller has just taken: the slot
stays well-formed, no dead address is touched, the mutex is released, and `msg_count` drops by one
exactly when the call succeeds. -/
theorem read_deliver_inv (e : Env) (nb len c : Nat) (s : State) (hwf : WF s)
    (hc : s.slot.msg_count ≠ 0) :
    WF (read_deliver e nb len (mutex_set s (some c))).2.2 ∧
    (read_deliver e nb len (mutex_set s (some c))).1 ≠ Outcome.oops ∧
    (read_deliver e nb len (mutex_set s (some c))).2.2.slot.mutex = none ∧
    ((read_deliver e nb len (mutex_set s (some c))).1.success = true →
      (read_deliver e nb len (mutex_set s (some c))).2.2.slot.msg_count
        = s.slot.msg_count - 1) ∧
    ((read_deliver e nb len (mutex_set s (some c))).1.success = false →
      (read_deliver e nb len (mutex_set s (some c))).2.2.slot.msg_count
        = s.slot.msg_count) := by
  obtain ⟨as, hl⟩ := hwf.linked
  obtain ⟨hd, r, has, hm, _, _⟩ := hwf.head_live hl hc
  obtain ⟨m2, hm2, _, _, hsz⟩ := hl.sized s.slot.head (by rw [has]; simp)
  rw [hm] at hm2; cases hm2
  have hwf1 : WF (mutex_set s (some c)) := hwf.mutex_set _
  have hm1 : deref (mutex_set s (some c)).heap (mutex_set s (some c)).slot.head = some hd := hm
  have hsmall : hd.length < 2 ^ 63 := by
    unfold MAXIMUM_MESSAGE_SIZE at hsz; omega
  by_cases hshort : len < hd.length
  · rw [read_deliver_short e nb len _ hd hm1 hshort]
    exact ⟨hwf1.unlock, by simp, rfl, by simp [success_ret, EMSGSIZE], fun _ => rfl⟩
  · by_cases hcopy : (copy_to_user e hd.content hd.length).1 = 0
    · rw [read_deliver_ok e nb len _ hd hm1 (by omega) hcopy, ssize_t_small _ hsmall]
      refine ⟨(hwf1.pop hd hc hm1).unlock, by simp, rfl, fun _ => rfl, ?_⟩
      intro hh
      simp [success_ret] at hh
    · rw [read_deliver_fault e nb len _ hd hm1 (by omega) hcopy]
      exact ⟨hwf1.unlock, by simp, rfl, by simp [success_ret, EFAULT], fun _ => rfl⟩

/-- The storing on a well-formed slot with room whose mutex the caller has just taken: the slot
stays well-formed, no dead address is touched, the mutex is released, and `msg_count` grows by one
exactly when the call succeeds. -/
theorem write_store_inv (e : Env) (nb : Nat) (bytes : List Nat) (len c : Nat) (s : State)
    (hwf : WF s) (hc : s.slot.msg_count ≠ MAILSLOT_STORAGE) (hlen : len ≠ 0) :
    WF (write_store e nb bytes len (mutex_set s (some c))).2 ∧
    (write_store e nb bytes len (mutex_set s (some c))).1 ≠ Outcome.oops ∧
    (write_store e nb bytes len (mutex_set s (some c))).2.slot.mutex = none ∧
    ((write_store e nb bytes len (mutex_set s (some c))).1.success = true →
      (write_store e nb bytes len (mutex_set s (some c))).2.slot.msg_count
        = s.slot.msg_count + 1) ∧
    ((write_store e nb bytes len (mutex_set s (some c))).1.success = false →
      (write_store e nb bytes len (mutex_set s (some c))).2.slot.msg_count
        = s.slot.msg_count) := by
  have hwf1 : WF (mutex_set s (some c)) := hwf.mutex_set _
  have hmax := hwf.max_le
  by_cases hbig : s.slot.max_msg_size < len
  · rw [write_store_big e nb bytes len (mutex_set s (some c)) hbig]
    exact ⟨hwf1.unlock, by simp, rfl, by simp [success_ret, EPERM], fun _ => rfl⟩
  have hfit : len ≤ (mutex_set s (some c)).slot.max_msg_size := by
    simp only [mutex_set_max]; omega
  by_cases hno : e.kzalloc_msg = 0 ∨ (deref s.heap e.kzalloc_msg).isSome ∨
      e.kzalloc_content = false
  · rw [write_store_nomem e nb bytes len (mutex_set s (some c)) hfit hno]
    refine ⟨hwf1.unlock, by simp, rfl, ?_, fun _ => rfl⟩
    by_cases hnb : nb = 0 <;> simp [success_ret, hnb, EAGAIN, ENOMEM]
  have ha : e.kzalloc_msg ≠ 0 := fun hh => hno (Or.inl hh)
  have hf : deref s.heap e.kzalloc_msg = none := by
    cases hd : deref s.heap e.kzalloc_msg with
    | none => rfl
    | some v => exact absurd (Or.inr (Or.inl (by simp [hd]))) hno
  have hcc : e.kzalloc_content = true := by
    cases hcc : e.kzalloc_content with
    | true => rfl
    | false => exact absurd (Or.inr (Or.inr hcc)) hno
  by_cases hcopy : (copy_from_user e bytes len).1 = 0
  · have hsmall : len < 2 ^ 63 := by
      unfold MAXIMUM_MESSAGE_SIZE at hmax
      simp only [mutex_set_max] at hfit
      omega
    have hlen2 : len ≤ MAXIMUM_MESSAGE_SIZE := by
      simp only [mutex_set_max] at hfit
      omega
    have hcl : (bytes.take len).length = len := by
      rw [List.length_take]
      exact Nat.min_eq_left (copy_from_user_ok e bytes len hcopy).2
    by_cases h0 : s.slot.msg_count = 0
    · rw [write_store_first e nb bytes len (mutex_set s (some c)) hfit ha hf hcc hcopy h0,
        ssize_t_small _ hsmall]
      refine ⟨(hwf1.push_first _ _ len h0 ha hf hcl (by omega) hlen2).unlock, by simp, rfl,
        fun _ => rfl, ?_⟩
      intro hh
      simp [success_ret] at hh
    · obtain ⟨tl, htl, _⟩ := hwf.tail_live h0
      rw [write_store_next e nb bytes len (mutex_set s (some c)) tl hfit ha hf hcc hcopy h0 htl,
        ssize_t_small _ hsmall]
      refine ⟨(hwf1.push_next _ _ len tl h0 hc ha hf htl hcl (by omega) hlen2).unlock, by simp,
        rfl, fun _ => rfl, ?_⟩
      intro hh
      simp [success_ret] at hh
  · rw [write_store_fault e nb bytes len (mutex_set s (some c)) hfit ha hf hcc hcopy]
    exact ⟨hwf1.unlock, by simp, rfl, by simp [success_ret, EFAULT], fun _ => rfl⟩


theorem Effect.same {s : State} (hwf : WF s) (delta : Int) (o : Outcome)
    (h1 : o.success = false) (h2 : o ≠ Outcome.oops) : Effect delta s o s := by
  refine ⟨hwf, h2, rfl, ?_, fun _ => rfl⟩
  intro h
  rw [h1] at h
  cases h

theorem read_acquire_held (e : Env) (len t : Nat) (s : State) (hheld : s.slot.mutex = some t) :
    read_acquire e len s =
      (if e.signal then Outcome.ret (-EINTR) else Outcome.sleep Pc.lock, [], s) := by
  unfold read_acquire
  by_cases hs : e.signal <;> simp [BLOCKING, lock_held_b e t s hheld, hs]

theorem read_acquire_empty (e : Env) (len : Nat) (s : State) (hfree : s.slot.mutex = none)
    (hcount : s.slot.msg_count = 0) :
    read_acquire e len s =
      (if e.signal then Outcome.ret (-EINTR) else Outcome.sleep Pc.wait, [], s) := by
  have hc2 : (mutex_set s (some e.current)).slot.msg_count = 0 := hcount
  unfold read_acquire
  simp [BLOCKING, lock_free e 0 s hfree, read_locked_empty e _ len _ hc2, EINTR,
    unlock_lock s _ hfree]

theorem read_acquire_live (e : Env) (len : Nat) (s : State) (hfree : s.slot.mutex = none)
    (hcount : s.slot.msg_count ≠ 0) :
    read_acquire e len s = read_deliver e 0 len (mutex_set s (some e.current)) := by
  unfold read_acquire
  simp [BLOCKING, lock_free e 0 s hfree, read_locked, hcount, EINTR]

theorem write_acquire_held (e : Env) (bytes : List Nat) (len t : Nat) (s : State)
    (hheld : s.slot.mutex = some t) :
    write_acquire e bytes len s =
      (if e.signal then Outcome.ret (-EINTR) else Outcome.sleep Pc.lock, s) := by
  unfold write_acquire
  by_cases hs : e.signal <;> simp [BLOCKING, lock_held_b e t s hheld, hs]

theorem write_acquire_full (e : Env) (bytes : List Nat) (len : Nat) (s : State)
    (hfree : s.slot.mutex = none) (hcount : s.slot.msg_count = MAILSLOT_STORAGE) :
    write_acquire e bytes len s =
      (if e.signal then Outcome.ret (-EINTR) else Outcome.sleep Pc.wait, s) := by
  have hc2 : (mutex_set s (some e.current)).slot.msg_count = MAILSLOT_STORAGE := hcount
  unfold write_acquire
  simp [BLOCKING, lock_free e 0 s hfree, write_locked_full e _ bytes len _ hc2, EINTR,
    unlock_lock s _ hfree]

theorem write_acquire_room (e : Env) (bytes : List Nat) (len : Nat) (s : State)
    (hfree : s.slot.mutex = none) (hcount : s.slot.msg_count ≠ MAILSLOT_STORAGE) :
    write_acquire e bytes len s = write_store e 0 bytes len (mutex_set s (some e.current)) := by
  unfold write_acquire
  simp [BLOCKING, lock_free e 0 s hfree, write_locked, hcount, EINTR]

theorem read_deliver_effect (e : Env) (nb len c : Nat) (s : State) (hwf : WF s)
    (hfree : s.slot.mutex = none) (hc : s.slot.msg_count ≠ 0) :
    Effect (-1) s (read_deliver e nb len (mutex_set s (some c))).1
      (read_deliver e nb len (mutex_set s (some c))).2.2 := by
  obtain ⟨h1, h2, h3, h4, h5⟩ := read_deliver_inv e nb len c s hwf hc
  exact ⟨h1, h2, by rw [h3, hfree], fun h => by rw [h4 h]; rfl, h5⟩

theorem write_store_effect (e : Env) (nb : Nat) (bytes : List Nat) (len c : Nat) (s : State)
    (hwf : WF s) (hfree : s.slot.mutex = none) (hc : s.slot.msg_count ≠ MAILSLOT_STORAGE)
    (hlen : len ≠ 0) :
    Effect 1 s (write_store e nb bytes len (mutex_set s (some c))).1
      (write_store e nb bytes len (mutex_set s (some c))).2 := by
  obtain ⟨h1, h2, h3, h4, h5⟩ := write_store_inv e nb bytes len c s hwf hc hlen
  exact ⟨h1, h2, by rw [h3, hfree], h4, h5⟩

theorem read_acquire_effect (e : Env) (len : Nat) (s : State) (hwf : WF s) :
    Effect (-1) s (read_acquire e len s).1 (read_acquire e len s).2.2 := by
  cases hm : s.slot.mutex with
  | some t =>
    rw [read_acquire_held e len t s hm]
    by_cases hs : e.signal <;>
      exact Effect.same hwf _ _ (by simp [hs, success_ret, success_sleep, EINTR]) (by simp [hs])
  | none =>
    by_cases hc : s.slot.msg_count = 0
    · rw [read_acquire_empty e len s hm hc]
      by_cases hs : e.signal <;>
        exact Effect.same hwf _ _ (by simp [hs, success_ret, success_sleep, EINTR])
          (by simp [hs])
    · rw [read_acquire_live e len s hm hc]
      exact read_deliver_effect e 0 len _ s hwf hm hc

theorem read_wake_effect (e : Env) (len : Nat) (s : State) (hwf : WF s) :
    Effect (-1) s (read_wake e len s).1 (read_wake e len s).2.2 := by
  unfold read_wake wait_event_interruptible_exclusive
  by_cases hc : s.slot.msg_count > 0
  · simp only [hc, decide_True, if_true, ne_eq, not_true_eq_false, if_false]
    exact read_acquire_effect e len s hwf
  · by_cases hs : e.signal
    · simp only [hc, decide_False, hs, if_true]
      exact Effect.same hwf _ _ (by simp [success_ret, EINTR, ERESTARTSYS])
        (by simp [ERESTARTSYS])
    · simp only [hc, decide_False, hs]
      exact Effect.same hwf _ _ rfl (by simp)

theorem mailslot_read_effect (e : Env) (filp : file) (buff len : Nat) (s : State)
    (hwf : WF s) :
    Effect (-1) s (mailslot_read e filp buff len s).1 (mailslot_read e filp buff len s).2.2 := by
  by_cases hlen : len = 0
  · subst hlen
    simp only [mailslot_read, if_true]
    exact Effect.same hwf _ _ (by simp [success_ret, EINVAL]) (by simp)
  by_cases hbuff : buff = 0
  · subst hbuff
    simp only [mailslot_read, hlen, if_true, if_false]
    exact Effect.same hwf _ _ (by simp [success_ret, EINVAL]) (by simp)
  cases hm : s.slot.mutex with
  | some t =>
    rw [mailslot_read_held e filp buff len t s hm hbuff hlen]
    refine Effect.same hwf _ _ ?_ ?_
    · by_cases hp : __get_blocking_policy filp = 0 <;> by_cases hs : e.signal <;>
        simp [hp, hs, success_ret, success_sleep, EINTR, EAGAIN]
    · by_cases hp : __get_blocking_policy filp = 0 <;> by_cases hs : e.signal <;>
        simp [hp, hs]
  | none =>
    by_cases hc : s.slot.msg_count = 0
    · rw [mailslot_read_empty e filp buff len s hm hc hbuff hlen]
      refine Effect.same hwf _ _ ?_ ?_
      · by_cases hp : __get_blocking_policy filp = 0 <;> by_cases hs : e.signal <;>
          simp [hp, hs, success_ret, success_sleep, EINTR, EAGAIN]
      · by_cases hp : __get_blocking_policy filp = 0 <;> by_cases hs : e.signal <;>
          simp [hp, hs]
    · rw [mailslot_read_live e filp buff len s hm hc hbuff hlen]
      exact read_deliver_effect e _ len _ s hwf hm hc

theorem write_acquire_effect (e : Env) (bytes : List Nat) (len : Nat) (s : State)
    (hwf : WF s) (hlen : len ≠ 0) :
    Effect 1 s (write_acquire e bytes len s).1 (write_acquire e bytes len s).2 := by
  cases hm : s.slot.mutex with
  | some t =>
    rw [write_acquire_held e bytes len t s hm]
    by_cases hs : e.signal <;>
      exact Effect.same hwf _ _ (by simp [hs, success_ret, success_sleep, EINTR]) (by simp [hs])
  | none =>
    by_cases hc : s.slot.msg_count = MAILSLOT_STORAGE
    · rw [write_acquire_full e bytes len s hm hc]
      by_cases hs : e.signal <;>
        exact Effect.same hwf _ _ (by simp [hs, success_ret, success_sleep, EINTR])
          (by simp [hs])
    · rw [write_acquire_room e bytes len s hm hc]
      exact write_store_effect e 0 bytes len _ s hwf hm hc hlen

theorem write_wake_effect (e : Env) (bytes : List Nat) (len : Nat) (s : State)
    (hwf : WF s) (hlen : len ≠ 0) :
    Effect 1 s (write_wake e bytes len s).1 (write_wake e bytes len s).2 := by
  unfold write_wake wait_event_interruptible_exclusive
  by_cases hc : s.slot.msg_count < MAILSLOT_STORAGE
  · simp only [hc, decide_True, if_true, ne_eq, not_true_eq_false, if_false]
    exact write_acquire_effect e bytes len s hwf hlen
  · by_cases hs : e.signal
    · simp only [hc, decide_False, hs, if_true]
      exact Effect.same hwf _ _ (by simp [success_ret, EINTR, ERESTARTSYS])
        (by simp [ERESTARTSYS])
    · simp only [hc, decide_False, hs]
      exact Effect.same hwf _ _ rfl (by simp)

theorem mailslot_write_effect (e : Env) (filp : file) (buff : Option (List Nat)) (len : Nat)
    (s : State) (hwf : WF s) :
    Effect 1 s (mailslot_write e filp buff len s).1 (mailslot_write e filp buff len s).2 := by
  by_cases hlen : len = 0
  · subst hlen
    simp only [mailslot_write, if_true]
    exact Effect.same hwf _ _ (by simp [success_ret, EINVAL]) (by simp)
  cases buff with
  | none =>
    simp only [mailslot_write, hlen, if_false]
    exact Effect.same hwf _ _ (by simp [success_ret, EINVAL]) (by simp)
  | some bytes =>
    cases hm : s.slot.mutex with
    | some t =>
      rw [mailslot_write_held e filp bytes len t s hm hlen]
      refine Effect.same hwf _ _ ?_ ?_
      · by_cases hp : __get_blocking_policy filp = 0 <;> by_cases hs : e.signal <;>
          simp [hp, hs, success_ret, success_sleep, EINTR, EAGAIN]
      · by_cases hp : __get_blocking_policy filp = 0 <;> by_cases hs : e.signal <;>
          simp [hp, hs]
    | none =>
      by_cases hc : s.slot.msg_count = MAILSLOT_STORAGE
      · rw [mailslot_write_full e filp bytes len s hm hc hlen]
        refine Effect.same hwf _ _ ?_ ?_
        · by_cases hp : __get_blocking_policy filp = 0 <;> by_cases hs : e.signal <;>
            simp [hp, hs, success_ret, success_sleep, EINTR, EAGAIN]
        · by_cases hp : __get_blocking_policy filp = 0 <;> by_cases hs : e.signal <;>
            simp [hp, hs]
      · rw [mailslot_write_room e filp bytes len s hm hc hlen]
        exact write_store_effect e _ bytes len _ s hwf hm hc hlen

theorem ioctl_set_max_effect (e : Env) (nb arg : Nat) (s : State) (hwf : WF s)
    (h1 : 1 ≤ arg) (h2 : arg ≤ MAXIMUM_MESSAGE_SIZE) :
    Effect 0 s (ioctl_set_max e nb arg s).1 (ioctl_set_max e nb arg s).2 := by
  cases hm : s.slot.mutex with
  | some t =>
    rw [ioctl_set_max_held e nb arg t s hm]
    refine Effect.same hwf _ _ ?_ ?_
    · by_cases hp : nb = 0 <;> by_cases hs : e.signal <;>
        simp [hp, hs, success_ret, success_sleep, EINTR, EAGAIN]
    · by_cases hp : nb = 0 <;> by_cases hs : e.signal <;> simp [hp, hs]
  | none =>
    rw [ioctl_set_max_free e nb arg s hm]
    exact ⟨hwf.set_max arg h1 h2, by simp, rfl, fun _ => by simp, fun _ => rfl⟩

theorem mailslot_ioctl_effect (e : Env) (filp : file) (cmd arg : Nat) (s : State)
    (hwf : WF s) :
    Effect 0 s (mailslot_ioctl e filp cmd arg s).1 (mailslot_ioctl e filp cmd arg s).2.2 := by
  rcases mailslot_ioctl_cases e filp cmd arg s with ⟨f2, h⟩ | h | h | ⟨_, h1, h2, h⟩
  · rw [h]
    exact ⟨hwf, by simp, rfl, fun _ => by simp, fun _ => rfl⟩
  · rw [h]
    exact Effect.same hwf _ _ (by simp [success_ret, EINVAL]) (by simp)
  · rw [h]
    exact Effect.same hwf _ _ (by simp [success_ret, ENOTTY]) (by simp)
  · rw [h]
    exact ioctl_set_max_effect e _ arg s hwf h1 h2

/-! ## Executions keep the invariant -/

theorem sleeper_of_filter (tbl : List (Nat × Sleeper)) (t t2 : Nat) :
    sleeper_of (tbl.filter (fun x => decide (x.1 ≠ t))) t2 =
      if t2 = t then none else sleeper_of tbl t2 := by
  induction tbl with
  | nil => simp [sleeper_of]
  | cons x r ih =>
    obtain ⟨k, v⟩ := x
    by_cases hk : k = t
    · subst hk
      rw [List.filter_cons_of_neg (by simp), ih]
      by_cases h2 : t2 = k
      · simp only [h2, if_true]
      · have : ¬ k = t2 := fun hh => h2 hh.symm
        simp only [sleeper_of, h2, this, if_false]
    · rw [List.filter_cons_of_pos (by simpa using hk)]
      by_cases h2 : t2 = t
      · subst h2
        simp only [sleeper_of, hk, if_false, ih, if_true]
      · by_cases hk2 : k = t2
        · simp only [sleeper_of, hk2, h2, if_true, if_false]
        · simp only [sleeper_of, hk2, h2, if_false, ih]

theorem sleeper_of_park (tbl : List (Nat × Sleeper)) (t t2 : Nat) (o : Outcome)
    (mk : Pc → Sleeper) :
    sleeper_of (park tbl t o mk) t2 =
      if t2 = t then (match o with
        | Outcome.sleep pc => some (mk pc)
        | _ => none)
      else sleeper_of tbl t2 := by
  unfold park
  cases o with
  | sleep pc =>
    by_cases h2 : t2 = t
    · simp only [sleeper_of, h2, if_true]
    · have : ¬ t = t2 := fun hh => h2 hh.symm
      simp only [sleeper_of, h2, this, if_false, sleeper_of_filter]
  | ret v => simp only [sleeper_of_filter]
  | oops => simp only [sleeper_of_filter]

/-- The table of sleepers stays sane when the thread that ran is parked with a sane sleeper. -/
theorem park_sane (tbl : List (Nat × Sleeper)) (t : Nat) (o : Outcome) (mk : Pc → Sleeper)
    (htbl : ∀ t2 sl, sleeper_of tbl t2 = some sl → sl.sane)
    (hmk : ∀ pc, o = Outcome.sleep pc → (mk pc).sane) :
    ∀ t2 sl, sleeper_of (park tbl t o mk) t2 = some sl → sl.sane := by
  intro t2 sl hsl
  rw [sleeper_of_park] at hsl
  by_cases h2 : t2 = t
  · simp only [h2, if_true] at hsl
    cases o with
    | sleep pc =>
      simp only [Option.some.injEq] at hsl
      rw [← hsl]; exact hmk pc rfl
    | ret v => cases hsl
    | oops => cases hsl
  · simp only [h2, if_false] at hsl
    exact htbl t2 sl hsl

theorem mailslot_write_sleep_len (e : Env) (filp : file) (buff : Option (List Nat)) (len : Nat)
    (s : State) (pc : Pc) (h : (mailslot_write e filp buff len s).1 = Outcome.sleep pc) :
    len ≠ 0 := by
  intro h0
  subst h0
  simp [mailslot_write] at h

theorem mailslot_ioctl_sleep_arg (e : Env) (filp : file) (cmd arg : Nat) (s : State) (pc : Pc)
    (h : (mailslot_ioctl e filp cmd arg s).1 = Outcome.sleep pc) :
    1 ≤ arg ∧ arg ≤ MAXIMUM_MESSAGE_SIZE := by
  rcases mailslot_ioctl_cases e filp cmd arg s with ⟨f2, h2⟩ | h2 | h2 | ⟨_, h3, h4, _⟩
  · rw [h2] at h; cases h
  · rw [h2] at h; cases h
  · rw [h2] at h; cases h
  · exact ⟨h3, h4⟩

/-- What the continuation of a sane sleeper does to a well-formed slot. -/
theorem resume_effect (e : Env) (sl : Sleeper) (s : State) (hwf : WF s) (hs : sl.sane) :
    Effect sl.delta s (resume e sl s).1 (resume e sl s).2 := by
  cases sl with
  | read len pc =>
    cases pc with
    | lock => exact read_acquire_effect e len s hwf
    | wait => exact read_wake_effect e len s hwf
  | write buff len pc =>
    cases pc with
    | lock => exact write_acquire_effect e buff len s hwf hs
    | wait => exact write_wake_effect e buff len s hwf hs
  | ioctl arg => exact ioctl_set_max_effect e BLOCKING arg s hwf hs.1 hs.2

theorem again_sane (sl : Sleeper) (pc : Pc) (hs : sl.sane) : (again sl pc).sane := by
  cases sl <;> exact hs

theorem step_inv (ev : Event) (sys : System) (hinv : Inv sys) : Inv (step ev sys) := by
  obtain ⟨hwf, htbl⟩ := hinv
  cases ev with
  | read e filp buff len =>
    simp only [step]
    cases hsl : sleeper_of sys.asleep e.current with
    | some sl => exact ⟨hwf, htbl⟩
    | none =>
      exact ⟨(mailslot_read_effect e filp buff len sys.st hwf).1,
        park_sane _ _ _ _ htbl (fun _ _ => trivial)⟩
  | write e filp buff len =>
    simp only [step]
    cases hsl : sleeper_of sys.asleep e.current with
    | some sl => exact ⟨hwf, htbl⟩
    | none =>
      exact ⟨(mailslot_write_effect e filp buff len sys.st hwf).1,
        park_sane _ _ _ _ htbl (fun pc hpc => mailslot_write_sleep_len e filp buff len _ pc hpc)⟩
  | ioctl e filp cmd arg =>
    simp only [step]
    cases hsl : sleeper_of sys.asleep e.current with
    | some sl => exact ⟨hwf, htbl⟩
    | none =>
      exact ⟨(mailslot_ioctl_effect e filp cmd arg sys.st hwf).1,
        park_sane _ _ _ _ htbl (fun pc hpc => mailslot_ioctl_sleep_arg e filp cmd arg _ pc hpc)⟩
  | resume e =>
    simp only [step]
    cases hsl : sleeper_of sys.asleep e.current with
    | none => exact ⟨hwf, htbl⟩
    | some sl =>
      have hs := htbl _ _ hsl
      exact ⟨(resume_effect e sl sys.st hwf hs).1,
        park_sane _ _ _ _ htbl (fun pc _ => again_sane sl pc hs)⟩
  | hold t =>
    simp only [step]
    cases hm : sys.st.slot.mutex with
    | none => exact ⟨hwf.mutex_set _, htbl⟩
    | some _ => exact ⟨hwf, htbl⟩
  | drop t =>
    simp only [step]
    by_cases hm : sys.st.slot.mutex = some t
    · simp only [hm, if_true]; exact ⟨hwf.mutex_set _, htbl⟩
    · simp only [hm, if_false]; exact ⟨hwf, htbl⟩

theorem run_inv (evs : List Event) : ∀ sys, Inv sys → Inv (run evs sys) := by
  induction evs with
  | nil => intro sys h; exact h
  | cons ev evs ih => intro sys h; exact ih _ (step_inv ev sys h)

theorem boot_inv : Inv boot :=
  ⟨WF.init, fun t sl h => by simp [boot, sleeper_of] at h⟩

theorem Reachable.inv {sys : System} (h : Reachable sys) : Inv sys := by
  obtain ⟨evs, rfl⟩ := h
  exact run_inv evs boot boot_inv

/-! ## Successful calls on a well-formed slot -/

/-- A read of a well-formed slot that succeeds has taken the free mutex of a non-empty slot, has
delivered the `length` bytes of the head message and has unlinked it. -/
theorem mailslot_read_success (e : Env) (filp : file) (buff len : Nat) (s : State) (hwf : WF s)
    (hs : (mailslot_read e filp buff len s).1.success = true) :
    ∃ hd, s.slot.mutex = none ∧ s.slot.msg_count ≠ 0 ∧
      deref s.heap s.slot.head = some hd ∧ hd.length ≤ len ∧
      mailslot_read e filp buff len s =
        (Outcome.ret (hd.length : Int), hd.content.take hd.length,
          __mailslot_unlock
            { heap := kfree s.heap s.slot.head,
              slot := { (mutex_set s (some e.current)).slot with
                head := if s.slot.msg_count > 1 then hd.next else s.slot.head,
                msg_count := s.slot.msg_count - 1 } }) := by
  by_cases hlen : len = 0
  · subst hlen
    simp [mailslot_read, success_ret, EINVAL] at hs
  by_cases hbuff : buff = 0
  · subst hbuff
    simp [mailslot_read, hlen, success_ret, EINVAL] at hs
  cases hm : s.slot.mutex with
  | some t =>
    rw [mailslot_read_held e filp buff len t s hm hbuff hlen] at hs
    exfalso
    by_cases hp : __get_blocking_policy filp = 0 <;> by_cases hsg : e.signal <;>
      simp [hp, hsg, success_ret, success_sleep, EINTR, EAGAIN] at hs
  | none =>
    by_cases hc : s.slot.msg_count = 0
    · rw [mailslot_read_empty e filp buff len s hm hc hbuff hlen] at hs
      exfalso
      by_cases hp : __get_blocking_policy filp = 0 <;> by_cases hsg : e.signal <;>
        simp [hp, hsg, success_ret, success_sleep, EINTR, EAGAIN] at hs
    · obtain ⟨as, hl⟩ := hwf.linked
      obtain ⟨hd, r, has, hhd, _, _⟩ := hwf.head_live hl hc
      obtain ⟨m2, hm2, _, _, hsz⟩ := hl.sized s.slot.head (by rw [has]; simp)
      rw [hhd] at hm2; cases hm2
      have hsmall : hd.length < 2 ^ 63 := by
        unfold MAXIMUM_MESSAGE_SIZE at hsz; omega
      have hm1 : deref (mutex_set s (some e.current)).heap
          (mutex_set s (some e.current)).slot.head = some hd := hhd
      rw [mailslot_read_live e filp buff len s hm hc hbuff hlen] at hs ⊢
      by_cases hshort : len < hd.length
      · rw [read_deliver_short e _ len _ hd hm1 hshort] at hs
        simp [success_ret, EMSGSIZE] at hs
      · by_cases hcopy : (copy_to_user e hd.content hd.length).1 = 0
        · refine ⟨hd, rfl, hc, hhd, by omega, ?_⟩
          rw [read_deliver_ok e _ len _ hd hm1 (by omega) hcopy, ssize_t_small _ hsmall]
          rfl
        · rw [read_deliver_fault e _ len _ hd hm1 (by omega) hcopy] at hs
          simp [success_ret, EFAULT] at hs

/-- A write to a well-formed slot that succeeds has taken the free mutex of a slot with room, has
been given a fresh address, has copied `len` bytes and has linked the new message at the end. -/
theorem mailslot_write_success (e : Env) (filp : file) (buff : Option (List Nat)) (len : Nat)
    (s : State) (hwf : WF s) (hs : (mailslot_write e filp buff len s).1.success = true) :
    ∃ bytes, buff = some bytes ∧ s.slot.mutex = none ∧ s.slot.msg_count ≠ MAILSLOT_STORAGE ∧
      len ≠ 0 ∧ len ≤ s.slot.max_msg_size ∧ len ≤ bytes.length ∧
      e.kzalloc_msg ≠ 0 ∧ deref s.heap e.kzalloc_msg = none ∧
      ((s.slot.msg_count = 0 ∧
        mailslot_write e filp buff len s =
          (Outcome.ret (len : Int),
            __mailslot_unlock
              { heap := (e.kzalloc_msg, ⟨bytes.take len, len, 0⟩) :: s.heap,
                slot := { (mutex_set s (some e.current)).slot with
                  head := e.kzalloc_msg, tail := e.kzalloc_msg,
                  msg_count := s.slot.msg_count + 1 } })) ∨
       (s.slot.msg_count ≠ 0 ∧ ∃ tl, deref s.heap s.slot.tail = some tl ∧
        mailslot_write e filp buff len s =
          (Outcome.ret (len : Int),
            __mailslot_unlock
              { heap := (e.kzalloc_msg, ⟨bytes.take len, len, 0⟩) ::
                          store s.heap s.slot.tail { tl with next := e.kzalloc_msg },
                slot := { (mutex_set s (some e.current)).slot with
                  tail := e.kzalloc_msg,
                  msg_count := s.slot.msg_count + 1 } }))) := by
  by_cases hlen : len = 0
  · subst hlen
    simp [mailslot_write, success_ret, EINVAL] at hs
  cases buff with
  | none => simp [mailslot_write, hlen, success_ret, EINVAL] at hs
  | some bytes =>
    cases hm : s.slot.mutex with
    | some t =>
      rw [mailslot_write_held e filp bytes len t s hm hlen] at hs
      exfalso
      by_cases hp : __get_blocking_policy filp = 0 <;> by_cases hsg : e.signal <;>
        simp [hp, hsg, success_ret, success_sleep, EINTR, EAGAIN] at hs
    | none =>
      by_cases hc : s.slot.msg_count = MAILSLOT_STORAGE
      · rw [mailslot_write_full e filp bytes len s hm hc hlen] at hs
        exfalso
        by_cases hp : __get_blocking_policy filp = 0 <;> by_cases hsg : e.signal <;>
          simp [hp, hsg, success_ret, success_sleep, EINTR, EAGAIN] at hs
      · have hmax := hwf.max_le
        rw [mailslot_write_room e filp bytes len s hm hc hlen] at hs ⊢
        by_cases hbig : s.slot.max_msg_size < len
        · rw [write_store_big e _ bytes len (mutex_set s (some e.current)) hbig] at hs
          simp [success_ret, EPERM] at hs
        have hfit : len ≤ (mutex_set s (some e.current)).slot.max_msg_size := by
          simp only [mutex_set_max]; omega
        by_cases hno : e.kzalloc_msg = 0 ∨ (deref s.heap e.kzalloc_msg).isSome ∨
            e.kzalloc_content = false
        · rw [write_store_nomem e _ bytes len (mutex_set s (some e.current)) hfit hno] at hs
          exfalso
          by_cases hp : __get_blocking_policy filp = 0 <;>
            simp [hp, success_ret, EAGAIN, ENOMEM] at hs
        have ha : e.kzalloc_msg ≠ 0 := fun hh => hno (Or.inl hh)
        have hf : deref s.heap e.kzalloc_msg = none := by
          cases hd : deref s.heap e.kzalloc_msg with
          | none => rfl
          | some v => exact absurd (Or.inr (Or.inl (by simp [hd]))) hno
        have hcc : e.kzalloc_content = true := by
          cases hcc : e.kzalloc_content with
          | true => rfl
          | false => exact absurd (Or.inr (Or.inr hcc)) hno
        by_cases hcopy : (copy_from_user e bytes len).1 = 0
        · have hsmall : len < 2 ^ 63 := by
            unfold MAXIMUM_MESSAGE_SIZE at hmax
            simp only [mutex_set_max] at hfit
            omega
          refine ⟨bytes, rfl, rfl, hc, hlen, by simpa using hfit,
            (copy_from_user_ok e bytes len hcopy).2, ha, hf, ?_⟩
          by_cases h0 : s.slot.msg_count = 0
          · left
            refine ⟨h0, ?_⟩
            rw [write_store_first e _ bytes len (mutex_set s (some e.current)) hfit ha hf hcc
              hcopy h0, ssize_t_small _ hsmall]
            rfl
          · right
            obtain ⟨tl, htl, _⟩ := hwf.tail_live h0
            refine ⟨h0, tl, htl, ?_⟩
            rw [write_store_next e _ bytes len (mutex_set s (some e.current)) tl hfit ha hf hcc
              hcopy h0 htl, ssize_t_small _ hsmall]
            rfl
        · rw [write_store_fault e _ bytes len (mutex_set s (some e.current)) hfit ha hf hcc
            hcopy] at hs
          simp [success_ret, EFAULT] at hs

/-! ## The queue a slot represents, before and after a call -/

theorem queue_eq (s : State) (as : List Nat) (h : chain s = some as) :
    queue s = as.filterMap
      (fun a => (deref s.heap a).map (fun m => m.content.take m.length)) := by
  unfold queue
  rw [h]

theorem queue_empty (s : State) (hc : s.slot.msg_count = 0) : queue s = [] := by
  have : chain s = some [] := by
    unfold chain
    rw [hc]
    rfl
  rw [queue_eq s [] this]
  rfl

theorem filterMap_congr_mem {α β : Type} (f g : α → Option β) (l : List α)
    (h : ∀ a ∈ l, f a = g a) : l.filterMap f = l.filterMap g := by
  induction l with
  | nil => rfl
  | cons x r ih =>
    have hx := h x (by simp)
    have hr := ih (fun a ha => h a (by simp [ha]))
    simp only [List.filterMap_cons, hx, hr]

/-- Unlinking the head of a well-formed slot removes the first element of its queue. -/
theorem queue_pop (s s2 : State) (hd : message) (hwf : WF s) (hc : s.slot.msg_count ≠ 0)
    (hhd : deref s.heap s.slot.head = some hd)
    (h0 : s2.heap = kfree s.heap s.slot.head)
    (h1 : s2.slot.head = if s.slot.msg_count > 1 then hd.next else s.slot.head)
    (h2 : s2.slot.msg_count = s.slot.msg_count - 1) :
    queue s = hd.content.take hd.length :: queue s2 := by
  obtain ⟨as, hl⟩ := hwf.linked
  obtain ⟨hd2, r, has, hm, hr, hlen⟩ := hwf.head_live hl hc
  rw [hhd] at hm; cases hm
  subst has
  have hnd := List.nodup_cons.mp hl.nodup
  have hsame : ∀ a ∈ r, deref (kfree s.heap s.slot.head) a = deref s.heap a := by
    intro a ha
    rw [deref_kfree]
    have : a ≠ s.slot.head := fun hh => hnd.1 (hh ▸ ha)
    simp [this]
  have hchain2 : chain s2 = some r := by
    unfold chain
    have hcnt : (s.slot.msg_count - 1).toNat = r.length := by omega
    rw [h0, h1, h2, hcnt]
    by_cases hgt : s.slot.msg_count > 1
    · simp only [hgt, if_true]
      exact walk_congr _ _ _ _ _ hr hsame
    · have : r.length = 0 := by omega
      rw [this, List.length_eq_zero.mp this]
      rfl
  rw [queue_eq s _ hl.walk_eq, queue_eq s2 _ hchain2]
  simp only [List.filterMap_cons, hhd, Option.map_some']
  congr 1
  apply filterMap_congr_mem
  intro a ha
  rw [h0, hsame a ha]

/-- Linking the first message of an empty slot makes it the queue. -/
theorem queue_push_first (s s2 : State) (a : Nat) (content : List Nat) (len : Nat)
    (hc : s.slot.msg_count = 0)
    (h0 : s2.heap = (a, ⟨content, len, 0⟩) :: s.heap)
    (h1 : s2.slot.head = a) (h2 : s2.slot.msg_count = s.slot.msg_count + 1) :
    queue s2 = queue s ++ [content.take len] := by
  have hchain2 : chain s2 = some [a] := by
    unfold chain
    rw [h0, h1, h2, hc]
    exact (walk_succ _ 0 a _).mpr ⟨⟨content, len, 0⟩, [], by simp [deref], rfl, rfl⟩
  rw [queue_eq s2 _ hchain2, queue_empty s hc, h0]
  simp [deref]

/-- Linking a message behind the tail of a well-formed slot appends it to the queue. -/
theorem queue_push_next (s s2 : State) (a : Nat) (content : List Nat) (len : Nat)
    (tl : message) (hwf : WF s) (hc : s.slot.msg_count ≠ 0)
    (hf : deref s.heap a = none) (htl : deref s.heap s.slot.tail = some tl)
    (h0 : s2.heap = (a, ⟨content, len, 0⟩) :: store s.heap s.slot.tail { tl with next := a })
    (h1 : s2.slot.head = s.slot.head) (h2 : s2.slot.msg_count = s.slot.msg_count + 1) :
    queue s2 = queue s ++ [content.take len] := by
  obtain ⟨as, hl⟩ := hwf.linked
  obtain ⟨hd, r, has, hm, hr, hlen⟩ := hwf.head_live hl hc
  have hpos := hwf.count_nonneg
  have hlast : as.getLast? = some s.slot.tail := by
    rcases hl.last with h | ⟨h, _⟩
    · rw [h] at has; cases has
    · exact h
  have hta : s.slot.tail ≠ a := by
    intro hh; rw [hh] at htl; rw [hf] at htl; cases htl
  have hnew : ∀ x, deref s2.heap x =
      if x = a then some ⟨content, len, 0⟩
      else if x = s.slot.tail then some { tl with next := a } else deref s.heap x := by
    intro x
    rw [h0]
    simp only [deref, deref_store, htl, Option.map_some']
    by_cases hxa : x = a
    · simp [hxa]
    · have : ¬ a = x := fun hh => hxa hh.symm
      simp [hxa, this]
  have hanot : a ∉ as := by
    intro hmem
    have := walk_live _ _ _ _ hl.walk_eq a hmem
    rw [hf] at this; cases this
  have hchain2 : chain s2 = some (as ++ [a]) := by
    unfold chain
    have hcnt : (s.slot.msg_count + 1).toNat = s.slot.msg_count.toNat + 1 := by omega
    rw [h1, h2, hcnt]
    have hw := hl.walk_eq
    unfold chain at hw
    refine walk_snoc s.heap _ s.slot.tail a tl ⟨content, len, 0⟩ htl ?_ ?_ ?_ hf _ _ _ hw
      hl.nodup hlast
    · rw [hnew]; simp [hta]
    · rw [hnew]; simp
    · intro x hxt hxa
      rw [hnew]; simp [hxt, hxa]
  rw [queue_eq s2 _ hchain2, queue_eq s _ hl.walk_eq, List.filterMap_append]
  congr 1
  · apply filterMap_congr_mem
    intro x hx
    rw [hnew]
    have hxa : x ≠ a := fun hh => hanot (hh ▸ hx)
    by_cases hxt : x = s.slot.tail
    · subst hxt
      simp only [hxa, if_false, if_true, htl, Option.map_some']
    · simp only [hxa, hxt, if_false]
  · simp [hnew]

theorem queue_congr (s s2 : State) (h0 : s2.heap = s.heap) (h1 : s2.slot.head = s.slot.head)
    (h2 : s2.slot.msg_count = s.slot.msg_count) : queue s2 = queue s := by
  unfold queue chain
  rw [h0, h1, h2]

/-- A successful write appends the bytes it copied to the queue and returns their number. -/
theorem mailslot_write_queue (e : Env) (filp : file) (buff : Option (List Nat)) (len : Nat)
    (s : State) (hwf : WF s) (hs : (mailslot_write e filp buff len s).1.success = true) :
    ∃ bytes, buff = some bytes ∧ len ≤ bytes.length ∧
      (mailslot_write e filp buff len s).1 = Outcome.ret (len : Int) ∧
      queue (mailslot_write e filp buff len s).2 = queue s ++ [bytes.take len] := by
  obtain ⟨bytes, hb, hm, hroom, hlen, hfit, hbl, ha, hf, h | ⟨hc, tl, htl, h⟩⟩ :=
    mailslot_write_success e filp buff len s hwf hs
  · refine ⟨bytes, hb, hbl, by rw [h.2], ?_⟩
    rw [h.2]
    have := queue_push_first s
      (__mailslot_unlock
        { heap := (e.kzalloc_msg, ⟨bytes.take len, len, 0⟩) :: s.heap,
          slot := { (mutex_set s (some e.current)).slot with
            head := e.kzalloc_msg, tail := e.kzalloc_msg,
            msg_count := s.slot.msg_count + 1 } })
      e.kzalloc_msg (bytes.take len) len h.1 rfl rfl rfl
    rw [this, List.take_take, Nat.min_self]
  · refine ⟨bytes, hb, hbl, by rw [h], ?_⟩
    rw [h]
    have := queue_push_next s
      (__mailslot_unlock
        { heap := (e.kzalloc_msg, ⟨bytes.take len, len, 0⟩) ::
                    store s.heap s.slot.tail { tl with next := e.kzalloc_msg },
          slot := { (mutex_set s (some e.current)).slot with
            tail := e.kzalloc_msg, msg_count := s.slot.msg_count + 1 } })
      e.kzalloc_msg (bytes.take len) len tl hwf hc hf htl rfl rfl rfl
    rw [this, List.take_take, Nat.min_self]

/-- A successful read removes the first element of the queue, delivers it and returns its
length. -/
theorem mailslot_read_queue (e : Env) (filp : file) (buff len : Nat) (s : State) (hwf : WF s)
    (hs : (mailslot_read e filp buff len s).1.success = true) :
    ∃ p, queue s = p :: queue (mailslot_read e filp buff len s).2.2 ∧
      (mailslot_read e filp buff len s).1 = Outcome.ret (p.length : Int) ∧
      (mailslot_read e filp buff len s).2.1 = p := by
  obtain ⟨hd, hm, hc, hhd, hlen, h⟩ := mailslot_read_success e filp buff len s hwf hs
  obtain ⟨as, hl⟩ := hwf.linked
  obtain ⟨_, r, has, _, _, _⟩ := hwf.head_live hl hc
  obtain ⟨m2, hm2, hcl, _, _⟩ := hl.sized s.slot.head (by rw [has]; simp)
  rw [hhd] at hm2; cases hm2
  have hpl : (hd.content.take hd.length).length = hd.length := by
    rw [List.length_take, hcl]; simp
  refine ⟨hd.content.take hd.length, ?_, by rw [h, hpl], by rw [h]⟩
  rw [h]
  exact queue_pop s _ hd hwf hc hhd rfl rfl rfl

/-! ## Runs of writes and of reads -/

theorem queue_nil_count (s : State) (hwf : WF s) (hq : queue s = []) :
    s.slot.msg_count = 0 := by
  by_contra hc
  obtain ⟨as, hl⟩ := hwf.linked
  obtain ⟨hd, r, has, hhd, _, _⟩ := hwf.head_live hl hc
  rw [queue_eq s _ hl.walk_eq, has] at hq
  simp [hhd] at hq

theorem copy_to_user_fst (e : Env) (src src2 : List Nat) (n : Nat) :
    (copy_to_user e src n).1 = (copy_to_user e src2 n).1 := rfl

/-- A read that fits the first element of the queue of a well-formed slot with a free mutex
succeeds: it returns the length of that element, delivers it and leaves the rest of the queue. -/
theorem mailslot_read_ok (e : Env) (filp : file) (buff len : Nat) (s : State)
    (p : List Nat) (q : List (List Nat)) (hwf : WF s) (hfree : s.slot.mutex = none)
    (hq : queue s = p :: q) (hbuff : buff ≠ 0) (hlen : p.length ≤ len)
    (hcopy : (copy_to_user e p p.length).1 = 0) :
    (mailslot_read e filp buff len s).1 = Outcome.ret (p.length : Int) ∧
    (mailslot_read e filp buff len s).2.1 = p ∧
    queue (mailslot_read e filp buff len s).2.2 = q ∧
    WF (mailslot_read e filp buff len s).2.2 ∧
    (mailslot_read e filp buff len s).2.2.slot.mutex = none := by
  have hc : s.slot.msg_count ≠ 0 := by
    intro h0; rw [queue_empty s h0] at hq; cases hq
  obtain ⟨as, hl⟩ := hwf.linked
  obtain ⟨hd, r, has, hhd, _, _⟩ := hwf.head_live hl hc
  obtain ⟨m2, hm2, hcl, hpos, hsz⟩ := hl.sized s.slot.head (by rw [has]; simp)
  rw [hhd] at hm2; cases hm2
  have hp : p = hd.content.take hd.length := by
    have := queue_pop s
      { heap := kfree s.heap s.slot.head,
        slot := { s.slot with
          head := if s.slot.msg_count > 1 then hd.next else s.slot.head,
          msg_count := s.slot.msg_count - 1 } } hd hwf hc hhd rfl rfl rfl
    rw [hq] at this
    exact (List.cons.inj this).1
  have hpl : p.length = hd.length := by
    rw [hp, List.length_take, hcl]; simp
  have hsmall : hd.length < 2 ^ 63 := by
    unfold MAXIMUM_MESSAGE_SIZE at hsz; omega
  have hm1 : deref (mutex_set s (some e.current)).heap
      (mutex_set s (some e.current)).slot.head = some hd := hhd
  have hcopy2 : (copy_to_user e hd.content hd.length).1 = 0 := by
    rw [← hpl, copy_to_user_fst e hd.content p]; exact hcopy
  have hsucc : (mailslot_read e filp buff len s).1.success = true := by
    rw [mailslot_read_live e filp buff len s hfree hc hbuff (by omega),
      read_deliver_ok e _ len _ hd hm1 (by omega) hcopy2, ssize_t_small _ hsmall]
    simp [success_ret]
  obtain ⟨p2, hq2, hret, hout⟩ := mailslot_read_queue e filp buff len s hwf hsucc
  rw [hq] at hq2
  obtain ⟨hpp, hqq⟩ := List.cons.inj hq2
  obtain ⟨hwf2, _, hmx, _, _⟩ := mailslot_read_effect e filp buff len s hwf
  exact ⟨by rw [hret, hpp], by rw [hout, hpp], hqq.symm, hwf2, by rw [hmx, hfree]⟩

/-- A run of writes that all succeed on a well-formed slot: each returns the length of its
payload, and the payloads are appended to the queue in the order of the calls. -/
theorem write_seq_queue (ws : List WriteReq) :
    ∀ s : State, WF s → (∀ o ∈ (write_seq ws s).1, o.success = true) →
      (write_seq ws s).1 = ws.map (fun w => Outcome.ret (w.payload.length : Int)) ∧
      WF (write_seq ws s).2 ∧
      (write_seq ws s).2.slot.mutex = s.slot.mutex ∧
      queue (write_seq ws s).2 = queue s ++ ws.map (fun w => w.payload) := by
  induction ws with
  | nil => intro s hwf _; simp [write_seq, hwf]
  | cons w ws ih =>
    intro s hwf hok
    simp only [write_seq] at hok ⊢
    have h1 : (mailslot_write w.env w.filp (some w.payload) w.payload.length s).1.success
        = true := hok _ (by simp)
    obtain ⟨bytes, hb, _, hret, hq⟩ :=
      mailslot_write_queue w.env w.filp (some w.payload) w.payload.length s hwf h1
    cases hb
    obtain ⟨hwf2, _, hmx, _, _⟩ :=
      mailslot_write_effect w.env w.filp (some w.payload) w.payload.length s hwf
    obtain ⟨i1, i2, i3, i4⟩ := ih _ hwf2 (fun o ho => hok o (by simp [ho]))
    refine ⟨?_, i2, by rw [i3, hmx], ?_⟩
    · simp only [List.map_cons, hret, i1]
    · rw [i4, hq, List.take_length]
      simp

/-- A run of reads, each fitting the corresponding element of the queue of a well-formed slot
with a free mutex: the reads deliver the queue in order and leave it empty. -/
theorem read_seq_queue (rs : List ReadReq) :
    ∀ (ps : List (List Nat)) (s : State), List.Forall₂ ReadReq.fits rs ps → WF s →
      s.slot.mutex = none → queue s = ps →
      (read_seq rs s).1 = ps.map (fun p => (Outcome.ret (p.length : Int), p)) ∧
      WF (read_seq rs s).2 ∧ queue (read_seq rs s).2 = [] := by
  induction rs with
  | nil =>
    intro ps s hfit hwf _ hq
    cases hfit
    exact ⟨rfl, hwf, hq⟩
  | cons r rs ih =>
    intro ps s hfit hwf hfree hq
    cases hfit with
    | cons hr hrest =>
      rename_i p ps2
      obtain ⟨h1, h2, h3, h4, h5⟩ :=
        mailslot_read_ok r.env r.filp r.buff r.len s p ps2 hwf hfree hq hr.1 hr.2.1 hr.2.2
      obtain ⟨i1, i2, i3⟩ := ih ps2 _ hrest h4 h5 h3
      simp only [read_seq]
      refine ⟨?_, i2, i3⟩
      simp only [List.map_cons, i1]
      rw [← h1, ← h2]

/-! ## Filling a slot -/

/-- A write that nothing but a full slot can stop succeeds when the mutex is free and the slot
has room. -/
theorem mailslot_write_ok (e : Env) (filp : file) (bytes : List Nat) (len : Nat) (s : State)
    (hwf : WF s) (hfree : s.slot.mutex = none) (hroom : s.slot.msg_count ≠ MAILSLOT_STORAGE)
    (hlen : 1 ≤ len) (hfit : len ≤ s.slot.max_msg_size)
    (ha : e.kzalloc_msg ≠ 0) (hf : deref s.heap e.kzalloc_msg = none)
    (hc : e.kzalloc_content = true) (hcopy : (copy_from_user e bytes len).1 = 0) :
    (mailslot_write e filp (some bytes) len s).1 = Outcome.ret (len : Int) := by
  have hmax := hwf.max_le
  have hsmall : len < 2 ^ 63 := by
    unfold MAXIMUM_MESSAGE_SIZE at hmax; omega
  rw [mailslot_write_room e filp bytes len s hfree hroom (by omega)]
  by_cases h0 : s.slot.msg_count = 0
  · rw [write_store_first e _ bytes len (mutex_set s (some e.current)) hfit ha hf hc hcopy h0,
      ssize_t_small _ hsmall]
  · obtain ⟨tl, htl, _⟩ := hwf.tail_live h0
    rw [write_store_next e _ bytes len (mutex_set s (some e.current)) tl hfit ha hf hc hcopy
      h0 htl, ssize_t_small _ hsmall]

theorem success_of_ret_len (o : Outcome) (len : Nat) (h : o = Outcome.ret (len : Int)) :
    o.success = true := by
  rw [h, success_ret]
  simp

/-- A run of writes that nothing but a full slot can stop, on a well-formed slot with a free mutex
and room for all of them: every write returns the length of its payload. -/
theorem write_seq_fill (ws : List WriteReq) :
    ∀ s : State, WF s → s.slot.mutex = none → writes_accepted ws s →
      s.slot.msg_count + ws.length ≤ MAILSLOT_STORAGE →
      (write_seq ws s).1 = ws.map (fun w => Outcome.ret (w.payload.length : Int)) ∧
      WF (write_seq ws s).2 ∧ (write_seq ws s).2.slot.mutex = none ∧
      (write_seq ws s).2.slot.msg_count = s.slot.msg_count + ws.length := by
  induction ws with
  | nil => intro s hwf hfree _ _; simp [write_seq, hwf, hfree]
  | cons w ws ih =>
    intro s hwf hfree hacc hroom
    obtain ⟨⟨_, a1, a2, a3, a4, a5, a6⟩, hrest⟩ := hacc
    simp only [List.length_cons, Nat.cast_add, Nat.cast_one] at hroom
    have hne : s.slot.msg_count ≠ MAILSLOT_STORAGE := by omega
    have hret := mailslot_write_ok w.env w.filp w.payload w.payload.length s hwf hfree hne
      a1 a2 a3 a4 a5 a6
    obtain ⟨hwf2, _, hmx, hcnt, _⟩ :=
      mailslot_write_effect w.env w.filp (some w.payload) w.payload.length s hwf
    have hc2 := hcnt (success_of_ret_len _ _ hret)
    obtain ⟨i1, i2, i3, i4⟩ := ih _ hwf2 (by rw [hmx, hfree]) hrest (by rw [hc2]; omega)
    simp only [write_seq]
    refine ⟨by simp only [List.map_cons, hret, i1], i2, i3, ?_⟩
    rw [i4, hc2]
    simp only [List.length_cons, Nat.cast_add, Nat.cast_one]
    omega

/-! ## Every way a piece of a call can end on a well-formed slot -/

/-- The storing, for a writer that has just taken the free mutex of a well-formed slot with room:
a refusal for size, for memory or for a faulting copy, each leaving the state as it was, or the
linking of the bytes copied from the caller at the end of the queue. -/
theorem write_store_outcomes (e : Env) (nb : Nat) (bytes : List Nat) (len c : Nat) (s : State)
    (hwf : WF s) (hfree : s.slot.mutex = none) :
    (s.slot.max_msg_size < len ∧
      write_store e nb bytes len (mutex_set s (some c)) = (Outcome.ret (-EPERM), s)) ∨
    (len ≤ s.slot.max_msg_size ∧ alloc_fails e s ∧
      write_store e nb bytes len (mutex_set s (some c))
        = (Outcome.ret (if nb ≠ 0 then -EAGAIN else -ENOMEM), s)) ∨
    (len ≤ s.slot.max_msg_size ∧ ¬ alloc_fails e s ∧ (copy_from_user e bytes len).1 ≠ 0 ∧
      write_store e nb bytes len (mutex_set s (some c)) = (Outcome.ret (-EFAULT), s)) ∨
    (len ≤ s.slot.max_msg_size ∧ ¬ alloc_fails e s ∧ (copy_from_user e bytes len).1 = 0 ∧
      len ≤ bytes.length ∧
      (write_store e nb bytes len (mutex_set s (some c))).1 = Outcome.ret (len : Int) ∧
      queue (write_store e nb bytes len (mutex_set s (some c))).2
        = queue s ++ [bytes.take len] ∧
      (write_store e nb bytes len (mutex_set s (some c))).2.slot.max_msg_size
        = s.slot.max_msg_size) := by
  have hmax := hwf.max_le
  by_cases hbig : s.slot.max_msg_size < len
  · left
    exact ⟨hbig, by rw [write_store_big e nb bytes len (mutex_set s (some c)) hbig,
      unlock_lock s _ hfree]⟩
  have hfit : len ≤ (mutex_set s (some c)).slot.max_msg_size := by
    simp only [mutex_set_max]; omega
  have hfit2 : len ≤ s.slot.max_msg_size := by omega
  by_cases hno : alloc_fails e s
  · right; left
    exact ⟨hfit2, hno, by rw [write_store_nomem e nb bytes len (mutex_set s (some c)) hfit hno,
      unlock_lock s _ hfree]⟩
  have hno2 := hno
  unfold alloc_fails at hno2
  have ha : e.kzalloc_msg ≠ 0 := fun hh => hno2 (Or.inl hh)
  have hf : deref s.heap e.kzalloc_msg = none := by
    cases hd : deref s.heap e.kzalloc_msg with
    | none => rfl
    | some v => exact absurd (Or.inr (Or.inl (by simp [hd]))) hno2
  have hcc : e.kzalloc_content = true := by
    cases hcc : e.kzalloc_content with
    | true => rfl
    | false => exact absurd (Or.inr (Or.inr hcc)) hno2
  by_cases hcopy : (copy_from_user e bytes len).1 = 0
  · right; right; right
    have hsmall : len < 2 ^ 63 := by
      unfold MAXIMUM_MESSAGE_SIZE at hmax; omega
    have hbl := (copy_from_user_ok e bytes len hcopy).2
    refine ⟨hfit2, hno, hcopy, hbl, ?_⟩
    by_cases h0 : s.slot.msg_count = 0
    · rw [write_store_first e nb bytes len (mutex_set s (some c)) hfit ha hf hcc hcopy h0,
        ssize_t_small _ hsmall]
      refine ⟨rfl, ?_, rfl⟩
      have := queue_push_first s
        (__mailslot_unlock
          { heap := (e.kzalloc_msg, ⟨bytes.take len, len, 0⟩) :: (mutex_set s (some c)).heap,
            slot := { (mutex_set s (some c)).slot with
              head := e.kzalloc_msg, tail := e.kzalloc_msg,
              msg_count := (mutex_set s (some c)).slot.msg_count + 1 } })
        e.kzalloc_msg (bytes.take len) len h0 rfl rfl rfl
      rw [this, List.take_take, Nat.min_self]
    · obtain ⟨tl, htl, _⟩ := hwf.tail_live h0
      rw [write_store_next e nb bytes len (mutex_set s (some c)) tl hfit ha hf hcc hcopy h0 htl,
        ssize_t_small _ hsmall]
      refine ⟨rfl, ?_, rfl⟩
      have := queue_push_next s
        (__mailslot_unlock
          { heap := (e.kzalloc_msg, ⟨bytes.take len, len, 0⟩) ::
                      store (mutex_set s (some c)).heap (mutex_set s (some c)).slot.tail
                        { tl with next := e.kzalloc_msg },
            slot := { (mutex_set s (some c)).slot with
              tail := e.kzalloc_msg,
              msg_count := (mutex_set s (some c)).slot.msg_count + 1 } })
        e.kzalloc_msg (bytes.take len) len tl hwf h0 hf htl rfl rfl rfl
      rw [this, List.take_take, Nat.min_self]
  · right; right; left
    exact ⟨hfit2, hno, hcopy, by
      rw [write_store_fault e nb bytes len (mutex_set s (some c)) hfit ha hf hcc hcopy,
        unlock_lock s _ hfree]⟩

/-- The delivery, for a reader that has just taken the free mutex of a well-formed, non-empty
slot: a refusal for a short buffer or for a faulting copy, each leaving the state as it was, or
the delivery and removal of the first element of the queue. -/
theorem read_deliver_outcomes (e : Env) (nb len c : Nat) (s : State)
    (hwf : WF s) (hfree : s.slot.mutex = none) (hc : s.slot.msg_count ≠ 0) :
    ∃ hd, deref s.heap s.slot.head = some hd ∧ hd.content.length = hd.length ∧
      1 ≤ hd.length ∧ hd.length ≤ MAXIMUM_MESSAGE_SIZE ∧
    ((len < hd.length ∧
      read_deliver e nb len (mutex_set s (some c)) = (Outcome.ret (-EMSGSIZE), [], s)) ∨
     (hd.length ≤ len ∧ (copy_to_user e hd.content hd.length).1 ≠ 0 ∧
      read_deliver e nb len (mutex_set s (some c))
        = (Outcome.ret (-EFAULT), (copy_to_user e hd.content hd.length).2, s)) ∨
     (hd.length ≤ len ∧ (copy_to_user e hd.content hd.length).1 = 0 ∧
      (read_deliver e nb len (mutex_set s (some c))).1 = Outcome.ret (hd.length : Int) ∧
      (read_deliver e nb len (mutex_set s (some c))).2.1 = hd.content ∧
      queue s = hd.content :: queue (read_deliver e nb len (mutex_set s (some c))).2.2 ∧
      (read_deliver e nb len (mutex_set s (some c))).2.2.slot.max_msg_size
        = s.slot.max_msg_size)) := by
  obtain ⟨as, hl⟩ := hwf.linked
  obtain ⟨hd, r, has, hhd, _, _⟩ := hwf.head_live hl hc
  obtain ⟨m2, hm2, hcl, hpos, hsz⟩ := hl.sized s.slot.head (by rw [has]; simp)
  rw [hhd] at hm2; cases hm2
  have hsmall : hd.length < 2 ^ 63 := by
    unfold MAXIMUM_MESSAGE_SIZE at hsz; omega
  have hm1 : deref (mutex_set s (some c)).heap (mutex_set s (some c)).slot.head = some hd := hhd
  have htake : hd.content.take hd.length = hd.content := by
    rw [← hcl, List.take_length]
  refine ⟨hd, hhd, hcl, hpos, hsz, ?_⟩
  by_cases hshort : len < hd.length
  · left
    exact ⟨hshort, by rw [read_deliver_short e nb len _ hd hm1 hshort, unlock_lock s _ hfree]⟩
  · by_cases hcopy : (copy_to_user e hd.content hd.length).1 = 0
    · right; right
      rw [read_deliver_ok e nb len _ hd hm1 (by omega) hcopy, ssize_t_small _ hsmall]
      refine ⟨by omega, hcopy, rfl, htake, ?_, rfl⟩
      have := queue_pop s
        (__mailslot_unlock
          { heap := kfree (mutex_set s (some c)).heap (mutex_set s (some c)).slot.head,
            slot := { (mutex_set s (some c)).slot with
              head := if (mutex_set s (some c)).slot.msg_count > 1 then hd.next
                else (mutex_set s (some c)).slot.head,
              msg_count := (mutex_set s (some c)).slot.msg_count - 1 } })
        hd hwf hc hhd rfl rfl rfl
      rw [htake] at this
      exact this
    · right; left
      exact ⟨by omega, hcopy, by
        rw [read_deliver_fault e nb len _ hd hm1 (by omega) hcopy, unlock_lock s _ hfree]⟩


theorem success_neg (v : Int) (hv : v < 0) : (Outcome.ret v).success = false := by
  rw [success_ret]
  simp [hv]

theorem write_store_quiet (e : Env) (nb : Nat) (bytes : List Nat) (len c : Nat) (s : State)
    (hwf : WF s) (hfree : s.slot.mutex = none)
    (h : (write_store e nb bytes len (mutex_set s (some c))).1.success = false) :
    (write_store e nb bytes len (mutex_set s (some c))).2 = s := by
  rcases write_store_outcomes e nb bytes len c s hwf hfree with
    ⟨_, h1⟩ | ⟨_, _, h1⟩ | ⟨_, _, _, h1⟩ | ⟨_, _, _, _, h1, _⟩
  · rw [h1]
  · rw [h1]
  · rw [h1]
  · rw [h1, success_ret] at h
    simp at h

theorem read_deliver_quiet (e : Env) (nb len c : Nat) (s : State)
    (hwf : WF s) (hfree : s.slot.mutex = none) (hc : s.slot.msg_count ≠ 0)
    (h : (read_deliver e nb len (mutex_set s (some c))).1.success = false) :
    (read_deliver e nb len (mutex_set s (some c))).2.2 = s := by
  obtain ⟨hd, _, _, _, _, ⟨_, h1⟩ | ⟨_, _, h1⟩ | ⟨_, _, h1, _⟩⟩ :=
    read_deliver_outcomes e nb len c s hwf hfree hc
  · rw [h1]
  · rw [h1]
  · rw [h1, success_ret] at h
    simp at h

/-- A piece of a read on a well-formed slot that does not end in a successful return hands back
the state it was given. -/
theorem read_acquire_quiet (e : Env) (len : Nat) (s : State) (hwf : WF s)
    (h : (read_acquire e len s).1.success = false) : (read_acquire e len s).2.2 = s := by
  cases hm : s.slot.mutex with
  | some t => rw [read_acquire_held e len t s hm]
  | none =>
    by_cases hc : s.slot.msg_count = 0
    · rw [read_acquire_empty e len s hm hc]
    · rw [read_acquire_live e len s hm hc] at h ⊢
      exact read_deliver_quiet e 0 len _ s hwf hm hc h

theorem read_wake_quiet (e : Env) (len : Nat) (s : State) (hwf : WF s)
    (h : (read_wake e len s).1.success = false) : (read_wake e len s).2.2 = s := by
  unfold read_wake wait_event_interruptible_exclusive at h ⊢
  by_cases hc : s.slot.msg_count > 0
  · simp only [hc, decide_True, if_true, ne_eq, not_true_eq_false, if_false] at h ⊢
    exact read_acquire_quiet e len s hwf h
  · by_cases hs : e.signal
    · simp only [hc, decide_False, hs, if_true]
      simp [ERESTARTSYS]
    · simp only [hc, decide_False, hs]
      simp

theorem mailslot_read_quiet (e : Env) (filp : file) (buff len : Nat) (s : State) (hwf : WF s)
    (h : (mailslot_read e filp buff len s).1.success = false) :
    (mailslot_read e filp buff len s).2.2 = s := by
  by_cases hlen : len = 0
  · subst hlen; simp [mailslot_read]
  by_cases hbuff : buff = 0
  · subst hbuff; simp [mailslot_read, hlen]
  cases hm : s.slot.mutex with
  | some t => rw [mailslot_read_held e filp buff len t s hm hbuff hlen]
  | none =>
    by_cases hc : s.slot.msg_count = 0
    · rw [mailslot_read_empty e filp buff len s hm hc hbuff hlen]
    · rw [mailslot_read_live e filp buff len s hm hc hbuff hlen] at h ⊢
      exact read_deliver_quiet e _ len _ s hwf hm hc h

/-- A piece of a write on a well-formed slot that does not end in a successful return hands back
the state it was given. -/
theorem write_acquire_quiet (e : Env) (bytes : List Nat) (len : Nat) (s : State) (hwf : WF s)
    (h : (write_acquire e bytes len s).1.success = false) :
    (write_acquire e bytes len s).2 = s := by
  cases hm : s.slot.mutex with
  | some t => rw [write_acquire_held e bytes len t s hm]
  | none =>
    by_cases hc : s.slot.msg_count = MAILSLOT_STORAGE
    · rw [write_acquire_full e bytes len s hm hc]
    · rw [write_acquire_room e bytes len s hm hc] at h ⊢
      exact write_store_quiet e 0 bytes len _ s hwf hm h

theorem write_wake_quiet (e : Env) (bytes : List Nat) (len : Nat) (s : State) (hwf : WF s)
    (h : (write_wake e bytes len s).1.success = false) :
    (write_wake e bytes len s).2 = s := by
  unfold write_wake wait_event_interruptible_exclusive at h ⊢
  by_cases hc : s.slot.msg_count < MAILSLOT_STORAGE
  · simp only [hc, decide_True, if_true, ne_eq, not_true_eq_false, if_false] at h ⊢
    exact write_acquire_quiet e bytes len s hwf h
  · by_cases hs : e.signal
    · simp only [hc, decide_False, hs, if_true]
      simp [ERESTARTSYS]
    · simp only [hc, decide_False, hs]
      simp

theorem mailslot_write_quiet (e : Env) (filp : file) (buff : Option (List Nat)) (len : Nat)
    (s : State) (hwf : WF s) (h : (mailslot_write e filp buff len s).1.success = false) :
    (mailslot_write e filp buff len s).2 = s := by
  by_cases hlen : len = 0
  · subst hlen; simp [mailslot_write]
  cases buff with
  | none => simp [mailslot_write, hlen]
  | some bytes =>
    cases hm : s.slot.mutex with
    | some t => rw [mailslot_write_held e filp bytes len t s hm hlen]
    | none =>
      by_cases hc : s.slot.msg_count = MAILSLOT_STORAGE
      · rw [mailslot_write_full e filp bytes len s hm hc hlen]
      · rw [mailslot_write_room e filp bytes len s hm hc hlen] at h ⊢
        exact write_store_quiet e _ bytes len _ s hwf hm h

/-- The size command from the lock attempt onwards either sets the limit, the mutex being free,
or hands back the state it was given. -/
theorem ioctl_set_max_quiet (e : Env) (nb arg : Nat) (s : State)
    (h : (ioctl_set_max e nb arg s).1.success = false) : (ioctl_set_max e nb arg s).2 = s := by
  cases hm : s.slot.mutex with
  | some t => rw [ioctl_set_max_held e nb arg t s hm]
  | none =>
    rw [ioctl_set_max_free e nb arg s hm, success_ret] at h
    simp [SUCCESS] at h

theorem mailslot_ioctl_quiet (e : Env) (filp : file) (cmd arg : Nat) (s : State)
    (h : (mailslot_ioctl e filp cmd arg s).1.success = false) :
    (mailslot_ioctl e filp cmd arg s).2 = (filp, s) := by
  rcases mailslot_ioctl_cases e filp cmd arg s with ⟨f2, h2⟩ | h2 | h2 | ⟨_, _, _, h2⟩
  · rw [h2, success_ret] at h
    simp [SUCCESS] at h
  · rw [h2]
  · rw [h2]
  · rw [h2] at h ⊢
    rw [ioctl_set_max_quiet e _ arg s h]

/-- The continuation of a sleeping call on a well-formed slot that does not end in a successful
return hands back the state it was given. -/
theorem resume_quiet (e : Env) (sl : Sleeper) (s : State) (hwf : WF s)
    (h : (resume e sl s).1.success = false) : (resume e sl s).2 = s := by
  cases sl with
  | read len pc =>
    cases pc with
    | lock => exact read_acquire_quiet e len s hwf h
    | wait => exact read_wake_quiet e len s hwf h
  | write buff len pc =>
    cases pc with
    | lock => exact write_acquire_quiet e buff len s hwf h
    | wait => exact write_wake_quiet e buff len s hwf h
  | ioctl arg => exact ioctl_set_max_quiet e BLOCKING arg s h

/-! ## The messages in the queue of a well-formed slot -/

/-- Every element of the queue of a well-formed slot is the content of a live record whose stored
length is the length of that content and lies between 1 and the ceiling. -/
theorem queue_mem (s : State) (hwf : WF s) (p : List Nat) (hp : p ∈ queue s) :
    ∃ a m, deref s.heap a = some m ∧ p = m.content ∧ p.length = m.length ∧
      1 ≤ m.length ∧ m.length ≤ MAXIMUM_MESSAGE_SIZE := by
  obtain ⟨as, hl⟩ := hwf.linked
  rw [queue_eq s as hl.walk_eq, List.mem_filterMap] at hp
  obtain ⟨a, ha, hpa⟩ := hp
  obtain ⟨m, hm, h1, h2, h3⟩ := hl.sized a ha
  rw [hm] at hpa
  simp only [Option.map_some', Option.some.injEq] at hpa
  rw [← h1, List.take_length] at hpa
  exact ⟨a, m, hm, hpa.symm, by rw [← hpa, h1], h2, h3⟩

/-- A size command that returns `SUCCESS` found the mutex free. -/
theorem ioctl_set_max_ok_free (e : Env) (nb arg : Nat) (s : State)
    (h : (ioctl_set_max e nb arg s).1 = Outcome.ret SUCCESS) : s.slot.mutex = none := by
  cases hm : s.slot.mutex with
  | none => rfl
  | some t =>
    rw [ioctl_set_max_held e nb arg t s hm] at h
    by_cases hnb : nb ≠ 0
    · simp [hnb, SUCCESS, EAGAIN] at h
    · by_cases hs : e.signal <;> simp [hnb, hs, SUCCESS, EINTR] at h

/-! ## The session flags -/

theorem mailslot_ioctl_blocking (e : Env) (filp : file) (arg : Nat) (s : State) :
    mailslot_ioctl e filp SET_BLOCKING arg s =
      (Outcome.ret SUCCESS, { f_flags := filp.f_flags &&& (2 ^ 32 - 1 - O_NONBLOCK) }, s) := by
  unfold mailslot_ioctl
  simp

theorem mailslot_ioctl_nonblocking (e : Env) (filp : file) (arg : Nat) (s : State) :
    mailslot_ioctl e filp SET_NONBLOCKING arg s =
      (Outcome.ret SUCCESS, { f_flags := filp.f_flags ||| O_NONBLOCK }, s) := by
  obtain ⟨c1, c2, _⟩ := ioctl_codes
  unfold mailslot_ioctl
  rw [c1, c2]
  simp

theorem mailslot_ioctl_unknown (e : Env) (filp : file) (cmd arg : Nat) (s : State)
    (h1 : cmd ≠ SET_BLOCKING) (h2 : cmd ≠ SET_NONBLOCKING) (h3 : cmd ≠ SET_MAXIMUM_MSG_SIZE) :
    mailslot_ioctl e filp cmd arg s = (Outcome.ret (-ENOTTY), filp, s) := by
  unfold mailslot_ioctl
  simp [h1, h2, h3]

theorem flags_set_and (f : Nat) : (f ||| O_NONBLOCK) &&& O_NONBLOCK = O_NONBLOCK := by
  apply Nat.eq_of_testBit_eq
  intro i
  simp only [Nat.testBit_and, Nat.testBit_or]
  cases h : Nat.testBit O_NONBLOCK i <;> simp

theorem flags_clear_and (f : Nat) : (f &&& (2 ^ 32 - 1 - O_NONBLOCK)) &&& O_NONBLOCK = 0 := by
  rw [Nat.and_assoc]
  have : (2 ^ 32 - 1 - O_NONBLOCK) &&& O_NONBLOCK = 0 := by decide
  rw [this]; simp

theorem flags_set_policy (f : Nat) :
    __get_blocking_policy { f_flags := f ||| O_NONBLOCK } = NONBLOCKING := by
  unfold __get_blocking_policy
  simp only [flags_set_and]
  simp [O_NONBLOCK]

theorem flags_clear_policy (f : Nat) :
    __get_blocking_policy { f_flags := f &&& (2 ^ 32 - 1 - O_NONBLOCK) } = BLOCKING := by
  unfold __get_blocking_policy
  simp only [flags_clear_and]
  simp

theorem flags_set_bit (f i : Nat) (hi : i ≠ 11) :
    (f ||| O_NONBLOCK).testBit i = f.testBit i := by
  have hm : O_NONBLOCK = 2 ^ 11 := by decide
  rw [hm, Nat.testBit_or, Nat.testBit_two_pow]
  have : ¬ (11 = i) := fun h => hi h.symm
  simp [this]

theorem flags_clear_bit (f i : Nat) (hf : f < 2 ^ 32) (hi : i ≠ 11) :
    (f &&& (2 ^ 32 - 1 - O_NONBLOCK)).testBit i = f.testBit i := by
  have hm : (2 ^ 32 - 1 - O_NONBLOCK : Nat) = (2 ^ 32 - 1) ^^^ 2 ^ 11 := by decide
  rw [hm, Nat.testBit_and, Nat.testBit_xor, Nat.testBit_two_pow_sub_one, Nat.testBit_two_pow]
  by_cases h32 : i < 32
  · have : ¬ (11 = i) := fun h => hi h.symm
    simp [h32, this]
  · have : f.testBit i = false :=
      Nat.testBit_lt_two_pow (lt_of_lt_of_le hf (Nat.pow_le_pow_right (by decide) (by omega)))
    simp [this]

theorem flags_set_twice (f : Nat) : (f ||| O_NONBLOCK) ||| O_NONBLOCK = f ||| O_NONBLOCK := by
  rw [Nat.or_assoc, Nat.or_self]

theorem flags_clear_twice (f : Nat) :
    (f &&& (2 ^ 32 - 1 - O_NONBLOCK)) &&& (2 ^ 32 - 1 - O_NONBLOCK)
      = f &&& (2 ^ 32 - 1 - O_NONBLOCK) := by
  rw [Nat.and_assoc, Nat.and_self]

/-- A run of flag commands succeeds at every step, leaves the slot alone, and ends in the mode
of its last command. -/
theorem ioctl_seq_mode (cs : List IoctlReq) :
    ∀ (filp : file) (s : State) (hne : cs ≠ []),
      (∀ c ∈ cs, c.cmd = SET_BLOCKING ∨ c.cmd = SET_NONBLOCKING) →
      (ioctl_seq cs filp s).1 = cs.map (fun _ => Outcome.ret SUCCESS) ∧
      (ioctl_seq cs filp s).2.2 = s ∧
      __get_blocking_policy (ioctl_seq cs filp s).2.1 = mode_of (cs.getLast hne).cmd := by
  induction cs with
  | nil => intro _ _ hne; exact absurd rfl hne
  | cons c cs ih =>
    intro filp s hne hall
    have hstep : ∃ f2, mailslot_ioctl c.env filp c.cmd c.arg s = (Outcome.ret SUCCESS, f2, s) ∧
        __get_blocking_policy f2 = mode_of c.cmd := by
      rcases hall c (List.mem_cons_self _ _) with h | h
      · rw [h, mailslot_ioctl_blocking]
        exact ⟨_, rfl, by rw [flags_clear_policy]; decide⟩
      · rw [h, mailslot_ioctl_nonblocking]
        exact ⟨_, rfl, by rw [flags_set_policy]; decide⟩
    obtain ⟨f2, h1, h2⟩ := hstep
    cases cs with
    | nil =>
      simp only [ioctl_seq, h1, List.map, List.getLast_singleton]
      exact ⟨trivial, trivial, h2⟩
    | cons c2 cs2 =>
      obtain ⟨a1, a2, a3⟩ := ih f2 s (List.cons_ne_nil _ _)
        (fun x hx => hall x (List.mem_cons_of_mem _ hx))
      simp only [ioctl_seq, h1] at a1 a2 a3 ⊢
      refine ⟨?_, a2, ?_⟩
      · rw [a1]; rfl
      · rw [a3, List.getLast_cons (List.cons_ne_nil _ _)]

/-! ## What executions store and deliver -/

theorem read_deliver_queue (e : Env) (nb len c : Nat) (s : State)
    (hwf : WF s) (hfree : s.slot.mutex = none) (hc : s.slot.msg_count ≠ 0)
    (hs : (read_deliver e nb len (mutex_set s (some c))).1.success = true) :
    queue s = (read_deliver e nb len (mutex_set s (some c))).2.1
      :: queue (read_deliver e nb len (mutex_set s (some c))).2.2 := by
  obtain ⟨hd, _, _, _, _, ⟨_, h1⟩ | ⟨_, _, h1⟩ | ⟨_, _, _, h2, h3, _⟩⟩ :=
    read_deliver_outcomes e nb len c s hwf hfree hc
  · rw [h1, success_neg _ (by decide)] at hs
    exact absurd hs (by decide)
  · rw [h1, success_neg _ (by decide)] at hs
    exact absurd hs (by decide)
  · rw [h2]; exact h3

theorem read_acquire_queue (e : Env) (len : Nat) (s : State) (hwf : WF s)
    (hs : (read_acquire e len s).1.success = true) :
    queue s = (read_acquire e len s).2.1 :: queue (read_acquire e len s).2.2 := by
  cases hm : s.slot.mutex with
  | some t =>
    rw [read_acquire_held e len t s hm] at hs
    by_cases hsig : e.signal <;> simp [hsig, Outcome.success, EINTR] at hs
  | none =>
    by_cases hc : s.slot.msg_count = 0
    · rw [read_acquire_empty e len s hm hc] at hs
      by_cases hsig : e.signal <;> simp [hsig, Outcome.success, EINTR] at hs
    · rw [read_acquire_live e len s hm hc] at hs ⊢
      exact read_deliver_queue e 0 len _ s hwf hm hc hs

theorem read_wake_queue (e : Env) (len : Nat) (s : State) (hwf : WF s)
    (hs : (read_wake e len s).1.success = true) :
    queue s = (read_wake e len s).2.1 :: queue (read_wake e len s).2.2 := by
  unfold read_wake wait_event_interruptible_exclusive at hs ⊢
  by_cases hc : s.slot.msg_count > 0
  · simp only [hc, decide_True, if_true, ne_eq, not_true_eq_false, if_false] at hs ⊢
    exact read_acquire_queue e len s hwf hs
  · by_cases hsig : e.signal
    · simp [hc, hsig, ERESTARTSYS, Outcome.success, EINTR] at hs
    · simp [hc, hsig, Outcome.success] at hs

theorem write_store_queue (e : Env) (nb : Nat) (bytes : List Nat) (len c : Nat) (s : State)
    (hwf : WF s) (hfree : s.slot.mutex = none)
    (hs : (write_store e nb bytes len (mutex_set s (some c))).1.success = true) :
    queue (write_store e nb bytes len (mutex_set s (some c))).2 = queue s ++ [bytes.take len] := by
  rcases write_store_outcomes e nb bytes len c s hwf hfree with
    ⟨_, h1⟩ | ⟨_, _, h1⟩ | ⟨_, _, _, h1⟩ | ⟨_, _, _, _, _, h2, _⟩
  · rw [h1, success_neg _ (by decide)] at hs
    exact absurd hs (by decide)
  · rw [h1] at hs
    by_cases hnb : nb ≠ 0 <;> simp [hnb, Outcome.success, EAGAIN, ENOMEM] at hs
  · rw [h1, success_neg _ (by decide)] at hs
    exact absurd hs (by decide)
  · exact h2

theorem write_acquire_queue (e : Env) (bytes : List Nat) (len : Nat) (s : State) (hwf : WF s)
    (hs : (write_acquire e bytes len s).1.success = true) :
    queue (write_acquire e bytes len s).2 = queue s ++ [bytes.take len] := by
  cases hm : s.slot.mutex with
  | some t =>
    rw [write_acquire_held e bytes len t s hm] at hs
    by_cases hsig : e.signal <;> simp [hsig, Outcome.success, EINTR] at hs
  | none =>
    by_cases hc : s.slot.msg_count = MAILSLOT_STORAGE
    · rw [write_acquire_full e bytes len s hm hc] at hs
      by_cases hsig : e.signal <;> simp [hsig, Outcome.success, EINTR] at hs
    · rw [write_acquire_room e bytes len s hm hc] at hs ⊢
      exact write_store_queue e 0 bytes len _ s hwf hm hs

theorem write_wake_queue (e : Env) (bytes : List Nat) (len : Nat) (s : State) (hwf : WF s)
    (hs : (write_wake e bytes len s).1.success = true) :
    queue (write_wake e bytes len s).2 = queue s ++ [bytes.take len] := by
  unfold write_wake wait_event_interruptible_exclusive at hs ⊢
  by_cases hc : s.slot.msg_count < MAILSLOT_STORAGE
  · simp only [hc, decide_True, if_true, ne_eq, not_true_eq_false, if_false] at hs ⊢
    exact write_acquire_queue e bytes len s hwf hs
  · by_cases hsig : e.signal
    · simp [hc, hsig, ERESTARTSYS, Outcome.success, EINTR] at hs
    · simp [hc, hsig, Outcome.success] at hs

/-- No control call changes the queue. -/
theorem ioctl_set_max_queue (e : Env) (nb arg : Nat) (s : State) :
    queue (ioctl_set_max e nb arg s).2 = queue s := by
  cases hm : s.slot.mutex with
  | some t => rw [ioctl_set_max_held e nb arg t s hm]
  | none =>
    rw [ioctl_set_max_free e nb arg s hm]
    exact queue_congr s _ rfl rfl rfl

theorem mailslot_ioctl_queue (e : Env) (filp : file) (cmd arg : Nat) (s : State) :
    queue (mailslot_ioctl e filp cmd arg s).2.2 = queue s := by
  rcases mailslot_ioctl_cases e filp cmd arg s with ⟨f2, h2⟩ | h2 | h2 | ⟨_, _, _, h2⟩
  · rw [h2]
  · rw [h2]
  · rw [h2]
  · rw [h2]
    exact ioctl_set_max_queue e _ arg s

theorem filterMap_length_of_some {α β : Type} (f : α → Option β) :
    ∀ l : List α, (∀ a ∈ l, (f a).isSome = true) → (l.filterMap f).length = l.length := by
  intro l
  induction l with
  | nil => intro _; rfl
  | cons x r ih =>
    intro h
    obtain ⟨y, hy⟩ := Option.isSome_iff_exists.mp (h x (List.mem_cons_self _ _))
    rw [List.filterMap_cons_some hy, List.length_cons, List.length_cons,
      ih (fun a ha => h a (List.mem_cons_of_mem _ ha))]

/-- The queue of a well-formed slot has `msg_count` elements. -/
theorem queue_length (s : State) (hwf : WF s) : ((queue s).length : Int) = s.slot.msg_count := by
  obtain ⟨as, hl⟩ := hwf.linked
  rw [queue_eq s as hl.walk_eq, ← hwf.chain_length hl, filterMap_length_of_some]
  intro a ha
  obtain ⟨m, hm, _⟩ := hl.sized a ha
  rw [hm]
  rfl

/-- One event: the queue before it followed by what it stores is what it delivers followed by
the queue after it. -/
theorem step_queue (ev : Event) (sys : System) (hwf : WF sys.st) :
    queue sys.st ++ wrote ev sys = got ev sys ++ queue (step ev sys).st := by
  cases ev with
  | read e filp buff len =>
    simp only [wrote, got, step]
    cases hsl : sleeper_of sys.asleep e.current with
    | some sl => simp
    | none =>
      simp only []
      by_cases hs : (mailslot_read e filp buff len sys.st).1.success = true
      · obtain ⟨p, h1, _, h3⟩ := mailslot_read_queue e filp buff len sys.st hwf hs
        simp only [hs, if_true, List.append_nil, List.singleton_append]
        rw [h3, ← h1]
      · have hs2 : (mailslot_read e filp buff len sys.st).1.success = false := by
          simpa using hs
        simp only [hs2, Bool.false_eq_true, if_false, List.append_nil, List.nil_append]
        rw [mailslot_read_quiet e filp buff len sys.st hwf hs2]
  | write e filp buff len =>
    simp only [wrote, got, step]
    cases hsl : sleeper_of sys.asleep e.current with
    | some sl => simp
    | none =>
      simp only []
      by_cases hs : (mailslot_write e filp buff len sys.st).1.success = true
      · obtain ⟨bytes, h1, _, _, h4⟩ := mailslot_write_queue e filp buff len sys.st hwf hs
        simp only [hs, if_true, List.nil_append]
        rw [h4, h1]
        rfl
      · have hs2 : (mailslot_write e filp buff len sys.st).1.success = false := by
          simpa using hs
        simp only [hs2, Bool.false_eq_true, if_false, List.append_nil, List.nil_append]
        rw [mailslot_write_quiet e filp buff len sys.st hwf hs2]
  | ioctl e filp cmd arg =>
    simp only [wrote, got, step]
    cases hsl : sleeper_of sys.asleep e.current with
    | some sl => simp
    | none =>
      simp only [List.append_nil, List.nil_append]
      exact (mailslot_ioctl_queue e filp cmd arg sys.st).symm
  | resume e =>
    simp only [wrote, got, step]
    cases hsl : sleeper_of sys.asleep e.current with
    | none => simp
    | some sl =>
      cases sl with
      | read len pc =>
        cases pc with
        | lock =>
          simp only [resume, List.append_nil]
          by_cases hs : (read_acquire e len sys.st).1.success = true
          · simp only [hs, if_true, List.singleton_append]
            exact read_acquire_queue e len sys.st hwf hs
          · have hs2 : (read_acquire e len sys.st).1.success = false := by simpa using hs
            simp only [hs2, Bool.false_eq_true, if_false, List.nil_append]
            rw [read_acquire_quiet e len sys.st hwf hs2]
        | wait =>
          simp only [resume, List.append_nil]
          by_cases hs : (read_wake e len sys.st).1.success = true
          · simp only [hs, if_true, List.singleton_append]
            exact read_wake_queue e len sys.st hwf hs
          · have hs2 : (read_wake e len sys.st).1.success = false := by simpa using hs
            simp only [hs2, Bool.false_eq_true, if_false, List.nil_append]
            rw [read_wake_quiet e len sys.st hwf hs2]
      | write buff len pc =>
        cases pc with
        | lock =>
          simp only [resume, List.nil_append]
          by_cases hs : (write_acquire e buff len sys.st).1.success = true
          · simp only [hs, if_true]
            exact (write_acquire_queue e buff len sys.st hwf hs).symm
          · have hs2 : (write_acquire e buff len sys.st).1.success = false := by simpa using hs
            simp only [hs2, Bool.false_eq_true, if_false, List.append_nil]
            rw [write_acquire_quiet e buff len sys.st hwf hs2]
        | wait =>
          simp only [resume, List.nil_append]
          by_cases hs : (write_wake e buff len sys.st).1.success = true
          · simp only [hs, if_true]
            exact (write_wake_queue e buff len sys.st hwf hs).symm
          · have hs2 : (write_wake e buff len sys.st).1.success = false := by simpa using hs
            simp only [hs2, Bool.false_eq_true, if_false, List.append_nil]
            rw [write_wake_quiet e buff len sys.st hwf hs2]
      | ioctl arg =>
        simp only [resume, List.append_nil, List.nil_append]
        exact (ioctl_set_max_queue e BLOCKING arg sys.st).symm
  | hold t =>
    simp only [wrote, got, step, List.append_nil, List.nil_append]
    cases hm : sys.st.slot.mutex with
    | none => exact (queue_congr sys.st _ rfl rfl rfl).symm
    | some t2 => rfl
  | drop t =>
    simp only [wrote, got, step, List.append_nil, List.nil_append]
    by_cases hm : sys.st.slot.mutex = some t
    · simp only [hm, if_true]
      exact (queue_congr sys.st _ rfl rfl rfl).symm
    · simp only [hm, if_false]

/-- An execution: the queue it starts with followed by what it stores is what it delivers
followed by the queue it ends with. -/
theorem run_queue (evs : List Event) :
    ∀ sys, Inv sys →
      queue sys.st ++ written evs sys = delivered evs sys ++ queue (run evs sys).st := by
  induction evs with
  | nil => intro sys _; simp [written, delivered, run]
  | cons ev evs ih =>
    intro sys hinv
    simp only [written, delivered, run]
    rw [← List.append_assoc, step_queue ev sys hinv.1, List.append_assoc,
      ih (step ev sys) (step_inv ev sys hinv), List.append_assoc]

/-! ## Freeing the queued records -/

theorem heap_nil_of_dead (h : List (Nat × message)) (hd : ∀ a, deref h a = none) : h = [] := by
  cases h with
  | nil => rfl
  | cons x r =>
    have := hd x.1
    simp [deref] at this

/-- Freeing `n` records from `head` on, where `n` links can be followed through pairwise
distinct live records, never meets a dead address and frees exactly those records. -/
theorem deallocate_messages_walk :
    ∀ (n : Nat) (s : State) (as : List Nat), walk s.heap n s.slot.head = some as → as.Nodup →
      ∃ s2, deallocate_messages n s = some s2 ∧
        ∀ a, deref s2.heap a = if a ∈ as then none else deref s.heap a := by
  intro n
  induction n with
  | zero =>
    intro s as hw _
    rw [walk_zero] at hw
    cases hw
    exact ⟨s, rfl, fun a => by simp⟩
  | succ n ih =>
    intro s as hw hnd
    obtain ⟨m, r, hm, hr, has⟩ := (walk_succ _ _ _ _).mp hw
    subst has
    have hnotin : s.slot.head ∉ r := (List.nodup_cons.mp hnd).1
    have hw2 : walk (kfree s.heap s.slot.head) n m.next = some r := by
      apply walk_congr s.heap _ n m.next r hr
      intro a ha
      rw [deref_kfree]
      have : a ≠ s.slot.head := fun h => hnotin (h ▸ ha)
      simp [this]
    obtain ⟨s2, h1, h2⟩ := ih
      { heap := kfree s.heap s.slot.head, slot := { s.slot with head := m.next } } r hw2
      (List.nodup_cons.mp hnd).2
    refine ⟨s2, ?_, ?_⟩
    · simp only [deallocate_messages, hm]
      exact h1
    · intro a
      rw [h2 a]
      simp only [deref_kfree, List.mem_cons]
      by_cases har : a ∈ r
      · simp [har]
      · by_cases hah : a = s.slot.head
        · simp [hah]
        · simp [har, hah]

/-- On a well-formed slot `__deallocate_instances` follows live records only and leaves no
record allocated. -/
theorem WF.deallocate {s : State} (hwf : WF s) :
    ∃ s2, __deallocate_instances s = some s2 ∧ s2.heap = [] := by
  obtain ⟨as, hl⟩ := hwf.linked
  obtain ⟨s2, h1, h2⟩ := deallocate_messages_walk _ s as hl.walk_eq hl.nodup
  refine ⟨s2, h1, heap_nil_of_dead _ ?_⟩
  intro a
  rw [h2 a]
  by_cases ha : a ∈ as
  · simp [ha]
  · simp only [ha, if_false]
    cases hd : deref s.heap a with
    | none => rfl
    | some m => exact absurd (hl.only a m hd) ha

/-! ## Where a write can return `-EPERM` -/

theorem write_store_eperm (e : Env) (nb : Nat) (bytes : List Nat) (len c : Nat) (s : State)
    (hwf : WF s) (hfree : s.slot.mutex = none)
    (h : (write_store e nb bytes len (mutex_set s (some c))).1 = Outcome.ret (-EPERM)) :
    s.slot.max_msg_size < len ∧ (write_store e nb bytes len (mutex_set s (some c))).2 = s := by
  rcases write_store_outcomes e nb bytes len c s hwf hfree with
    ⟨h0, h1⟩ | ⟨_, _, h1⟩ | ⟨_, _, _, h1⟩ | ⟨_, _, _, _, h1, _⟩
  · exact ⟨h0, by rw [h1]⟩
  · rw [h1] at h
    by_cases hnb : nb ≠ 0 <;> simp [hnb, EAGAIN, ENOMEM, EPERM] at h
  · rw [h1] at h
    simp [EFAULT, EPERM] at h
  · rw [h1] at h
    simp only [Outcome.ret.injEq, EPERM] at h
    omega

/-- A continuation of a blocking write on a well-formed slot that returns `-EPERM` found the
mutex free, fewer than 64 messages and a limit below the length, and hands back the state it was
given. -/
theorem write_acquire_eperm (e : Env) (bytes : List Nat) (len : Nat) (s : State) (hwf : WF s)
    (h : (write_acquire e bytes len s).1 = Outcome.ret (-EPERM)) :
    s.slot.mutex = none ∧ s.slot.msg_count < MAILSLOT_STORAGE ∧ s.slot.max_msg_size < len ∧
      (write_acquire e bytes len s).2 = s := by
  cases hm : s.slot.mutex with
  | some t =>
    rw [write_acquire_held e bytes len t s hm] at h
    by_cases hsig : e.signal <;> simp [hsig, EINTR, EPERM] at h
  | none =>
    by_cases hc : s.slot.msg_count = MAILSLOT_STORAGE
    · rw [write_acquire_full e bytes len s hm hc] at h
      by_cases hsig : e.signal <;> simp [hsig, EINTR, EPERM] at h
    · rw [write_acquire_room e bytes len s hm hc] at h ⊢
      obtain ⟨h1, h2⟩ := write_store_eperm e 0 bytes len _ s hwf hm h
      exact ⟨rfl, lt_of_le_of_ne hwf.count_le hc, h1, h2⟩

theorem write_wake_eperm (e : Env) (bytes : List Nat) (len : Nat) (s : State) (hwf : WF s)
    (h : (write_wake e bytes len s).1 = Outcome.ret (-EPERM)) :
    s.slot.mutex = none ∧ s.slot.msg_count < MAILSLOT_STORAGE ∧ s.slot.max_msg_size < len ∧
      (write_wake e bytes len s).2 = s := by
  by_cases hc : s.slot.msg_count < MAILSLOT_STORAGE
  · have heq : write_wake e bytes len s = write_acquire e bytes len s := by
      unfold write_wake wait_event_interruptible_exclusive
      simp only [hc, decide_True, if_true, ne_eq, not_true_eq_false, if_false]
    rw [heq] at h ⊢
    exact write_acquire_eperm e bytes len s hwf h
  · unfold write_wake wait_event_interruptible_exclusive at h
    by_cases hsig : e.signal
    · simp [hc, hsig, ERESTARTSYS, EINTR, EPERM] at h
    · simp [hc, hsig] at h

theorem mailslot_write_eperm (e : Env) (filp : file) (buff : Option (List Nat)) (len : Nat)
    (s : State) (hwf : WF s)
    (h : (mailslot_write e filp buff len s).1 = Outcome.ret (-EPERM)) :
    s.slot.mutex = none ∧ s.slot.msg_count < MAILSLOT_STORAGE ∧ s.slot.max_msg_size < len ∧
      (mailslot_write e filp buff len s).2 = s := by
  by_cases hlen : len = 0
  · subst hlen
    simp [mailslot_write, EINVAL, EPERM] at h
  cases buff with
  | none => simp [mailslot_write, hlen, EINVAL, EPERM] at h
  | some bytes =>
    cases hm : s.slot.mutex with
    | some t =>
      rw [mailslot_write_held e filp bytes len t s hm hlen] at h
      by_cases hp : __get_blocking_policy filp ≠ 0
      · simp [hp, EAGAIN, EPERM] at h
      · by_cases hsig : e.signal <;> simp [hp, hsig, EINTR, EPERM] at h
    | none =>
      by_cases hc : s.slot.msg_count = MAILSLOT_STORAGE
      · rw [mailslot_write_full e filp bytes len s hm hc hlen] at h
        by_cases hp : __get_blocking_policy filp ≠ 0 <;> by_cases hsig : e.signal <;>
          simp [hp, hsig, EAGAIN, EINTR, EPERM] at h
      · rw [mailslot_write_room e filp bytes len s hm hc hlen] at h ⊢
        obtain ⟨h1, h2⟩ := write_store_eperm e _ bytes len _ s hwf hm h
        exact ⟨rfl, lt_of_le_of_ne hwf.count_le hc, h1, h2⟩

/-! ## What a blocking call can return -/

theorem read_deliver_returns (e : Env) (nb len c : Nat) (s : State)
    (hwf : WF s) (hfree : s.slot.mutex = none) (hc : s.slot.msg_count ≠ 0) :
    ∃ v, (read_deliver e nb len (mutex_set s (some c))).1 = Outcome.ret v ∧
      v ≠ -EAGAIN ∧ v ≠ -EINTR ∧ v ≠ -EINVAL := by
  obtain ⟨hd, _, _, _, _, ⟨_, h1⟩ | ⟨_, _, h1⟩ | ⟨_, _, h1, _⟩⟩ :=
    read_deliver_outcomes e nb len c s hwf hfree hc
  · exact ⟨_, by rw [h1], by decide, by decide, by decide⟩
  · exact ⟨_, by rw [h1], by decide, by decide, by decide⟩
  · refine ⟨_, h1, ?_, ?_, ?_⟩ <;> simp only [EAGAIN, EINTR, EINVAL] <;> omega

theorem write_store_returns (e : Env) (bytes : List Nat) (len c : Nat) (s : State)
    (hwf : WF s) (hfree : s.slot.mutex = none) :
    ∃ v, (write_store e BLOCKING bytes len (mutex_set s (some c))).1 = Outcome.ret v ∧
      v ≠ -EAGAIN ∧ v ≠ -EINTR ∧ v ≠ -EINVAL := by
  rcases write_store_outcomes e BLOCKING bytes len c s hwf hfree with
    ⟨_, h1⟩ | ⟨_, _, h1⟩ | ⟨_, _, _, h1⟩ | ⟨_, _, _, _, h1, _⟩
  · exact ⟨_, by rw [h1], by decide, by decide, by decide⟩
  · exact ⟨_, by rw [h1], by decide, by decide, by decide⟩
  · exact ⟨_, by rw [h1], by decide, by decide, by decide⟩
  · refine ⟨_, h1, ?_, ?_, ?_⟩ <;> simp only [EAGAIN, EINTR, EINVAL] <;> omega

/-- A blocking reader that tries the mutex returns either interrupted, a signal being pending
while the mutex is owned or while the slot, found empty, makes it enter the wait, or from the
delivery, the mutex being free and the slot not empty. -/
theorem read_acquire_returns (e : Env) (len : Nat) (s : State) (hwf : WF s) (v : Int)
    (h : (read_acquire e len s).1 = Outcome.ret v) :
    (e.signal = true ∧ v = -EINTR ∧ (s.slot.mutex ≠ none ∨ s.slot.msg_count = 0)) ∨
    (s.slot.mutex = none ∧ 0 < s.slot.msg_count ∧ v ≠ -EAGAIN ∧ v ≠ -EINTR ∧
      read_acquire e len s = read_deliver e BLOCKING len (mutex_set s (some e.current))) := by
  cases hm : s.slot.mutex with
  | some t =>
    rw [read_acquire_held e len t s hm] at h
    by_cases hsig : e.signal
    · simp only [hsig, if_true, Outcome.ret.injEq] at h
      exact Or.inl ⟨hsig, h.symm, Or.inl (by simp)⟩
    · simp [hsig] at h
  | none =>
    by_cases hc : s.slot.msg_count = 0
    · rw [read_acquire_empty e len s hm hc] at h
      by_cases hsig : e.signal
      · simp only [hsig, if_true, Outcome.ret.injEq] at h
        exact Or.inl ⟨hsig, h.symm, Or.inr hc⟩
      · simp [hsig] at h
    · obtain ⟨w, hw, h1, h2, _⟩ := read_deliver_returns e BLOCKING len e.current s hwf hm hc
      have heq : read_acquire e len s
          = read_deliver e BLOCKING len (mutex_set s (some e.current)) :=
        read_acquire_live e len s hm hc
      rw [heq, hw] at h
      cases h
      have := hwf.count_nonneg
      exact Or.inr ⟨rfl, by omega, h1, h2, heq⟩

theorem read_wake_returns (e : Env) (len : Nat) (s : State) (hwf : WF s) (v : Int)
    (h : (read_wake e len s).1 = Outcome.ret v) :
    (e.signal = true ∧ v = -EINTR ∧ (s.slot.mutex ≠ none ∨ s.slot.msg_count = 0)) ∨
    (s.slot.mutex = none ∧ 0 < s.slot.msg_count ∧ v ≠ -EAGAIN ∧ v ≠ -EINTR ∧
      read_wake e len s = read_deliver e BLOCKING len (mutex_set s (some e.current))) := by
  by_cases hc : s.slot.msg_count > 0
  · have heq : read_wake e len s = read_acquire e len s := by
      unfold read_wake wait_event_interruptible_exclusive
      simp only [hc, decide_True, if_true, ne_eq, not_true_eq_false, if_false]
    rw [heq] at h ⊢
    rcases read_acquire_returns e len s hwf v h with h1 | h2
    · exact Or.inl h1
    · exact Or.inr h2
  · unfold read_wake wait_event_interruptible_exclusive at h
    by_cases hsig : e.signal
    · simp [hc, hsig, ERESTARTSYS] at h
      have := hwf.count_nonneg
      exact Or.inl ⟨hsig, h.symm, Or.inr (by omega)⟩
    · simp [hc, hsig] at h

theorem write_acquire_returns (e : Env) (bytes : List Nat) (len : Nat) (s : State) (hwf : WF s)
    (v : Int) (h : (write_acquire e bytes len s).1 = Outcome.ret v) :
    (e.signal = true ∧ v = -EINTR ∧
      (s.slot.mutex ≠ none ∨ s.slot.msg_count = MAILSLOT_STORAGE)) ∨
    (s.slot.mutex = none ∧ s.slot.msg_count < MAILSLOT_STORAGE ∧ v ≠ -EAGAIN ∧ v ≠ -EINTR ∧
      write_acquire e bytes len s
        = write_store e BLOCKING bytes len (mutex_set s (some e.current))) := by
  cases hm : s.slot.mutex with
  | some t =>
    rw [write_acquire_held e bytes len t s hm] at h
    by_cases hsig : e.signal
    · simp only [hsig, if_true, Outcome.ret.injEq] at h
      exact Or.inl ⟨hsig, h.symm, Or.inl (by simp)⟩
    · simp [hsig] at h
  | none =>
    by_cases hc : s.slot.msg_count = MAILSLOT_STORAGE
    · rw [write_acquire_full e bytes len s hm hc] at h
      by_cases hsig : e.signal
      · simp only [hsig, if_true, Outcome.ret.injEq] at h
        exact Or.inl ⟨hsig, h.symm, Or.inr hc⟩
      · simp [hsig] at h
    · obtain ⟨w, hw, h1, h2, _⟩ := write_store_returns e bytes len e.current s hwf hm
      have heq : write_acquire e bytes len s
          = write_store e BLOCKING bytes len (mutex_set s (some e.current)) :=
        write_acquire_room e bytes len s hm hc
      rw [heq, hw] at h
      cases h
      exact Or.inr ⟨rfl, lt_of_le_of_ne hwf.count_le hc, h1, h2, heq⟩

theorem write_wake_returns (e : Env) (bytes : List Nat) (len : Nat) (s : State) (hwf : WF s)
    (v : Int) (h : (write_wake e bytes len s).1 = Outcome.ret v) :
    (e.signal = true ∧ v = -EINTR ∧
      (s.slot.mutex ≠ none ∨ s.slot.msg_count = MAILSLOT_STORAGE)) ∨
    (s.slot.mutex = none ∧ s.slot.msg_count < MAILSLOT_STORAGE ∧ v ≠ -EAGAIN ∧ v ≠ -EINTR ∧
      write_wake e bytes len s
        = write_store e BLOCKING bytes len (mutex_set s (some e.current))) := by
  by_cases hc : s.slot.msg_count < MAILSLOT_STORAGE
  · have heq : write_wake e bytes len s = write_acquire e bytes len s := by
      unfold write_wake wait_event_interruptible_exclusive
      simp only [hc, decide_True, if_true, ne_eq, not_true_eq_false, if_false]
    rw [heq] at h ⊢
    rcases write_acquire_returns e bytes len s hwf v h with h1 | h2
    · exact Or.inl h1
    · exact Or.inr h2
  · unfold write_wake wait_event_interruptible_exclusive at h
    by_cases hsig : e.signal
    · simp [hc, hsig, ERESTARTSYS] at h
      have := hwf.count_le
      exact Or.inl ⟨hsig, h.symm, Or.inr (by omega)⟩
    · simp [hc, hsig] at h

/-- A call of `mailslot_read` on a blocking session is the blocking branch unless an argument
is invalid. -/
theorem mailslot_read_blocking (e : Env) (filp : file) (buff len : Nat) (s : State)
    (hpol : __get_blocking_policy filp = BLOCKING) (hbuff : buff ≠ 0) (hlen : len ≠ 0) :
    mailslot_read e filp buff len s = read_acquire e len s := by
  unfold mailslot_read
  simp [hpol, hbuff, hlen, BLOCKING]

theorem mailslot_write_blocking (e : Env) (filp : file) (bytes : List Nat) (len : Nat)
    (s : State) (hpol : __get_blocking_policy filp = BLOCKING) (hlen : len ≠ 0) :
    mailslot_write e filp (some bytes) len s = write_acquire e bytes len s := by
  unfold mailslot_write
  simp [hpol, hlen, BLOCKING]

theorem ioctl_set_max_blocking (e : Env) (arg : Nat) (s : State) (v : Int)
    (h : (ioctl_set_max e BLOCKING arg s).1 = Outcome.ret v) :
    (s.slot.mutex ≠ none ∧ e.signal = true ∧ v = -EINTR) ∨
    (s.slot.mutex = none ∧ v = SUCCESS) := by
  cases hm : s.slot.mutex with
  | some t =>
    rw [ioctl_set_max_held e BLOCKING arg t s hm] at h
    by_cases hsig : e.signal
    · simp [hsig, BLOCKING] at h
      exact Or.inl ⟨by simp, hsig, h.symm⟩
    · simp [hsig, BLOCKING] at h
  | none =>
    rw [ioctl_set_max_free e BLOCKING arg s hm] at h
    simp only [Outcome.ret.injEq] at h
    exact Or.inr ⟨rfl, h.symm⟩

/-! ## The slot as a bounded list -/

/-- An event stores at most one payload, and delivers nothing when it stores one. -/
theorem wrote_cases (ev : Event) (sys : System) :
    wrote ev sys = [] ∨ ∃ p, wrote ev sys = [p] ∧ got ev sys = [] := by
  cases ev with
  | read e filp buff len => left; rfl
  | write e filp buff len =>
    simp only [wrote, got]
    cases sleeper_of sys.asleep e.current with
    | some sl => left; rfl
    | none =>
      by_cases hs : (mailslot_write e filp buff len sys.st).1.success = true
      · right; exact ⟨(buff.getD []).take len, by simp [hs], trivial⟩
      · left; simp [hs]
  | ioctl e filp cmd arg => left; rfl
  | resume e =>
    simp only [wrote, got]
    cases sleeper_of sys.asleep e.current with
    | none => left; rfl
    | some sl =>
      cases sl with
      | read len pc => left; rfl
      | write buff len pc =>
        by_cases hs : (resume e (Sleeper.write buff len pc) sys.st).1.success = true
        · right; exact ⟨buff.take len, by simp [hs], rfl⟩
        · left; simp [hs]
      | ioctl arg => left; rfl
  | hold t => left; rfl
  | drop t => left; rfl

/-- An event delivers to at most one reader. -/
theorem got_cases (ev : Event) (sys : System) :
    got ev sys = [] ∨ ∃ p, got ev sys = [p] := by
  cases ev with
  | read e filp buff len =>
    simp only [got]
    cases sleeper_of sys.asleep e.current with
    | some sl => left; rfl
    | none =>
      by_cases hs : (mailslot_read e filp buff len sys.st).1.success = true
      · right; exact ⟨(mailslot_read e filp buff len sys.st).2.1, by simp [hs]⟩
      · left; simp [hs]
  | write e filp buff len => left; rfl
  | ioctl e filp cmd arg => left; rfl
  | resume e =>
    simp only [got]
    cases sleeper_of sys.asleep e.current with
    | none => left; rfl
    | some sl =>
      cases sl with
      | read len pc =>
        cases pc with
        | lock =>
          by_cases hs : (read_acquire e len sys.st).1.success = true
          · right; exact ⟨(read_acquire e len sys.st).2.1, by simp [hs]⟩
          · left; simp [hs]
        | wait =>
          by_cases hs : (read_wake e len sys.st).1.success = true
          · right; exact ⟨(read_wake e len sys.st).2.1, by simp [hs]⟩
          · left; simp [hs]
      | write buff len pc => left; rfl
      | ioctl arg => left; rfl
  | hold t => left; rfl
  | drop t => left; rfl

/-- Every event of an execution is a step of the abstract queue, from the queue of the slot
before the event to the queue of the slot after it. -/
theorem step_abstract (ev : Event) (sys : System) (hinv : Inv sys) :
    abstract_step (observe ev sys) (queue sys.st) = some (queue (step ev sys).st) := by
  have hq := step_queue ev sys hinv.1
  have hlen := queue_length (step ev sys).st (step_inv ev sys hinv).1
  have hle := (step_inv ev sys hinv).1.count_le
  rcases wrote_cases ev sys with hw | ⟨p, hw, hg⟩
  · rcases got_cases ev sys with hg | ⟨p, hg⟩
    · rw [hw, hg, List.append_nil, List.nil_append] at hq
      simp only [observe, hw, hg, abstract_step]
      rw [hq]
    · rw [hw, hg, List.append_nil, List.singleton_append] at hq
      simp only [observe, hw, hg, abstract_step, hq, abstract_read]
      simp
  · rw [hw, hg, List.nil_append] at hq
    simp only [observe, hw, abstract_step, abstract_write]
    rw [← hq, List.length_append, List.length_singleton] at hlen
    have hlt : ((queue sys.st).length : Int) < MAILSLOT_STORAGE := by
      push_cast at hlen
      omega
    simp only [hlt, if_true]
    rw [hq]

/-- The abstract queue follows every execution and ends in the queue of the final slot. -/
theorem run_abstract (evs : List Event) :
    ∀ sys, Inv sys → abstract_run evs sys (queue sys.st) = some (queue (run evs sys).st) := by
  induction evs with
  | nil => intro sys _; rfl
  | cons ev evs ih =>
    intro sys hinv
    simp only [abstract_run, run, step_abstract ev sys hinv]
    exact ih (step ev sys) (step_inv ev sys hinv)

/-! ## The locking calls a call makes -/

theorem read_deliver_traced_eq (e : Env) (nb len : Nat) (ts : Traced) :
    read_deliver_traced e nb len ts =
      ((read_deliver e nb len ts.st).1, (read_deliver e nb len ts.st).2.1,
        { st := (read_deliver e nb len ts.st).2.2,
          ops := ts.ops ++ if (read_deliver e nb len ts.st).1 = Outcome.oops then []
            else [LockOp.unlock ts.st.slot.mutex] }) := by
  unfold read_deliver_traced read_deliver
  cases hd : deref ts.st.heap ts.st.slot.head with
  | none => simp
  | some m =>
    simp only []
    by_cases h1 : m.length > len
    · simp [h1, __mailslot_unlock_traced]
    · by_cases h2 : (copy_to_user e m.content m.length).1 > 0
      · simp [h1, h2, __mailslot_unlock_traced]
      · simp [h1, h2, __mailslot_unlock_traced]
        split <;> rfl

theorem write_store_traced_eq (e : Env) (nb : Nat) (bytes : List Nat) (len : Nat)
    (ts : Traced) :
    write_store_traced e nb bytes len ts =
      ((write_store e nb bytes len ts.st).1,
        { st := (write_store e nb bytes len ts.st).2,
          ops := ts.ops ++ if (write_store e nb bytes len ts.st).1 = Outcome.oops then []
            else [LockOp.unlock ts.st.slot.mutex] }) := by
  unfold write_store_traced write_store
  by_cases h1 : len > ts.st.slot.max_msg_size
  · simp [h1, __mailslot_unlock_traced]
  · simp only [h1, if_false]
    by_cases h2 : (kzalloc e.kzalloc_msg ts.st.heap).1 = 0
    · simp [h2, __mailslot_unlock_traced]
    · by_cases h3 : e.kzalloc_content
      · by_cases h4 : (copy_from_user e bytes len).1 > 0
        · simp [h2, h3, h4, __mailslot_unlock_traced]
        · by_cases h5 : ts.st.slot.msg_count = 0
          · simp [h2, h3, h4, h5, __mailslot_unlock_traced]
          · simp only [h2, h3, h4, h5, if_false, Bool.not_true, Bool.false_eq_true, ite_self]
            cases htl : deref (store (store (kzalloc e.kzalloc_msg ts.st.heap).2
                (kzalloc e.kzalloc_msg ts.st.heap).1 ⟨[], len, 0⟩)
                (kzalloc e.kzalloc_msg ts.st.heap).1 ⟨(copy_from_user e bytes len).2, len, 0⟩)
                ts.st.slot.tail with
            | none => simp
            | some tl => simp [__mailslot_unlock_traced]
      · simp [h2, h3, __mailslot_unlock_traced]


theorem read_locked_traced_eq (e : Env) (nb len : Nat) (ts : Traced) :
    read_locked_traced e nb len ts =
      ((read_locked e nb len ts.st).1, (read_locked e nb len ts.st).2.1,
        { st := (read_locked e nb len ts.st).2.2,
          ops := ts.ops ++ if (read_locked e nb len ts.st).1 = Outcome.oops then []
            else [LockOp.unlock ts.st.slot.mutex] }) := by
  by_cases hc : ts.st.slot.msg_count = 0
  · have hc2 : (__mailslot_unlock ts.st).slot.msg_count = 0 := hc
    rw [read_locked_empty e nb len ts.st hc]
    unfold read_locked_traced wait_event_interruptible_exclusive
    by_cases hnb : nb ≠ 0
    · simp [hc, hnb, __mailslot_unlock_traced]
    · by_cases hs : e.signal <;>
        simp [hc, hc2, hnb, hs, __mailslot_unlock_traced, ERESTARTSYS]
  · unfold read_locked_traced read_locked
    simp only [hc, if_false]
    exact read_deliver_traced_eq e nb len ts

theorem write_locked_traced_eq (e : Env) (nb : Nat) (bytes : List Nat) (len : Nat)
    (ts : Traced) :
    write_locked_traced e nb bytes len ts =
      ((write_locked e nb bytes len ts.st).1,
        { st := (write_locked e nb bytes len ts.st).2,
          ops := ts.ops ++ if (write_locked e nb bytes len ts.st).1 = Outcome.oops then []
            else [LockOp.unlock ts.st.slot.mutex] }) := by
  by_cases hc : ts.st.slot.msg_count = MAILSLOT_STORAGE
  · have hc2 : (__mailslot_unlock ts.st).slot.msg_count = MAILSLOT_STORAGE := hc
    rw [write_locked_full e nb bytes len ts.st hc]
    unfold write_locked_traced wait_event_interruptible_exclusive
    by_cases hnb : nb ≠ 0
    · simp [hc, hnb, __mailslot_unlock_traced]
    · by_cases hs : e.signal <;>
        simp [hc, hc2, hnb, hs, __mailslot_unlock_traced, ERESTARTSYS]
  · unfold write_locked_traced write_locked
    simp only [hc, if_false]
    exact write_store_traced_eq e nb bytes len ts

/-- Every return of `read_deliver` other than through a dead address leaves the mutex free. -/
theorem read_deliver_mutex (e : Env) (nb len : Nat) (s : State)
    (h : (read_deliver e nb len s).1 ≠ Outcome.oops) :
    (read_deliver e nb len s).2.2.slot.mutex = none := by
  unfold read_deliver at h ⊢
  cases hd : deref s.heap s.slot.head with
  | none => simp [hd] at h
  | some m =>
    simp only []
    by_cases h1 : m.length > len
    · simp [h1, __mailslot_unlock, mutex_unlock]
    · by_cases h2 : (copy_to_user e m.content m.length).1 > 0
      · simp [h1, h2, __mailslot_unlock, mutex_unlock]
      · simp [h1, h2, __mailslot_unlock, mutex_unlock]

theorem read_locked_mutex (e : Env) (nb len : Nat) (s : State)
    (h : (read_locked e nb len s).1 ≠ Outcome.oops) :
    (read_locked e nb len s).2.2.slot.mutex = none := by
  by_cases hc : s.slot.msg_count = 0
  · rw [read_locked_empty e nb len s hc]
    rfl
  · unfold read_locked at h ⊢
    simp only [hc, if_false] at h ⊢
    exact read_deliver_mutex e nb len s h

/-- Every return of `write_store` other than through a dead address leaves the mutex free. -/
theorem write_store_mutex (e : Env) (nb : Nat) (bytes : List Nat) (len : Nat) (s : State)
    (h : (write_store e nb bytes len s).1 ≠ Outcome.oops) :
    (write_store e nb bytes len s).2.slot.mutex = none := by
  unfold write_store at h ⊢
  by_cases h1 : len > s.slot.max_msg_size
  · simp [h1, __mailslot_unlock, mutex_unlock]
  · simp only [h1, if_false] at h ⊢
    by_cases h2 : (kzalloc e.kzalloc_msg s.heap).1 = 0
    · simp [h2, __mailslot_unlock, mutex_unlock]
    · by_cases h3 : e.kzalloc_content
      · by_cases h4 : (copy_from_user e bytes len).1 > 0
        · simp [h2, h3, h4, __mailslot_unlock, mutex_unlock]
        · by_cases h5 : s.slot.msg_count = 0
          · simp [h2, h3, h4, h5, __mailslot_unlock, mutex_unlock]
          · simp only [h2, h3, h4, h5, if_false, Bool.not_true, Bool.false_eq_true, ite_self]
              at h ⊢
            cases htl : deref (store (store (kzalloc e.kzalloc_msg s.heap).2
                (kzalloc e.kzalloc_msg s.heap).1 ⟨[], len, 0⟩)
                (kzalloc e.kzalloc_msg s.heap).1 ⟨(copy_from_user e bytes len).2, len, 0⟩)
                s.slot.tail with
            | none => simp [htl] at h
            | some tl => simp [__mailslot_unlock, mutex_unlock]
      · simp [h2, h3, __mailslot_unlock, mutex_unlock]

theorem write_locked_mutex (e : Env) (nb : Nat) (bytes : List Nat) (len : Nat) (s : State)
    (h : (write_locked e nb bytes len s).1 ≠ Outcome.oops) :
    (write_locked e nb bytes len s).2.slot.mutex = none := by
  by_cases hc : s.slot.msg_count = MAILSLOT_STORAGE
  · rw [write_locked_full e nb bytes len s hc]
    rfl
  · unfold write_locked at h ⊢
    simp only [hc, if_false] at h ⊢
    exact write_store_mutex e nb bytes len s h

theorem balanced_idle (t : Nat) (s : State) : Balanced t s { st := s, ops := [] } :=
  ⟨rfl, Or.inl rfl, rfl⟩

theorem balanced_refused (t : Nat) (s : State) (r : Option Int) (hr : r ≠ some SUCCESS)
    (hm : s.slot.mutex ≠ none) : Balanced t s { st := s, ops := [LockOp.lock r] } :=
  ⟨rfl, Or.inr (Or.inl ⟨r, hr, hm, rfl⟩), by simp [lock_flag, hr]⟩

theorem balanced_pair (t : Nat) (s s2 : State) (hm : s.slot.mutex = none)
    (hm2 : s2.slot.mutex = none) :
    Balanced t s { st := s2, ops := [LockOp.lock (some 0), LockOp.unlock (some t)] } :=
  ⟨by rw [hm]; exact hm2, Or.inr (Or.inr ⟨hm, rfl⟩), by simp [lock_flag, SUCCESS]⟩

theorem tracks_idle (t : Nat) (s : State) (o : Outcome) : Tracks t s o s o { st := s, ops := [] } :=
  ⟨rfl, rfl, fun _ => balanced_idle t s⟩

theorem tracks_refused (t : Nat) (s : State) (o : Outcome) (r : Option Int)
    (hr : r ≠ some SUCCESS) (hm : s.slot.mutex ≠ none) :
    Tracks t s o s o { st := s, ops := [LockOp.lock r] } :=
  ⟨rfl, rfl, fun _ => balanced_refused t s r hr hm⟩

/-- The code a reader runs once it owns the mutex. -/
theorem read_locked_tracks (e : Env) (nb len : Nat) (s : State) (hm : s.slot.mutex = none) :
    Tracks e.current s (read_locked e nb len (mutex_set s (some e.current))).1
      (read_locked e nb len (mutex_set s (some e.current))).2.2
      (read_locked_traced e nb len
        { st := mutex_set s (some e.current), ops := [LockOp.lock (some 0)] }).1
      (read_locked_traced e nb len
        { st := mutex_set s (some e.current), ops := [LockOp.lock (some 0)] }).2.2 ∧
    (read_locked_traced e nb len
        { st := mutex_set s (some e.current), ops := [LockOp.lock (some 0)] }).2.1
      = (read_locked e nb len (mutex_set s (some e.current))).2.1 := by
  rw [read_locked_traced_eq]
  refine ⟨⟨rfl, rfl, ?_⟩, rfl⟩
  intro hok
  simp only [hok, if_false, mutex_set_mutex, List.singleton_append]
  exact balanced_pair e.current s _ hm (read_locked_mutex e nb len _ hok)

/-- The code a writer runs once it owns the mutex. -/
theorem write_locked_tracks (e : Env) (nb : Nat) (bytes : List Nat) (len : Nat) (s : State)
    (hm : s.slot.mutex = none) :
    Tracks e.current s (write_locked e nb bytes len (mutex_set s (some e.current))).1
      (write_locked e nb bytes len (mutex_set s (some e.current))).2
      (write_locked_traced e nb bytes len
        { st := mutex_set s (some e.current), ops := [LockOp.lock (some 0)] }).1
      (write_locked_traced e nb bytes len
        { st := mutex_set s (some e.current), ops := [LockOp.lock (some 0)] }).2 := by
  rw [write_locked_traced_eq]
  refine ⟨rfl, rfl, ?_⟩
  intro hok
  simp only [hok, if_false, mutex_set_mutex, List.singleton_append]
  exact balanced_pair e.current s _ hm (write_locked_mutex e nb bytes len _ hok)


theorem lock_traced_free (e : Env) (nb : Nat) (s : State) (hm : s.slot.mutex = none) :
    __mailslot_lock_traced e nb { st := s, ops := [] }
      = (some 0, { st := mutex_set s (some e.current), ops := [LockOp.lock (some 0)] }) := by
  simp only [__mailslot_lock_traced, lock_free e nb s hm, List.nil_append]

theorem lock_traced_held_b (e : Env) (t : Nat) (s : State) (hm : s.slot.mutex = some t) :
    __mailslot_lock_traced e BLOCKING { st := s, ops := [] }
      = (if e.signal then some (-EINTR) else none,
          { st := s, ops := [LockOp.lock (if e.signal then some (-EINTR) else none)] }) := by
  simp only [__mailslot_lock_traced, BLOCKING, lock_held_b e t s hm]
  by_cases hsig : e.signal <;> simp [hsig]

theorem lock_traced_held_nb (e : Env) (nb t : Nat) (s : State) (hnb : nb ≠ 0)
    (hm : s.slot.mutex = some t) :
    __mailslot_lock_traced e nb { st := s, ops := [] }
      = (some (-EAGAIN), { st := s, ops := [LockOp.lock (some (-EAGAIN))] }) := by
  simp only [__mailslot_lock_traced, lock_held_nb e nb t s hnb hm, List.nil_append]

theorem read_acquire_free (e : Env) (len : Nat) (s : State) (hm : s.slot.mutex = none) :
    read_acquire e len s = read_locked e BLOCKING len (mutex_set s (some e.current)) := by
  unfold read_acquire
  rw [lock_free e BLOCKING s hm]
  simp [EINTR]

theorem write_acquire_free (e : Env) (bytes : List Nat) (len : Nat) (s : State)
    (hm : s.slot.mutex = none) :
    write_acquire e bytes len s
      = write_locked e BLOCKING bytes len (mutex_set s (some e.current)) := by
  unfold write_acquire
  rw [lock_free e BLOCKING s hm]
  simp [EINTR]

/-- A blocking reader that tries the mutex: one failed lock, or one lock and one unlock. -/
theorem read_acquire_tracks (e : Env) (len : Nat) (s : State) :
    Tracks e.current s (read_acquire e len s).1 (read_acquire e len s).2.2
      (read_acquire_traced e len { st := s, ops := [] }).1
      (read_acquire_traced e len { st := s, ops := [] }).2.2 ∧
    (read_acquire_traced e len { st := s, ops := [] }).2.1 = (read_acquire e len s).2.1 := by
  cases hm : s.slot.mutex with
  | some t =>
    rw [read_acquire_held e len t s hm]
    unfold read_acquire_traced
    rw [lock_traced_held_b e t s hm]
    by_cases hsig : e.signal
    · simp only [hsig, if_true]
      exact ⟨tracks_refused e.current s _ (some (-EINTR)) (by decide) (by simp [hm]),
        by first | rfl | trivial⟩
    · simp only [hsig]
      exact ⟨tracks_refused e.current s _ none (by decide) (by simp [hm]), rfl⟩
  | none =>
    rw [read_acquire_free e len s hm]
    unfold read_acquire_traced
    rw [lock_traced_free e BLOCKING s hm]
    have h0 : ¬ ((0 : Int) = -EINTR) := by decide
    simp only [if_neg h0]
    exact read_locked_tracks e BLOCKING len s hm

/-- A blocking writer that tries the mutex: one failed lock, or one lock and one unlock. -/
theorem write_acquire_tracks (e : Env) (bytes : List Nat) (len : Nat) (s : State) :
    Tracks e.current s (write_acquire e bytes len s).1 (write_acquire e bytes len s).2
      (write_acquire_traced e bytes len { st := s, ops := [] }).1
      (write_acquire_traced e bytes len { st := s, ops := [] }).2 := by
  cases hm : s.slot.mutex with
  | some t =>
    rw [write_acquire_held e bytes len t s hm]
    unfold write_acquire_traced
    rw [lock_traced_held_b e t s hm]
    by_cases hsig : e.signal
    · simp only [hsig, if_true]
      exact tracks_refused e.current s _ (some (-EINTR)) (by decide) (by simp [hm])
    · simp only [hsig]
      exact tracks_refused e.current s _ none (by decide) (by simp [hm])
  | none =>
    rw [write_acquire_free e bytes len s hm]
    unfold write_acquire_traced
    rw [lock_traced_free e BLOCKING s hm]
    have h0 : ¬ ((0 : Int) = -EINTR) := by decide
    simp only [if_neg h0]
    exact write_locked_tracks e BLOCKING bytes len s hm

/-- A reader woken from its wait makes no locking call unless the wait is over. -/
theorem read_wake_tracks (e : Env) (len : Nat) (s : State) :
    Tracks e.current s (read_wake e len s).1 (read_wake e len s).2.2
      (read_wake_traced e len { st := s, ops := [] }).1
      (read_wake_traced e len { st := s, ops := [] }).2.2 ∧
    (read_wake_traced e len { st := s, ops := [] }).2.1 = (read_wake e len s).2.1 := by
  unfold read_wake read_wake_traced
  cases hw : wait_event_interruptible_exclusive e (decide (s.slot.msg_count > 0)) with
  | none => exact ⟨tracks_idle _ s _, rfl⟩
  | some i =>
    by_cases hi : i ≠ 0
    · simp only [if_pos hi]
      exact ⟨tracks_idle _ s _, by first | rfl | trivial⟩
    · simp only [if_neg hi]
      exact read_acquire_tracks e len s

/-- A writer woken from its wait makes no locking call unless the wait is over. -/
theorem write_wake_tracks (e : Env) (bytes : List Nat) (len : Nat) (s : State) :
    Tracks e.current s (write_wake e bytes len s).1 (write_wake e bytes len s).2
      (write_wake_traced e bytes len { st := s, ops := [] }).1
      (write_wake_traced e bytes len { st := s, ops := [] }).2 := by
  unfold write_wake write_wake_traced
  cases hw : wait_event_interruptible_exclusive e
      (decide (s.slot.msg_count < MAILSLOT_STORAGE)) with
  | none => exact tracks_idle _ s _
  | some i =>
    by_cases hi : i ≠ 0
    · simp only [if_pos hi]
      exact tracks_idle _ s _
    · simp only [if_neg hi]
      exact write_acquire_tracks e bytes len s

theorem mailslot_read_tracks (e : Env) (filp : file) (buff len : Nat) (s : State) :
    Tracks e.current s (mailslot_read e filp buff len s).1 (mailslot_read e filp buff len s).2.2
      (mailslot_read_traced e filp buff len { st := s, ops := [] }).1
      (mailslot_read_traced e filp buff len { st := s, ops := [] }).2.2 ∧
    (mailslot_read_traced e filp buff len { st := s, ops := [] }).2.1
      = (mailslot_read e filp buff len s).2.1 := by
  unfold mailslot_read mailslot_read_traced
  by_cases hlen : len = 0
  · simp only [if_pos hlen]
    exact ⟨tracks_idle _ s _, by first | rfl | trivial⟩
  by_cases hbuff : buff = 0
  · simp only [if_neg hlen, if_pos hbuff]
    exact ⟨tracks_idle _ s _, by first | rfl | trivial⟩
  by_cases hnb : __get_blocking_policy filp ≠ 0
  · simp only [if_neg hlen, if_neg hbuff, if_pos hnb]
    cases hm : s.slot.mutex with
    | some t =>
      rw [lock_traced_held_nb e NONBLOCKING t s (by decide) hm,
        lock_held_nb e NONBLOCKING t s (by decide) hm]
      simp only [if_true]
      exact ⟨tracks_refused e.current s _ (some (-EAGAIN)) (by decide) (by simp [hm]),
        by first | rfl | trivial⟩
    | none =>
      rw [lock_traced_free e NONBLOCKING s hm, lock_free e NONBLOCKING s hm]
      have h0 : ¬ (some (0 : Int) = some (-EAGAIN)) := by decide
      simp only [if_neg h0]
      exact read_locked_tracks e _ len s hm
  · simp only [if_neg hlen, if_neg hbuff, if_neg hnb]
    exact read_acquire_tracks e len s

theorem mailslot_write_tracks (e : Env) (filp : file) (buff : Option (List Nat)) (len : Nat)
    (s : State) :
    Tracks e.current s (mailslot_write e filp buff len s).1 (mailslot_write e filp buff len s).2
      (mailslot_write_traced e filp buff len { st := s, ops := [] }).1
      (mailslot_write_traced e filp buff len { st := s, ops := [] }).2 := by
  unfold mailslot_write mailslot_write_traced
  by_cases hlen : len = 0
  · simp only [if_pos hlen]
    exact tracks_idle _ s _
  cases buff with
  | none =>
    simp only [if_neg hlen]
    exact tracks_idle _ s _
  | some bytes =>
    by_cases hnb : __get_blocking_policy filp ≠ 0
    · simp only [if_neg hlen, if_pos hnb]
      cases hm : s.slot.mutex with
      | some t =>
        rw [lock_traced_held_nb e NONBLOCKING t s (by decide) hm,
          lock_held_nb e NONBLOCKING t s (by decide) hm]
        simp only [if_true]
        exact tracks_refused e.current s _ (some (-EAGAIN)) (by decide) (by simp [hm])
      | none =>
        rw [lock_traced_free e NONBLOCKING s hm, lock_free e NONBLOCKING s hm]
        have h0 : ¬ (some (0 : Int) = some (-EAGAIN)) := by decide
        simp only [if_neg h0]
        exact write_locked_tracks e _ bytes len s hm
    · simp only [if_neg hlen, if_neg hnb]
      exact write_acquire_tracks e bytes len s

theorem ioctl_set_max_tracks (e : Env) (nb arg : Nat) (s : State) :
    Tracks e.current s (ioctl_set_max e nb arg s).1 (ioctl_set_max e nb arg s).2
      (ioctl_set_max_traced e nb arg { st := s, ops := [] }).1
      (ioctl_set_max_traced e nb arg { st := s, ops := [] }).2 := by
  cases hm : s.slot.mutex with
  | some t =>
    rw [ioctl_set_max_held e nb arg t s hm]
    unfold ioctl_set_max_traced
    by_cases hnb : nb ≠ 0
    · rw [lock_traced_held_nb e nb t s hnb hm]
      simp only [hnb, ne_eq, not_false_eq_true, and_self, if_true]
      exact tracks_refused e.current s _ (some (-EAGAIN)) (by decide) (by simp [hm])
    · have hnb0 : nb = 0 := by omega
      subst hnb0
      rw [show (0 : Nat) = BLOCKING from rfl, lock_traced_held_b e t s hm]
      by_cases hsig : e.signal
      · simp only [hsig, if_true, BLOCKING, ne_eq, not_true_eq_false, false_and, if_false,
          not_false_eq_true, true_and]
        exact tracks_refused e.current s _ (some (-EINTR)) (by decide) (by simp [hm])
      · simp only [hsig, BLOCKING, ne_eq, not_true_eq_false, if_false]
        exact tracks_refused e.current s _ none (by decide) (by simp [hm])
  | none =>
    rw [ioctl_set_max_free e nb arg s hm]
    unfold ioctl_set_max_traced
    rw [lock_traced_free e nb s hm]
    have h1 : ¬ ((0 : Int) = -EAGAIN) := by decide
    have h2 : ¬ ((0 : Int) = -EINTR) := by decide
    simp only [h1, h2, and_false, if_false]
    refine ⟨rfl, ?_, fun _ => ?_⟩
    · simp [__mailslot_unlock_traced, __mailslot_unlock, mutex_unlock, mutex_set, hm]
    · exact balanced_pair e.current s _ hm rfl

theorem mailslot_ioctl_tracks (e : Env) (filp : file) (cmd arg : Nat) (s : State) :
    Tracks e.current s (mailslot_ioctl e filp cmd arg s).1 (mailslot_ioctl e filp cmd arg s).2.2
      (mailslot_ioctl_traced e filp cmd arg { st := s, ops := [] }).1
      (mailslot_ioctl_traced e filp cmd arg { st := s, ops := [] }).2.2 ∧
    (mailslot_ioctl_traced e filp cmd arg { st := s, ops := [] }).2.1
      = (mailslot_ioctl e filp cmd arg s).2.1 := by
  obtain ⟨c1, c2, c3⟩ := ioctl_codes
  unfold mailslot_ioctl mailslot_ioctl_traced
  rw [c1, c2, c3]
  by_cases h1 : cmd = 19202
  · simp only [if_pos h1]
    exact ⟨tracks_idle _ s _, by first | rfl | trivial⟩
  by_cases h2 : cmd = 19205
  · simp only [if_neg h1, if_pos h2]
    exact ⟨tracks_idle _ s _, by first | rfl | trivial⟩
  by_cases h3 : cmd = 1074023175
  · by_cases h4 : arg = 0 ∨ arg > MAXIMUM_MESSAGE_SIZE
    · simp only [if_neg h1, if_neg h2, if_pos h3, if_pos h4]
      exact ⟨tracks_idle _ s _, by first | rfl | trivial⟩
    · simp only [if_neg h1, if_neg h2, if_pos h3, if_neg h4]
      exact ⟨ioctl_set_max_tracks e _ arg s, by first | rfl | trivial⟩
  · simp only [if_neg h1, if_neg h2, if_neg h3]
    exact ⟨tracks_idle _ s _, by first | rfl | trivial⟩

theorem resume_tracks (e : Env) (sl : Sleeper) (s : State) :
    Tracks e.current s (resume e sl s).1 (resume e sl s).2
      (resume_traced e sl { st := s, ops := [] }).1
      (resume_traced e sl { st := s, ops := [] }).2 := by
  cases sl with
  | read len pc =>
    cases pc with
    | lock => exact (read_acquire_tracks e len s).1
    | wait => exact (read_wake_tracks e len s).1
  | write buff len pc =>
    cases pc with
    | lock => exact write_acquire_tracks e buff len s
    | wait => exact write_wake_tracks e buff len s
  | ioctl arg => exact ioctl_set_max_tracks e BLOCKING arg s

/-! ## The first locking call of a call -/

theorem read_locked_traced_ops (e : Env) (nb len : Nat) (ts : Traced) :
    ∃ rest, (read_locked_traced e nb len ts).2.2.ops = ts.ops ++ rest := by
  rw [read_locked_traced_eq]
  exact ⟨_, rfl⟩

theorem write_locked_traced_ops (e : Env) (nb : Nat) (bytes : List Nat) (len : Nat)
    (ts : Traced) :
    ∃ rest, (write_locked_traced e nb bytes len ts).2.ops = ts.ops ++ rest := by
  rw [write_locked_traced_eq]
  exact ⟨_, rfl⟩

theorem read_acquire_traced_ops (e : Env) (len : Nat) (s : State) :
    ∃ r rest, (read_acquire_traced e len { st := s, ops := [] }).2.2.ops
      = LockOp.lock r :: rest := by
  simp only [read_acquire_traced, __mailslot_lock_traced, List.nil_append]
  cases hl : __mailslot_lock e BLOCKING s with
  | mk r s1 =>
    cases r with
    | none => exact ⟨none, [], rfl⟩
    | some v =>
      simp only []
      split
      · exact ⟨some v, [], rfl⟩
      · rcases read_locked_traced_ops e BLOCKING len { st := s1, ops := [LockOp.lock (some v)] }
          with ⟨rest, h⟩
        exact ⟨some v, rest, by rw [h]; rfl⟩

theorem write_acquire_traced_ops (e : Env) (bytes : List Nat) (len : Nat) (s : State) :
    ∃ r rest, (write_acquire_traced e bytes len { st := s, ops := [] }).2.ops
      = LockOp.lock r :: rest := by
  simp only [write_acquire_traced, __mailslot_lock_traced, List.nil_append]
  cases hl : __mailslot_lock e BLOCKING s with
  | mk r s1 =>
    cases r with
    | none => exact ⟨none, [], rfl⟩
    | some v =>
      simp only []
      split
      · exact ⟨some v, [], rfl⟩
      · rcases write_locked_traced_ops e BLOCKING bytes len
          { st := s1, ops := [LockOp.lock (some v)] } with ⟨rest, h⟩
        exact ⟨some v, rest, by rw [h]; rfl⟩

theorem mailslot_read_traced_ops (e : Env) (filp : file) (buff len : Nat) (s : State)
    (hlen : len ≠ 0) (hbuff : buff ≠ 0) :
    ∃ r rest, (mailslot_read_traced e filp buff len { st := s, ops := [] }).2.2.ops
      = LockOp.lock r :: rest := by
  simp only [mailslot_read_traced, if_neg hlen, if_neg hbuff]
  split
  · simp only [__mailslot_lock_traced, List.nil_append]
    cases hl : __mailslot_lock e NONBLOCKING s with
    | mk r s1 =>
      simp only []
      split
      · exact ⟨r, [], rfl⟩
      · rcases read_locked_traced_ops e (__get_blocking_policy filp) len
          { st := s1, ops := [LockOp.lock r] } with ⟨rest, h⟩
        exact ⟨r, rest, by rw [h]; rfl⟩
  · exact read_acquire_traced_ops e len s

theorem mailslot_write_traced_ops (e : Env) (filp : file) (bytes : List Nat) (len : Nat)
    (s : State) (hlen : len ≠ 0) :
    ∃ r rest, (mailslot_write_traced e filp (some bytes) len { st := s, ops := [] }).2.ops
      = LockOp.lock r :: rest := by
  simp only [mailslot_write_traced, if_neg hlen]
  split
  · simp only [__mailslot_lock_traced, List.nil_append]
    cases hl : __mailslot_lock e NONBLOCKING s with
    | mk r s1 =>
      simp only []
      split
      · exact ⟨r, [], rfl⟩
      · rcases write_locked_traced_ops e (__get_blocking_policy filp) bytes len
          { st := s1, ops := [LockOp.lock r] } with ⟨rest, h⟩
        exact ⟨r, rest, by rw [h]; rfl⟩
  · exact write_acquire_traced_ops e bytes len s

/-! ## Executions interleaved statement by statement: the invariant -/

theorem place_of_filter (tbl : List (Nat × Place)) (t t2 : Nat) :
    place_of (tbl.filter (fun x => decide (x.1 ≠ t))) t2 =
      if t2 = t then none else place_of tbl t2 := by
  induction tbl with
  | nil => simp [place_of]
  | cons x r ih =>
    obtain ⟨q, v⟩ := x
    by_cases hq : q = t
    · subst hq
      simp only [List.filter, ne_eq, not_true_eq_false, decide_False, place_of]
      rw [ih]
      by_cases h2 : t2 = q
      · simp [h2]
      · have h3 : ¬ q = t2 := fun h => h2 h.symm
        simp [h2, h3]
    · simp only [List.filter, ne_eq, hq, not_false_eq_true, decide_True, place_of]
      rw [ih]
      by_cases h2 : t2 = t
      · subst h2
        simp [hq]
      · simp [h2]

theorem place_of_settle (tbl : List (Nat × Place)) (t t2 : Nat) (p : Option Place) :
    place_of (settle tbl t p) t2 = if t2 = t then p else place_of tbl t2 := by
  cases p with
  | none => simp only [settle]; exact place_of_filter tbl t t2
  | some v =>
    simp only [settle, place_of]
    rw [place_of_filter]
    by_cases h2 : t2 = t
    · subst h2; simp
    · have h3 : ¬ t = t2 := fun h => h2 h.symm
      simp [h2, h3]

theorem finish_step (f : Frame) (l : Label) (s : State)
    (P : Outcome × List Nat × State → Prop)
    (h : ∀ e, match micro e f l s with
      | (Next.goto l1, f1, s1) => ∀ es r, finish es f1 l1 s1 = some r → P r
      | (Next.leave o, f1, s1) => P (o, f1.out, s1)) :
    ∀ es r, finish es f l s = some r → P r := by
  intro es r hr
  cases es with
  | nil => simp [finish] at hr
  | cons e es =>
    have he := h e
    simp only [finish] at hr
    cases hm : micro e f l s with
    | mk n x =>
      obtain ⟨f1, s1⟩ := x
      rw [hm] at hr he
      cases n with
      | goto l1 => exact he es r hr
      | leave o =>
        simp only [Option.some.injEq] at hr
        rw [← hr]
        exact he

theorem finish_unlock (f : Frame) (o : Outcome) (s : State) :
    ∀ es r, finish es f (Label.unlock o) s = some r → r = (o, f.out, __mailslot_unlock s) := by
  apply finish_step
  intro e
  simp only [micro]

theorem finish_read_save (f : Frame) (s : State) (hd : message)
    (hhd : deref s.heap s.slot.head = some hd) :
    ∀ es r, finish es f Label.read_save s = some r →
      r = (Outcome.ret (ssize_t f.msg_len), f.out,
        __mailslot_unlock
          { heap := kfree s.heap s.slot.head,
            slot := { s.slot with
              head := if s.slot.msg_count > 1 then hd.next else s.slot.head,
              msg_count := s.slot.msg_count - 1 } }) := by
  apply finish_step; intro e; simp only [micro]
  apply finish_step; intro e; simp only [micro]
  by_cases hc : s.slot.msg_count > 1
  · simp only [hc, if_true, hhd]
    apply finish_step; intro e; simp only [micro]
    apply finish_step; intro e; simp only [micro]
    intro es r hr
    rw [finish_unlock _ _ _ es r hr]
  · simp only [hc, if_false]
    apply finish_step; intro e; simp only [micro]
    apply finish_step; intro e; simp only [micro]
    intro es r hr
    rw [finish_unlock _ _ _ es r hr]

theorem finish_read_body (f : Frame) (s : State) (hout : f.out = []) :
    ∀ es r, finish es f Label.read_body s = some r →
      ∃ e, r = read_deliver e f.non_blocking f.call.len s := by
  cases hhd : deref s.heap s.slot.head with
  | none =>
    apply finish_step; intro e; simp only [micro, hhd]
    exact ⟨e, by simp [read_deliver, hhd, hout]⟩
  | some hd =>
    apply finish_step; intro e; simp only [micro, hhd]
    apply finish_step; intro e; simp only [micro, hhd]
    apply finish_step; intro e; simp only [micro]
    by_cases hlen : hd.length > f.call.len
    · simp only [hlen, if_true]
      intro es r hr
      rw [finish_unlock _ _ _ es r hr]
      exact ⟨e, by simp [read_deliver, hhd, hlen, hout]⟩
    · simp only [hlen, if_false]
      apply finish_step; intro e; simp only [micro, hhd, ite_self]
      by_cases hb : (copy_to_user e hd.content hd.length).1 > 0
      · simp only [hb, if_true]
        intro es r hr
        rw [finish_unlock _ _ _ es r hr]
        exact ⟨e, by simp [read_deliver, hhd, hlen, hb]⟩
      · simp only [hb, if_false]
        intro es r hr
        rw [finish_read_save _ s hd hhd es r hr]
        refine ⟨e, ?_⟩
        simp only [read_deliver, hhd, hlen, hb, if_false, ite_self]
        by_cases hc : s.slot.msg_count > 1
        · simp [hc]
        · simp [hc]

theorem copy_from_user_env (e e2 : Env) (src : List Nat) (n : Nat)
    (h : e2.fault_at = e.fault_at) : copy_from_user e2 src n = copy_from_user e src n := by
  simp [copy_from_user, copied, h]

theorem finish_write_discard (f : Frame) (o : Outcome) (s : State) :
    ∀ es r, finish es f (Label.write_discard o) s = some r →
      r = (o, f.out, __mailslot_unlock { s with heap := kfree s.heap f.new_msg }) := by
  apply finish_step; intro e; simp only [micro]
  intro es r hr
  rw [finish_unlock _ _ _ es r hr]

theorem finish_write_link (f : Frame) (s : State) :
    ∀ es r, finish es f Label.write_link s = some r →
      r.2.1 = f.out ∧
      ((s.slot.msg_count = 0 ∧
        r = (Outcome.ret (ssize_t f.call.len), f.out,
          __mailslot_unlock { heap := s.heap, slot := { s.slot with
            head := f.new_msg, tail := f.new_msg, msg_count := s.slot.msg_count + 1 } })) ∨
       (s.slot.msg_count ≠ 0 ∧ deref s.heap s.slot.tail = none ∧ r.1 = Outcome.oops) ∨
       (s.slot.msg_count ≠ 0 ∧ ∃ tl, deref s.heap s.slot.tail = some tl ∧
        r = (Outcome.ret (ssize_t f.call.len), f.out,
          __mailslot_unlock
            { heap := store s.heap s.slot.tail { tl with next := f.new_msg },
              slot := { s.slot with
                tail := f.new_msg, msg_count := s.slot.msg_count + 1 } }))) := by
  by_cases hc : s.slot.msg_count = 0
  · apply finish_step; intro e; simp only [micro, if_pos hc]
    apply finish_step; intro e; simp only [micro]
    apply finish_step; intro e; simp only [micro]
    intro es r hr
    rw [finish_unlock _ _ _ es r hr]
    exact ⟨rfl, Or.inl ⟨hc, rfl⟩⟩
  · cases htl : deref s.heap s.slot.tail with
    | none =>
      apply finish_step; intro e; simp only [micro, if_neg hc]
      rw [htl]
      simp [hc]
    | some tl =>
      apply finish_step; intro e; simp only [micro, if_neg hc]
      rw [htl]
      simp only []
      apply finish_step; intro e; simp only [micro]
      apply finish_step; intro e; simp only [micro]
      intro es r hr
      rw [finish_unlock _ _ _ es r hr]
      exact ⟨rfl, Or.inr (Or.inr ⟨hc, tl, rfl, rfl⟩)⟩

theorem finish_write_size (f : Frame) (s : State) :
    ∀ es r, finish es f Label.write_size s = some r →
      ∃ e, r.1 = (write_store e f.non_blocking f.call.buff f.call.len s).1 ∧ r.2.1 = f.out ∧
        (r.1 ≠ Outcome.oops →
          r.2.2 = (write_store e f.non_blocking f.call.buff f.call.len s).2) := by
  apply finish_step; intro e0; simp only [micro]
  by_cases h1 : f.call.len > s.slot.max_msg_size
  · simp only [if_pos h1]
    intro es r hr
    rw [finish_unlock _ _ _ es r hr]
    exact ⟨e0, by simp [write_store, h1]⟩
  · simp only [if_neg h1]
    apply finish_step; intro e1; simp only [micro]
    by_cases h2 : (kzalloc e1.kzalloc_msg s.heap).1 = 0
    · simp only [if_pos h2]
      have hh : (kzalloc e1.kzalloc_msg s.heap).2 = s.heap := by
        unfold kzalloc at h2 ⊢
        split
        · rfl
        · rename_i hn
          simp only [hn, if_false] at h2
          exact absurd h2 (fun h => hn (Or.inl h))
      intro es r hr
      rw [finish_unlock _ _ _ es r hr]
      refine ⟨e1, ?_⟩
      simp only [write_store, if_neg h1, if_pos h2, hh]
      refine ⟨?_, ?_, fun _ => ?_⟩ <;> trivial
    · simp only [if_neg h2]
      apply finish_step; intro e; simp only [micro]
      apply finish_step; intro e2; simp only [micro]
      by_cases h3 : e2.kzalloc_content
      · simp only [h3, Bool.not_true, Bool.false_eq_true, if_false]
        apply finish_step; intro e3; simp only [micro, ite_self]
        obtain ⟨x, hx1, hx2, hx3⟩ : ∃ x : Env, x.kzalloc_msg = e1.kzalloc_msg ∧
            x.kzalloc_content = true ∧ x.fault_at = e3.fault_at :=
          ⟨{ e1 with kzalloc_content := true, fault_at := e3.fault_at }, rfl, rfl, rfl⟩
        have hcp := copy_from_user_env e3 x f.call.buff f.call.len hx3
        by_cases h4 : (copy_from_user e3 f.call.buff f.call.len).1 > 0
        · simp only [if_pos h4]
          intro es r hr
          rw [finish_write_discard _ _ _ es r hr]
          refine ⟨x, ?_⟩
          simp only [write_store, if_neg h1, hx1, if_neg h2, hx2, Bool.not_true,
            Bool.false_eq_true, if_false, ite_self, hcp, if_pos h4]
          refine ⟨?_, ?_, fun _ => ?_⟩ <;> trivial
        · simp only [if_neg h4]
          intro es r hr
          refine ⟨x, ?_⟩
          simp only [write_store, if_neg h1, hx1, if_neg h2, hx2, Bool.not_true,
            Bool.false_eq_true, if_false, ite_self, hcp, if_neg h4]
          rcases finish_write_link _ _ es r hr with ⟨ho, ⟨hc, heq⟩ | ⟨hc, htl, hoo⟩ |
            ⟨hc, tl, htl, heq⟩⟩
          · have hc2 : s.slot.msg_count = 0 := hc
            rw [if_pos hc2, heq]
            refine ⟨?_, ?_, fun _ => ?_⟩ <;> trivial
          · have hc2 : ¬ s.slot.msg_count = 0 := hc
            have htl2 := htl
            simp only [] at htl2
            rw [if_neg hc2, htl2]
            exact ⟨hoo, ho, fun hne => absurd hoo hne⟩
          · have hc2 : ¬ s.slot.msg_count = 0 := hc
            have htl2 := htl
            simp only [] at htl2
            rw [if_neg hc2, htl2, heq]
            refine ⟨?_, ?_, fun _ => ?_⟩ <;> trivial
      · simp only [h3, Bool.not_false, if_true]
        intro es r hr
        rw [finish_write_discard _ _ _ es r hr]
        obtain ⟨x, hx1, hx2⟩ : ∃ x : Env, x.kzalloc_msg = e1.kzalloc_msg ∧
            x.kzalloc_content = false :=
          ⟨{ e1 with kzalloc_content := false }, rfl, rfl⟩
        refine ⟨x, ?_⟩
        simp only [write_store, if_neg h1, hx1, if_neg h2, hx2, Bool.not_false, if_true]
        refine ⟨?_, ?_, fun _ => ?_⟩ <;> trivial

theorem finish_ioctl_set (f : Frame) (s : State) :
    ∀ es r, finish es f Label.ioctl_set s = some r →
      r = (Outcome.ret SUCCESS, f.out,
        __mailslot_unlock { s with slot.max_msg_size := f.call.arg }) := by
  apply finish_step; intro e; simp only [micro]
  intro es r hr
  rw [finish_unlock _ _ _ es r hr]

theorem micro_goto (e : Env) (f : Frame) (l : Label) (s : State) (l1 : Label) (f1 : Frame)
    (s1 : State) (h : micro e f l s = (Next.goto l1, f1, s1)) :
    s1.slot.mutex = s.slot.mutex ∧ f1.call = f.call ∧
    (l.low ≤ s.slot.msg_count → s.slot.msg_count ≤ l.high →
      l1.low ≤ s1.slot.msg_count ∧ s1.slot.msg_count ≤ l1.high) := by
  cases l <;> simp only [micro] at h
  all_goals (repeat' split at h)
  all_goals simp only [Prod.mk.injEq, Next.goto.injEq, reduceCtorEq, false_and] at h
  all_goals obtain ⟨rfl, rfl, rfl⟩ := h
  all_goals simp only [Label.low, Label.high, MAILSLOT_STORAGE] at *
  all_goals refine ⟨trivial, trivial, ?_⟩
  all_goals intro h1 h2
  all_goals omega

theorem good_read (t nb len : Nat) (s0 : State) (hwf : WF s0) (hfree : s0.slot.mutex = none) :
    ∀ es r, finish es (Frame.enter (Call.read len) nb) Label.read_test
        (mutex_set s0 (some t)) = some r → Good (Call.read len) s0 r := by
  apply finish_step; intro e; simp only [micro]
  by_cases hc : s0.slot.msg_count = 0
  · have hc1 : (mutex_set s0 (some t)).slot.msg_count = 0 := hc
    rw [if_pos hc1]
    intro es r hr
    rw [finish_unlock _ _ _ es r hr, unlock_lock s0 t hfree]
    refine ⟨?_, hwf, hfree, ?_⟩
    · by_cases hnb : nb ≠ 0 <;> simp [Frame.enter, hnb]
    · by_cases hnb : nb ≠ 0 <;>
        simp [Frame.enter, hnb, Call.stored, Call.received, Outcome.success, EAGAIN]
  · have hc1 : ¬ (mutex_set s0 (some t)).slot.msg_count = 0 := hc
    rw [if_neg hc1]
    intro es r hr
    obtain ⟨e2, he2⟩ := finish_read_body _ _ rfl es r hr
    have hnb : (Frame.enter (Call.read len) nb).non_blocking = nb := rfl
    have hl : (Frame.enter (Call.read len) nb).call.len = len := rfl
    rw [hnb, hl] at he2
    rw [he2]
    have hinv := read_deliver_inv e2 nb len t s0 hwf hc
    refine ⟨hinv.2.1, hinv.1, hinv.2.2.1, ?_⟩
    by_cases hs : (read_deliver e2 nb len (mutex_set s0 (some t))).1.success = true
    · simp only [Call.stored, Call.received, hs, if_true, List.append_nil, List.singleton_append]
      exact read_deliver_queue e2 nb len t s0 hwf hfree hc hs
    · have hs2 : (read_deliver e2 nb len (mutex_set s0 (some t))).1.success = false := by
        simpa using hs
      simp only [Call.stored, Call.received, hs2, Bool.false_eq_true, if_false, List.append_nil,
        List.nil_append]
      rw [read_deliver_quiet e2 nb len t s0 hwf hfree hc hs2]

theorem good_write (t nb : Nat) (buff : List Nat) (len : Nat) (s0 : State) (hwf : WF s0)
    (hfree : s0.slot.mutex = none) (hlen : len ≠ 0) :
    ∀ es r, finish es (Frame.enter (Call.write buff len) nb) Label.write_test
        (mutex_set s0 (some t)) = some r → Good (Call.write buff len) s0 r := by
  apply finish_step; intro e; simp only [micro]
  by_cases hc : s0.slot.msg_count = MAILSLOT_STORAGE
  · have hc1 : (mutex_set s0 (some t)).slot.msg_count = MAILSLOT_STORAGE := hc
    rw [if_pos hc1]
    intro es r hr
    rw [finish_unlock _ _ _ es r hr, unlock_lock s0 t hfree]
    refine ⟨?_, hwf, hfree, ?_⟩
    · by_cases hnb : nb ≠ 0 <;> simp [Frame.enter, hnb]
    · by_cases hnb : nb ≠ 0 <;>
        simp [Frame.enter, hnb, Call.stored, Call.received, Outcome.success, EAGAIN]
  · have hc1 : ¬ (mutex_set s0 (some t)).slot.msg_count = MAILSLOT_STORAGE := hc
    rw [if_neg hc1]
    intro es r hr
    obtain ⟨e2, h1, h2, h3⟩ := finish_write_size _ _ es r hr
    have hnb : (Frame.enter (Call.write buff len) nb).non_blocking = nb := rfl
    have hl : (Frame.enter (Call.write buff len) nb).call.len = len := rfl
    have hb : (Frame.enter (Call.write buff len) nb).call.buff = buff := rfl
    have ho : (Frame.enter (Call.write buff len) nb).out = [] := rfl
    rw [hnb, hl, hb] at h1 h3
    rw [ho] at h2
    have hinv := write_store_inv e2 nb buff len t s0 hwf hc hlen
    have hne : r.1 ≠ Outcome.oops := by rw [h1]; exact hinv.2.1
    have h4 := h3 hne
    refine ⟨hne, by rw [h4]; exact hinv.1, by rw [h4]; exact hinv.2.2.1, ?_⟩
    rw [h4, h1]
    by_cases hs : (write_store e2 nb buff len (mutex_set s0 (some t))).1.success = true
    · simp only [Call.stored, Call.received, hs, if_true, List.nil_append]
      exact (write_store_queue e2 nb buff len t s0 hwf hfree hs).symm
    · have hs2 : (write_store e2 nb buff len (mutex_set s0 (some t))).1.success = false := by
        simpa using hs
      simp only [Call.stored, Call.received, hs2, Bool.false_eq_true, if_false, List.append_nil,
        List.nil_append]
      rw [write_store_quiet e2 nb buff len t s0 hwf hfree hs2]

theorem good_ioctl (t nb arg : Nat) (s0 : State) (hwf : WF s0)
    (hfree : s0.slot.mutex = none) (h1 : 1 ≤ arg) (h2 : arg ≤ MAXIMUM_MESSAGE_SIZE) :
    ∀ es r, finish es (Frame.enter (Call.ioctl arg) nb) Label.ioctl_set
        (mutex_set s0 (some t)) = some r → Good (Call.ioctl arg) s0 r := by
  intro es r hr
  rw [finish_ioctl_set _ _ es r hr]
  have heq : __mailslot_unlock
      { mutex_set s0 (some t) with slot.max_msg_size := (Frame.enter (Call.ioctl arg) nb).call.arg }
      = { heap := s0.heap, slot := { s0.slot with max_msg_size := arg } } := by
    simp [__mailslot_unlock, mutex_unlock, mutex_set, Frame.enter, Call.arg, hfree]
  rw [heq]
  refine ⟨by simp [SUCCESS], hwf.set_max arg h1 h2, hfree, ?_⟩
  simp only [Call.stored, Call.received, List.append_nil, List.nil_append]
  exact (queue_congr s0 _ rfl rfl rfl).symm

theorem lock_read_free (e : Env) (nb len : Nat) (s : State) (hfree : s.slot.mutex = none) :
    lock_read e nb len s
      = (some (Place.inside (Frame.enter (Call.read len) nb) Label.read_test),
          mutex_set s (some e.current)) := by
  unfold lock_read
  by_cases hnb : nb ≠ 0
  · simp [hnb, lock_free e _ s hfree, EAGAIN]
  · simp [hnb, lock_free e _ s hfree, EINTR]

theorem lock_read_held (e : Env) (nb len t : Nat) (s : State) (hheld : s.slot.mutex = some t) :
    (lock_read e nb len s).2 = s ∧
    ((lock_read e nb len s).1 = none ∨
      (lock_read e nb len s).1 = some (Place.asleep (Sleeper.read len Pc.lock))) := by
  unfold lock_read
  by_cases hnb : nb ≠ 0
  · simp [hnb, lock_held_nb e NONBLOCKING t s (by decide) hheld]
  · have hb := lock_held_b e t s hheld
    have hb2 : __mailslot_lock e BLOCKING s = if e.signal then (some (-EINTR), s) else (none, s) :=
      hb
    by_cases hs : e.signal <;> simp [hnb, hb2, hs]

theorem lock_write_free (e : Env) (nb : Nat) (buff : List Nat) (len : Nat) (s : State)
    (hfree : s.slot.mutex = none) :
    lock_write e nb buff len s
      = (some (Place.inside (Frame.enter (Call.write buff len) nb) Label.write_test),
          mutex_set s (some e.current)) := by
  unfold lock_write
  by_cases hnb : nb ≠ 0
  · simp [hnb, lock_free e _ s hfree, EAGAIN]
  · simp [hnb, lock_free e _ s hfree, EINTR]

theorem lock_write_held (e : Env) (nb : Nat) (buff : List Nat) (len t : Nat) (s : State)
    (hheld : s.slot.mutex = some t) :
    (lock_write e nb buff len s).2 = s ∧
    ((lock_write e nb buff len s).1 = none ∨
      (lock_write e nb buff len s).1 = some (Place.asleep (Sleeper.write buff len Pc.lock))) := by
  unfold lock_write
  by_cases hnb : nb ≠ 0
  · simp [hnb, lock_held_nb e NONBLOCKING t s (by decide) hheld]
  · have hb2 : __mailslot_lock e BLOCKING s = if e.signal then (some (-EINTR), s) else (none, s) :=
      lock_held_b e t s hheld
    by_cases hs : e.signal <;> simp [hnb, hb2, hs]

theorem lock_ioctl_free (e : Env) (nb arg : Nat) (s : State) (hfree : s.slot.mutex = none) :
    lock_ioctl e nb arg s
      = (some (Place.inside (Frame.enter (Call.ioctl arg) nb) Label.ioctl_set),
          mutex_set s (some e.current)) := by
  unfold lock_ioctl
  simp [lock_free e _ s hfree, EAGAIN, EINTR]

theorem lock_ioctl_held (e : Env) (nb arg t : Nat) (s : State)
    (hheld : s.slot.mutex = some t) :
    (lock_ioctl e nb arg s).2 = s ∧
    ((lock_ioctl e nb arg s).1 = none ∨
      (lock_ioctl e nb arg s).1 = some (Place.asleep (Sleeper.ioctl arg))) := by
  unfold lock_ioctl
  by_cases hnb : nb ≠ 0
  · simp [hnb, lock_held_nb e nb t s hnb hheld]
  · have hnb0 : nb = 0 := by simpa using hnb
    subst hnb0
    have hb2 := lock_held_b e t s hheld
    by_cases hs : e.signal <;> simp [hb2, hs]

theorem finv_idle (sys : Fine) (q : List (List Nat)) (t : Nat) (p : Option Place)
    (hinv : FInv sys q)
    (ht : ∀ f l, place_of sys.threads t ≠ some (Place.inside f l))
    (hp : p = none ∨ ∃ sl, p = some (Place.asleep sl) ∧ sl.sane) :
    FInv { st := sys.st, threads := settle sys.threads t p } q := by
  obtain ⟨hsl, hcase⟩ := hinv
  have hp2 : ∀ f l, p ≠ some (Place.inside f l) := by
    intro f l h
    rcases hp with hp | ⟨sl, hp, _⟩ <;> rw [hp] at h <;> simp at h
  have key : ∀ t2 f l, place_of (settle sys.threads t p) t2 = some (Place.inside f l) ↔
      place_of sys.threads t2 = some (Place.inside f l) := by
    intro t2 f l
    rw [place_of_settle]
    by_cases h2 : t2 = t
    · subst h2
      simp only [if_true]
      exact ⟨fun h => absurd h (hp2 f l), fun h => absurd h (ht f l)⟩
    · simp only [if_neg h2]
  refine ⟨?_, ?_⟩
  · intro t2 sl h
    simp only [] at h
    rw [place_of_settle] at h
    by_cases h2 : t2 = t
    · simp only [if_pos h2] at h
      rcases hp with hp | ⟨sl2, hp, hs⟩
      · rw [hp] at h; simp at h
      · rw [hp] at h
        simp only [Option.some.injEq, Place.asleep.injEq] at h
        rw [← h]; exact hs
    · simp only [if_neg h2] at h
      exact hsl t2 sl h
  · rcases hcase with ⟨hq, hwf, hm, hqq⟩ | ⟨t0, f, l, s0, h1, h2, h3, h4, h5, h6, h7, h8, h9⟩
    · exact Or.inl ⟨fun t2 f l h => hq t2 f l ((key t2 f l).1 h), hwf, hm, hqq⟩
    · exact Or.inr ⟨t0, f, l, s0, (key t0 f l).2 h1,
        fun t2 f2 l2 h => h2 t2 f2 l2 ((key t2 f2 l2).1 h), h3, h4, h5, h6, h7, h8, h9⟩

theorem finv_enter (sys : Fine) (q : List (List Nat)) (t : Nat) (c : Call) (nb : Nat)
    (l0 : Label) (hinv : FInv sys q) (hfree : sys.st.slot.mutex = none)
    (hsane : ∀ pc, (c.sleeper pc).sane) (hlow : l0.low = 0) (hhigh : l0.high = 64)
    (hgood : ∀ s0, WF s0 → s0.slot.mutex = none →
      ∀ es r, finish es (Frame.enter c nb) l0 (mutex_set s0 (some t)) = some r → Good c s0 r) :
    FInv { st := mutex_set sys.st (some t),
           threads := settle sys.threads t (some (Place.inside (Frame.enter c nb) l0)) } q := by
  obtain ⟨hsl, hcase⟩ := hinv
  rcases hcase with ⟨hq, hwf, hm, hqq⟩ | ⟨t0, f, l, s0, h1, h2, h3, _⟩
  · refine ⟨?_, Or.inr ⟨t, Frame.enter c nb, l0, sys.st, ?_, ?_, rfl, ?_, ?_, hsane, hwf, hqq,
      hgood sys.st hwf hm⟩⟩
    · intro t2 sl h
      simp only [] at h
      rw [place_of_settle] at h
      by_cases h2 : t2 = t
      · simp [h2] at h
      · simp only [if_neg h2] at h
        exact hsl t2 sl h
    · simp only []
      rw [place_of_settle]
      simp
    · intro t2 f2 l2 h
      simp only [] at h
      rw [place_of_settle] at h
      by_cases h2 : t2 = t
      · exact h2
      · simp only [if_neg h2] at h
        exact absurd h (hq t2 f2 l2)
    · rw [hlow]; exact hwf.count_nonneg
    · rw [hhigh]; exact hwf.count_le
  · rw [hfree] at h3; simp at h3

theorem finv_attempt (sys : Fine) (q : List (List Nat)) (t : Nat) (c : Call) (nb : Nat)
    (l0 : Label) (p : Option Place) (s1 : State) (hinv : FInv sys q)
    (ht : ∀ f l, place_of sys.threads t ≠ some (Place.inside f l))
    (hsane : ∀ pc, (c.sleeper pc).sane) (hlow : l0.low = 0) (hhigh : l0.high = 64)
    (hgood : ∀ s0, WF s0 → s0.slot.mutex = none →
      ∀ es r, finish es (Frame.enter c nb) l0 (mutex_set s0 (some t)) = some r → Good c s0 r)
    (hfree : sys.st.slot.mutex = none →
      (p, s1) = (some (Place.inside (Frame.enter c nb) l0), mutex_set sys.st (some t)))
    (hheld : ∀ t0, sys.st.slot.mutex = some t0 →
      s1 = sys.st ∧ (p = none ∨ p = some (Place.asleep (c.sleeper Pc.lock)))) :
    FInv { st := s1, threads := settle sys.threads t p } q := by
  cases hm : sys.st.slot.mutex with
  | none =>
    have h := hfree hm
    simp only [Prod.mk.injEq] at h
    rw [h.1, h.2]
    exact finv_enter sys q t c nb l0 hinv hm hsane hlow hhigh hgood
  | some t0 =>
    obtain ⟨h1, h2⟩ := hheld t0 hm
    rw [h1]
    apply finv_idle sys q t p hinv ht
    rcases h2 with h2 | h2
    · exact Or.inl h2
    · exact Or.inr ⟨_, h2, hsane Pc.lock⟩

theorem finv_read (sys : Fine) (q : List (List Nat)) (e : Env) (nb len : Nat)
    (hinv : FInv sys q)
    (ht : ∀ f l, place_of sys.threads e.current ≠ some (Place.inside f l)) :
    FInv { st := (lock_read e nb len sys.st).2,
           threads := settle sys.threads e.current (lock_read e nb len sys.st).1 } q := by
  apply finv_attempt sys q e.current (Call.read len) nb Label.read_test _ _ hinv ht
    (fun _ => trivial) rfl rfl (fun s0 hwf hfree => good_read e.current nb len s0 hwf hfree)
  · intro hm
    rw [lock_read_free e nb len sys.st hm]
  · intro t0 hm
    exact lock_read_held e nb len t0 sys.st hm

theorem finv_write (sys : Fine) (q : List (List Nat)) (e : Env) (nb : Nat) (buff : List Nat)
    (len : Nat) (hinv : FInv sys q) (hlen : len ≠ 0)
    (ht : ∀ f l, place_of sys.threads e.current ≠ some (Place.inside f l)) :
    FInv { st := (lock_write e nb buff len sys.st).2,
           threads := settle sys.threads e.current (lock_write e nb buff len sys.st).1 } q := by
  apply finv_attempt sys q e.current (Call.write buff len) nb Label.write_test _ _ hinv ht
    (fun _ => hlen) rfl rfl
    (fun s0 hwf hfree => good_write e.current nb buff len s0 hwf hfree hlen)
  · intro hm
    rw [lock_write_free e nb buff len sys.st hm]
  · intro t0 hm
    exact lock_write_held e nb buff len t0 sys.st hm

theorem finv_ioctl (sys : Fine) (q : List (List Nat)) (e : Env) (nb arg : Nat)
    (hinv : FInv sys q) (h1 : 1 ≤ arg) (h2 : arg ≤ MAXIMUM_MESSAGE_SIZE)
    (ht : ∀ f l, place_of sys.threads e.current ≠ some (Place.inside f l)) :
    FInv { st := (lock_ioctl e nb arg sys.st).2,
           threads := settle sys.threads e.current (lock_ioctl e nb arg sys.st).1 } q := by
  apply finv_attempt sys q e.current (Call.ioctl arg) nb Label.ioctl_set _ _ hinv ht
    (fun _ => ⟨h1, h2⟩) rfl rfl
    (fun s0 hwf hfree => good_ioctl e.current nb arg s0 hwf hfree h1 h2)
  · intro hm
    rw [lock_ioctl_free e nb arg sys.st hm]
  · intro t0 hm
    exact lock_ioctl_held e nb arg t0 sys.st hm

theorem finv_wake (sys : Fine) (q : List (List Nat)) (e : Env) (sl : Sleeper)
    (hinv : FInv sys q) (hsl : place_of sys.threads e.current = some (Place.asleep sl)) :
    FInv { st := (wake e sl sys.st).2,
           threads := settle sys.threads e.current (wake e sl sys.st).1 } q := by
  have ht : ∀ f l, place_of sys.threads e.current ≠ some (Place.inside f l) := by
    intro f l h; rw [hsl] at h; simp at h
  have hs : sl.sane := hinv.1 e.current sl hsl
  cases sl with
  | read len pc =>
    cases pc with
    | lock => exact finv_read sys q e BLOCKING len hinv ht
    | wait =>
      simp only [wake]
      cases wait_event_interruptible_exclusive e (decide (sys.st.slot.msg_count > 0)) with
      | none => exact finv_idle sys q e.current _ hinv ht (Or.inr ⟨_, rfl, hs⟩)
      | some i =>
        by_cases hi : i ≠ 0
        · simp only [if_pos hi]
          exact finv_idle sys q e.current _ hinv ht (Or.inl rfl)
        · simp only [if_neg hi]
          exact finv_idle sys q e.current _ hinv ht (Or.inr ⟨_, rfl, trivial⟩)
  | write buff len pc =>
    cases pc with
    | lock => exact finv_write sys q e BLOCKING buff len hinv hs ht
    | wait =>
      simp only [wake]
      cases wait_event_interruptible_exclusive e
          (decide (sys.st.slot.msg_count < MAILSLOT_STORAGE)) with
      | none => exact finv_idle sys q e.current _ hinv ht (Or.inr ⟨_, rfl, hs⟩)
      | some i =>
        by_cases hi : i ≠ 0
        · simp only [if_pos hi]
          exact finv_idle sys q e.current _ hinv ht (Or.inl rfl)
        · simp only [if_neg hi]
          exact finv_idle sys q e.current _ hinv ht (Or.inr ⟨_, rfl, hs⟩)
  | ioctl arg => exact finv_ioctl sys q e BLOCKING arg hinv hs.1 hs.2 ht

theorem finv_go (sys : Fine) (q : List (List Nat)) (e : Env) (f : Frame) (l : Label)
    (hinv : FInv sys q) (hin : place_of sys.threads e.current = some (Place.inside f l)) :
    (micro e f l sys.st).1 ≠ Next.leave Outcome.oops ∧
    ∃ q2, FInv { st := (micro e f l sys.st).2.2,
                 threads := settle sys.threads e.current
                   (after f.call (micro e f l sys.st).1 (micro e f l sys.st).2.1) } q2 ∧
      q ++ (match (micro e f l sys.st).1 with
            | Next.leave o => f.call.stored o
            | _ => [])
        = (match (micro e f l sys.st).1 with
            | Next.leave o => f.call.received o (micro e f l sys.st).2.1.out
            | _ => []) ++ q2 := by
  obtain ⟨hsl, hcase⟩ := hinv
  rcases hcase with ⟨hq, _⟩ | ⟨t0, f0, l0, s0, h1, h2, h3, h4, h5, h6, h7, h8, h9⟩
  · exact absurd hin (hq e.current f l)
  · have ht : e.current = t0 := h2 e.current f l hin
    subst ht
    rw [hin] at h1
    simp only [Option.some.injEq, Place.inside.injEq] at h1
    obtain ⟨hf, hl⟩ := h1
    subst hf; subst hl
    cases hm : micro e f l sys.st with
    | mk n x =>
      obtain ⟨f1, s1⟩ := x
      cases n with
      | goto l1 =>
        obtain ⟨g1, g2, g3⟩ := micro_goto e f l sys.st l1 f1 s1 hm
        refine ⟨by simp, q, ⟨?_, Or.inr ⟨e.current, f1, l1, s0, ?_, ?_, ?_, (g3 h4 h5).1,
          (g3 h4 h5).2, ?_, h7, h8, ?_⟩⟩, by simp⟩
        · intro t2 sl h
          simp only [after] at h
          rw [place_of_settle] at h
          by_cases h2' : t2 = e.current
          · simp [h2'] at h
          · simp only [if_neg h2'] at h
            exact hsl t2 sl h
        · simp only [after]
          rw [place_of_settle]
          simp
        · intro t2 f2 l2 h
          simp only [after] at h
          rw [place_of_settle] at h
          by_cases h2' : t2 = e.current
          · exact h2'
          · simp only [if_neg h2'] at h
            exact h2 t2 f2 l2 h
        · simp only []
          rw [g1]; exact h3
        · rw [g2]; exact h6
        · intro es r hr
          rw [g2]
          apply h9 (e :: es) r
          simp only [finish, hm]
          exact hr
      | leave o =>
        have hg : Good f.call s0 (o, f1.out, s1) := by
          apply h9 [e]
          simp only [finish, hm]
        obtain ⟨g1, g2, g3, g4⟩ := hg
        refine ⟨?_, queue s1, ⟨?_, Or.inl ⟨?_, g2, g3, rfl⟩⟩, ?_⟩
        · simp only [ne_eq, Next.leave.injEq]
          exact g1
        · intro t2 sl h
          simp only [] at h
          rw [place_of_settle] at h
          by_cases h2' : t2 = e.current
          · simp only [if_pos h2'] at h
            cases o with
            | sleep pc =>
              simp only [after, Option.some.injEq, Place.asleep.injEq] at h
              rw [← h]; exact h6 pc
            | ret v => simp [after] at h
            | oops => simp [after] at h
          · simp only [if_neg h2'] at h
            exact hsl t2 sl h
        · intro t2 f2 l2 h
          simp only [] at h
          rw [place_of_settle] at h
          by_cases h2' : t2 = e.current
          · simp only [if_pos h2'] at h
            cases o <;> simp [after] at h
          · simp only [if_neg h2'] at h
            exact h2' (h2 t2 f2 l2 h)
        · simp only []
          rw [h8]
          exact g4

theorem fine_step_inv (ev : Tick) (sys : Fine) (q : List (List Nat)) (hinv : FInv sys q) :
    fine_oopsed ev sys = false ∧
    ∃ q2, FInv (fine_step ev sys) q2 ∧ q ++ fine_wrote ev sys = fine_got ev sys ++ q2 := by
  cases ev with
  | read e filp buff len =>
    refine ⟨rfl, q, ?_, by simp [fine_wrote, fine_got]⟩
    simp only [fine_step]
    cases hp : place_of sys.threads e.current with
    | some p => exact hinv
    | none =>
      simp only []
      by_cases hlen : len = 0
      · rw [if_pos hlen]; exact hinv
      · rw [if_neg hlen]
        by_cases hbuff : buff = 0
        · rw [if_pos hbuff]; exact hinv
        · rw [if_neg hbuff]
          exact finv_read sys q e _ len hinv (by intro f l h; rw [hp] at h; simp at h)
  | write e filp buff len =>
    refine ⟨rfl, q, ?_, by simp [fine_wrote, fine_got]⟩
    simp only [fine_step]
    cases hp : place_of sys.threads e.current with
    | some p => exact hinv
    | none =>
      simp only []
      by_cases hlen : len = 0
      · rw [if_pos hlen]; exact hinv
      · rw [if_neg hlen]
        cases buff with
        | none => exact hinv
        | some bytes =>
          exact finv_write sys q e _ bytes len hinv hlen
            (by intro f l h; rw [hp] at h; simp at h)
  | ioctl e filp cmd arg =>
    refine ⟨rfl, q, ?_, by simp [fine_wrote, fine_got]⟩
    simp only [fine_step]
    cases hp : place_of sys.threads e.current with
    | some p => exact hinv
    | none =>
      simp only []
      by_cases h1 : cmd = SET_BLOCKING
      · rw [if_pos h1]; exact hinv
      · rw [if_neg h1]
        by_cases h2 : cmd = SET_NONBLOCKING
        · rw [if_pos h2]; exact hinv
        · rw [if_neg h2]
          by_cases h3 : cmd = SET_MAXIMUM_MSG_SIZE
          · rw [if_pos h3]
            by_cases h4 : arg = 0 ∨ arg > MAXIMUM_MESSAGE_SIZE
            · rw [if_pos h4]; exact hinv
            · rw [if_neg h4]
              have h5 : 1 ≤ arg ∧ arg ≤ MAXIMUM_MESSAGE_SIZE := by omega
              exact finv_ioctl sys q e _ arg hinv h5.1 h5.2
                (by intro f l h; rw [hp] at h; simp at h)
          · rw [if_neg h3]; exact hinv
  | wake e =>
    refine ⟨rfl, q, ?_, by simp [fine_wrote, fine_got]⟩
    simp only [fine_step]
    cases hp : place_of sys.threads e.current with
    | none => exact hinv
    | some p =>
      cases p with
      | inside f l => exact hinv
      | asleep sl => exact finv_wake sys q e sl hinv hp
  | go e =>
    simp only [fine_step, fine_wrote, fine_got, fine_oopsed]
    cases hp : place_of sys.threads e.current with
    | none => exact ⟨rfl, q, hinv, by simp⟩
    | some p =>
      cases p with
      | asleep sl => exact ⟨rfl, q, hinv, by simp⟩
      | inside f l =>
        obtain ⟨g1, q2, g2, g3⟩ := finv_go sys q e f l hinv hp
        refine ⟨by simpa using g1, q2, g2, ?_⟩
        cases hm : micro e f l sys.st with
        | mk n x =>
          obtain ⟨f1, s1⟩ := x
          rw [hm] at g3
          simp only [hm]
          cases n with
          | goto l1 => simpa using g3
          | leave o => simpa using g3

theorem fine_run_inv (evs : List Tick) :
    ∀ sys q, FInv sys q →
      fine_oops evs sys = 0 ∧
      ∃ q2, FInv (fine_run evs sys) q2 ∧
        q ++ fine_written evs sys = fine_delivered evs sys ++ q2 := by
  induction evs with
  | nil =>
    intro sys q hinv
    exact ⟨rfl, q, hinv, by simp [fine_written, fine_delivered]⟩
  | cons ev evs ih =>
    intro sys q hinv
    obtain ⟨h0, q1, h1, h2⟩ := fine_step_inv ev sys q hinv
    obtain ⟨h3, q2, h4, h5⟩ := ih (fine_step ev sys) q1 h1
    refine ⟨by simp [fine_oops, h0, h3], q2, h4, ?_⟩
    simp only [fine_written, fine_delivered, fine_run]
    rw [← List.append_assoc, h2, List.append_assoc, h5, List.append_assoc]

theorem fine_boot_inv : FInv fine_boot [] := by
  refine ⟨?_, Or.inl ⟨?_, WF.init, rfl, (queue_empty _ rfl).symm⟩⟩
  · intro t sl h; simp [fine_boot, place_of] at h
  · intro t f l h; simp [fine_boot, place_of] at h

/-- Were two threads to stand between lock and unlock, the statements, interleaved as
`fine_step` interleaves them, would hand the one queued message to both readers and take
`msg_count` to `-1`: nothing in the executions of `Fine` makes the code between lock and unlock
atomic. -/
theorem race_without_exclusion :
    fine_delivered demo_race_ticks demo_race
      = [[116, 104, 105, 115, 0], [116, 104, 105, 115, 0]] ∧
    fine_written demo_race_ticks demo_race = [] ∧
    (fine_run demo_race_ticks demo_race).st.slot.msg_count = -1 := by
  decide

theorem fine_step_others (ev : Tick) (sys : Fine) (q : List (List Nat)) (hinv : FInv sys q)
    (t : Nat) (hm : sys.st.slot.mutex = some t) (hne : ev.thread ≠ t) :
    (fine_step ev sys).st = sys.st := by
  cases ev with
  | read e filp buff len =>
    simp only [fine_step]
    cases place_of sys.threads e.current with
    | some p => rfl
    | none =>
      simp only []
      by_cases hlen : len = 0
      · rw [if_pos hlen]
      · rw [if_neg hlen]
        by_cases hbuff : buff = 0
        · rw [if_pos hbuff]
        · rw [if_neg hbuff]
          exact (lock_read_held e _ len t sys.st hm).1
  | write e filp buff len =>
    simp only [fine_step]
    cases place_of sys.threads e.current with
    | some p => rfl
    | none =>
      simp only []
      by_cases hlen : len = 0
      · rw [if_pos hlen]
      · rw [if_neg hlen]
        cases buff with
        | none => rfl
        | some bytes => exact (lock_write_held e _ bytes len t sys.st hm).1
  | ioctl e filp cmd arg =>
    simp only [fine_step]
    cases place_of sys.threads e.current with
    | some p => rfl
    | none =>
      simp only []
      by_cases h1 : cmd = SET_BLOCKING
      · rw [if_pos h1]
      · rw [if_neg h1]
        by_cases h2 : cmd = SET_NONBLOCKING
        · rw [if_pos h2]
        · rw [if_neg h2]
          by_cases h3 : cmd = SET_MAXIMUM_MSG_SIZE
          · rw [if_pos h3]
            by_cases h4 : arg = 0 ∨ arg > MAXIMUM_MESSAGE_SIZE
            · rw [if_pos h4]
            · rw [if_neg h4]
              exact (lock_ioctl_held e _ arg t sys.st hm).1
          · rw [if_neg h3]
  | wake e =>
    simp only [fine_step]
    cases place_of sys.threads e.current with
    | none => rfl
    | some p =>
      cases p with
      | inside f l => rfl
      | asleep sl =>
        simp only []
        cases sl with
        | read len pc =>
          cases pc with
          | lock => exact (lock_read_held e _ len t sys.st hm).1
          | wait =>
            simp only [wake]
            cases wait_event_interruptible_exclusive e (decide (sys.st.slot.msg_count > 0)) with
            | none => rfl
            | some i => by_cases hi : i ≠ 0 <;> simp [hi]
        | write buff len pc =>
          cases pc with
          | lock => exact (lock_write_held e _ buff len t sys.st hm).1
          | wait =>
            simp only [wake]
            cases wait_event_interruptible_exclusive e
                (decide (sys.st.slot.msg_count < MAILSLOT_STORAGE)) with
            | none => rfl
            | some i => by_cases hi : i ≠ 0 <;> simp [hi]
        | ioctl arg => exact (lock_ioctl_held e _ arg t sys.st hm).1
  | go e =>
    simp only [fine_step]
    cases hp : place_of sys.threads e.current with
    | none => rfl
    | some p =>
      cases p with
      | asleep sl => rfl
      | inside f l =>
        exfalso
        obtain ⟨_, hcase⟩ := hinv
        rcases hcase with ⟨hq, _⟩ | ⟨t0, f0, l0, s0, h1, h2, h3, _⟩
        · exact hq e.current f l hp
        · have h4 := h2 e.current f l hp
          rw [hm] at h3
          simp only [Option.some.injEq] at h3
          exact hne (by simp only [Tick.thread]; rw [h4, h3])

/-! ## The specification, claim by claim -/

/-- C1 (FIFO order): on a well-formed slot whose queue is empty (`msg_count = 0`: the fresh slot,
or a slot that was filled and drained), if the writes of the payloads `m1..mk` all succeed with no
read in between (no bound on `k` or on the lengths has to be assumed: success itself forces `k ≤ 64`
and every length between 1 and `max_msg_size`), then each
write returned the length of its payload, the next `k` reads, each with a non-null buffer at
least as long as the message at the head and a copy that leaves no byte behind, succeed, the
`i`-th read returns `len(mi)` and delivers exactly the bytes of `mi`, and `msg_count` is 0
afterwards. -/
theorem fifo_order (s : State) (ws : List WriteReq) (rs : List ReadReq)
    (hwf : WF s) (hempty : s.slot.msg_count = 0) (hk : 1 ≤ ws.length)
    (hok : ∀ o ∈ (write_seq ws s).1, o.success = true)
    (hfit : List.Forall₂ ReadReq.fits rs (ws.map (fun w => w.payload))) :
    (write_seq ws s).1 = ws.map (fun w => Outcome.ret (w.payload.length : Int)) ∧
    (read_seq rs (write_seq ws s).2).1
      = ws.map (fun w => (Outcome.ret (w.payload.length : Int), w.payload)) ∧
    (read_seq rs (write_seq ws s).2).2.slot.msg_count = 0 := by
  obtain ⟨a1, a2, a3, a4⟩ := write_seq_queue ws s hwf hok
  have hfree : s.slot.mutex = none := by
    cases ws with
    | nil => simp at hk
    | cons w ws2 =>
      simp only [write_seq] at hok
      have h1 := hok _ (List.mem_cons_self _ _)
      obtain ⟨_, _, hm, _⟩ := mailslot_write_success _ _ _ _ s hwf h1
      exact hm
  rw [queue_empty s hempty, List.nil_append] at a4
  obtain ⟨b1, b2, b3⟩ := read_seq_queue rs _ _ hfit a2 (by rw [a3, hfree]) a4
  refine ⟨a1, ?_, queue_nil_count _ b2 b3⟩
  rw [b1, List.map_map]
  rfl

/-- C1, instance: the slot `demo_events` has filled and drained (`head` and `tail` still hold the
freed address 1, which the allocator hands out again), two writes and two reads. -/
theorem fifo_order_witness :
    (read_seq demo_reads (write_seq demo_writes (run demo_events boot).st).2).1
      = [(Outcome.ret 3, [1, 2, 3]), (Outcome.ret 2, [4, 5])] :=
  (fifo_order (run demo_events boot).st demo_writes demo_reads
    (Reachable.inv ⟨demo_events, rfl⟩).1 (by decide) (by decide) (by decide)
    (List.Forall₂.cons ⟨by decide, by decide, by decide⟩
      (List.Forall₂.cons ⟨by decide, by decide, by decide⟩ List.Forall₂.nil))).2.1

/-- C2 (capacity boundary): on a well-formed slot whose mutex is free, a non-blocking write of
valid length whose allocation and copy succeed returns its length if and only if `msg_count < 64`,
and with `msg_count = 64` it returns `-EAGAIN` and leaves the state as it was.  Starting from an
empty slot, 64 such writes in a row all succeed and bring `msg_count` to 64, and a 65th returns
`-EAGAIN` with the state unchanged; after one successful read on the full slot
(`msg_count = 63`) one more such write succeeds and the one after it returns `-EAGAIN` again with
the state unchanged. -/
theorem capacity_boundary (s : State) (hwf : WF s) (hfree : s.slot.mutex = none) :
    (∀ w : WriteReq, w.accepted s →
      ((mailslot_write w.env w.filp (some w.payload) w.payload.length s).1
          = Outcome.ret (w.payload.length : Int) ↔ s.slot.msg_count < MAILSLOT_STORAGE) ∧
      (s.slot.msg_count = MAILSLOT_STORAGE →
        mailslot_write w.env w.filp (some w.payload) w.payload.length s
          = (Outcome.ret (-EAGAIN), s))) ∧
    (∀ (ws : List WriteReq) (s64 : State), s.slot.msg_count = 0 → ws.length = 64 →
      writes_accepted ws s → s64 = (write_seq ws s).2 →
      (write_seq ws s).1 = ws.map (fun w => Outcome.ret (w.payload.length : Int)) ∧
      s64.slot.msg_count = 64 ∧
      (∀ w : WriteReq, w.accepted s64 →
        mailslot_write w.env w.filp (some w.payload) w.payload.length s64
          = (Outcome.ret (-EAGAIN), s64)) ∧
      (∀ (r : ReadReq) (p : List Nat) (q : List (List Nat)) (s63 : State),
        queue s64 = p :: q → r.fits p →
        s63 = (mailslot_read r.env r.filp r.buff r.len s64).2.2 →
        (mailslot_read r.env r.filp r.buff r.len s64).1 = Outcome.ret (p.length : Int) ∧
        s63.slot.msg_count = 63 ∧
        (∀ (w2 : WriteReq) (s64b : State), w2.accepted s63 →
          s64b = (mailslot_write w2.env w2.filp (some w2.payload) w2.payload.length s63).2 →
          (mailslot_write w2.env w2.filp (some w2.payload) w2.payload.length s63).1
            = Outcome.ret (w2.payload.length : Int) ∧
          s64b.slot.msg_count = 64 ∧
          (∀ w3 : WriteReq, w3.accepted s64b →
            mailslot_write w3.env w3.filp (some w3.payload) w3.payload.length s64b
              = (Outcome.ret (-EAGAIN), s64b))))) := by
  have hfull : ∀ (t : State) (w : WriteReq), t.slot.mutex = none →
      t.slot.msg_count = MAILSLOT_STORAGE → w.accepted t →
      mailslot_write w.env w.filp (some w.payload) w.payload.length t
        = (Outcome.ret (-EAGAIN), t) := by
    intro t w htf htc hacc
    rw [mailslot_write_full w.env w.filp w.payload w.payload.length t htf htc
      (by have := hacc.2.1; omega)]
    simp [hacc.1, NONBLOCKING]
  have hroom : ∀ (t : State) (w : WriteReq), WF t → t.slot.mutex = none →
      t.slot.msg_count ≠ MAILSLOT_STORAGE → w.accepted t →
      (mailslot_write w.env w.filp (some w.payload) w.payload.length t).1
        = Outcome.ret (w.payload.length : Int) := by
    intro t w htw htf htc ⟨_, a1, a2, a3, a4, a5, a6⟩
    exact mailslot_write_ok w.env w.filp w.payload w.payload.length t htw htf htc a1 a2 a3 a4
      a5 a6
  refine ⟨?_, ?_⟩
  · intro w hacc
    refine ⟨⟨?_, fun hlt => hroom s w hwf hfree (by omega) hacc⟩, fun h64 => hfull s w hfree h64 hacc⟩
    intro hret
    by_contra hge
    have h64 : s.slot.msg_count = MAILSLOT_STORAGE := by
      have := hwf.count_le; omega
    rw [hfull s w hfree h64 hacc] at hret
    simp [EAGAIN] at hret
  · intro ws s64 h0 hlen hacc hs64
    obtain ⟨f1, f2, f3, f4⟩ := write_seq_fill ws s hwf hfree hacc (by
      rw [h0, hlen]; decide)
    rw [← hs64] at f2 f3 f4
    have hc64 : s64.slot.msg_count = 64 := by rw [f4, h0, hlen]; rfl
    refine ⟨f1, hc64, fun w hw => hfull s64 w f3 hc64 hw, ?_⟩
    intro r p q s63 hq hfit hs63
    obtain ⟨g1, _, _, g4, g5⟩ :=
      mailslot_read_ok r.env r.filp r.buff r.len s64 p q f2 f3 hq hfit.1 hfit.2.1 hfit.2.2
    obtain ⟨_, _, _, hdec, _⟩ := mailslot_read_effect r.env r.filp r.buff r.len s64 f2
    have hc63 : s63.slot.msg_count = 63 := by
      rw [hs63, hdec (success_of_ret_len _ _ g1), hc64]; rfl
    rw [← hs63] at g4 g5
    refine ⟨g1, hc63, ?_⟩
    intro w2 s64b hw2 hs64b
    have hne : s63.slot.msg_count ≠ MAILSLOT_STORAGE := by rw [hc63]; decide
    have hret2 := hroom s63 w2 g4 g5 hne hw2
    obtain ⟨k1, _, k3, k4, _⟩ :=
      mailslot_write_effect w2.env w2.filp (some w2.payload) w2.payload.length s63 g4
    have hc64b : s64b.slot.msg_count = 64 := by
      rw [hs64b, k4 (success_of_ret_len _ _ hret2), hc63]; rfl
    refine ⟨hret2, hc64b, ?_⟩
    intro w3 hw3
    exact hfull s64b w3 (by rw [hs64b, k3, g5]) hc64b hw3


/-- C2, instance: the fresh slot filled by `demo_fill`; the 65th write is refused. -/
theorem capacity_boundary_witness :
    (write_seq demo_fill init_module).2.slot.msg_count = 64 ∧
    mailslot_write (demo_env 65) demo_nonblocking (some [116, 104, 105, 115, 0]) 5
        (write_seq demo_fill init_module).2
      = (Outcome.ret (-EAGAIN), (write_seq demo_fill init_module).2) :=
  have h := (capacity_boundary init_module WF.init rfl).2 demo_fill
    (write_seq demo_fill init_module).2 rfl (by decide) (by decide) rfl
  ⟨h.2.1, h.2.2.1 ⟨demo_env 65, demo_nonblocking, [116, 104, 105, 115, 0]⟩ (by decide)⟩

/-- C3 (read buffer boundary): on a slot whose mutex is free, with `msg_count > 0` and a live
head message `hd`, a read with `0 < len < hd.length` returns `-EMSGSIZE`, delivers nothing and
leaves the whole state as it was; the read that follows, with `len2 ≥ hd.length` and a copy that
leaves no byte behind, returns `hd.length` and delivers the `hd.length` bytes of that same message
(all of `hd.content` when the record is consistent); a read with `len = hd.length` succeeds. -/
theorem read_buffer_boundary (e e2 : Env) (filp filp2 : file) (buff len buff2 len2 : Nat)
    (s : State) (hd : message)
    (hfree : s.slot.mutex = none) (hcount : 0 < s.slot.msg_count)
    (hhead : deref s.heap s.slot.head = some hd)
    (hbuff : buff ≠ 0) (hlen : 0 < len) (hshort : len < hd.length)
    (hbuff2 : buff2 ≠ 0) (hlen2 : hd.length ≤ len2)
    (hcopy : (copy_to_user e2 hd.content hd.length).1 = 0) (hsz : hd.length < 2 ^ 63) :
    mailslot_read e filp buff len s = (Outcome.ret (-EMSGSIZE), [], s) ∧
    (mailslot_read e2 filp2 buff2 len2 (mailslot_read e filp buff len s).2.2).1
      = Outcome.ret (hd.length : Int) ∧
    (mailslot_read e2 filp2 buff2 len2 (mailslot_read e filp buff len s).2.2).2.1
      = hd.content.take hd.length ∧
    (hd.content.length = hd.length →
      (mailslot_read e2 filp2 buff2 len2 (mailslot_read e filp buff len s).2.2).2.1
        = hd.content) ∧
    (mailslot_read e2 filp2 buff2 hd.length s).1 = Outcome.ret (hd.length : Int) := by
  have hc : s.slot.msg_count ≠ 0 := by omega
  have h1 : mailslot_read e filp buff len s = (Outcome.ret (-EMSGSIZE), [], s) := by
    rw [mailslot_read_live e filp buff len s hfree hc hbuff (by omega),
      read_deliver_short e _ len _ hd (by simpa using hhead) hshort, unlock_lock s _ hfree]
  have h2 : ∀ l, hd.length ≤ l →
      (mailslot_read e2 filp2 buff2 l s).1 = Outcome.ret (hd.length : Int) ∧
      (mailslot_read e2 filp2 buff2 l s).2.1 = hd.content.take hd.length := by
    intro l hl
    rw [mailslot_read_live e2 filp2 buff2 l s hfree hc hbuff2 (by omega),
      read_deliver_ok e2 _ l _ hd (by simpa using hhead) hl hcopy, ssize_t_small _ hsz]
    exact ⟨rfl, rfl⟩
  rw [h1]
  refine ⟨rfl, (h2 len2 hlen2).1, (h2 len2 hlen2).2, ?_, (h2 _ (le_refl _)).1⟩
  intro hl
  rw [(h2 len2 hlen2).2, ← hl, List.take_length]

/-- C3, instance: the five-byte message of `demo_one`, a 4-byte then a 5-byte buffer. -/
theorem read_buffer_boundary_witness :
    mailslot_read (demo_env 2) demo_blocking 1 4 demo_one
      = (Outcome.ret (-EMSGSIZE), [], demo_one) ∧
    (mailslot_read (demo_env 2) demo_nonblocking 1 5
      (mailslot_read (demo_env 2) demo_blocking 1 4 demo_one).2.2).1 = Outcome.ret 5 :=
  have h := read_buffer_boundary (demo_env 2) (demo_env 2) demo_blocking demo_nonblocking 1 4 1 5
    demo_one ⟨[116, 104, 105, 115, 0], 5, 0⟩ (by decide) (by decide) (by decide) (by decide)
    (by decide) (by decide) (by decide) (by decide) (by decide) (by decide)
  ⟨h.1, h.2.1⟩

/-- C4 (write size boundary): on a slot whose mutex is free, with `msg_count < 64`, a live tail
when the slot is not empty, allocation and copy succeeding, a write of `len ≥ 1` bytes returns
`len` if and only if `len ≤ max_msg_size`; a longer write returns `-EPERM` and leaves the whole
state as it was.  In particular, after `SET_MAXIMUM_MSG_SIZE` with argument 5 a 5-byte write
returns 5 and a 6-byte write fails and leaves the state as it was. -/
theorem write_size_boundary (e : Env) (filp : file) (bytes : List Nat) (len : Nat) (s : State)
    (hfree : s.slot.mutex = none) (hroom : s.slot.msg_count < MAILSLOT_STORAGE)
    (htail : s.slot.msg_count = 0 ∨ (deref s.heap s.slot.tail).isSome)
    (ha : e.kzalloc_msg ≠ 0) (hf : deref s.heap e.kzalloc_msg = none)
    (hc : e.kzalloc_content = true) (hcopy : (copy_from_user e bytes len).1 = 0)
    (hlen : 1 ≤ len) (hsz : len < 2 ^ 63) :
    ((mailslot_write e filp (some bytes) len s).1 = Outcome.ret (len : Int)
      ↔ len ≤ s.slot.max_msg_size) ∧
    (s.slot.max_msg_size < len →
      mailslot_write e filp (some bytes) len s = (Outcome.ret (-EPERM), s)) ∧
    (∀ e0 filp0,
      (len = 5 → (mailslot_write e filp (some bytes) len
          (mailslot_ioctl e0 filp0 SET_MAXIMUM_MSG_SIZE 5 s).2.2).1 = Outcome.ret 5) ∧
      (len = 6 → mailslot_write e filp (some bytes) len
          (mailslot_ioctl e0 filp0 SET_MAXIMUM_MSG_SIZE 5 s).2.2
        = (Outcome.ret (-EPERM), (mailslot_ioctl e0 filp0 SET_MAXIMUM_MSG_SIZE 5 s).2.2))) := by
  have key : ∀ s2 : State, s2.slot.mutex = none → s2.slot.msg_count = s.slot.msg_count →
      s2.heap = s.heap → s2.slot.tail = s.slot.tail →
      (len ≤ s2.slot.max_msg_size →
        (mailslot_write e filp (some bytes) len s2).1 = Outcome.ret (len : Int)) ∧
      (s2.slot.max_msg_size < len →
        mailslot_write e filp (some bytes) len s2 = (Outcome.ret (-EPERM), s2)) := by
    intro s2 hfree2 hcnt2 hheap2 htail2
    have hne : s2.slot.msg_count ≠ MAILSLOT_STORAGE := by omega
    rw [mailslot_write_room e filp bytes len s2 hfree2 hne (by omega)]
    constructor
    · intro hfit
      by_cases h0 : s.slot.msg_count = 0
      · rw [write_store_first e _ bytes len _ (by simpa using hfit) ha
          (by simpa [hheap2] using hf) hc hcopy (by simpa [hcnt2] using h0),
          ssize_t_small _ hsz]
      · rcases htail with h | h
        · exact absurd h h0
        · obtain ⟨tl, htl⟩ := Option.isSome_iff_exists.mp h
          rw [write_store_next e _ bytes len _ tl (by simpa using hfit) ha
            (by simpa [hheap2] using hf) hc hcopy (by simpa [hcnt2] using h0)
            (by simpa [hheap2, htail2] using htl), ssize_t_small _ hsz]
    · intro hbig
      rw [write_store_big e _ bytes len _ (by simpa using hbig), unlock_lock s2 _ hfree2]
  have hs5 : ∀ e0 filp0, (mailslot_ioctl e0 filp0 SET_MAXIMUM_MSG_SIZE 5 s).2.2
      = { heap := s.heap, slot := { s.slot with max_msg_size := 5 } } := by
    intro e0 filp0
    unfold mailslot_ioctl
    simp [ioctl_set_max_free e0 _ 5 s hfree, SET_BLOCKING, SET_NONBLOCKING, SET_MAXIMUM_MSG_SIZE,
      _IOC, _IOC_NONE, _IOC_WRITE, IOCTL_DRIVER_NUM, MAXIMUM_MESSAGE_SIZE]
  refine ⟨⟨?_, (key s hfree rfl rfl rfl).1⟩, (key s hfree rfl rfl rfl).2, ?_⟩
  · intro hok
    by_contra hbig
    rw [(key s hfree rfl rfl rfl).2 (by omega)] at hok
    simp [EPERM] at hok
  · intro e0 filp0
    rw [hs5 e0 filp0]
    constructor
    · intro h5
      have := (key { heap := s.heap, slot := { s.slot with max_msg_size := 5 } }
        hfree rfl rfl rfl).1 (by simp; omega)
      rw [this, h5]; rfl
    · intro h6
      exact (key { heap := s.heap, slot := { s.slot with max_msg_size := 5 } }
        hfree rfl rfl rfl).2 (by simp; omega)

/-- C4, instance: a 6-byte write on `demo_one` after the limit was set to 5. -/
theorem write_size_boundary_witness :
    (mailslot_write (demo_env 2) demo_blocking (some [104, 101, 108, 108, 111, 0]) 6
      (mailslot_ioctl (demo_env 2) demo_blocking SET_MAXIMUM_MSG_SIZE 5 demo_one).2.2)
    = (Outcome.ret (-EPERM),
      (mailslot_ioctl (demo_env 2) demo_blocking SET_MAXIMUM_MSG_SIZE 5 demo_one).2.2) :=
  (write_size_boundary (demo_env 2) demo_blocking [104, 101, 108, 108, 111, 0] 6 demo_one
    (by decide) (by decide) (by decide) (by decide) (by decide) (by decide) (by decide)
    (by decide) (by decide)).2.2 (demo_env 2) demo_blocking |>.2 rfl


/-- C5 (as stated, refuted): on a slot holding one five-byte message with limit 128, a 129-byte
write returns `-EPERM` (-1) while a read into a 4-byte buffer returns `-EMSGSIZE` (-90): the
oversized-write branch and the undersized-read branch do not return the same code. -/
theorem message_too_large_is_two_codes :
    (mailslot_write (demo_env 2) demo_blocking (some (List.replicate 129 0)) 129 demo_one).1
      = Outcome.ret (-1) ∧
    (mailslot_read (demo_env 2) demo_blocking 1 4 demo_one).1 = Outcome.ret (-90) ∧
    (mailslot_write (demo_env 2) demo_blocking (some (List.replicate 129 0)) 129 demo_one).1
      ≠ (mailslot_read (demo_env 2) demo_blocking 1 4 demo_one).1 := by
  decide

/-- C5 (amended): a write whose length exceeds the current `max_msg_size`, the mutex obtained and
the slot not full, returns `-EPERM` and leaves the slot as it was; a read whose buffer is shorter
than the head message returns `-EMSGSIZE` and leaves the slot as it was; the two codes differ. -/
theorem oversized_write_eperm_undersized_read_emsgsize (e : Env) (filp : file) (s : State)
    (hfree : s.slot.mutex = none) :
    (∀ bytes len, s.slot.msg_count ≠ MAILSLOT_STORAGE → s.slot.max_msg_size < len →
      mailslot_write e filp (some bytes) len s = (Outcome.ret (-EPERM), s)) ∧
    (∀ buff len hd, s.slot.msg_count ≠ 0 → deref s.heap s.slot.head = some hd →
      buff ≠ 0 → 0 < len → len < hd.length →
      mailslot_read e filp buff len s = (Outcome.ret (-EMSGSIZE), [], s)) ∧
    Outcome.ret (-EPERM) ≠ Outcome.ret (-EMSGSIZE) := by
  refine ⟨?_, ?_, by decide⟩
  · intro bytes len hroom hbig
    rw [mailslot_write_room e filp bytes len s hfree hroom (by omega),
      write_store_big e _ bytes len _ (by simpa using hbig), unlock_lock s _ hfree]
  · intro buff len hd hc hhead hbuff hlen hshort
    rw [mailslot_read_live e filp buff len s hfree hc hbuff (by omega),
      read_deliver_short e _ len _ hd (by simpa using hhead) hshort, unlock_lock s _ hfree]

/-- C5 (amended), instance: `demo_one`, a 129-byte write and a read into 4 bytes. -/
theorem oversized_write_eperm_undersized_read_emsgsize_witness :
    mailslot_write (demo_env 2) demo_nonblocking (some (List.replicate 129 0)) 129 demo_one
      = (Outcome.ret (-EPERM), demo_one) ∧
    mailslot_read (demo_env 2) demo_nonblocking 1 4 demo_one
      = (Outcome.ret (-EMSGSIZE), [], demo_one) :=
  have h := oversized_write_eperm_undersized_read_emsgsize (demo_env 2) demo_nonblocking demo_one
    (by decide)
  ⟨h.1 (List.replicate 129 0) 129 (by decide) (by decide),
    h.2.1 1 4 ⟨[116, 104, 105, 115, 0], 5, 0⟩ (by decide) (by decide) (by decide) (by decide)
      (by decide)⟩

/-- C6 (validation of `SET_MAXIMUM_MSG_SIZE`): for every state, whoever owns the mutex, and every
session, an argument `n = 0` or `n > 512` makes the call return `-EINVAL` at once, the session and
the state (limit, queue, mutex) as they were; an argument `1 ≤ n ≤ 512`, the mutex obtained, makes
it return `SUCCESS` with `max_msg_size = n` and nothing else changed.  The arguments 0, 513, 600,
2000 and `2^64 - 10` (the word `-10` is passed as) are rejected, 1 and 512 are accepted.  The
rejection happens without a call of `__mailslot_lock` or `__mailslot_unlock`: run with its locking
calls recorded, the rejected call hands back the record it was given, so from an empty record the
record stays empty; a call with an argument in range does call `__mailslot_lock`, that call being
the first entry of its record. -/
theorem set_max_message_size_validation (e : Env) (filp : file) (s : State) :
    (∀ n, n = 0 ∨ MAXIMUM_MESSAGE_SIZE < n →
      mailslot_ioctl e filp SET_MAXIMUM_MSG_SIZE n s = (Outcome.ret (-EINVAL), filp, s)) ∧
    (∀ n, 1 ≤ n → n ≤ MAXIMUM_MESSAGE_SIZE → s.slot.mutex = none →
      mailslot_ioctl e filp SET_MAXIMUM_MSG_SIZE n s
        = (Outcome.ret SUCCESS, filp,
            { heap := s.heap, slot := { s.slot with max_msg_size := n } })) ∧
    (∀ n, n ∈ [0, 513, 600, 2000, 2 ^ 64 - 10] →
      mailslot_ioctl e filp SET_MAXIMUM_MSG_SIZE n s = (Outcome.ret (-EINVAL), filp, s)) ∧
    (∀ n, n ∈ [1, 512] → s.slot.mutex = none →
      (mailslot_ioctl e filp SET_MAXIMUM_MSG_SIZE n s).1 = Outcome.ret SUCCESS ∧
      (mailslot_ioctl e filp SET_MAXIMUM_MSG_SIZE n s).2.2.slot.max_msg_size = n) ∧
    (∀ n ops, n = 0 ∨ MAXIMUM_MESSAGE_SIZE < n →
      mailslot_ioctl_traced e filp SET_MAXIMUM_MSG_SIZE n { st := s, ops := ops }
        = (Outcome.ret (-EINVAL), filp, { st := s, ops := ops })) ∧
    (∀ n, n = 0 ∨ MAXIMUM_MESSAGE_SIZE < n →
      (mailslot_ioctl_traced e filp SET_MAXIMUM_MSG_SIZE n { st := s, ops := [] }).2.2.ops
        = []) ∧
    (∀ n, 1 ≤ n → n ≤ MAXIMUM_MESSAGE_SIZE →
      ∃ r rest,
        (mailslot_ioctl_traced e filp SET_MAXIMUM_MSG_SIZE n { st := s, ops := [] }).2.2.ops
          = LockOp.lock r :: rest) := by
  have hbad : ∀ n, n = 0 ∨ MAXIMUM_MESSAGE_SIZE < n →
      mailslot_ioctl e filp SET_MAXIMUM_MSG_SIZE n s = (Outcome.ret (-EINVAL), filp, s) := by
    intro n hn
    unfold mailslot_ioctl
    have hn2 : n = 0 ∨ n > MAXIMUM_MESSAGE_SIZE := hn
    simp [hn2, SET_BLOCKING, SET_NONBLOCKING, SET_MAXIMUM_MSG_SIZE, _IOC, _IOC_NONE, _IOC_WRITE,
      IOCTL_DRIVER_NUM]
  have hgood : ∀ n, 1 ≤ n → n ≤ MAXIMUM_MESSAGE_SIZE → s.slot.mutex = none →
      mailslot_ioctl e filp SET_MAXIMUM_MSG_SIZE n s
        = (Outcome.ret SUCCESS, filp,
            { heap := s.heap, slot := { s.slot with max_msg_size := n } }) := by
    intro n h1 h2 hfree
    unfold mailslot_ioctl
    have hn2 : ¬ (n = 0 ∨ n > MAXIMUM_MESSAGE_SIZE) := by omega
    simp [hn2, ioctl_set_max_free e _ n s hfree, SET_BLOCKING, SET_NONBLOCKING,
      SET_MAXIMUM_MSG_SIZE, _IOC, _IOC_NONE, _IOC_WRITE, IOCTL_DRIVER_NUM]
  have htr : ∀ n ops, n = 0 ∨ MAXIMUM_MESSAGE_SIZE < n →
      mailslot_ioctl_traced e filp SET_MAXIMUM_MSG_SIZE n { st := s, ops := ops }
        = (Outcome.ret (-EINVAL), filp, { st := s, ops := ops }) := by
    intro n ops hn
    unfold mailslot_ioctl_traced
    have hn2 : n = 0 ∨ n > MAXIMUM_MESSAGE_SIZE := hn
    simp [hn2, SET_BLOCKING, SET_NONBLOCKING, SET_MAXIMUM_MSG_SIZE, _IOC, _IOC_NONE, _IOC_WRITE,
      IOCTL_DRIVER_NUM]
  refine ⟨hbad, hgood, ?_, ?_, htr, ?_, ?_⟩
  · intro n hn
    apply hbad
    simp only [List.mem_cons, List.mem_singleton, List.not_mem_nil, or_false] at hn
    unfold MAXIMUM_MESSAGE_SIZE
    omega
  · intro n hn hfree
    have hr : 1 ≤ n ∧ n ≤ MAXIMUM_MESSAGE_SIZE := by
      simp only [List.mem_cons, List.mem_singleton, List.not_mem_nil, or_false] at hn
      unfold MAXIMUM_MESSAGE_SIZE
      omega
    rw [hgood n hr.1 hr.2 hfree]
    exact ⟨rfl, rfl⟩
  · intro n hn
    rw [htr n [] hn]
  · intro n h1 h2
    have hn2 : ¬ (n = 0 ∨ n > MAXIMUM_MESSAGE_SIZE) := by omega
    have hc1 : SET_MAXIMUM_MSG_SIZE ≠ SET_BLOCKING := by decide
    have hc2 : SET_MAXIMUM_MSG_SIZE ≠ SET_NONBLOCKING := by decide
    simp only [mailslot_ioctl_traced, if_neg hc1, if_neg hc2, if_true, if_neg hn2,
      ioctl_set_max_traced, __mailslot_lock_traced]
    cases hl : __mailslot_lock e (__get_blocking_policy filp) s with
    | mk r s1 =>
      cases r with
      | none => exact ⟨none, [], by simp⟩
      | some v =>
        simp only [List.nil_append]
        split
        · exact ⟨some v, [], rfl⟩
        · split
          · exact ⟨some v, [], rfl⟩
          · exact ⟨some v, _, rfl⟩

/-- C6, instance: `-10` as an unsigned word is rejected, 512 is accepted on `demo_one`, and the
rejection of 600 records no locking call. -/
theorem set_max_message_size_validation_witness :
    mailslot_ioctl (demo_env 2) demo_blocking SET_MAXIMUM_MSG_SIZE (2 ^ 64 - 10) demo_one
      = (Outcome.ret (-EINVAL), demo_blocking, demo_one) ∧
    (mailslot_ioctl (demo_env 2) demo_blocking SET_MAXIMUM_MSG_SIZE 512 demo_one).2.2.slot.max_msg_size
      = 512 ∧
    (mailslot_ioctl_traced (demo_env 2) demo_blocking SET_MAXIMUM_MSG_SIZE 600
      { st := demo_one, ops := [] }).2.2.ops = [] :=
  have h := set_max_message_size_validation (demo_env 2) demo_blocking demo_one
  ⟨h.1 (2 ^ 64 - 10) (by decide), (h.2.2.2.1 512 (by decide) (by decide)).2,
    h.2.2.2.2.2.1 600 (by decide)⟩

/-- C7 (invalid arguments are rejected before locking): for every state, whoever owns the mutex,
every session and every environment, a read or a write with requested length 0 or with a `NULL`
buffer returns `-EINVAL` and hands back the state it was given, mutex included.  No lock attempt
is made: run with its locking calls recorded, such a call hands back the record it was given, so
from an empty record the record stays empty, whereas a read or a write with a length other than 0
and a buffer other than `NULL` does call `__mailslot_lock`, that call being the first entry of its
record. -/
theorem invalid_arguments_rejected (e : Env) (filp : file) (s : State) :
    (∀ buff, mailslot_read e filp buff 0 s = (Outcome.ret (-EINVAL), [], s)) ∧
    (∀ len, mailslot_read e filp 0 len s = (Outcome.ret (-EINVAL), [], s)) ∧
    (∀ buff, mailslot_write e filp buff 0 s = (Outcome.ret (-EINVAL), s)) ∧
    (∀ len, mailslot_write e filp none len s = (Outcome.ret (-EINVAL), s)) ∧
    (∀ buff ts, mailslot_read_traced e filp buff 0 ts = (Outcome.ret (-EINVAL), [], ts)) ∧
    (∀ len ts, mailslot_read_traced e filp 0 len ts = (Outcome.ret (-EINVAL), [], ts)) ∧
    (∀ buff ts, mailslot_write_traced e filp buff 0 ts = (Outcome.ret (-EINVAL), ts)) ∧
    (∀ len ts, mailslot_write_traced e filp none len ts = (Outcome.ret (-EINVAL), ts)) ∧
    (∀ buff len, len = 0 ∨ buff = 0 →
      (mailslot_read_traced e filp buff len { st := s, ops := [] }).2.2.ops = []) ∧
    (∀ buff len, len = 0 ∨ buff = none →
      (mailslot_write_traced e filp buff len { st := s, ops := [] }).2.ops = []) ∧
    (∀ buff len, len ≠ 0 → buff ≠ 0 → ∃ r rest,
      (mailslot_read_traced e filp buff len { st := s, ops := [] }).2.2.ops
        = LockOp.lock r :: rest) ∧
    (∀ bytes len, len ≠ 0 → ∃ r rest,
      (mailslot_write_traced e filp (some bytes) len { st := s, ops := [] }).2.ops
        = LockOp.lock r :: rest) := by
  have h5 : ∀ buff ts, mailslot_read_traced e filp buff 0 ts = (Outcome.ret (-EINVAL), [], ts) := by
    intro buff ts; simp [mailslot_read_traced]
  have h6 : ∀ len ts, mailslot_read_traced e filp 0 len ts = (Outcome.ret (-EINVAL), [], ts) := by
    intro len ts; by_cases h : len = 0 <;> simp [mailslot_read_traced, h]
  have h7 : ∀ buff ts, mailslot_write_traced e filp buff 0 ts = (Outcome.ret (-EINVAL), ts) := by
    intro buff ts; simp [mailslot_write_traced]
  have h8 : ∀ len ts, mailslot_write_traced e filp none len ts = (Outcome.ret (-EINVAL), ts) := by
    intro len ts; by_cases h : len = 0 <;> simp [mailslot_write_traced, h]
  refine ⟨?_, ?_, ?_, ?_, h5, h6, h7, h8, ?_, ?_, ?_, ?_⟩
  · intro buff; simp [mailslot_read]
  · intro len; by_cases h : len = 0 <;> simp [mailslot_read, h]
  · intro buff; simp [mailslot_write]
  · intro len; by_cases h : len = 0 <;> simp [mailslot_write, h]
  · intro buff len h
    rcases h with h | h
    · subst h; rw [h5]
    · subst h; rw [h6]
  · intro buff len h
    rcases h with h | h
    · subst h; rw [h7]
    · subst h; rw [h8]
  · intro buff len hlen hbuff
    exact mailslot_read_traced_ops e filp buff len s hlen hbuff
  · intro bytes len hlen
    exact mailslot_write_traced_ops e filp bytes len s hlen

/-- C7, instance: on `demo_one` a read of length 0 returns `-EINVAL`; a read with a `NULL` buffer
and a write with a `NULL` buffer record no locking call, a read with a buffer of 5 bytes records
a call of `__mailslot_lock` first. -/
theorem invalid_arguments_rejected_witness :
    mailslot_read (demo_env 2) demo_blocking 1 0 demo_one
      = (Outcome.ret (-EINVAL), [], demo_one) ∧
    (mailslot_read_traced (demo_env 2) demo_blocking 0 5 { st := demo_one, ops := [] }).2.2.ops
      = [] ∧
    (mailslot_write_traced (demo_env 2) demo_blocking none 3 { st := demo_one, ops := [] }).2.ops
      = [] ∧
    ∃ r rest,
      (mailslot_read_traced (demo_env 2) demo_blocking 1 5 { st := demo_one, ops := [] }).2.2.ops
        = LockOp.lock r :: rest :=
  have h := invalid_arguments_rejected (demo_env 2) demo_blocking demo_one
  ⟨h.1 1, h.2.2.2.2.2.2.2.2.1 0 5 (Or.inr rfl), h.2.2.2.2.2.2.2.2.2.1 none 3 (Or.inr rfl),
    h.2.2.2.2.2.2.2.2.2.2.1 1 5 (by decide) (by decide)⟩

/-- C8 (WouldBlock changes nothing): a non-blocking read returns `-EAGAIN` when the mutex is owned
or `msg_count = 0`, a non-blocking write when the mutex is owned or `msg_count = 64`, a
non-blocking `SET_MAXIMUM_MSG_SIZE` with an argument in range when the mutex is owned, each time
with the state exactly as it was.  Conversely every read, write or control call that returns
`-EAGAIN` hands back the state it was given (queue, `msg_count`, `max_msg_size` and the owner of
the mutex, so a caller that did not own the mutex does not own it afterwards), the stored lengths
and the limit being below `2^63` so that a length is never taken for an error code. -/
theorem would_block_changes_nothing (e : Env) (filp : file) (s : State) :
    (∀ buff len, __get_blocking_policy filp = NONBLOCKING → buff ≠ 0 → len ≠ 0 →
      s.slot.mutex ≠ none ∨ s.slot.msg_count = 0 →
      mailslot_read e filp buff len s = (Outcome.ret (-EAGAIN), [], s)) ∧
    (∀ bytes len, __get_blocking_policy filp = NONBLOCKING → len ≠ 0 →
      s.slot.mutex ≠ none ∨ s.slot.msg_count = MAILSLOT_STORAGE →
      mailslot_write e filp (some bytes) len s = (Outcome.ret (-EAGAIN), s)) ∧
    (∀ n, __get_blocking_policy filp = NONBLOCKING → 1 ≤ n → n ≤ MAXIMUM_MESSAGE_SIZE →
      s.slot.mutex ≠ none →
      mailslot_ioctl e filp SET_MAXIMUM_MSG_SIZE n s = (Outcome.ret (-EAGAIN), filp, s)) ∧
    (∀ buff len, (∀ hd, deref s.heap s.slot.head = some hd → hd.length < 2 ^ 63) →
      (mailslot_read e filp buff len s).1 = Outcome.ret (-EAGAIN) →
      (mailslot_read e filp buff len s).2.2 = s) ∧
    (∀ buff len, s.slot.max_msg_size < 2 ^ 63 →
      (mailslot_write e filp buff len s).1 = Outcome.ret (-EAGAIN) →
      (mailslot_write e filp buff len s).2 = s) ∧
    (∀ cmd arg, (mailslot_ioctl e filp cmd arg s).1 = Outcome.ret (-EAGAIN) →
      (mailslot_ioctl e filp cmd arg s).2 = (filp, s)) := by
  refine ⟨?_, ?_, ?_, ?_, ?_, ?_⟩
  · intro buff len hnb hbuff hlen hwhy
    cases hm : s.slot.mutex with
    | some t => rw [mailslot_read_held e filp buff len t s hm hbuff hlen]; simp [hnb, NONBLOCKING]
    | none =>
      rcases hwhy with h | h
      · exact absurd hm h
      · rw [mailslot_read_empty e filp buff len s hm h hbuff hlen]; simp [hnb, NONBLOCKING]
  · intro bytes len hnb hlen hwhy
    cases hm : s.slot.mutex with
    | some t => rw [mailslot_write_held e filp bytes len t s hm hlen]; simp [hnb, NONBLOCKING]
    | none =>
      rcases hwhy with h | h
      · exact absurd hm h
      · rw [mailslot_write_full e filp bytes len s hm h hlen]; simp [hnb, NONBLOCKING]
  · intro n hnb h1 h2 hheld
    cases hm : s.slot.mutex with
    | none => exact absurd hm hheld
    | some t =>
      have hcmd := mailslot_ioctl_set_max e filp n s h1 h2
      rw [hcmd, ioctl_set_max_held e _ n t s hm]
      simp [hnb, NONBLOCKING]
  · intro buff len hsz hret
    by_cases hlen : len = 0
    · subst hlen; simp [mailslot_read]
    by_cases hbuff : buff = 0
    · subst hbuff; simp [mailslot_read]
    cases hm : s.slot.mutex with
    | some t => rw [mailslot_read_held e filp buff len t s hm hbuff hlen]
    | none =>
      by_cases hc : s.slot.msg_count = 0
      · rw [mailslot_read_empty e filp buff len s hm hc hbuff hlen]
      · rw [mailslot_read_live e filp buff len s hm hc hbuff hlen] at hret ⊢
        rcases read_deliver_cases e (__get_blocking_policy filp) len
          (mutex_set s (some e.current)) with h | h | ⟨out, h⟩ | ⟨hd, hh, h⟩
        · rw [h] at hret; cases hret
        · rw [h]; exact unlock_lock s _ hm
        · rw [h]; exact unlock_lock s _ hm
        · rw [h] at hret
          have := ssize_t_nonneg hd.length (hsz hd (by simpa using hh))
          simp [EAGAIN] at hret
          omega
  · intro buff len hmax hret
    by_cases hlen : len = 0
    · subst hlen; simp [mailslot_write]
    cases buff with
    | none => simp [mailslot_write, hlen]
    | some bytes =>
      cases hm : s.slot.mutex with
      | some t => rw [mailslot_write_held e filp bytes len t s hm hlen]
      | none =>
        by_cases hc : s.slot.msg_count = MAILSLOT_STORAGE
        · rw [mailslot_write_full e filp bytes len s hm hc hlen]
        · rw [mailslot_write_room e filp bytes len s hm hc hlen] at hret ⊢
          rcases write_store_cases e (__get_blocking_policy filp) bytes len
            (mutex_set s (some e.current)) with h | h | h | ⟨hfit, h | h⟩
          · rw [h]; exact unlock_lock s _ hm
          · rw [h]; exact unlock_lock s _ hm
          · rw [h]; exact unlock_lock s _ hm
          · rw [h] at hret; cases hret
          · rw [h] at hret
            have hfit2 : len ≤ s.slot.max_msg_size := by simpa using hfit
            have := ssize_t_nonneg len (by omega)
            simp [EAGAIN] at hret
            omega
  · intro cmd arg hret
    rcases mailslot_ioctl_cases e filp cmd arg s with ⟨f2, h⟩ | h | h | ⟨_, _, _, h⟩
    · rw [h] at hret; simp [SUCCESS, EAGAIN] at hret
    · rw [h]
    · rw [h]
    · rw [h] at hret ⊢
      cases hm : s.slot.mutex with
      | none =>
        rw [ioctl_set_max_free e _ arg s hm] at hret
        simp [SUCCESS, EAGAIN] at hret
      | some t => rw [ioctl_set_max_held e _ arg t s hm]

/-- C8, instance: the fresh slot with the mutex owned by thread 9, a non-blocking session. -/
theorem would_block_changes_nothing_witness :
    mailslot_read (demo_env 2) ⟨2050⟩ 1 5 (mutex_set init_module (some 9))
      = (Outcome.ret (-EAGAIN), [], mutex_set init_module (some 9)) ∧
    mailslot_ioctl (demo_env 2) ⟨2050⟩ SET_MAXIMUM_MSG_SIZE 64 (mutex_set init_module (some 9))
      = (Outcome.ret (-EAGAIN), ⟨2050⟩, mutex_set init_module (some 9)) :=
  have h := would_block_changes_nothing (demo_env 2) ⟨2050⟩ (mutex_set init_module (some 9))
  ⟨h.1 1 5 (by decide) (by decide) (by decide) (by decide),
    h.2.2.1 64 (by decide) (by decide) (by decide) (by decide)⟩

/-- C9 (as stated, refuted): after thread 7 has written one message to the fresh slot and read it
back, `msg_count` is 0 while `head` and `tail` still hold the address 1 of the message that was
freed: in this reachable state `msg_count == 0` holds and "head is none" does not. -/
theorem drained_slot_keeps_head_and_tail :
    (run demo_events boot).st.slot.msg_count = 0 ∧
    (run demo_events boot).st.slot.head = 1 ∧
    (run demo_events boot).st.slot.tail = 1 ∧
    deref (run demo_events boot).st.heap 1 = none ∧
    ¬ ((run demo_events boot).st.slot.msg_count = 0 ↔ (run demo_events boot).st.slot.head = 0) := by
  decide

/-- C9 (amended): the slot starts with `head`, `tail` null and `msg_count = 0`; in every reachable
state `head` is null exactly when `tail` is, a null `head` implies `msg_count = 0`, and
`msg_count > 0` implies that `head` and `tail` are non-null and live; emptiness is `msg_count = 0`
alone: a successful read that removes the last message (`msg_count` from 1 to 0) leaves `head`
and `tail` holding the address they held, which is not null. -/
theorem empty_queue_invariant (sys : System) (hr : Reachable sys) :
    (boot.st.slot.head = 0 ∧ boot.st.slot.tail = 0 ∧ boot.st.slot.msg_count = 0) ∧
    (sys.st.slot.head = 0 ↔ sys.st.slot.tail = 0) ∧
    (sys.st.slot.head = 0 → sys.st.slot.msg_count = 0) ∧
    (0 < sys.st.slot.msg_count →
      sys.st.slot.head ≠ 0 ∧ sys.st.slot.tail ≠ 0 ∧
      (deref sys.st.heap sys.st.slot.head).isSome ∧
      (deref sys.st.heap sys.st.slot.tail).isSome) ∧
    (∀ e filp buff len, sys.st.slot.msg_count = 1 →
      (mailslot_read e filp buff len sys.st).1.success = true →
      (mailslot_read e filp buff len sys.st).2.2.slot.msg_count = 0 ∧
      (mailslot_read e filp buff len sys.st).2.2.slot.head = sys.st.slot.head ∧
      (mailslot_read e filp buff len sys.st).2.2.slot.tail = sys.st.slot.tail ∧
      (mailslot_read e filp buff len sys.st).2.2.slot.head ≠ 0 ∧
      (mailslot_read e filp buff len sys.st).2.2.slot.tail ≠ 0) := by
  have hwf := hr.inv.1
  have hlive : sys.st.slot.msg_count ≠ 0 →
      sys.st.slot.head ≠ 0 ∧ sys.st.slot.tail ≠ 0 ∧
      (deref sys.st.heap sys.st.slot.head).isSome ∧
      (deref sys.st.heap sys.st.slot.tail).isSome := by
    intro hc
    obtain ⟨as, hl⟩ := hwf.linked
    obtain ⟨hd, r, _, hhd, _, _⟩ := hwf.head_live hl hc
    obtain ⟨tl, htl, _⟩ := hwf.tail_live hc
    refine ⟨?_, ?_, by simp [hhd], by simp [htl]⟩
    · intro hh; rw [hh, hwf.null_dead] at hhd; cases hhd
    · intro hh; rw [hh, hwf.null_dead] at htl; cases htl
  refine ⟨⟨rfl, rfl, rfl⟩, hwf.ends, ?_, fun hc => hlive (by omega), ?_⟩
  · intro hh
    by_contra hc
    exact (hlive hc).1 hh
  · intro e filp buff len h1 hs
    obtain ⟨hd, _, _, _, _, heq⟩ := mailslot_read_success e filp buff len sys.st hwf hs
    obtain ⟨hh, ht, _, _⟩ := hlive (by omega)
    rw [heq]
    have hng : ¬ sys.st.slot.msg_count > 1 := by omega
    refine ⟨?_, ?_, rfl, ?_, ht⟩
    · show sys.st.slot.msg_count - 1 = 0
      omega
    · show (if sys.st.slot.msg_count > 1 then hd.next else sys.st.slot.head) = sys.st.slot.head
      rw [if_neg hng]
    · show (if sys.st.slot.msg_count > 1 then hd.next else sys.st.slot.head) ≠ 0
      rw [if_neg hng]; exact hh

/-- C9 (amended), instance: the state after the first event of `demo_events`, which holds one
message, and the read that drains it. -/
theorem empty_queue_invariant_witness :
    (mailslot_read (demo_env 1) demo_blocking 1 5
      (run [Event.write (demo_env 1) demo_blocking (some [116, 104, 105, 115, 0]) 5]
        boot).st).2.2.slot.head ≠ 0 :=
  ((empty_queue_invariant
    (run [Event.write (demo_env 1) demo_blocking (some [116, 104, 105, 115, 0]) 5] boot)
    ⟨[Event.write (demo_env 1) demo_blocking (some [116, 104, 105, 115, 0]) 5], rfl⟩).2.2.2.2
    (demo_env 1) demo_blocking 1 5 (by decide) (by decide)).2.2.2.1

/-- C10 (count bound invariant): in every reachable state `0 ≤ msg_count ≤ 64`; from such a
state, whatever the session, the arguments and the environment (owner of the mutex, signals,
allocator, copy), a write that ends in a successful return has increased `msg_count` by exactly 1
and a read has decreased it by exactly 1, every other outcome of a read or write (an error return
or a sleep) and every control call leave it unchanged, and the same holds when a sleeping call is
scheduled again. -/
theorem count_bound_invariant (sys : System) (hr : Reachable sys) :
    0 ≤ sys.st.slot.msg_count ∧ sys.st.slot.msg_count ≤ MAILSLOT_STORAGE ∧
    (∀ e filp buff len,
      ((mailslot_write e filp buff len sys.st).1.success = true →
        (mailslot_write e filp buff len sys.st).2.slot.msg_count
          = sys.st.slot.msg_count + 1) ∧
      ((mailslot_write e filp buff len sys.st).1.success = false →
        (mailslot_write e filp buff len sys.st).2.slot.msg_count = sys.st.slot.msg_count)) ∧
    (∀ e filp buff len,
      ((mailslot_read e filp buff len sys.st).1.success = true →
        (mailslot_read e filp buff len sys.st).2.2.slot.msg_count
          = sys.st.slot.msg_count - 1) ∧
      ((mailslot_read e filp buff len sys.st).1.success = false →
        (mailslot_read e filp buff len sys.st).2.2.slot.msg_count = sys.st.slot.msg_count)) ∧
    (∀ e filp cmd arg,
      (mailslot_ioctl e filp cmd arg sys.st).2.2.slot.msg_count = sys.st.slot.msg_count) ∧
    (∀ e sl, sleeper_of sys.asleep e.current = some sl →
      ((resume e sl sys.st).1.success = true →
        (resume e sl sys.st).2.slot.msg_count = sys.st.slot.msg_count + sl.delta) ∧
      ((resume e sl sys.st).1.success = false →
        (resume e sl sys.st).2.slot.msg_count = sys.st.slot.msg_count)) := by
  obtain ⟨hwf, htbl⟩ := hr.inv
  refine ⟨hwf.count_nonneg, hwf.count_le, ?_, ?_, ?_, ?_⟩
  · intro e filp buff len
    obtain ⟨_, _, _, h1, h2⟩ := mailslot_write_effect e filp buff len sys.st hwf
    exact ⟨h1, h2⟩
  · intro e filp buff len
    obtain ⟨_, _, _, h1, h2⟩ := mailslot_read_effect e filp buff len sys.st hwf
    exact ⟨fun h => by rw [h1 h]; rfl, h2⟩
  · intro e filp cmd arg
    obtain ⟨_, _, _, h1, h2⟩ := mailslot_ioctl_effect e filp cmd arg sys.st hwf
    cases hs : (mailslot_ioctl e filp cmd arg sys.st).1.success with
    | true => rw [h1 hs]; omega
    | false => exact h2 hs
  · intro e sl hsl
    obtain ⟨_, _, _, h1, h2⟩ := resume_effect e sl sys.st hwf (htbl _ _ hsl)
    exact ⟨h1, h2⟩

/-- C10, instance: the state `demo_events` leads to. -/
theorem count_bound_invariant_witness :
    0 ≤ (run demo_events boot).st.slot.msg_count ∧
    (run demo_events boot).st.slot.msg_count ≤ MAILSLOT_STORAGE :=
  have h := count_bound_invariant (run demo_events boot) ⟨demo_events, rfl⟩
  ⟨h.1, h.2.1⟩

/-- C11 (size-limit invariant): the fresh slot has `max_msg_size = 128`; on it a write of 128
bytes whose allocation and copy succeed returns 128 and a write of 129 bytes returns `-EPERM`
and leaves the slot as it was; and in every state an execution of read, write and control calls
(with any scheduling of the sleeping callers) leads to, `1 ≤ max_msg_size ≤ 512`, every live
record has a stored length between 1 and 512 equal to the number of bytes it carries, and every
message of the queue has between 1 and 512 bytes. -/
theorem size_limit_invariant :
    init_module.slot.max_msg_size = 128 ∧
    (∀ (e : Env) (filp : file) (bytes : List Nat), e.kzalloc_msg ≠ 0 →
      e.kzalloc_content = true → (copy_from_user e bytes 128).1 = 0 →
      (mailslot_write e filp (some bytes) 128 init_module).1 = Outcome.ret 128) ∧
    (∀ (e : Env) (filp : file) (bytes : List Nat),
      mailslot_write e filp (some bytes) 129 init_module = (Outcome.ret (-EPERM), init_module)) ∧
    (∀ sys, Reachable sys →
      1 ≤ sys.st.slot.max_msg_size ∧ sys.st.slot.max_msg_size ≤ 512 ∧
      (∀ a m, deref sys.st.heap a = some m →
        1 ≤ m.length ∧ m.length ≤ 512 ∧ m.content.length = m.length) ∧
      (∀ p ∈ queue sys.st, 1 ≤ p.length ∧ p.length ≤ 512)) := by
  refine ⟨rfl, ?_, ?_, ?_⟩
  · intro e filp bytes ha hc hcopy
    exact mailslot_write_ok e filp bytes 128 init_module WF.init rfl (by decide) (by decide)
      (by decide) ha rfl hc hcopy
  · intro e filp bytes
    rw [mailslot_write_room e filp bytes 129 init_module rfl (by decide) (by decide),
      write_store_big e _ bytes 129 _ (by show DEFAULT_MESSAGE_SIZE < 129; decide),
      unlock_lock init_module _ rfl]
  · intro sys hr
    have hwf : WF sys.st := (Reachable.inv hr).1
    refine ⟨hwf.max_pos, hwf.max_le, ?_, ?_⟩
    · intro a m hm
      obtain ⟨as, hl⟩ := hwf.linked
      obtain ⟨m2, hm2, h1, h2, h3⟩ := hl.sized a (hl.only a m hm)
      rw [hm] at hm2
      cases hm2
      exact ⟨h2, h3, h1⟩
    · intro p hp
      obtain ⟨a, m, _, _, h1, h2, h3⟩ := queue_mem sys.st hwf p hp
      rw [h1]
      exact ⟨h2, h3⟩

/-- C11, instance: after the execution `demo_events` followed by a size command with argument 3
the limit lies between 1 and 512. -/
theorem size_limit_invariant_witness :
    1 ≤ (run (demo_events ++ [Event.ioctl (demo_env 1) demo_blocking SET_MAXIMUM_MSG_SIZE 3])
        boot).st.slot.max_msg_size ∧
    (run (demo_events ++ [Event.ioctl (demo_env 1) demo_blocking SET_MAXIMUM_MSG_SIZE 3])
        boot).st.slot.max_msg_size ≤ 512 :=
  have h := size_limit_invariant.2.2.2 _
    ⟨demo_events ++ [Event.ioctl (demo_env 1) demo_blocking SET_MAXIMUM_MSG_SIZE 3], rfl⟩
  ⟨h.1, h.2.1⟩

/-- C12 (changing the limit is not retroactive): for every state, session and environment and
every `n` between 1 and 512, a `SET_MAXIMUM_MSG_SIZE(n)` that returns `SUCCESS` hands back the
session as it was and the state with `max_msg_size = n` and nothing else changed: same records
in memory, same `head`, `tail`, `msg_count` and mutex, hence the same queue (same messages, same
order, same lengths).  On a well-formed slot, reads issued after the command, each with a
buffer that fits the message at the head, deliver the messages queued before the command in full
and in order, whether or not `n` is smaller than their lengths; in particular a message of `L`
bytes written to an empty slot is returned in full, with return value `L`, by a read with a
buffer of at least `L` bytes issued after the limit was set to any `n`, `n < L` included. -/
theorem limit_change_not_retroactive (e : Env) (filp : file) (n : Nat) (s : State)
    (h1 : 1 ≤ n) (h2 : n ≤ MAXIMUM_MESSAGE_SIZE)
    (hok : (mailslot_ioctl e filp SET_MAXIMUM_MSG_SIZE n s).1 = Outcome.ret SUCCESS) :
    mailslot_ioctl e filp SET_MAXIMUM_MSG_SIZE n s
      = (Outcome.ret SUCCESS, filp,
          { heap := s.heap, slot := { s.slot with max_msg_size := n } }) ∧
    queue (mailslot_ioctl e filp SET_MAXIMUM_MSG_SIZE n s).2.2 = queue s ∧
    chain (mailslot_ioctl e filp SET_MAXIMUM_MSG_SIZE n s).2.2 = chain s ∧
    (mailslot_ioctl e filp SET_MAXIMUM_MSG_SIZE n s).2.2.heap = s.heap ∧
    (mailslot_ioctl e filp SET_MAXIMUM_MSG_SIZE n s).2.2.slot.msg_count = s.slot.msg_count ∧
    (WF s → ∀ rs : List ReadReq, List.Forall₂ ReadReq.fits rs (queue s) →
      (read_seq rs (mailslot_ioctl e filp SET_MAXIMUM_MSG_SIZE n s).2.2).1
        = (queue s).map (fun p => (Outcome.ret (p.length : Int), p))) ∧
    (∀ (s0 : State) (e0 : Env) (filp0 : file) (bytes : List Nat) (L : Nat) (r : ReadReq),
      WF s0 → s0.slot.msg_count = 0 →
      (mailslot_write e0 filp0 (some bytes) L s0).1.success = true →
      s = (mailslot_write e0 filp0 (some bytes) L s0).2 →
      r.buff ≠ 0 → L ≤ r.len → (copy_to_user r.env (bytes.take L) L).1 = 0 →
      (mailslot_read r.env r.filp r.buff r.len
          (mailslot_ioctl e filp SET_MAXIMUM_MSG_SIZE n s).2.2).1 = Outcome.ret (L : Int) ∧
      (mailslot_read r.env r.filp r.buff r.len
          (mailslot_ioctl e filp SET_MAXIMUM_MSG_SIZE n s).2.2).2.1 = bytes.take L ∧
      ((mailslot_read r.env r.filp r.buff r.len
          (mailslot_ioctl e filp SET_MAXIMUM_MSG_SIZE n s).2.2).2.1).length = L) := by
  have hfree : s.slot.mutex = none := by
    rw [mailslot_ioctl_set_max e filp n s h1 h2] at hok
    exact ioctl_set_max_ok_free e _ n s hok
  have heq : mailslot_ioctl e filp SET_MAXIMUM_MSG_SIZE n s
      = (Outcome.ret SUCCESS, filp,
          { heap := s.heap, slot := { s.slot with max_msg_size := n } }) := by
    rw [mailslot_ioctl_set_max e filp n s h1 h2, ioctl_set_max_free e _ n s hfree]
  have hq : queue (mailslot_ioctl e filp SET_MAXIMUM_MSG_SIZE n s).2.2 = queue s := by
    rw [heq]; exact queue_congr s _ rfl rfl rfl
  have hwf2 : WF s → WF (mailslot_ioctl e filp SET_MAXIMUM_MSG_SIZE n s).2.2 := by
    intro hwf; rw [heq]; exact hwf.set_max n h1 h2
  have hfree2 : (mailslot_ioctl e filp SET_MAXIMUM_MSG_SIZE n s).2.2.slot.mutex = none := by
    rw [heq]; exact hfree
  refine ⟨heq, hq, ?_, ?_, ?_, ?_, ?_⟩
  · rw [heq]; rfl
  · rw [heq]
  · rw [heq]
  · intro hwf rs hfit
    exact (read_seq_queue rs (queue s) _ hfit (hwf2 hwf) hfree2 hq).1
  · intro s0 e0 filp0 bytes L r hwf0 h0 hs hs0 hbuff hlen hcopy
    obtain ⟨b2, hb, hL, _, hq0⟩ := mailslot_write_queue e0 filp0 (some bytes) L s0 hwf0 hs
    cases hb
    have hwf : WF s := by
      rw [hs0]; exact (mailslot_write_effect e0 filp0 (some bytes) L s0 hwf0).1
    have hlen2 : (bytes.take L).length = L := by
      rw [List.length_take]; omega
    rw [queue_empty s0 h0, List.nil_append, ← hs0] at hq0
    obtain ⟨g1, g2, _⟩ := mailslot_read_ok r.env r.filp r.buff r.len _ (bytes.take L) []
      (hwf2 hwf) hfree2 (by rw [hq, hq0]) hbuff (by rw [hlen2]; exact hlen)
      (by rw [hlen2]; exact hcopy)
    rw [hlen2] at g1
    exact ⟨g1, g2, by rw [g2, hlen2]⟩

/-- C12, instance: the five-byte message of `demo_one` is read in full after the limit was
lowered to 3. -/
theorem limit_change_not_retroactive_witness :
    (read_seq [⟨demo_env 2, demo_blocking, 1, 5⟩]
        (mailslot_ioctl (demo_env 2) demo_blocking SET_MAXIMUM_MSG_SIZE 3 demo_one).2.2).1
      = (queue demo_one).map (fun p => (Outcome.ret (p.length : Int), p)) :=
  (limit_change_not_retroactive (demo_env 2) demo_blocking 3 demo_one (by decide) (by decide)
    (by decide)).2.2.2.2.2.1 (by
      have h := (Reachable.inv ⟨[Event.write (demo_env 1) demo_blocking
        (some [116, 104, 105, 115, 0]) 5], rfl⟩).1
      exact h)
    [⟨demo_env 2, demo_blocking, 1, 5⟩]
    (by
      have hq : queue demo_one = [[116, 104, 105, 115, 0]] := by decide
      rw [hq]
      exact List.Forall₂.cons ⟨by decide, by decide, by decide⟩ List.Forall₂.nil)

/-- C13 (a transfer fault leaves the queue unmodified): on a slot whose mutex is free, a read
that reaches the copy to the caller (`msg_count ≠ 0`, buffer not `NULL` and at least as long as
the head message) and whose copy leaves bytes uncopied returns `-EFAULT` and hands back the
whole state as it was, the mutex free again, so that the next read whose copy succeeds returns
that same head message; a write that reaches the copy from the caller (`msg_count ≠ 64`, length
between 1 and `max_msg_size`, both allocations done) and whose copy leaves bytes uncopied returns
`-EFAULT` and hands back the whole state as it was, the records allocated for it freed.
Conversely, on a well-formed slot every read or write, and every continuation of a sleeping
call, that returns `-EFAULT` hands back the state it was given. -/
theorem transfer_fault_keeps_queue (e : Env) (filp : file) (s : State)
    (hfree : s.slot.mutex = none) :
    (∀ (buff len : Nat) (hd : message), s.slot.msg_count ≠ 0 →
      deref s.heap s.slot.head = some hd → buff ≠ 0 → len ≠ 0 → hd.length ≤ len →
      (copy_to_user e hd.content hd.length).1 ≠ 0 →
      mailslot_read e filp buff len s
        = (Outcome.ret (-EFAULT), (copy_to_user e hd.content hd.length).2, s) ∧
      read_acquire e len s
        = (Outcome.ret (-EFAULT), (copy_to_user e hd.content hd.length).2, s) ∧
      (∀ (e2 : Env) (filp2 : file) (buff2 len2 : Nat), buff2 ≠ 0 → hd.length ≤ len2 →
        (copy_to_user e2 hd.content hd.length).1 = 0 → hd.length < 2 ^ 63 →
        (mailslot_read e2 filp2 buff2 len2 (mailslot_read e filp buff len s).2.2).1
          = Outcome.ret (hd.length : Int) ∧
        (mailslot_read e2 filp2 buff2 len2 (mailslot_read e filp buff len s).2.2).2.1
          = hd.content.take hd.length)) ∧
    (∀ (bytes : List Nat) (len : Nat), s.slot.msg_count ≠ MAILSLOT_STORAGE → len ≠ 0 →
      len ≤ s.slot.max_msg_size → e.kzalloc_msg ≠ 0 → deref s.heap e.kzalloc_msg = none →
      e.kzalloc_content = true → (copy_from_user e bytes len).1 ≠ 0 →
      mailslot_write e filp (some bytes) len s = (Outcome.ret (-EFAULT), s) ∧
      write_acquire e bytes len s = (Outcome.ret (-EFAULT), s)) ∧
    (WF s →
      (∀ buff len, (mailslot_read e filp buff len s).1 = Outcome.ret (-EFAULT) →
        (mailslot_read e filp buff len s).2.2 = s) ∧
      (∀ buff len, (mailslot_write e filp buff len s).1 = Outcome.ret (-EFAULT) →
        (mailslot_write e filp buff len s).2 = s) ∧
      (∀ sl, (resume e sl s).1 = Outcome.ret (-EFAULT) → (resume e sl s).2 = s)) := by
  refine ⟨?_, ?_, ?_⟩
  · intro buff len hd hc hhead hbuff hlen hfit hcopy
    have hr : mailslot_read e filp buff len s
        = (Outcome.ret (-EFAULT), (copy_to_user e hd.content hd.length).2, s) := by
      rw [mailslot_read_live e filp buff len s hfree hc hbuff hlen,
        read_deliver_fault e _ len _ hd (by simpa using hhead) hfit hcopy,
        unlock_lock s _ hfree]
    refine ⟨hr, ?_, ?_⟩
    · rw [read_acquire_live e len s hfree hc,
        read_deliver_fault e _ len _ hd (by simpa using hhead) hfit hcopy,
        unlock_lock s _ hfree]
    · intro e2 filp2 buff2 len2 hbuff2 hfit2 hcopy2 hsz
      rw [hr]
      have hlen2 : len2 ≠ 0 ∨ hd.length = 0 := by omega
      rcases hlen2 with hlen2 | hz
      · rw [mailslot_read_live e2 filp2 buff2 len2 s hfree hc hbuff2 hlen2,
          read_deliver_ok e2 _ len2 _ hd (by simpa using hhead) hfit2 hcopy2,
          ssize_t_small _ hsz]
        exact ⟨rfl, rfl⟩
      · exfalso
        apply hcopy
        rw [hz]
        simp [copy_to_user]
  · intro bytes len hc hlen hfit ha hf hcon hcopy
    constructor
    · rw [mailslot_write_room e filp bytes len s hfree hc hlen,
        write_store_fault e _ bytes len _ (by simpa using hfit) ha (by simpa using hf) hcon hcopy,
        unlock_lock s _ hfree]
    · rw [write_acquire_room e bytes len s hfree hc,
        write_store_fault e _ bytes len _ (by simpa using hfit) ha (by simpa using hf) hcon hcopy,
        unlock_lock s _ hfree]
  · intro hwf
    have hneg : (Outcome.ret (-EFAULT)).success = false := success_neg _ (by decide)
    refine ⟨?_, ?_, ?_⟩
    · intro buff len h
      exact mailslot_read_quiet e filp buff len s hwf (by rw [h]; exact hneg)
    · intro buff len h
      exact mailslot_write_quiet e filp buff len s hwf (by rw [h]; exact hneg)
    · intro sl h
      exact resume_quiet e sl s hwf (by rw [h]; exact hneg)

/-- C13, instance: on `demo_one` a read whose copy faults at offset 2 returns `-EFAULT` with
the slot as it was, and a write whose copy faults at offset 2 does the same. -/
theorem transfer_fault_keeps_queue_witness :
    mailslot_read { demo_env 2 with fault_at := some 2 } demo_blocking 1 5 demo_one
      = (Outcome.ret (-EFAULT), [116, 104], demo_one) ∧
    mailslot_write { demo_env 2 with fault_at := some 2 } demo_blocking (some [1, 2, 3]) 3
        demo_one
      = (Outcome.ret (-EFAULT), demo_one) :=
  have h := transfer_fault_keeps_queue { demo_env 2 with fault_at := some 2 } demo_blocking
    demo_one (by decide)
  ⟨(h.1 1 5 ⟨[116, 104, 105, 115, 0], 5, 0⟩ (by decide) (by decide) (by decide) (by decide)
      (by decide) (by decide)).1,
    (h.2.1 [1, 2, 3] 3 (by decide) (by decide) (by decide) (by decide) (by decide) (by decide)
      (by decide)).1⟩

/-- C14 (unknown control command): for every command code other than `SET_BLOCKING`,
`SET_NONBLOCKING` and `SET_MAXIMUM_MSG_SIZE`, every argument, session, environment and state,
whoever owns the mutex, `mailslot_ioctl` returns `-ENOTTY` and hands back the session flags and
the state it was given, mutex included.  No lock is taken: run with its locking calls recorded,
the call hands back the record it was given, so from an empty record the record stays empty: it
calls neither `__mailslot_lock` nor `__mailslot_unlock`. -/
theorem unknown_command_rejected (e : Env) (filp : file) (cmd arg : Nat) (s : State)
    (h1 : cmd ≠ SET_BLOCKING) (h2 : cmd ≠ SET_NONBLOCKING) (h3 : cmd ≠ SET_MAXIMUM_MSG_SIZE) :
    mailslot_ioctl e filp cmd arg s = (Outcome.ret (-ENOTTY), filp, s) ∧
    (∀ ts, mailslot_ioctl_traced e filp cmd arg ts = (Outcome.ret (-ENOTTY), filp, ts)) ∧
    (mailslot_ioctl_traced e filp cmd arg { st := s, ops := [] }).2.2.ops = [] := by
  have h : ∀ ts, mailslot_ioctl_traced e filp cmd arg ts = (Outcome.ret (-ENOTTY), filp, ts) := by
    intro ts
    unfold mailslot_ioctl_traced
    simp [h1, h2, h3]
  refine ⟨?_, h, ?_⟩
  · unfold mailslot_ioctl
    simp [h1, h2, h3]
  · rw [h]

/-- C14, instance: the command code 9 the test client sends, on `demo_one`; no locking call is
recorded. -/
theorem unknown_command_rejected_witness :
    mailslot_ioctl (demo_env 2) demo_blocking 9 0 demo_one
      = (Outcome.ret (-ENOTTY), demo_blocking, demo_one) ∧
    (mailslot_ioctl_traced (demo_env 2) demo_blocking 9 0 { st := demo_one, ops := [] }).2.2.ops
      = [] :=
  have h := unknown_command_rejected (demo_env 2) demo_blocking 9 0 demo_one (by decide)
    (by decide) (by decide)
  ⟨h.1, h.2.2⟩

/-- C15 (access-mode control): for every session, argument, environment and state, whoever owns
the mutex, `SET_BLOCKING` and `SET_NONBLOCKING` return `SUCCESS` and hand back the state they
were given; every flag bit other than bit 11 (`O_NONBLOCK`) keeps its value (the flags being a
32-bit word); the same command applied to its own result gives that result again;
`__get_blocking_policy` reports `BLOCKING` after `SET_BLOCKING` and `NONBLOCKING` after
`SET_NONBLOCKING`; and after any non-empty run of these two commands every command returned
`SUCCESS`, the state is the one the run started in and `__get_blocking_policy` reports the mode
of the last command. -/
theorem access_mode_control (e : Env) (filp : file) (arg : Nat) (s : State) :
    (∃ f2, mailslot_ioctl e filp SET_BLOCKING arg s = (Outcome.ret SUCCESS, f2, s) ∧
      (filp.f_flags < 2 ^ 32 → ∀ i, i ≠ 11 → f2.f_flags.testBit i = filp.f_flags.testBit i) ∧
      (∀ e2 arg2 s2, mailslot_ioctl e2 f2 SET_BLOCKING arg2 s2 = (Outcome.ret SUCCESS, f2, s2)) ∧
      __get_blocking_policy f2 = BLOCKING) ∧
    (∃ f2, mailslot_ioctl e filp SET_NONBLOCKING arg s = (Outcome.ret SUCCESS, f2, s) ∧
      (∀ i, i ≠ 11 → f2.f_flags.testBit i = filp.f_flags.testBit i) ∧
      (∀ e2 arg2 s2,
        mailslot_ioctl e2 f2 SET_NONBLOCKING arg2 s2 = (Outcome.ret SUCCESS, f2, s2)) ∧
      __get_blocking_policy f2 = NONBLOCKING) ∧
    (∀ (cs : List IoctlReq) (hne : cs ≠ []),
      (∀ c ∈ cs, c.cmd = SET_BLOCKING ∨ c.cmd = SET_NONBLOCKING) →
      (ioctl_seq cs filp s).1 = cs.map (fun _ => Outcome.ret SUCCESS) ∧
      (ioctl_seq cs filp s).2.2 = s ∧
      __get_blocking_policy (ioctl_seq cs filp s).2.1
        = if (cs.getLast hne).cmd = SET_NONBLOCKING then NONBLOCKING else BLOCKING) := by
  refine ⟨⟨_, mailslot_ioctl_blocking e filp arg s, ?_, ?_, flags_clear_policy _⟩,
    ⟨_, mailslot_ioctl_nonblocking e filp arg s, ?_, ?_, flags_set_policy _⟩, ?_⟩
  · intro hf i hi
    exact flags_clear_bit _ i hf hi
  · intro e2 arg2 s2
    rw [mailslot_ioctl_blocking]
    simp only [flags_clear_twice]
  · intro i hi
    exact flags_set_bit _ i hi
  · intro e2 arg2 s2
    rw [mailslot_ioctl_nonblocking]
    simp only [flags_set_twice]
  · intro cs hne hall
    exact ioctl_seq_mode cs filp s hne hall

/-- C15, instance: on a blocking session, the run non-blocking, blocking, non-blocking ends in
non-blocking mode with the slot `demo_one` untouched. -/
theorem access_mode_control_witness :
    (ioctl_seq demo_modes demo_blocking demo_one).2.2 = demo_one ∧
    __get_blocking_policy (ioctl_seq demo_modes demo_blocking demo_one).2.1 = NONBLOCKING :=
  have h := (access_mode_control (demo_env 1) demo_blocking 0 demo_one).2.2 demo_modes
    (by decide) (by decide)
  ⟨h.2.1, h.2.2⟩

/-- C16 (cancellation is atomic): with the mutex owned by some thread and a signal pending, a
blocking read, write or `SET_MAXIMUM_MSG_SIZE` with valid arguments, and the continuation of
each of them when it tries the mutex again, returns `-EINTR` and hands back the state it was
given; a blocking reader waiting for `msg_count > 0`, or a blocking writer waiting for
`msg_count < 64`, that is scheduled with the condition false and a signal pending returns
`-EINTR` and hands back the state it was given, in which the mutex it released before waiting is
still free if it was.  A blocking read that gets the mutex and finds `msg_count = 0`, or a
blocking write that finds `msg_count = 64`, releases the mutex and enters the wait: with a signal
pending at that moment the same call returns `-EINTR`, the state as it was and the mutex free;
with none it goes to sleep, the state as it was, and returns `-EINTR` when it is scheduled with
a signal pending.  Conversely, on a well-formed slot every read, write, control call or
continuation of a sleeping call that returns `-EINTR` hands back the state it was given: same
records, queue, `msg_count`, `max_msg_size` and owner of the mutex; and so does every piece of a
call that ends with the caller going to sleep, so that a call that sleeps any number of times
and is then interrupted has changed nothing at any point. -/
theorem cancellation_is_atomic (e : Env) (filp : file) (s : State) (hsig : e.signal = true) :
    (∀ (t buff len n : Nat) (bytes : List Nat), s.slot.mutex = some t →
      __get_blocking_policy filp = BLOCKING → buff ≠ 0 → len ≠ 0 →
      1 ≤ n → n ≤ MAXIMUM_MESSAGE_SIZE →
      mailslot_read e filp buff len s = (Outcome.ret (-EINTR), [], s) ∧
      mailslot_write e filp (some bytes) len s = (Outcome.ret (-EINTR), s) ∧
      mailslot_ioctl e filp SET_MAXIMUM_MSG_SIZE n s = (Outcome.ret (-EINTR), filp, s) ∧
      read_acquire e len s = (Outcome.ret (-EINTR), [], s) ∧
      write_acquire e bytes len s = (Outcome.ret (-EINTR), s) ∧
      ioctl_set_max e BLOCKING n s = (Outcome.ret (-EINTR), s)) ∧
    (∀ len, s.slot.msg_count ≤ 0 → read_wake e len s = (Outcome.ret (-EINTR), [], s)) ∧
    (∀ bytes len, MAILSLOT_STORAGE ≤ s.slot.msg_count →
      write_wake e bytes len s = (Outcome.ret (-EINTR), s)) ∧
    (∀ (buff len : Nat), s.slot.mutex = none → s.slot.msg_count = 0 →
      __get_blocking_policy filp = BLOCKING → buff ≠ 0 → len ≠ 0 →
      mailslot_read e filp buff len s = (Outcome.ret (-EINTR), [], s) ∧
      read_acquire e len s = (Outcome.ret (-EINTR), [], s) ∧
      (mailslot_read e filp buff len s).2.2.slot.mutex = none ∧
      ∀ e0 : Env, e0.signal = false →
        mailslot_read e0 filp buff len s = (Outcome.sleep Pc.wait, [], s) ∧
        (read_wake e len (mailslot_read e0 filp buff len s).2.2).1 = Outcome.ret (-EINTR) ∧
        (read_wake e len (mailslot_read e0 filp buff len s).2.2).2.2 = s ∧
        (read_wake e len (mailslot_read e0 filp buff len s).2.2).2.2.slot.mutex = none) ∧
    (∀ (bytes : List Nat) (len : Nat), s.slot.mutex = none →
      s.slot.msg_count = MAILSLOT_STORAGE →
      __get_blocking_policy filp = BLOCKING → len ≠ 0 →
      mailslot_write e filp (some bytes) len s = (Outcome.ret (-EINTR), s) ∧
      write_acquire e bytes len s = (Outcome.ret (-EINTR), s) ∧
      (mailslot_write e filp (some bytes) len s).2.slot.mutex = none ∧
      ∀ e0 : Env, e0.signal = false →
        mailslot_write e0 filp (some bytes) len s = (Outcome.sleep Pc.wait, s) ∧
        (write_wake e bytes len (mailslot_write e0 filp (some bytes) len s).2).1
          = Outcome.ret (-EINTR) ∧
        (write_wake e bytes len (mailslot_write e0 filp (some bytes) len s).2).2 = s ∧
        (write_wake e bytes len (mailslot_write e0 filp (some bytes) len s).2).2.slot.mutex
          = none) ∧
    (WF s →
      (∀ buff len, (mailslot_read e filp buff len s).1 = Outcome.ret (-EINTR) →
        (mailslot_read e filp buff len s).2.2 = s) ∧
      (∀ buff len, (mailslot_write e filp buff len s).1 = Outcome.ret (-EINTR) →
        (mailslot_write e filp buff len s).2 = s) ∧
      (∀ cmd arg, (mailslot_ioctl e filp cmd arg s).1 = Outcome.ret (-EINTR) →
        (mailslot_ioctl e filp cmd arg s).2 = (filp, s)) ∧
      (∀ sl, (resume e sl s).1 = Outcome.ret (-EINTR) → (resume e sl s).2 = s) ∧
      (∀ (e0 : Env) (pc : Pc),
        (∀ buff len, (mailslot_read e0 filp buff len s).1 = Outcome.sleep pc →
          (mailslot_read e0 filp buff len s).2.2 = s) ∧
        (∀ buff len, (mailslot_write e0 filp buff len s).1 = Outcome.sleep pc →
          (mailslot_write e0 filp buff len s).2 = s) ∧
        (∀ cmd arg, (mailslot_ioctl e0 filp cmd arg s).1 = Outcome.sleep pc →
          (mailslot_ioctl e0 filp cmd arg s).2 = (filp, s)) ∧
        (∀ sl, (resume e0 sl s).1 = Outcome.sleep pc → (resume e0 sl s).2 = s))) := by
  have hrw : ∀ len, s.slot.msg_count ≤ 0 →
      read_wake e len s = (Outcome.ret (-EINTR), [], s) := by
    intro len hc
    have hc2 : ¬ s.slot.msg_count > 0 := by omega
    unfold read_wake wait_event_interruptible_exclusive
    simp [hc2, hsig, ERESTARTSYS]
  have hww : ∀ bytes len, MAILSLOT_STORAGE ≤ s.slot.msg_count →
      write_wake e bytes len s = (Outcome.ret (-EINTR), s) := by
    intro bytes len hc
    have hc2 : ¬ s.slot.msg_count < MAILSLOT_STORAGE := by omega
    unfold write_wake wait_event_interruptible_exclusive
    simp [hc2, hsig, ERESTARTSYS]
  refine ⟨?_, hrw, hww, ?_, ?_, ?_⟩
  · intro t buff len n bytes hheld hpol hbuff hlen h1 h2
    have hp : ¬ (__get_blocking_policy filp ≠ 0) := by rw [hpol]; decide
    refine ⟨?_, ?_, ?_, ?_, ?_, ?_⟩
    · rw [mailslot_read_held e filp buff len t s hheld hbuff hlen]
      simp [hp, hsig]
    · rw [mailslot_write_held e filp bytes len t s hheld hlen]
      simp [hp, hsig]
    · rw [mailslot_ioctl_set_max e filp n s h1 h2,
        ioctl_set_max_held e _ n t s hheld]
      simp [hp, hsig]
    · rw [read_acquire_held e len t s hheld]
      simp [hsig]
    · rw [write_acquire_held e bytes len t s hheld]
      simp [hsig]
    · rw [ioctl_set_max_held e _ n t s hheld]
      simp [hsig, BLOCKING]
  · intro buff len hfree hc hpol hbuff hlen
    have hp : ¬ (__get_blocking_policy filp ≠ 0) := by rw [hpol]; decide
    have h0 : mailslot_read e filp buff len s = (Outcome.ret (-EINTR), [], s) := by
      rw [mailslot_read_empty e filp buff len s hfree hc hbuff hlen]
      simp [hp, hsig]
    have h0a : read_acquire e len s = (Outcome.ret (-EINTR), [], s) := by
      rw [read_acquire_empty e len s hfree hc]
      simp [hsig]
    refine ⟨h0, h0a, by rw [h0]; exact hfree, ?_⟩
    intro e0 hs0
    have h1 : mailslot_read e0 filp buff len s = (Outcome.sleep Pc.wait, [], s) := by
      rw [mailslot_read_empty e0 filp buff len s hfree hc hbuff hlen]
      simp [hp, hs0]
    rw [h1]
    simp only [hrw len (by omega)]
    exact ⟨trivial, trivial, trivial, hfree⟩
  · intro bytes len hfree hc hpol hlen
    have hp : ¬ (__get_blocking_policy filp ≠ 0) := by rw [hpol]; decide
    have h0 : mailslot_write e filp (some bytes) len s = (Outcome.ret (-EINTR), s) := by
      rw [mailslot_write_full e filp bytes len s hfree hc hlen]
      simp [hp, hsig]
    have h0a : write_acquire e bytes len s = (Outcome.ret (-EINTR), s) := by
      rw [write_acquire_full e bytes len s hfree hc]
      simp [hsig]
    refine ⟨h0, h0a, by rw [h0]; exact hfree, ?_⟩
    intro e0 hs0
    have h1 : mailslot_write e0 filp (some bytes) len s = (Outcome.sleep Pc.wait, s) := by
      rw [mailslot_write_full e0 filp bytes len s hfree hc hlen]
      simp [hp, hs0]
    rw [h1]
    simp only [hww bytes len (by omega)]
    exact ⟨trivial, trivial, trivial, hfree⟩
  · intro hwf
    have hneg : (Outcome.ret (-EINTR)).success = false := success_neg _ (by decide)
    refine ⟨?_, ?_, ?_, ?_, ?_⟩
    · intro buff len h
      exact mailslot_read_quiet e filp buff len s hwf (by rw [h]; exact hneg)
    · intro buff len h
      exact mailslot_write_quiet e filp buff len s hwf (by rw [h]; exact hneg)
    · intro cmd arg h
      exact mailslot_ioctl_quiet e filp cmd arg s (by rw [h]; exact hneg)
    · intro sl h
      exact resume_quiet e sl s hwf (by rw [h]; exact hneg)
    · intro e0 pc
      refine ⟨?_, ?_, ?_, ?_⟩
      · intro buff len h
        exact mailslot_read_quiet e0 filp buff len s hwf (by rw [h]; rfl)
      · intro buff len h
        exact mailslot_write_quiet e0 filp buff len s hwf (by rw [h]; rfl)
      · intro cmd arg h
        exact mailslot_ioctl_quiet e0 filp cmd arg s (by rw [h]; rfl)
      · intro sl h
        exact resume_quiet e0 sl s hwf (by rw [h]; rfl)

/-- C16, instance: `demo_one` with the mutex owned by thread 3; a blocking read by thread 7 with
a signal pending returns `-EINTR` and the slot, still owned by thread 3, is as it was.  On the
fresh slot a reader woken with a signal pending returns `-EINTR`, and so does a blocking read
issued with a signal pending, which finds the slot empty and is interrupted as it enters the
wait. -/
theorem cancellation_is_atomic_witness :
    mailslot_read { demo_env 2 with signal := true } demo_blocking 1 5
        (mutex_set demo_one (some 3))
      = (Outcome.ret (-EINTR), [], mutex_set demo_one (some 3)) ∧
    read_wake { demo_env 2 with signal := true } 5 init_module
      = (Outcome.ret (-EINTR), [], init_module) ∧
    mailslot_read { demo_env 2 with signal := true } demo_blocking 1 5 init_module
      = (Outcome.ret (-EINTR), [], init_module) :=
  ⟨((cancellation_is_atomic { demo_env 2 with signal := true } demo_blocking
      (mutex_set demo_one (some 3)) rfl).1 3 1 5 1 [] rfl (by decide) (by decide) (by decide)
      (by decide) (by decide)).1,
    (cancellation_is_atomic { demo_env 2 with signal := true } demo_blocking init_module
      rfl).2.1 5 (by decide),
    ((cancellation_is_atomic { demo_env 2 with signal := true } demo_blocking init_module
      rfl).2.2.2.1 1 5 rfl rfl (by decide) (by decide) (by decide)).1⟩

/-- C17 (allocation failure on write): on a slot whose mutex is free and that is not full, for a
payload of length between 1 and `max_msg_size`, if the allocation of the message record fails
(the allocator offers `NULL`, or an address it cannot give) or the allocation of the content
buffer fails, a non-blocking write returns `-EAGAIN` and a blocking write, as well as the
continuation of a blocking write that had slept, returns `-ENOMEM`; each time the state handed
back is the state given: same records in memory, same queue, `head`, `tail` and `msg_count`,
and the mutex free. -/
theorem allocation_failure_on_write (e : Env) (filp : file) (bytes : List Nat) (len : Nat)
    (s : State) (hfree : s.slot.mutex = none) (hroom : s.slot.msg_count ≠ MAILSLOT_STORAGE)
    (hlen : len ≠ 0) (hfit : len ≤ s.slot.max_msg_size) (hfail : alloc_fails e s) :
    (__get_blocking_policy filp = NONBLOCKING →
      mailslot_write e filp (some bytes) len s = (Outcome.ret (-EAGAIN), s)) ∧
    (__get_blocking_policy filp = BLOCKING →
      mailslot_write e filp (some bytes) len s = (Outcome.ret (-ENOMEM), s)) ∧
    write_acquire e bytes len s = (Outcome.ret (-ENOMEM), s) ∧
    queue (mailslot_write e filp (some bytes) len s).2 = queue s ∧
    (mailslot_write e filp (some bytes) len s).2.slot = s.slot ∧
    (mailslot_write e filp (some bytes) len s).2.heap = s.heap ∧
    (mailslot_write e filp (some bytes) len s).2.slot.mutex = none := by
  have h : ∀ nb, write_store e nb bytes len (mutex_set s (some e.current))
      = (Outcome.ret (if nb ≠ 0 then -EAGAIN else -ENOMEM), s) := by
    intro nb
    rw [write_store_nomem e nb bytes len _ (by simpa using hfit) (by simpa using hfail),
      unlock_lock s _ hfree]
  have hst : (mailslot_write e filp (some bytes) len s).2 = s := by
    rw [mailslot_write_room e filp bytes len s hfree hroom hlen, h]
  refine ⟨?_, ?_, ?_, by rw [hst], by rw [hst], by rw [hst], by rw [hst]; exact hfree⟩
  · intro hp
    rw [mailslot_write_room e filp bytes len s hfree hroom hlen, h, hp]
    rfl
  · intro hp
    rw [mailslot_write_room e filp bytes len s hfree hroom hlen, h, hp]
    rfl
  · rw [write_acquire_room e bytes len s hfree hroom, h]
    rfl

/-- C17, instance: on `demo_one` the allocator has no memory for the content buffer; the
non-blocking write returns `-EAGAIN`, the blocking one `-ENOMEM`, the slot as it was. -/
theorem allocation_failure_on_write_witness :
    mailslot_write { demo_env 2 with kzalloc_content := false } demo_nonblocking
        (some [1, 2, 3]) 3 demo_one = (Outcome.ret (-EAGAIN), demo_one) ∧
    mailslot_write { demo_env 0 with kzalloc_content := true } demo_blocking
        (some [1, 2, 3]) 3 demo_one = (Outcome.ret (-ENOMEM), demo_one) :=
  ⟨(allocation_failure_on_write { demo_env 2 with kzalloc_content := false } demo_nonblocking
      [1, 2, 3] 3 demo_one (by decide) (by decide) (by decide) (by decide)
      (by decide)).1 (by decide),
    (allocation_failure_on_write { demo_env 0 with kzalloc_content := true } demo_blocking
      [1, 2, 3] 3 demo_one (by decide) (by decide) (by decide) (by decide)
      (by decide)).2.1 (by decide)⟩

/-- C18 (concurrency safety): in every execution from the fresh slot in which any number of
threads issue reads, writes and control calls and are interleaved statement by statement (a
thread may be descheduled before every statement of `mailslot_read`, `mailslot_write` and
`mailslot_ioctl` that reads or writes the slot or a message record, and a sleeping thread may be
scheduled at any time), nothing being assumed about the mutex but what `__mailslot_lock` and
`__mailslot_unlock` do to it:
the owner of the mutex is the thread that stands between `__mailslot_lock` and
`__mailslot_unlock`, and there is at most one such thread;
while the mutex is owned, whatever another thread does next (a call, a wake-up, a statement)
leaves the slot and the message records as they are;
in every state, also in the middle of a call, `0 ≤ msg_count ≤ 64`;
no statement dereferences a dead address;
the payloads of the successful writes, in the order in which the writes returned, are the byte
strings handed to the successful reads, in the order in which the reads returned, followed by at
most 64 messages stored and not yet delivered, which are the queue of the slot whenever the mutex
is free: nothing is lost, duplicated or altered, and when the execution ends with the mutex free
and `msg_count = 0` the reads have received exactly what the writes stored, one read for each
write. -/
theorem concurrency_safety (evs : List Tick) :
    (∀ t, (fine_run evs fine_boot).st.slot.mutex = some t ↔
      ∃ f l, place_of (fine_run evs fine_boot).threads t = some (Place.inside f l)) ∧
    (∀ t1 f1 l1 t2 f2 l2,
      place_of (fine_run evs fine_boot).threads t1 = some (Place.inside f1 l1) →
      place_of (fine_run evs fine_boot).threads t2 = some (Place.inside f2 l2) → t1 = t2) ∧
    (∀ ev t, (fine_run evs fine_boot).st.slot.mutex = some t → ev.thread ≠ t →
      (fine_step ev (fine_run evs fine_boot)).st = (fine_run evs fine_boot).st) ∧
    0 ≤ (fine_run evs fine_boot).st.slot.msg_count ∧
    (fine_run evs fine_boot).st.slot.msg_count ≤ 64 ∧
    fine_oops evs fine_boot = 0 ∧
    (∃ q, fine_written evs fine_boot = fine_delivered evs fine_boot ++ q ∧ q.length ≤ 64 ∧
      ((fine_run evs fine_boot).st.slot.mutex = none →
        q = queue (fine_run evs fine_boot).st)) ∧
    ((fine_run evs fine_boot).st.slot.mutex = none →
      WF (fine_run evs fine_boot).st ∧
      fine_written evs fine_boot
        = fine_delivered evs fine_boot ++ queue (fine_run evs fine_boot).st ∧
      (fine_delivered evs fine_boot).length + (queue (fine_run evs fine_boot).st).length
        = (fine_written evs fine_boot).length ∧
      ((queue (fine_run evs fine_boot).st).length : Int)
        = (fine_run evs fine_boot).st.slot.msg_count) ∧
    ((fine_run evs fine_boot).st.slot.mutex = none →
      (fine_run evs fine_boot).st.slot.msg_count = 0 →
      fine_written evs fine_boot = fine_delivered evs fine_boot) := by
  obtain ⟨hoops, q, hinv, hq⟩ := fine_run_inv evs fine_boot [] fine_boot_inv
  rw [List.nil_append] at hq
  have hothers := fun ev t => fine_step_others ev (fine_run evs fine_boot) q hinv t
  obtain ⟨hsl, hcase⟩ := hinv
  have hlen : ∀ s, WF s → (queue s).length ≤ 64 := by
    intro s hwf
    have h1 := queue_length s hwf
    have h2 := hwf.count_le
    unfold MAILSLOT_STORAGE at h2
    omega
  rcases hcase with ⟨hquiet, hwf, hm, hqq⟩ | ⟨t0, f, l, s0, h1, h2, h3, h4, h5, h6, h7, h8, h9⟩
  · have hq2 : fine_written evs fine_boot
        = fine_delivered evs fine_boot ++ queue (fine_run evs fine_boot).st := by
      rw [hq, hqq]
    refine ⟨?_, ?_, hothers, hwf.count_nonneg, hwf.count_le, hoops, ⟨q, hq, ?_, fun _ => hqq⟩, ?_,
      ?_⟩
    · intro t
      constructor
      · intro h; rw [hm] at h; simp at h
      · rintro ⟨f, l, h⟩; exact absurd h (hquiet t f l)
    · intro t1 f1 l1 t2 f2 l2 h; exact absurd h (hquiet t1 f1 l1)
    · rw [hqq]; exact hlen _ hwf
    · intro _
      refine ⟨hwf, hq2, ?_, queue_length _ hwf⟩
      rw [hq2, List.length_append]
    · intro _ h0
      rw [hq2, queue_empty _ h0, List.append_nil]
  · have hlo : (0 : Int) ≤ l.low := by cases l <;> simp [Label.low]
    have hhi : l.high ≤ (64 : Int) := by cases l <;> simp [Label.high]
    refine ⟨?_, ?_, hothers, by omega, by omega, hoops, ⟨q, hq, ?_, ?_⟩, ?_, ?_⟩
    · intro t
      constructor
      · intro h
        rw [h3] at h
        simp only [Option.some.injEq] at h
        rw [← h]; exact ⟨f, l, h1⟩
      · rintro ⟨f2, l2, h⟩
        rw [h2 t f2 l2 h]; exact h3
    · intro t1 f1 l1 t2 f2 l2 ha hb
      rw [h2 t1 f1 l1 ha, h2 t2 f2 l2 hb]
    · rw [h8]; exact hlen _ h7
    · intro h; rw [h3] at h; simp at h
    · intro h; rw [h3] at h; simp at h
    · intro h; rw [h3] at h; simp at h

/-- C18, instance: the execution `demo_fine`.  While the writer (thread 1) stands inside, before
the linking of its record, it owns the mutex and the reader (thread 2) that called in between is
not in a call any more, having been refused; at the end the mutex is free, the write stored
`[1, 2, 3]`, the read received it and the slot is empty. -/
theorem concurrency_safety_witness :
    (fine_run (demo_fine.take 8) fine_boot).st.slot.mutex = some 1 ∧
    place_of (fine_run (demo_fine.take 8) fine_boot).threads 2 = none ∧
    (fine_run demo_fine fine_boot).st.slot.mutex = none ∧
    (fine_run demo_fine fine_boot).st.slot.msg_count = 0 ∧
    fine_written demo_fine fine_boot = [[1, 2, 3]] ∧
    fine_delivered demo_fine fine_boot = [[1, 2, 3]] :=
  ⟨((concurrency_safety (demo_fine.take 8)).1 1).2
      ⟨{ call := Call.write [1, 2, 3] 3, non_blocking := 1, msg_body := 0, msg_len := 0, tmp := 0,
         new_msg := 1, out := [] }, Label.write_link, by decide⟩,
    by decide, by decide, by decide, by decide,
    ((concurrency_safety demo_fine).2.2.2.2.2.2.2.2 (by decide) (by decide)).symm.trans
      (by decide)⟩

/-- C19 (linked-list well-formedness): in every state an execution from the fresh slot leads to
with `msg_count > 0`, `head` is not `NULL` and holds a live record; following `next` links from
`head` for `msg_count` steps meets live records only, `msg_count` of them, pairwise distinct and
none at `NULL`, the first being `head` and the last `tail`; `tail` is live and its `next` is
`NULL`.  Hence in such a state no read, no write and no continuation of a sleeping call
dereferences an address that holds no live record, and the loop of `__deallocate_instances`
meets live records only and frees every record. -/
theorem linked_list_well_formed (sys : System) (hr : Reachable sys)
    (hc : 0 < sys.st.slot.msg_count) :
    (∃ (as : List Nat) (hd tl : message),
      chain sys.st = some as ∧ (as.length : Int) = sys.st.slot.msg_count ∧ as.Nodup ∧
      as.head? = some sys.st.slot.head ∧ as.getLast? = some sys.st.slot.tail ∧
      (∀ a ∈ as, a ≠ 0 ∧ (deref sys.st.heap a).isSome = true) ∧
      sys.st.slot.head ≠ 0 ∧ deref sys.st.heap sys.st.slot.head = some hd ∧
      sys.st.slot.tail ≠ 0 ∧ deref sys.st.heap sys.st.slot.tail = some tl ∧ tl.next = 0) ∧
    (∀ e filp buff len, (mailslot_read e filp buff len sys.st).1 ≠ Outcome.oops) ∧
    (∀ e filp buff len, (mailslot_write e filp buff len sys.st).1 ≠ Outcome.oops) ∧
    (∀ e sl, sleeper_of sys.asleep e.current = some sl →
      (resume e sl sys.st).1 ≠ Outcome.oops) ∧
    (∃ s2, __deallocate_instances sys.st = some s2 ∧ s2.heap = []) := by
  have hinv := Reachable.inv hr
  have hwf : WF sys.st := hinv.1
  have hc0 : sys.st.slot.msg_count ≠ 0 := by omega
  refine ⟨?_, ?_, ?_, ?_, hwf.deallocate⟩
  · obtain ⟨as, hl⟩ := hwf.linked
    obtain ⟨hd, r, has, hhd, _, _⟩ := hwf.head_live hl hc0
    obtain ⟨tl, htl, hnext⟩ := hwf.tail_live hc0
    have hlive : ∀ a ∈ as, a ≠ 0 ∧ (deref sys.st.heap a).isSome = true := by
      intro a ha
      obtain ⟨m, hm, _⟩ := hl.sized a ha
      refine ⟨?_, by rw [hm]; rfl⟩
      intro h0
      rw [h0, hwf.null_dead] at hm
      cases hm
    have hlast : as.getLast? = some sys.st.slot.tail := by
      rcases hl.last with h | h
      · rw [has] at h; cases h
      · exact h.1
    refine ⟨as, hd, tl, hl.walk_eq, hwf.chain_length hl, hl.nodup, by rw [has]; rfl, hlast,
      hlive, ?_, hhd, ?_, htl, hnext⟩
    · intro h0
      rw [h0, hwf.null_dead] at hhd
      cases hhd
    · intro h0
      rw [h0, hwf.null_dead] at htl
      cases htl
  · intro e filp buff len
    exact (mailslot_read_effect e filp buff len sys.st hwf).2.1
  · intro e filp buff len
    exact (mailslot_write_effect e filp buff len sys.st hwf).2.1
  · intro e sl hsl
    exact (resume_effect e sl sys.st hwf (hinv.2 _ sl hsl)).2.1

/-- C19, instance: the state after the first two events of `demo_concurrent` (a reader asleep,
one message stored): `msg_count = 1` and the loop of `__deallocate_instances` frees the record. -/
theorem linked_list_well_formed_witness :
    0 < (run (demo_concurrent.take 2) boot).st.slot.msg_count ∧
    ∃ s2, __deallocate_instances (run (demo_concurrent.take 2) boot).st = some s2
      ∧ s2.heap = [] :=
  ⟨by decide,
    (linked_list_well_formed (run (demo_concurrent.take 2) boot) ⟨demo_concurrent.take 2, rfl⟩
      (by decide)).2.2.2.2⟩

/-- C20 (capacity is checked before size): on a slot with `msg_count = 64`, for every payload of
non-zero length, longer than `max_msg_size` or not, a non-blocking write that finds the mutex
free returns `-EAGAIN`, a blocking one enters the wait on the write-ready condition, where it
returns `-EINTR` if a signal is pending and goes to sleep otherwise, each time with the state
as it was, and a sleeping writer that is scheduled while `msg_count = 64` returns `-EINTR`
or sleeps on: no piece of a write returns `-EPERM` while the slot is full.  On a well-formed slot
a write, or the continuation of a sleeping write, that returns `-EPERM` found the mutex free,
`msg_count < 64` and a length above the `max_msg_size` of the state it ran in (the limit in force
when the writer got the mutex with room in the slot, not the one in force when the call was
issued), and hands back that state; and with the mutex free and `msg_count ≠ 64` such a length
does give `-EPERM`. -/
theorem capacity_checked_before_size (e : Env) (filp : file) (bytes : List Nat) (len : Nat)
    (s : State) (hlen : len ≠ 0) :
    (s.slot.msg_count = MAILSLOT_STORAGE →
      (s.slot.mutex = none → __get_blocking_policy filp = NONBLOCKING →
        mailslot_write e filp (some bytes) len s = (Outcome.ret (-EAGAIN), s)) ∧
      (s.slot.mutex = none → __get_blocking_policy filp = BLOCKING →
        mailslot_write e filp (some bytes) len s
          = (if e.signal then Outcome.ret (-EINTR) else Outcome.sleep Pc.wait, s)) ∧
      (s.slot.mutex = none →
        write_acquire e bytes len s
          = (if e.signal then Outcome.ret (-EINTR) else Outcome.sleep Pc.wait, s)) ∧
      write_wake e bytes len s
        = (if e.signal then Outcome.ret (-EINTR) else Outcome.sleep Pc.wait, s) ∧
      (mailslot_write e filp (some bytes) len s).1 ≠ Outcome.ret (-EPERM) ∧
      (write_acquire e bytes len s).1 ≠ Outcome.ret (-EPERM) ∧
      (write_wake e bytes len s).1 ≠ Outcome.ret (-EPERM)) ∧
    (WF s →
      ((mailslot_write e filp (some bytes) len s).1 = Outcome.ret (-EPERM) →
        s.slot.mutex = none ∧ s.slot.msg_count < MAILSLOT_STORAGE ∧ s.slot.max_msg_size < len ∧
        (mailslot_write e filp (some bytes) len s).2 = s) ∧
      ((write_acquire e bytes len s).1 = Outcome.ret (-EPERM) →
        s.slot.mutex = none ∧ s.slot.msg_count < MAILSLOT_STORAGE ∧ s.slot.max_msg_size < len ∧
        (write_acquire e bytes len s).2 = s) ∧
      ((write_wake e bytes len s).1 = Outcome.ret (-EPERM) →
        s.slot.mutex = none ∧ s.slot.msg_count < MAILSLOT_STORAGE ∧ s.slot.max_msg_size < len ∧
        (write_wake e bytes len s).2 = s)) ∧
    (s.slot.mutex = none → s.slot.msg_count ≠ MAILSLOT_STORAGE → s.slot.max_msg_size < len →
      mailslot_write e filp (some bytes) len s = (Outcome.ret (-EPERM), s) ∧
      write_acquire e bytes len s = (Outcome.ret (-EPERM), s) ∧
      (s.slot.msg_count < MAILSLOT_STORAGE →
        write_wake e bytes len s = (Outcome.ret (-EPERM), s))) := by
  refine ⟨?_, ?_, ?_⟩
  · intro hfull
    have hww : write_wake e bytes len s
        = (if e.signal then Outcome.ret (-EINTR) else Outcome.sleep Pc.wait, s) := by
      have hc2 : ¬ s.slot.msg_count < MAILSLOT_STORAGE := by omega
      unfold write_wake wait_event_interruptible_exclusive
      by_cases hsig : e.signal <;> simp [hc2, hsig, ERESTARTSYS]
    refine ⟨?_, ?_, ?_, hww, ?_, ?_, ?_⟩
    · intro hfree hp
      rw [mailslot_write_full e filp bytes len s hfree hfull hlen, hp]
      rfl
    · intro hfree hp
      rw [mailslot_write_full e filp bytes len s hfree hfull hlen, hp]
      simp [BLOCKING]
    · intro hfree
      exact write_acquire_full e bytes len s hfree hfull
    · cases hm : s.slot.mutex with
      | some t =>
        rw [mailslot_write_held e filp bytes len t s hm hlen]
        by_cases hp : __get_blocking_policy filp ≠ 0
        · simp [hp, EAGAIN, EPERM]
        · by_cases hsig : e.signal <;> simp [hp, hsig, EINTR, EPERM]
      | none =>
        rw [mailslot_write_full e filp bytes len s hm hfull hlen]
        by_cases hp : __get_blocking_policy filp ≠ 0 <;> by_cases hsig : e.signal <;>
          simp [hp, hsig, EAGAIN, EINTR, EPERM]
    · cases hm : s.slot.mutex with
      | some t =>
        rw [write_acquire_held e bytes len t s hm]
        by_cases hsig : e.signal <;> simp [hsig, EINTR, EPERM]
      | none =>
        rw [write_acquire_full e bytes len s hm hfull]
        by_cases hsig : e.signal <;> simp [hsig, EINTR, EPERM]
    · rw [hww]
      by_cases hsig : e.signal <;> simp [hsig, EINTR, EPERM]
  · intro hwf
    exact ⟨mailslot_write_eperm e filp (some bytes) len s hwf,
      write_acquire_eperm e bytes len s hwf, write_wake_eperm e bytes len s hwf⟩
  · intro hfree hroom hbig
    have hst : ∀ nb, write_store e nb bytes len (mutex_set s (some e.current))
        = (Outcome.ret (-EPERM), s) := by
      intro nb
      rw [write_store_big e nb bytes len _ (by simpa using hbig), unlock_lock s _ hfree]
    have hwa : write_acquire e bytes len s = (Outcome.ret (-EPERM), s) := by
      rw [write_acquire_room e bytes len s hfree hroom, hst]
    refine ⟨?_, hwa, ?_⟩
    · rw [mailslot_write_room e filp bytes len s hfree hroom hlen, hst]
    · intro hlt
      unfold write_wake wait_event_interruptible_exclusive
      simp only [hlt, decide_True, if_true, ne_eq, not_true_eq_false, if_false]
      exact hwa

/-- C20, instance: the slot filled by `demo_fill` (limit 128); a non-blocking write of 129 bytes
returns `-EAGAIN`, not `-EPERM`.  A blocking write of 5 bytes on the full slot sleeps, or
returns `-EINTR` when a signal is pending; the limit is then set to 3 and one message is read;
the writer, scheduled again, returns `-EPERM`: the limit compared with is the one in force once
there is room. -/
theorem capacity_checked_before_size_witness :
    mailslot_write (demo_env 65) demo_nonblocking (some (List.replicate 129 0)) 129
        (write_seq demo_fill init_module).2
      = (Outcome.ret (-EAGAIN), (write_seq demo_fill init_module).2) ∧
    mailslot_write (demo_env 65) demo_blocking (some [1, 2, 3, 4, 5]) 5
        (write_seq demo_fill init_module).2
      = (Outcome.sleep Pc.wait, (write_seq demo_fill init_module).2) ∧
    mailslot_write { demo_env 65 with signal := true } demo_blocking (some [1, 2, 3, 4, 5]) 5
        (write_seq demo_fill init_module).2
      = (Outcome.ret (-EINTR), (write_seq demo_fill init_module).2) ∧
    (write_wake (demo_env 65) [1, 2, 3, 4, 5] 5
        (mailslot_read (demo_env 65) demo_blocking 1 5
          (mailslot_ioctl (demo_env 65) demo_blocking SET_MAXIMUM_MSG_SIZE 3
            (write_seq demo_fill init_module).2).2.2).2.2).1 = Outcome.ret (-EPERM) :=
  ⟨((capacity_checked_before_size (demo_env 65) demo_nonblocking (List.replicate 129 0) 129
      (write_seq demo_fill init_module).2 (by decide)).1 (by decide)).1 (by decide) (by decide),
    ((capacity_checked_before_size (demo_env 65) demo_blocking [1, 2, 3, 4, 5] 5
      (write_seq demo_fill init_module).2 (by decide)).1 (by decide)).2.1 (by decide)
      (by decide),
    ((capacity_checked_before_size { demo_env 65 with signal := true } demo_blocking
      [1, 2, 3, 4, 5] 5 (write_seq demo_fill init_module).2 (by decide)).1
      (by decide)).2.1 (by decide) (by decide),
    congrArg Prod.fst (((capacity_checked_before_size (demo_env 65) demo_blocking [1, 2, 3, 4, 5] 5
      (mailslot_read (demo_env 65) demo_blocking 1 5
        (mailslot_ioctl (demo_env 65) demo_blocking SET_MAXIMUM_MSG_SIZE 3
          (write_seq demo_fill init_module).2).2.2).2.2 (by decide)).2.2 (by decide) (by decide)
      (by decide)).2.2 (by decide))⟩

/-- C21 (blocking calls never fail fast): on a well-formed slot (every state an execution leads
to is one), no read, write or control call made on a blocking session, and no continuation of a
call that went to sleep, returns `-EAGAIN`.  A blocking read that returns has been refused for
an invalid argument (`-EINVAL`), or was interrupted (`-EINTR`, a signal pending while the mutex
was owned, or while the reader, `msg_count` being 0, entered or was in its wait), or returns
from the code that follows the loop, which it entered owning the mutex with `msg_count > 0`; a
blocking write likewise, with `msg_count = 64` for the wait and `msg_count < 64` for the code
that follows the loop.  With valid arguments and the mutex free, a blocking read that finds
`msg_count = 0` and a blocking write that finds `msg_count = 64` release the mutex and enter the
wait: they return `-EINTR` if a signal is pending and go to sleep on the condition otherwise,
the state as it was. -/
theorem blocking_never_fails_fast (e : Env) (filp : file) (s : State) (hwf : WF s)
    (hpol : __get_blocking_policy filp = BLOCKING) :
    (∀ buff len, (mailslot_read e filp buff len s).1 ≠ Outcome.ret (-EAGAIN)) ∧
    (∀ buff len, (mailslot_write e filp buff len s).1 ≠ Outcome.ret (-EAGAIN)) ∧
    (∀ cmd arg, (mailslot_ioctl e filp cmd arg s).1 ≠ Outcome.ret (-EAGAIN)) ∧
    (∀ sl, (resume e sl s).1 ≠ Outcome.ret (-EAGAIN)) ∧
    (∀ buff len v, (mailslot_read e filp buff len s).1 = Outcome.ret v →
      ((len = 0 ∨ buff = 0) ∧ v = -EINVAL) ∨
      (e.signal = true ∧ v = -EINTR ∧ (s.slot.mutex ≠ none ∨ s.slot.msg_count = 0)) ∨
      (s.slot.mutex = none ∧ 0 < s.slot.msg_count ∧
        mailslot_read e filp buff len s
          = read_deliver e BLOCKING len (mutex_set s (some e.current)))) ∧
    (∀ len pc v, (resume e (Sleeper.read len pc) s).1 = Outcome.ret v →
      (e.signal = true ∧ v = -EINTR ∧ (s.slot.mutex ≠ none ∨ s.slot.msg_count = 0)) ∨
      (s.slot.mutex = none ∧ 0 < s.slot.msg_count ∧
        (resume e (Sleeper.read len pc) s).1
          = (read_deliver e BLOCKING len (mutex_set s (some e.current))).1)) ∧
    (∀ buff len v, (mailslot_write e filp buff len s).1 = Outcome.ret v →
      ((len = 0 ∨ buff = none) ∧ v = -EINVAL) ∨
      (e.signal = true ∧ v = -EINTR ∧
        (s.slot.mutex ≠ none ∨ s.slot.msg_count = MAILSLOT_STORAGE)) ∨
      (s.slot.mutex = none ∧ s.slot.msg_count < MAILSLOT_STORAGE ∧
        mailslot_write e filp buff len s
          = write_store e BLOCKING (buff.getD []) len (mutex_set s (some e.current)))) ∧
    (∀ bytes len pc v, (resume e (Sleeper.write bytes len pc) s).1 = Outcome.ret v →
      (e.signal = true ∧ v = -EINTR ∧
        (s.slot.mutex ≠ none ∨ s.slot.msg_count = MAILSLOT_STORAGE)) ∨
      (s.slot.mutex = none ∧ s.slot.msg_count < MAILSLOT_STORAGE ∧
        resume e (Sleeper.write bytes len pc) s
          = write_store e BLOCKING bytes len (mutex_set s (some e.current)))) ∧
    (∀ buff len, buff ≠ 0 → len ≠ 0 → s.slot.mutex = none → s.slot.msg_count = 0 →
      mailslot_read e filp buff len s
        = (if e.signal then Outcome.ret (-EINTR) else Outcome.sleep Pc.wait, [], s)) ∧
    (∀ bytes len, len ≠ 0 → s.slot.mutex = none → s.slot.msg_count = MAILSLOT_STORAGE →
      mailslot_write e filp (some bytes) len s
        = (if e.signal then Outcome.ret (-EINTR) else Outcome.sleep Pc.wait, s)) := by
  have hp : ¬ (__get_blocking_policy filp ≠ 0) := by rw [hpol]; decide
  have hread : ∀ buff len v, (mailslot_read e filp buff len s).1 = Outcome.ret v →
      ((len = 0 ∨ buff = 0) ∧ v = -EINVAL) ∨
      (e.signal = true ∧ v = -EINTR ∧ (s.slot.mutex ≠ none ∨ s.slot.msg_count = 0)) ∨
      (s.slot.mutex = none ∧ 0 < s.slot.msg_count ∧ v ≠ -EAGAIN ∧
        mailslot_read e filp buff len s
          = read_deliver e BLOCKING len (mutex_set s (some e.current))) := by
    intro buff len v h
    by_cases hlen : len = 0
    · subst hlen
      simp only [mailslot_read, if_true, Outcome.ret.injEq] at h
      exact Or.inl ⟨Or.inl rfl, h.symm⟩
    by_cases hbuff : buff = 0
    · subst hbuff
      simp only [mailslot_read, hlen, if_false, if_true, Outcome.ret.injEq] at h
      exact Or.inl ⟨Or.inr rfl, h.symm⟩
    rw [mailslot_read_blocking e filp buff len s hpol hbuff hlen] at h ⊢
    rcases read_acquire_returns e len s hwf v h with h1 | ⟨a, b, c, _, d⟩
    · exact Or.inr (Or.inl h1)
    · exact Or.inr (Or.inr ⟨a, b, c, d⟩)
  have hwrite : ∀ buff len v, (mailslot_write e filp buff len s).1 = Outcome.ret v →
      ((len = 0 ∨ buff = none) ∧ v = -EINVAL) ∨
      (e.signal = true ∧ v = -EINTR ∧
        (s.slot.mutex ≠ none ∨ s.slot.msg_count = MAILSLOT_STORAGE)) ∨
      (s.slot.mutex = none ∧ s.slot.msg_count < MAILSLOT_STORAGE ∧ v ≠ -EAGAIN ∧
        mailslot_write e filp buff len s
          = write_store e BLOCKING (buff.getD []) len (mutex_set s (some e.current))) := by
    intro buff len v h
    by_cases hlen : len = 0
    · subst hlen
      simp only [mailslot_write, if_true, Outcome.ret.injEq] at h
      exact Or.inl ⟨Or.inl rfl, h.symm⟩
    cases buff with
    | none =>
      simp only [mailslot_write, hlen, if_false, Outcome.ret.injEq] at h
      exact Or.inl ⟨Or.inr rfl, h.symm⟩
    | some bytes =>
      rw [mailslot_write_blocking e filp bytes len s hpol hlen] at h ⊢
      rcases write_acquire_returns e bytes len s hwf v h with h1 | ⟨a, b, c, _, d⟩
      · exact Or.inr (Or.inl h1)
      · exact Or.inr (Or.inr ⟨a, b, c, d⟩)
  have hrr : ∀ len pc v, (resume e (Sleeper.read len pc) s).1 = Outcome.ret v →
      (e.signal = true ∧ v = -EINTR ∧ (s.slot.mutex ≠ none ∨ s.slot.msg_count = 0)) ∨
      (s.slot.mutex = none ∧ 0 < s.slot.msg_count ∧ v ≠ -EAGAIN ∧
        (resume e (Sleeper.read len pc) s).1
          = (read_deliver e BLOCKING len (mutex_set s (some e.current))).1) := by
    intro len pc v h
    cases pc with
    | lock =>
      rcases read_acquire_returns e len s hwf v h with h1 | ⟨a, b, c, _, d⟩
      · exact Or.inl h1
      · exact Or.inr ⟨a, b, c, by simp only [resume]; rw [d]⟩
    | wait =>
      rcases read_wake_returns e len s hwf v h with h1 | ⟨a, b, c, _, d⟩
      · exact Or.inl h1
      · exact Or.inr ⟨a, b, c, by simp only [resume]; rw [d]⟩
  have hrw : ∀ bytes len pc v, (resume e (Sleeper.write bytes len pc) s).1 = Outcome.ret v →
      (e.signal = true ∧ v = -EINTR ∧
        (s.slot.mutex ≠ none ∨ s.slot.msg_count = MAILSLOT_STORAGE)) ∨
      (s.slot.mutex = none ∧ s.slot.msg_count < MAILSLOT_STORAGE ∧ v ≠ -EAGAIN ∧
        resume e (Sleeper.write bytes len pc) s
          = write_store e BLOCKING bytes len (mutex_set s (some e.current))) := by
    intro bytes len pc v h
    cases pc with
    | lock =>
      rcases write_acquire_returns e bytes len s hwf v h with h1 | ⟨a, b, c, _, d⟩
      · exact Or.inl h1
      · exact Or.inr ⟨a, b, c, d⟩
    | wait =>
      rcases write_wake_returns e bytes len s hwf v h with h1 | ⟨a, b, c, _, d⟩
      · exact Or.inl h1
      · exact Or.inr ⟨a, b, c, d⟩
  refine ⟨?_, ?_, ?_, ?_, ?_, ?_, ?_, ?_, ?_, ?_⟩
  · intro buff len h
    rcases hread buff len _ h with ⟨_, h1⟩ | ⟨_, h1, _⟩ | ⟨_, _, h1, _⟩
    · exact absurd h1 (by decide)
    · exact absurd h1 (by decide)
    · exact h1 rfl
  · intro buff len h
    rcases hwrite buff len _ h with ⟨_, h1⟩ | ⟨_, h1, _⟩ | ⟨_, _, h1, _⟩
    · exact absurd h1 (by decide)
    · exact absurd h1 (by decide)
    · exact h1 rfl
  · intro cmd arg h
    rcases mailslot_ioctl_cases e filp cmd arg s with ⟨f2, h2⟩ | h2 | h2 | ⟨_, _, _, h2⟩
    · rw [h2] at h; simp [SUCCESS, EAGAIN] at h
    · rw [h2] at h; simp [EINVAL, EAGAIN] at h
    · rw [h2] at h; simp [ENOTTY, EAGAIN] at h
    · rw [h2, hpol] at h
      rcases ioctl_set_max_blocking e arg s _ h with ⟨_, _, h1⟩ | ⟨_, h1⟩
      · exact absurd h1 (by decide)
      · exact absurd h1 (by decide)
  · intro sl h
    cases sl with
    | read len pc =>
      rcases hrr len pc _ h with ⟨_, h1, _⟩ | ⟨_, _, h1, _⟩
      · exact absurd h1 (by decide)
      · exact h1 rfl
    | write bytes len pc =>
      rcases hrw bytes len pc _ h with ⟨_, h1, _⟩ | ⟨_, _, h1, _⟩
      · exact absurd h1 (by decide)
      · exact h1 rfl
    | ioctl arg =>
      rcases ioctl_set_max_blocking e arg s _ h with ⟨_, _, h1⟩ | ⟨_, h1⟩
      · exact absurd h1 (by decide)
      · exact absurd h1 (by decide)
  · intro buff len v h
    rcases hread buff len v h with h1 | h1 | ⟨a, b, _, d⟩
    · exact Or.inl h1
    · exact Or.inr (Or.inl h1)
    · exact Or.inr (Or.inr ⟨a, b, d⟩)
  · intro len pc v h
    rcases hrr len pc v h with h1 | ⟨a, b, _, d⟩
    · exact Or.inl h1
    · exact Or.inr ⟨a, b, d⟩
  · intro buff len v h
    rcases hwrite buff len v h with h1 | h1 | ⟨a, b, _, d⟩
    · exact Or.inl h1
    · exact Or.inr (Or.inl h1)
    · exact Or.inr (Or.inr ⟨a, b, d⟩)
  · intro bytes len pc v h
    rcases hrw bytes len pc v h with h1 | ⟨a, b, _, d⟩
    · exact Or.inl h1
    · exact Or.inr ⟨a, b, d⟩
  · intro buff len hbuff hlen hfree hc
    rw [mailslot_read_empty e filp buff len s hfree hc hbuff hlen]
    simp [hp]
  · intro bytes len hlen hfree hc
    rw [mailslot_write_full e filp bytes len s hfree hc hlen]
    simp [hp]

/-- C21, instance: on the fresh slot a blocking read goes to sleep, or returns `-EINTR` when a
signal is pending, where a non-blocking one returns `-EAGAIN`; with the allocator out of memory
a blocking write on the fresh slot does not return `-EAGAIN` (it returns `-ENOMEM`). -/
theorem blocking_never_fails_fast_witness :
    mailslot_read (demo_env 1) demo_blocking 1 5 init_module
      = (Outcome.sleep Pc.wait, [], init_module) ∧
    mailslot_read { demo_env 1 with signal := true } demo_blocking 1 5 init_module
      = (Outcome.ret (-EINTR), [], init_module) ∧
    (mailslot_read (demo_env 1) demo_nonblocking 1 5 init_module).1 = Outcome.ret (-EAGAIN) ∧
    (mailslot_write (demo_env 0) demo_blocking (some [1, 2, 3]) 3 init_module).1
      ≠ Outcome.ret (-EAGAIN) :=
  ⟨(blocking_never_fails_fast (demo_env 1) demo_blocking init_module WF.init
      (by decide)).2.2.2.2.2.2.2.2.1 1 5 (by decide) (by decide) (by decide) (by decide),
    (blocking_never_fails_fast { demo_env 1 with signal := true } demo_blocking init_module
      WF.init (by decide)).2.2.2.2.2.2.2.2.1 1 5 (by decide) (by decide) (by decide)
      (by decide),
    by decide,
    (blocking_never_fails_fast (demo_env 0) demo_blocking init_module WF.init
      (by decide)).2.1 (some [1, 2, 3]) 3⟩

/-- C22 (refinement of a bounded list queue): the slot of every state an execution from the
fresh slot leads to, abstracted by `queue` to the list of the first `msg_count` messages reachable
from `head`, is simulated step for step by the abstract queue of the specification, a list of at
most 64 byte strings that starts empty.  The list has `msg_count` elements; every event of an
execution, the scheduling of a sleeping call included, is the step of the abstract queue for what
the caller observes, and so is every execution that continues from the state; a write that
returns with success appends its payload at the end of the list, which had fewer than 64
elements, and returns the length of the payload; a read that returns with success removes the
first element of the list, delivers it and returns its length; a read or write that does not
return with success and every control call leave the list as it is.  When `msg_count = 0` the
list is empty whatever `head` and `tail` hold, and a successful write makes it the list of its
payload alone. -/
theorem bounded_list_refinement (sys : System) (hr : Reachable sys) :
    queue init_module = [] ∧
    ((queue sys.st).length : Int) = sys.st.slot.msg_count ∧
    (queue sys.st).length ≤ 64 ∧
    (∀ ev, abstract_step (observe ev sys) (queue sys.st) = some (queue (step ev sys).st)) ∧
    (∀ evs, abstract_run evs sys (queue sys.st) = some (queue (run evs sys).st)) ∧
    (∀ e filp buff len,
      ((mailslot_write e filp buff len sys.st).1.success = true →
        abstract_write (queue sys.st) ((buff.getD []).take len)
          = some (queue (mailslot_write e filp buff len sys.st).2) ∧
        (mailslot_write e filp buff len sys.st).1
          = Outcome.ret (((buff.getD []).take len).length : Int)) ∧
      ((mailslot_write e filp buff len sys.st).1.success = false →
        queue (mailslot_write e filp buff len sys.st).2 = queue sys.st)) ∧
    (∀ e filp buff len,
      ((mailslot_read e filp buff len sys.st).1.success = true →
        abstract_read (queue sys.st)
          = some ((mailslot_read e filp buff len sys.st).2.1,
              queue (mailslot_read e filp buff len sys.st).2.2) ∧
        (mailslot_read e filp buff len sys.st).1
          = Outcome.ret (((mailslot_read e filp buff len sys.st).2.1).length : Int)) ∧
      ((mailslot_read e filp buff len sys.st).1.success = false →
        queue (mailslot_read e filp buff len sys.st).2.2 = queue sys.st)) ∧
    (∀ e filp cmd arg, queue (mailslot_ioctl e filp cmd arg sys.st).2.2 = queue sys.st) ∧
    (sys.st.slot.msg_count = 0 →
      queue sys.st = [] ∧
      ∀ e filp buff len, (mailslot_write e filp buff len sys.st).1.success = true →
        queue (mailslot_write e filp buff len sys.st).2 = [(buff.getD []).take len]) := by
  have hinv := Reachable.inv hr
  have hwf : WF sys.st := hinv.1
  have hlen := queue_length sys.st hwf
  have hwrite : ∀ e filp buff len, (mailslot_write e filp buff len sys.st).1.success = true →
      queue (mailslot_write e filp buff len sys.st).2
        = queue sys.st ++ [(buff.getD []).take len] ∧
      (mailslot_write e filp buff len sys.st).1
        = Outcome.ret (((buff.getD []).take len).length : Int) ∧
      sys.st.slot.msg_count < MAILSLOT_STORAGE := by
    intro e filp buff len hs
    obtain ⟨bytes, hb, hl, hret, hq⟩ := mailslot_write_queue e filp buff len sys.st hwf hs
    obtain ⟨hwf2, _, _, hinc, _⟩ := mailslot_write_effect e filp buff len sys.st hwf
    have h1 := hinc hs
    have h2 := hwf2.count_le
    subst hb
    refine ⟨hq, ?_, by omega⟩
    rw [hret, Option.getD_some, List.length_take, Nat.min_eq_left hl]
  refine ⟨queue_empty _ rfl, hlen, ?_, fun ev => step_abstract ev sys hinv,
    fun evs => run_abstract evs sys hinv, ?_, ?_, ?_, ?_⟩
  · have := hwf.count_le
    simp only [MAILSLOT_STORAGE] at this
    omega
  · intro e filp buff len
    constructor
    · intro hs
      obtain ⟨hq, hret, hlt⟩ := hwrite e filp buff len hs
      refine ⟨?_, hret⟩
      simp only [abstract_write, hlen, hlt, if_true]
      rw [hq]
    · intro hs
      rw [mailslot_write_quiet e filp buff len sys.st hwf hs]
  · intro e filp buff len
    constructor
    · intro hs
      obtain ⟨p, hq, hret, hout⟩ := mailslot_read_queue e filp buff len sys.st hwf hs
      rw [hq, hout, hret]
      exact ⟨rfl, rfl⟩
    · intro hs
      rw [mailslot_read_quiet e filp buff len sys.st hwf hs]
  · intro e filp cmd arg
    exact mailslot_ioctl_queue e filp cmd arg sys.st
  · intro h0
    refine ⟨queue_empty _ h0, ?_⟩
    intro e filp buff len hs
    rw [(hwrite e filp buff len hs).1, queue_empty _ h0, List.nil_append]

/-- C22, instance: after `demo_events` the slot is drained, `head` and `tail` still hold the
freed address 1, and the list is empty; a write of `[1, 2, 3]` makes it `[[1, 2, 3]]`; and the
abstract queue follows the execution `demo_concurrent` from the fresh slot to its end. -/
theorem bounded_list_refinement_witness :
    (run demo_events boot).st.slot.head = 1 ∧ (run demo_events boot).st.slot.tail = 1 ∧
    deref (run demo_events boot).st.heap 1 = none ∧
    queue (run demo_events boot).st = [] ∧
    queue (mailslot_write (demo_env 1) demo_blocking (some [1, 2, 3]) 3
      (run demo_events boot).st).2 = [[1, 2, 3]] ∧
    abstract_run demo_concurrent boot [] = some [] :=
  have h := bounded_list_refinement (run demo_events boot) ⟨demo_events, rfl⟩
  ⟨by decide, by decide, by decide, (h.2.2.2.2.2.2.2.2 (by decide)).1,
    (h.2.2.2.2.2.2.2.2 (by decide)).2 (demo_env 1) demo_blocking (some [1, 2, 3]) 3 (by decide),
    ((bounded_list_refinement boot ⟨[], rfl⟩).2.2.2.2.1 demo_concurrent).trans (by decide)⟩

/-- C23 (lock balance): each call is run a second time with every call of `__mailslot_lock` and
`__mailslot_unlock` recorded; the recorded run returns what the plain run returns and ends in
the same state.  For every state in which the caller does not own the mutex, every session
(blocking or not), every environment (mutex owned or free, signal pending or not, allocation
and copy failing or not) and every read, write and control call, as well as every continuation
of a call that went to sleep, unless the piece dereferences a dead address (which it never does
on a well-formed slot) its record is `Balanced`: it is empty, or it is one `__mailslot_lock`
that did not succeed, the mutex being owned, or it is one successful `__mailslot_lock` followed
by exactly one `__mailslot_unlock`, called while the caller owned the mutex; so the held/free
flag of the caller is clear at the end with no unlock made while it was clear; and the mutex
has the owner it had before, which is not the caller. -/
theorem lock_balance (e : Env) (filp : file) (s : State)
    (hcaller : s.slot.mutex ≠ some e.current) :
    (∀ buff len,
      (mailslot_read_traced e filp buff len { st := s, ops := [] }).1
        = (mailslot_read e filp buff len s).1 ∧
      (mailslot_read_traced e filp buff len { st := s, ops := [] }).2.1
        = (mailslot_read e filp buff len s).2.1 ∧
      (mailslot_read_traced e filp buff len { st := s, ops := [] }).2.2.st
        = (mailslot_read e filp buff len s).2.2 ∧
      ((mailslot_read e filp buff len s).1 ≠ Outcome.oops →
        Balanced e.current s (mailslot_read_traced e filp buff len { st := s, ops := [] }).2.2 ∧
        (mailslot_read e filp buff len s).2.2.slot.mutex ≠ some e.current)) ∧
    (∀ buff len,
      (mailslot_write_traced e filp buff len { st := s, ops := [] }).1
        = (mailslot_write e filp buff len s).1 ∧
      (mailslot_write_traced e filp buff len { st := s, ops := [] }).2.st
        = (mailslot_write e filp buff len s).2 ∧
      ((mailslot_write e filp buff len s).1 ≠ Outcome.oops →
        Balanced e.current s (mailslot_write_traced e filp buff len { st := s, ops := [] }).2 ∧
        (mailslot_write e filp buff len s).2.slot.mutex ≠ some e.current)) ∧
    (∀ cmd arg,
      (mailslot_ioctl_traced e filp cmd arg { st := s, ops := [] }).1
        = (mailslot_ioctl e filp cmd arg s).1 ∧
      (mailslot_ioctl_traced e filp cmd arg { st := s, ops := [] }).2.1
        = (mailslot_ioctl e filp cmd arg s).2.1 ∧
      (mailslot_ioctl_traced e filp cmd arg { st := s, ops := [] }).2.2.st
        = (mailslot_ioctl e filp cmd arg s).2.2 ∧
      Balanced e.current s (mailslot_ioctl_traced e filp cmd arg { st := s, ops := [] }).2.2 ∧
      (mailslot_ioctl e filp cmd arg s).2.2.slot.mutex ≠ some e.current) ∧
    (∀ sl,
      (resume_traced e sl { st := s, ops := [] }).1 = (resume e sl s).1 ∧
      (resume_traced e sl { st := s, ops := [] }).2.st = (resume e sl s).2 ∧
      ((resume e sl s).1 ≠ Outcome.oops →
        Balanced e.current s (resume_traced e sl { st := s, ops := [] }).2 ∧
        (resume e sl s).2.slot.mutex ≠ some e.current)) ∧
    (WF s →
      (∀ buff len, (mailslot_read e filp buff len s).1 ≠ Outcome.oops) ∧
      (∀ buff len, (mailslot_write e filp buff len s).1 ≠ Outcome.oops) ∧
      (∀ sl, sl.sane → (resume e sl s).1 ≠ Outcome.oops)) := by
  have key : ∀ (o o2 : Outcome) (s2 : State) (ts : Traced), Tracks e.current s o s2 o2 ts →
      o2 = o ∧ ts.st = s2 ∧
      (o ≠ Outcome.oops → Balanced e.current s ts ∧ s2.slot.mutex ≠ some e.current) := by
    intro o o2 s2 ts ⟨h1, h2, h3⟩
    refine ⟨h1, h2, fun hok => ⟨h3 hok, ?_⟩⟩
    rw [← h2, (h3 hok).1]
    exact hcaller
  refine ⟨?_, ?_, ?_, ?_, ?_⟩
  · intro buff len
    obtain ⟨h1, h2⟩ := mailslot_read_tracks e filp buff len s
    obtain ⟨a, b, c⟩ := key _ _ _ _ h1
    exact ⟨a, h2, b, c⟩
  · intro buff len
    exact key _ _ _ _ (mailslot_write_tracks e filp buff len s)
  · intro cmd arg
    obtain ⟨h1, h2⟩ := mailslot_ioctl_tracks e filp cmd arg s
    obtain ⟨a, b, c⟩ := key _ _ _ _ h1
    have hok : (mailslot_ioctl e filp cmd arg s).1 ≠ Outcome.oops := by
      rcases mailslot_ioctl_cases e filp cmd arg s with ⟨f2, h⟩ | h | h | ⟨_, _, _, h⟩
      · rw [h]; simp
      · rw [h]; simp
      · rw [h]; simp
      · rw [h]
        cases hm : s.slot.mutex with
        | some t =>
          rw [ioctl_set_max_held e _ arg t s hm]
          by_cases hnb : __get_blocking_policy filp ≠ 0
          · simp [hnb]
          · by_cases hsig : e.signal <;> simp [hnb, hsig]
        | none =>
          rw [ioctl_set_max_free e _ arg s hm]
          simp
    exact ⟨a, h2, b, (c hok).1, (c hok).2⟩
  · intro sl
    exact key _ _ _ _ (resume_tracks e sl s)
  · intro hwf
    exact ⟨fun buff len => (mailslot_read_effect e filp buff len s hwf).2.1,
      fun buff len => (mailslot_write_effect e filp buff len s hwf).2.1,
      fun sl hs => (resume_effect e sl s hwf hs).2.1⟩

/-- C23, instance: on `demo_one` a blocking write by thread 7 whose copy faults makes one
successful lock and one unlock; with the mutex owned by thread 3 and a signal pending it makes
one lock, which fails, and no unlock; either way thread 7 does not own the mutex afterwards. -/
theorem lock_balance_witness :
    (mailslot_write_traced { demo_env 2 with fault_at := some 1 } demo_blocking
        (some [1, 2, 3]) 3 { st := demo_one, ops := [] }).2.ops
      = [LockOp.lock (some SUCCESS), LockOp.unlock (some 7)] ∧
    (mailslot_write { demo_env 2 with fault_at := some 1 } demo_blocking (some [1, 2, 3]) 3
        demo_one).2.slot.mutex ≠ some 7 ∧
    (mailslot_write_traced { demo_env 2 with signal := true } demo_blocking
        (some [1, 2, 3]) 3 { st := mutex_set demo_one (some 3), ops := [] }).2.ops
      = [LockOp.lock (some (-EINTR))] ∧
    lock_flag false (mailslot_write_traced { demo_env 2 with signal := true } demo_blocking
        (some [1, 2, 3]) 3 { st := mutex_set demo_one (some 3), ops := [] }).2.ops
      = some false :=
  ⟨by decide,
    (((lock_balance { demo_env 2 with fault_at := some 1 } demo_blocking demo_one
      (by decide)).2.1 (some [1, 2, 3]) 3).2.2 (by decide)).2,
    by decide,
    (((lock_balance { demo_env 2 with signal := true } demo_blocking
      (mutex_set demo_one (some 3)) (by decide)).2.1 (some [1, 2, 3]) 3).2.2
      (by decide)).1.2.2⟩

end Mailslots
